import Mathlib

/-!
The DNSSEC validator of lib/dns/validator.c.

A shallow embedding of `lib/dns/validator.c` (and of the key helpers of
`lib/dns/sec/dst/dst_api.c` it calls).  One `dns_validator` value is the
contents of one `struct dns_validator`.  Calls made on other objects (the
task, the resolver, the cache, the verification primitive, child validators)
are appended, in program order, to the ghost field `effects`.  Assertion
failures (`REQUIRE`, `INSIST`), null dereferences and fuel exhaustion are the
`Stop` outcomes of `Except Stop`.  Collaborators whose code is not part of the
validator (names, key table, cache, resolver, verification, per-algorithm key
parsing, the clock, the allocator) are the fields of `Env`.

Conventions.  A pointer that may be NULL is an `Option`.  A child validator is
another object: the parent's slot holds a handle (`subvalidator`), and calls on
the child (`dns_validator_cancel`, `dns_validator_destroy`) are effects.  A
fetch or a child that was created is recorded by `resolver_createfetch` or
`validator_create`; a creation that fails records nothing.  What a fetch or a
child writes through the rdataset pointers it was given is delivered with its
completion event.  Loops that the code may run without bound take fuel, and
running out of it is `Stop.out_of_fuel`.
-/

namespace Bind9

/-! ## Result codes, names, rdatasets -/

/-- The `isc_result_t` codes the validator distinguishes; every other code is `other`. -/
inductive isc_result where
  | ISC_R_SUCCESS
  | ISC_R_NOMEMORY
  | ISC_R_NOMORE
  | ISC_R_NOTFOUND
  | ISC_R_CANCELED
  | ISC_R_FAILURE
  | DNS_R_WAIT
  | DNS_R_CONTINUE
  | DNS_R_NOVALIDSIG
  | DNS_R_NOVALIDNXT
  | DNS_R_NOTINSECURE
  | DNS_R_NCACHENXDOMAIN
  | DNS_R_NCACHENXRRSET
  | DNS_R_NXDOMAIN
  | DNS_R_NXRRSET
  | DST_R_INVALIDPUBLICKEY
  | DST_R_UNSUPPORTEDALG
  | other (code : Nat)
  deriving DecidableEq, Repr

open isc_result

/-- A domain name: its labels, as numbers.  All operations on names are collaborators (`Env`). -/
abbrev dns_name := List Nat

/-- One rdata: its wire bytes. -/
abbrev dns_rdata := List Nat

/-- The values of `dns_namereln_t` (dns/types.h). -/
inductive dns_namereln where
  | dns_namereln_none
  | dns_namereln_contains
  | dns_namereln_subdomain
  | dns_namereln_equal
  | dns_namereln_commonancestor
  deriving DecidableEq, Repr

/-- Trust level `dns_trust_none` (dns/types.h). -/
def dns_trust_none : Nat := 0
/-- Trust level `dns_trust_pending` (dns/types.h). -/
def dns_trust_pending : Nat := 1
/-- Trust level `dns_trust_answer` (dns/types.h). -/
def dns_trust_answer : Nat := 4
/-- Trust level `dns_trust_secure` (dns/types.h). -/
def dns_trust_secure : Nat := 7

/-- The fields of `dns_rdataset_t` the validator reads or writes.  `associated` is
`methods != NULL`; `cursor` is the position of the rdataset's iterator. -/
structure dns_rdataset where
  associated : Bool
  type : Nat
  covers : Nat
  ttl : Nat
  trust : Nat
  rdatas : List dns_rdata
  cursor : Nat
  deriving DecidableEq, Repr

/-- Modelled from the spec: `dns_rdataset_init` (lib/dns/rdataset.c is not among the sources).
The rdataset it leaves: disassociated, all fields zero. -/
def dns_rdataset_init : dns_rdataset :=
  { associated := false, type := 0, covers := 0, ttl := 0, trust := 0, rdatas := [], cursor := 0 }

/-- The fields of `dns_rdata_sig_t` the validator uses. -/
structure dns_rdata_sig where
  covered : Nat
  algorithm : Nat
  timeexpire : Nat
  keyid : Nat
  signer : dns_name
  deriving DecidableEq, Repr

/-- The fields of `struct dst_key` (key_alg, key_id, key_flags, key_proto) and the
algorithm-specific key data behind its last pointer field, as a number. -/
structure dst_key where
  key_alg : Nat
  key_id : Nat
  key_flags : Nat
  key_proto : Nat
  material : Nat
  deriving DecidableEq, Repr

/-- Modelled from the spec: a key node of the trust-anchor table (lib/dns/keytable.c is not
among the sources), for `find_keynode` and `find_next_keynode` (alternate-candidate
stepping): its key and the keys of the nodes that `dns_keytable_findnextkeynode` reaches
from it, in order. -/
structure dns_keynode where
  key : dst_key
  next : List dst_key
  deriving DecidableEq, Repr

/-- A response message: the names of its authority section with their rdataset lists,
and the section cursor. -/
structure dns_message where
  authority : List (dns_name × List dns_rdataset)
  cursor : Nat
  deriving DecidableEq, Repr

/-! ## Events, handles, effects -/

/-- The task actions an event of the validator can be delivered to: `validator_start`, the
four completion handlers of a parent validator, or the callback of an outside caller. -/
inductive taskaction where
  | validator_start
  | keyvalidated
  | authvalidated
  | negauthvalidated
  | nullkeyvalidated
  | caller (id : Nat)
  deriving DecidableEq, Repr

/-- The two event types of a validator event. -/
inductive eventtype where
  | DNS_EVENT_VALIDATORSTART
  | DNS_EVENT_VALIDATORDONE
  deriving DecidableEq, Repr

/-- The fields of `dns_validatorevent_t`.  `rdataset`, `sigrdataset` and `message` are
pointers (`none` is NULL) to objects the validator updates in place. -/
structure dns_validatorevent where
  ev_type : eventtype
  ev_action : taskaction
  result : isc_result
  name : dns_name
  type : Nat
  rdataset : Option dns_rdataset
  sigrdataset : Option dns_rdataset
  message : Option dns_message
  deriving DecidableEq, Repr

/-- The two completion handlers a key fetch can be created with. -/
inductive fetchaction where
  | fetch_callback_validator
  | fetch_callback_nullkey
  deriving DecidableEq, Repr

/-- A fetch handle: what `dns_resolver_createfetch` was asked for. -/
structure dns_fetch where
  name : dns_name
  type : Nat
  action : fetchaction
  deriving DecidableEq, Repr

/-- What a parent holds in a child slot: the request the child validator was created
with and the handler its completion event is delivered to. -/
structure subvalidator where
  name : dns_name
  type : Nat
  rdataset : Option dns_rdataset
  sigrdataset : Option dns_rdataset
  message : Option dns_message
  action : taskaction
  deriving DecidableEq, Repr

/-- The completion event of a key fetch as its handler receives it: the result, the name
the answer was found at, and what the resolver stored through the two rdataset pointers it
was given (`&val->frdataset`, `&val->fsigrdataset`). -/
structure dns_fetchevent where
  result : isc_result
  foundname : dns_name
  rdataset : dns_rdataset
  sigrdataset : dns_rdataset
  deriving DecidableEq, Repr

/-- A call made on a collaborator or on another object. -/
inductive Effect where
  | task_send (ev : dns_validatorevent)
  | view_simplefind (name : dns_name)
  | resolver_createfetch (f : dns_fetch)
  | resolver_cancelfetch (f : dns_fetch)
  | resolver_destroyfetch (f : dns_fetch)
  | validator_create (c : subvalidator)
  | validator_cancel (c : subvalidator)
  | validator_destroy (c : subvalidator)
  | dnssec_verify (key : dst_key) (sig : dns_rdata)
  | validator_free
  deriving DecidableEq, Repr

/-- Why a run stops without returning. -/
inductive Stop where
  | require_event_not_null
  | require_event_null
  | require_valid_validator
  | require_name
  | require_type
  | require_shape
  | require_options
  | require_validatorp
  | require_associated
  | require_shutdown
  | require_fetch_null
  | insist_keynode_null
  | insist_key_null
  | insist_nomore
  | insist_shouldnt_happen
  | insist_first
  | null_deref
  | out_of_fuel
  deriving DecidableEq, Repr

/-- The value of `VALIDATOR_MAGIC`. -/
def VALIDATOR_MAGIC : Nat := 0x56616c3f
/-- The value of `VALATTR_SHUTDOWN`. -/
def VALATTR_SHUTDOWN : Nat := 0x01
/-- The value of `VALATTR_FOUNDNONEXISTENCE`. -/
def VALATTR_FOUNDNONEXISTENCE : Nat := 0x02

/-- The contents of `struct dns_validator`.  `keyset` is a pointer that is only ever NULL or
`&val->frdataset`: `true` stands for the latter.  `currentset` is a pointer into the rdataset
list of the current authority name: its index.  `effects` is ghost state: the calls made so
far. -/
structure dns_validator where
  magic : Nat
  options : Nat
  attributes : Nat
  event : Option dns_validatorevent
  fetch : Option dns_fetch
  keyvalidator : Option subvalidator
  authvalidator : Option subvalidator
  keynode : Option dns_keynode
  key : Option dst_key
  siginfo : Option dns_rdata_sig
  action : taskaction
  labels : Nat
  currentset : Option Nat
  seensig : Bool
  keyset : Bool
  frdataset : dns_rdataset
  fsigrdataset : dns_rdataset
  effects : List Effect
  deriving DecidableEq, Repr

/-- The KEY flag and protocol constants of dns/keyvalues.h that `dst_api.c` uses. -/
structure keyvalues where
  DNS_KEYFLAG_TYPEMASK : Nat
  DNS_KEYTYPE_NOAUTH : Nat
  DNS_KEYTYPE_NOKEY : Nat
  DNS_KEYFLAG_EXTENDED : Nat
  DNS_KEYFLAG_OWNERMASK : Nat
  DNS_KEYOWNER_ZONE : Nat
  DNS_KEYPROTO_DNSSEC : Nat
  DNS_KEYPROTO_ANY : Nat

/-- The function table of one algorithm (`dst_func_t`): the two entries the validator
reaches, either of which may be NULL. -/
structure dst_func where
  fromdns : Option (dst_key → List Nat → Except isc_result dst_key)
  compare : Option (dst_key → dst_key → Bool)

/-- The collaborators of the validator and the constants of headers outside it. -/
structure Env where
  /-- Whether `isc_mem_get`, `isc_event_allocate`, `isc_mutex_init` and `dns_name_dup` succeed. -/
  mem_ok : Bool
  /-- What `isc_stdtime_get` stores. -/
  now : Nat
  /-- The value of `dns_rdatatype_soa`. -/
  dns_rdatatype_soa : Nat
  /-- The value of `dns_rdatatype_sig`. -/
  dns_rdatatype_sig : Nat
  /-- The value of `dns_rdatatype_key`. -/
  dns_rdatatype_key : Nat
  /-- The value of `dns_rdatatype_nxt`. -/
  dns_rdatatype_nxt : Nat
  /-- The relation `dns_name_fullcompare` reports between two names. -/
  fullcompare : dns_name → dns_name → dns_namereln
  /-- The order `dns_name_compare` reports. -/
  compare : dns_name → dns_name → Int
  /-- The value of `dns_name_equal`. -/
  equal : dns_name → dns_name → Bool
  /-- The value of `dns_name_depth`. -/
  depth : dns_name → Nat
  /-- The suffix `dns_name_splitatdepth` stores, or its failure. -/
  splitatdepth : dns_name → Nat → Except isc_result dns_name
  /-- The keys of the trust-anchor nodes for a name, algorithm and key id, in the order
  `dns_keytable_findkeynode` and `dns_keytable_findnextkeynode` reach them. -/
  secroots : dns_name → Nat → Nat → List dst_key
  /-- The result of `dns_keytable_finddeepestmatch` and the name it stores. -/
  finddeepestmatch : dns_name → isc_result × dns_name
  /-- The result of `dns_view_simplefind` for type KEY at a name, and what it leaves in the
  rdataset and the signature rdataset it was given. -/
  simplefind : dns_name → isc_result × dns_rdataset × dns_rdataset
  /-- The result of `dns_resolver_createfetch` for type KEY at a name. -/
  createfetch : dns_name → isc_result
  /-- The result of `dns_dnssec_verify` for a name, an rdataset, a key and a SIG rdata. -/
  verify : dns_name → dns_rdataset → dst_key → dns_rdata → isc_result
  /-- What `dns_rdata_tostruct` stores for a SIG rdata. -/
  tostruct_sig : dns_rdata → dns_rdata_sig
  /-- The constants of dns/keyvalues.h. -/
  kv : keyvalues
  /-- The value of `DST_MAX_ALGS`. -/
  DST_MAX_ALGS : Nat
  /-- The table `dst_t_func`. -/
  dst_t_func : Nat → Option dst_func
  /-- The successor name of an NXT rdata (`dns_name_fromregion`). -/
  nxt_next : dns_rdata → dns_name
  /-- The value of `dns_nxt_typepresent`. -/
  nxt_typepresent : dns_rdata → Nat → Bool
  /-- The indeterminate value of the local `name` of `nxtvalidate` when it is read before
  any assignment (`none` is NULL). -/
  name_uninitialized : Option dns_name

/-! ## Completion, cancellation, creation -/

/-- The function `validator_done`: posts the completion event and clears `val->event`. -/
def validator_done (val : dns_validator) (result : isc_result) : Except Stop dns_validator :=
  match val.event with
  | none => .error Stop.require_event_not_null
  | some ev =>
    let ev1 := { ev with result := result, ev_type := eventtype.DNS_EVENT_VALIDATORDONE,
                         ev_action := val.action }
    .ok { val with event := none, effects := val.effects ++ [Effect.task_send ev1] }

/-- The function `dns_validator_cancel`. -/
def dns_validator_cancel (validator : dns_validator) : Except Stop dns_validator :=
  if validator.magic ≠ VALIDATOR_MAGIC then .error Stop.require_valid_validator
  else
    match validator.event with
    | some ev =>
      let ev1 := { ev with result := ISC_R_CANCELED }
      let e1 := [Effect.task_send ev1]
      let e2 := match validator.fetch with
        | some f => [Effect.resolver_cancelfetch f]
        | none => []
      let e3 := match validator.keyvalidator with
        | some c => [Effect.validator_cancel c]
        | none => []
      .ok { validator with event := none, effects := validator.effects ++ e1 ++ e2 ++ e3 }
    | none => .ok validator

/-- The function `dns_validator_create`.  `name` is the pointer argument (`none` is NULL),
`slot` is `*validatorp`.  Returns the result and, on success, the new validator, whose start
event has been sent to the task. -/
def dns_validator_create (env : Env) (name : Option dns_name) (type : Nat)
    (rdataset sigrdataset : Option dns_rdataset) (message : Option dns_message)
    (options : Nat) (action : taskaction) (slot : Option subvalidator) :
    Except Stop (isc_result × Option dns_validator) :=
  match name with
  | none => .error Stop.require_name
  | some nm =>
    if type = 0 then .error Stop.require_type
    else if ¬ (rdataset.isSome ∨ (rdataset.isNone ∧ sigrdataset.isNone ∧ message.isSome)) then
      .error Stop.require_shape
    else if options ≠ 0 then .error Stop.require_options
    else if slot.isSome then .error Stop.require_validatorp
    else if ¬ env.mem_ok then .ok (ISC_R_NOMEMORY, none)
    else
      let event : dns_validatorevent :=
        { ev_type := eventtype.DNS_EVENT_VALIDATORSTART, ev_action := taskaction.validator_start,
          result := ISC_R_FAILURE, name := nm, type := type, rdataset := rdataset,
          sigrdataset := sigrdataset, message := message }
      .ok (ISC_R_SUCCESS, some
        { magic := VALIDATOR_MAGIC, options := options, attributes := 0, event := some event,
          fetch := none, keyvalidator := none, authvalidator := none, keynode := none,
          key := none, siginfo := none, action := action, labels := 0, currentset := none,
          seensig := false, keyset := false, frdataset := dns_rdataset_init,
          fsigrdataset := dns_rdataset_init, effects := [Effect.task_send event] })

/-- The handle a parent stores for a child created with the given arguments. -/
def subvalidator_of (nm : dns_name) (type : Nat) (rdataset sigrdataset : Option dns_rdataset)
    (message : Option dns_message) (action : taskaction) : subvalidator :=
  { name := nm, type := type, rdataset := rdataset, sigrdataset := sigrdataset,
    message := message, action := action }

/-! ## Keys (lib/dns/sec/dst/dst_api.c) -/

/-- The function `dst_algorithm_supported`. -/
def dst_algorithm_supported (env : Env) (alg : Nat) : Bool :=
  if alg ≥ env.DST_MAX_ALGS ∨ (env.dst_t_func alg).isNone then false else true

/-- The function `dst_key_frombuffer`: `get_key_struct` fills in algorithm, flags and
protocol, the algorithm's `fromdns` entry the rest. -/
def dst_key_frombuffer (env : Env) (alg flags protocol : Nat) (source : List Nat) :
    Except isc_result dst_key :=
  if dst_algorithm_supported env alg = false then .error DST_R_UNSUPPORTEDALG
  else if env.mem_ok = false then .error ISC_R_NOMEMORY
  else
    match env.dst_t_func alg with
    | none => .error DST_R_UNSUPPORTEDALG
    | some func =>
      match func.fromdns with
      | none => .error DST_R_UNSUPPORTEDALG
      | some fromdns =>
        fromdns { key_alg := alg, key_id := 0, key_flags := flags, key_proto := protocol,
                  material := 0 } source

/-- The function `dst_key_fromdns` on the bytes of a KEY rdata: a 16-bit flags field, the
protocol, the algorithm, 16 more flag bits when the extension flag is set, then the key data. -/
def dst_key_fromdns (env : Env) (source : dns_rdata) : Except isc_result dst_key :=
  match source with
  | f1 :: f0 :: proto :: alg :: rest =>
    let flags := f1 * 256 + f0
    if dst_algorithm_supported env alg = false then .error DST_R_UNSUPPORTEDALG
    else if flags &&& env.kv.DNS_KEYFLAG_EXTENDED ≠ 0 then
      match rest with
      | e1 :: e0 :: rest2 =>
        dst_key_frombuffer env alg (flags ||| ((e1 * 256 + e0) <<< 16)) proto rest2
      | _ => .error DST_R_INVALIDPUBLICKEY
    else dst_key_frombuffer env alg flags proto rest
  | _ => .error DST_R_INVALIDPUBLICKEY

/-- The function `dst_key_compare` on two distinct key objects. -/
def dst_key_compare (env : Env) (key1 key2 : dst_key) : Bool :=
  if key1.key_alg = key2.key_alg ∧ key1.key_id = key2.key_id then
    match env.dst_t_func key1.key_alg with
    | some func =>
      match func.compare with
      | some cmp => cmp key1 key2
      | none => false
    | none => false
  else false

/-- The function `dst_key_iszonekey`. -/
def dst_key_iszonekey (kv : keyvalues) (key : dst_key) : Bool :=
  if key.key_flags &&& kv.DNS_KEYTYPE_NOAUTH ≠ 0 then false
  else if key.key_flags &&& kv.DNS_KEYFLAG_OWNERMASK ≠ kv.DNS_KEYOWNER_ZONE then false
  else if key.key_proto ≠ kv.DNS_KEYPROTO_DNSSEC ∧ key.key_proto ≠ kv.DNS_KEYPROTO_ANY then false
  else true

/-- The function `dst_key_isnullkey`. -/
def dst_key_isnullkey (kv : keyvalues) (key : dst_key) : Bool :=
  if key.key_flags &&& kv.DNS_KEYFLAG_TYPEMASK ≠ kv.DNS_KEYTYPE_NOKEY then false
  else if key.key_flags &&& kv.DNS_KEYFLAG_OWNERMASK ≠ kv.DNS_KEYOWNER_ZONE then false
  else if key.key_proto ≠ kv.DNS_KEYPROTO_DNSSEC ∧ key.key_proto ≠ kv.DNS_KEYPROTO_ANY then false
  else true

/-! ## Key resolution -/

/-- Modelled from the spec: `dns_rdataset_disassociate` (lib/dns/rdataset.c is not among the
sources) called under the guard `dns_rdataset_isassociated`: an associated rdataset is reset
to what `dns_rdataset_init` leaves, another one is untouched. -/
def disassociate_if_associated (r : dns_rdataset) : dns_rdataset :=
  if r.associated then dns_rdataset_init else r

/-- The loop of `get_dst_key` over the rdatas from the current one on.  Returns the result
and the new `val->key`. -/
def get_dst_key_scan (env : Env) (siginfo : dns_rdata_sig) (oldkey : Option dst_key) :
    Bool → List dns_rdata → isc_result × Option dst_key
  | _, [] => (ISC_R_NOTFOUND, none)
  | foundold, rdata :: rest =>
    match dst_key_fromdns env rdata with
    | .error r => (r, none)
    | .ok key =>
      if siginfo.algorithm = key.key_alg % 256 ∧ siginfo.keyid = key.key_id % 65536 ∧
          dst_key_iszonekey env.kv key = true then
        if foundold then (ISC_R_SUCCESS, some key)
        else
          match oldkey with
          | some old =>
            if dst_key_compare env old key = true then
              get_dst_key_scan env siginfo oldkey true rest
            else get_dst_key_scan env siginfo oldkey false rest
          | none => get_dst_key_scan env siginfo oldkey false rest
      else get_dst_key_scan env siginfo oldkey foundold rest

/-- The function `get_dst_key`.  `rdataset` is the pointer argument. -/
def get_dst_key (env : Env) (val : dns_validator) (siginfo : dns_rdata_sig)
    (rdataset : Option dns_rdataset) : Except Stop (isc_result × dns_validator) :=
  match rdataset with
  | none => .error Stop.null_deref
  | some rds =>
    if rds.associated = false then .error Stop.require_associated
    else
      match rds.rdatas with
      | [] => .ok (ISC_R_NOMORE, { val with key := none })
      | rdatas =>
        let r := get_dst_key_scan env siginfo val.key val.key.isNone rdatas
        .ok (r.1, { val with key := r.2 })

/-- The tail of `get_key`: drop what the cache lookup left, except a keyset that
`val->keyset` points to, and return `result`. -/
def get_key_cleanup (val : dns_validator) (result : isc_result) : isc_result × dns_validator :=
  (result,
    { val with
      frdataset := if val.frdataset.associated ∧ val.keyset = false then dns_rdataset_init
                   else val.frdataset
      fsigrdataset := disassociate_if_associated val.fsigrdataset })

/-- The function `get_key`. -/
def get_key (env : Env) (val : dns_validator) (siginfo : dns_rdata_sig) :
    Except Stop (isc_result × dns_validator) :=
  match val.event with
  | none => .error Stop.null_deref
  | some event =>
    match event.rdataset with
    | none => .error Stop.null_deref
    | some erds =>
      let namereln := env.fullcompare event.name siginfo.signer
      if erds.type = env.dns_rdatatype_key ∧ namereln ≠ dns_namereln.dns_namereln_subdomain then
        .ok (DNS_R_CONTINUE, val)
      else if namereln ≠ dns_namereln.dns_namereln_subdomain ∧
          namereln ≠ dns_namereln.dns_namereln_equal then
        .ok (DNS_R_CONTINUE, val)
      else if val.keynode.isSome then .error Stop.insist_keynode_null
      else
        match env.secroots siginfo.signer siginfo.algorithm siginfo.keyid with
        | k :: rest =>
          .ok (ISC_R_SUCCESS, { val with keynode := some { key := k, next := rest }, key := some k })
        | [] =>
          let val0 := { val with
            frdataset := disassociate_if_associated val.frdataset,
            fsigrdataset := disassociate_if_associated val.fsigrdataset }
          let found := env.simplefind siginfo.signer
          let val1 := { val0 with
            frdataset := found.2.1, fsigrdataset := found.2.2,
            effects := val0.effects ++ [Effect.view_simplefind siginfo.signer] }
          if found.1 = ISC_R_SUCCESS then
            let val2 := { val1 with keyset := true }
            if val2.frdataset.trust = dns_trust_pending ∧ val2.fsigrdataset.associated then
              match dns_validator_create env (some siginfo.signer) env.dns_rdatatype_key
                  (some val2.frdataset) (some val2.fsigrdataset) none 0 taskaction.keyvalidated
                  val2.keyvalidator with
              | .error e => .error e
              | .ok (r, _) =>
                if r ≠ ISC_R_SUCCESS then .ok (r, val2)
                else
                  let c := subvalidator_of siginfo.signer env.dns_rdatatype_key
                    (some val2.frdataset) (some val2.fsigrdataset) none taskaction.keyvalidated
                  .ok (DNS_R_WAIT, { val2 with keyvalidator := some c,
                                               effects := val2.effects ++ [Effect.validator_create c] })
            else if val2.frdataset.trust = dns_trust_pending then
              .ok (get_key_cleanup val2 DNS_R_CONTINUE)
            else if val2.frdataset.trust < dns_trust_secure then
              .ok (get_key_cleanup { val2 with key := none } ISC_R_SUCCESS)
            else
              match get_dst_key env val2 siginfo (some val2.frdataset) with
              | .error e => .error e
              | .ok (r, val3) =>
                .ok (get_key_cleanup val3 (if r ≠ ISC_R_SUCCESS then DNS_R_CONTINUE else r))
          else if found.1 = ISC_R_NOTFOUND then
            let r := env.createfetch siginfo.signer
            if r ≠ ISC_R_SUCCESS then .ok (r, { val1 with fetch := none })
            else
              let f : dns_fetch := { name := siginfo.signer, type := env.dns_rdatatype_key,
                                     action := fetchaction.fetch_callback_validator }
              .ok (DNS_R_WAIT, { val1 with fetch := some f,
                                           effects := val1.effects ++ [Effect.resolver_createfetch f] })
          else if found.1 = DNS_R_NCACHENXDOMAIN ∨ found.1 = DNS_R_NCACHENXRRSET ∨
              found.1 = DNS_R_NXDOMAIN ∨ found.1 = DNS_R_NXRRSET then
            .ok (get_key_cleanup val1 DNS_R_CONTINUE)
          else .ok (get_key_cleanup val1 found.1)

/-! ## Positive proof -/

/-- Modelled from the spec: `dns_rdataset_first` (lib/dns/rdataset.c is not among the
sources), the start of an iteration over a signature set or a keyset: it requires an
associated rdataset, and returns `ISC_R_NOMORE` for an empty one, else success with the
cursor on the first rdata. -/
def dns_rdataset_first (r : dns_rdataset) : Except Stop (isc_result × dns_rdataset) :=
  if r.associated = false then .error Stop.require_associated
  else if r.rdatas = [] then .ok (ISC_R_NOMORE, r)
  else .ok (ISC_R_SUCCESS, { r with cursor := 0 })

/-- Modelled from the spec: `dns_rdataset_next` (lib/dns/rdataset.c is not among the sources):
success with the cursor advanced, or `ISC_R_NOMORE` after the last rdata. -/
def dns_rdataset_next (r : dns_rdataset) : isc_result × dns_rdataset :=
  if r.cursor + 1 < r.rdatas.length then (ISC_R_SUCCESS, { r with cursor := r.cursor + 1 })
  else (ISC_R_NOMORE, r)

/-- Modelled from the spec: `dns_rdataset_current` (lib/dns/rdataset.c is not among the
sources): the rdata under the cursor. -/
def dns_rdataset_current (r : dns_rdataset) : dns_rdata :=
  r.rdatas.getD r.cursor []

/-- Modelled from the spec: the macro `ISC_MIN` (isc/util.h is not among the sources), the
minimum of the TTL rule, as the conditional expression `a < b ? a : b`. -/
def ISC_MIN (a b : Nat) : Nat := if a < b then a else b

/-- Subtraction of two `isc_uint32_t` values. -/
def sub_uint32 (a b : Nat) : Nat := (a % 2 ^ 32 + 2 ^ 32 - b % 2 ^ 32) % 2 ^ 32

/-- The `do ... while (1)` loop of `validate`: verify under `val->key`, and on failure step
to the next key node or to the next matching key of the keyset.  Returns the value of
`result` at the exit of the loop. -/
def verify_loop (env : Env) (name : dns_name) (erds : dns_rdataset) (rdata : dns_rdata)
    (siginfo : dns_rdata_sig) : Nat → dns_validator → Except Stop (isc_result × dns_validator)
  | 0, _ => .error Stop.out_of_fuel
  | fuel + 1, val =>
    match val.key with
    | none => .error Stop.null_deref
    | some key =>
      let result := env.verify name erds key rdata
      let val1 := { val with effects := val.effects ++ [Effect.dnssec_verify key rdata] }
      if result = ISC_R_SUCCESS then .ok (result, val1)
      else
        match val1.keynode with
        | some node =>
          match node.next with
          | [] => .ok (ISC_R_NOTFOUND, { val1 with keynode := none, key := none })
          | k :: rest =>
            verify_loop env name erds rdata siginfo fuel
              { val1 with keynode := some { key := k, next := rest }, key := some k }
        | none =>
          match get_dst_key env val1 siginfo
              (if val1.keyset then some val1.frdataset else none) with
          | .error e => .error e
          | .ok (r, val2) =>
            if r ≠ ISC_R_SUCCESS then .ok (result, val2)
            else verify_loop env name erds rdata siginfo fuel val2

/-- How one pass through the body of the `for` loop of `validate` ends: with a `return`,
or at the end of the body (also by `continue`). -/
inductive validate_step where
  | returned (result : isc_result) (val : dns_validator)
  | next_sig (val : dns_validator)

/-- The body of the `for` loop of `validate` for the signature record under the cursor. -/
def validate_body (env : Env) (resume : Bool) (fuel : Nat) (val : dns_validator) :
    Except Stop validate_step :=
  match val.event with
  | none => .error Stop.null_deref
  | some event =>
    match event.sigrdataset with
    | none => .error Stop.null_deref
    | some esig =>
      let rdata := dns_rdataset_current esig
      if env.mem_ok = false then .ok (validate_step.returned ISC_R_NOMEMORY { val with siginfo := none })
      else
        let siginfo := env.tostruct_sig rdata
        let val1 := { val with siginfo := some siginfo }
        let keyed : Except Stop (isc_result × dns_validator) :=
          if resume = false then get_key env val1 siginfo else .ok (ISC_R_SUCCESS, val1)
        match keyed with
        | .error e => .error e
        | .ok (r, val2) =>
          if r = DNS_R_CONTINUE then .ok (validate_step.next_sig val2)
          else if r ≠ ISC_R_SUCCESS then .ok (validate_step.returned r val2)
          else
            match event.rdataset with
            | none => .error Stop.null_deref
            | some erds =>
              if val2.key.isNone then
                .ok (validate_step.returned ISC_R_SUCCESS
                  { val2 with event := some { event with
                      rdataset := some { erds with trust := dns_trust_answer },
                      sigrdataset := some { esig with trust := dns_trust_answer } } })
              else
                match verify_loop env event.name erds rdata siginfo fuel val2 with
                | .error e => .error e
                | .ok (result, val3) =>
                  let ttl0 := ISC_MIN erds.ttl (sub_uint32 siginfo.timeexpire env.now)
                  let ttl := if val3.keyset then ISC_MIN ttl0 val3.frdataset.ttl else ttl0
                  let erds1 := if result = ISC_R_SUCCESS then { erds with ttl := ttl } else erds
                  let esig1 := if result = ISC_R_SUCCESS then { esig with ttl := ttl } else esig
                  if val3.keynode.isNone ∧ val3.keyset = true ∧ val3.frdataset.associated = false then
                    .error Stop.require_associated
                  else
                    let val4 :=
                      if val3.keynode.isSome then { val3 with keynode := none, key := none }
                      else if val3.keyset then
                        { val3 with key := none, frdataset := dns_rdataset_init, keyset := false }
                      else { val3 with key := none }
                    if result = ISC_R_SUCCESS then
                      .ok (validate_step.returned result
                        { val4 with event := some { event with
                            rdataset := some { erds1 with trust := dns_trust_secure },
                            sigrdataset := some { esig1 with trust := dns_trust_secure } } })
                    else .ok (validate_step.next_sig val4)

/-- The `for` loop of `validate`, entered with `result == ISC_R_SUCCESS`. -/
def validate_loop (env : Env) (resume : Bool) : Nat → dns_validator →
    Except Stop (isc_result × dns_validator)
  | 0, _ => .error Stop.out_of_fuel
  | fuel + 1, val =>
    match validate_body env resume fuel val with
    | .error e => .error e
    | .ok (validate_step.returned r v) => .ok (r, v)
    | .ok (validate_step.next_sig v) =>
      match v.event with
      | none => .error Stop.null_deref
      | some event =>
        match event.sigrdataset with
        | none => .error Stop.null_deref
        | some esig =>
          let nx := dns_rdataset_next esig
          let v1 := { v with event := some { event with sigrdataset := some nx.2 } }
          if nx.1 = ISC_R_SUCCESS then validate_loop env resume fuel v1
          else if nx.1 ≠ ISC_R_NOMORE then .error Stop.insist_nomore
          else .ok (DNS_R_NOVALIDSIG, v1)

/-- The function `validate`. -/
def validate (env : Env) (fuel : Nat) (val : dns_validator) (resume : Bool) :
    Except Stop (isc_result × dns_validator) :=
  if resume then validate_loop env resume fuel val
  else
    match val.event with
    | none => .error Stop.null_deref
    | some event =>
      match event.sigrdataset with
      | none => .error Stop.null_deref
      | some esig =>
        match dns_rdataset_first esig with
        | .error e => .error e
        | .ok (r, esig1) =>
          let val1 := { val with event := some { event with sigrdataset := some esig1 } }
          if r = ISC_R_SUCCESS then validate_loop env resume fuel val1
          else if r ≠ ISC_R_NOMORE then .error Stop.insist_nomore
          else .ok (DNS_R_NOVALIDSIG, val1)

/-! ## Insecurity proof -/

/-- The loop of `containsnullkey` over the rdatas from the current one on.  A decoding
failure leaves `result != ISC_R_SUCCESS`, so the `continue` that follows it ends the loop. -/
def containsnullkey_scan (env : Env) : List dns_rdata → Bool
  | [] => false
  | rdata :: rest =>
    match dst_key_fromdns env rdata with
    | .error _ => false
    | .ok key =>
      if dst_key_isnullkey env.kv key = true then true else containsnullkey_scan env rest

/-- The function `containsnullkey`. -/
def containsnullkey (env : Env) (rdataset : dns_rdataset) : Except Stop Bool :=
  if rdataset.associated = false then .error Stop.require_associated
  else .ok (containsnullkey_scan env rdataset.rdatas)

/-- The label `out` of `proveunsecure`: drop what the lookup left and return `result`. -/
def proveunsecure_out (val : dns_validator) (result : isc_result) : isc_result × dns_validator :=
  (result,
    { val with
      frdataset := disassociate_if_associated val.frdataset
      fsigrdataset := disassociate_if_associated val.fsigrdataset })

/-- The `for` loop of `proveunsecure`, from the test of its condition on. -/
def proveunsecure_loop (env : Env) : Nat → dns_validator → Except Stop (isc_result × dns_validator)
  | 0, _ => .error Stop.out_of_fuel
  | fuel + 1, val =>
    match val.event with
    | none => .error Stop.null_deref
    | some event =>
      if ¬ (val.labels ≤ env.depth event.name) then .ok (DNS_R_NOTINSECURE, val)
      else if val.labels = env.depth event.name ∧ event.type = env.dns_rdatatype_key then
        .ok (DNS_R_NOTINSECURE, val)
      else
        let split : Except isc_result dns_name :=
          if val.labels = env.depth event.name then .ok event.name
          else env.splitatdepth event.name val.labels
        match split with
        | .error r => .ok (r, val)
        | .ok tname =>
          let val0 := { val with
            frdataset := disassociate_if_associated val.frdataset,
            fsigrdataset := disassociate_if_associated val.fsigrdataset }
          let found := env.simplefind tname
          let val1 := { val0 with
            frdataset := found.2.1, fsigrdataset := found.2.2,
            effects := val0.effects ++ [Effect.view_simplefind tname] }
          if found.1 = ISC_R_SUCCESS then
            if val1.fsigrdataset.associated = false then
              .ok (proveunsecure_out val1 DNS_R_NOTINSECURE)
            else
              match containsnullkey env val1.frdataset with
              | .error e => .error e
              | .ok false => proveunsecure_loop env fuel { val1 with labels := val1.labels + 1 }
              | .ok true =>
                if val1.frdataset.trust ≥ dns_trust_secure then
                  match event.rdataset with
                  | none => .error Stop.null_deref
                  | some erds =>
                    .ok (proveunsecure_out
                      { val1 with event := some { event with
                          rdataset := some { erds with trust := dns_trust_answer } } }
                      ISC_R_SUCCESS)
                else if env.mem_ok = false then .ok (ISC_R_NOMEMORY, val1)
                else
                  match dns_validator_create env (some tname) env.dns_rdatatype_key
                      (some val1.frdataset) (some val1.fsigrdataset) none 0
                      taskaction.nullkeyvalidated val1.keyvalidator with
                  | .error e => .error e
                  | .ok (r, _) =>
                    if r ≠ ISC_R_SUCCESS then .ok (proveunsecure_out val1 r)
                    else
                      let c := subvalidator_of tname env.dns_rdatatype_key
                        (some val1.frdataset) (some val1.fsigrdataset) none
                        taskaction.nullkeyvalidated
                      .ok (DNS_R_WAIT, { val1 with keyvalidator := some c,
                                                   effects := val1.effects ++ [Effect.validator_create c] })
          else if found.1 = ISC_R_NOTFOUND then
            let r := env.createfetch tname
            if r ≠ ISC_R_SUCCESS then .ok (proveunsecure_out { val1 with fetch := none } r)
            else
              let f : dns_fetch := { name := tname, type := env.dns_rdatatype_key,
                                     action := fetchaction.fetch_callback_nullkey }
              .ok (DNS_R_WAIT, { val1 with fetch := some f,
                                           effects := val1.effects ++ [Effect.resolver_createfetch f] })
          else if found.1 = DNS_R_NCACHENXDOMAIN ∨ found.1 = DNS_R_NCACHENXRRSET ∨
              found.1 = DNS_R_NXDOMAIN ∨ found.1 = DNS_R_NXRRSET then
            proveunsecure_loop env fuel { val1 with labels := val1.labels + 1 }
          else .ok (proveunsecure_out val1 found.1)

/-- The function `proveunsecure`. -/
def proveunsecure (env : Env) (fuel : Nat) (val : dns_validator) (resume : Bool) :
    Except Stop (isc_result × dns_validator) :=
  match val.event with
  | none => .error Stop.null_deref
  | some event =>
    let m := env.finddeepestmatch event.name
    if m.1 = ISC_R_NOTFOUND then .ok (ISC_R_SUCCESS, val)
    else if m.1 ≠ ISC_R_SUCCESS then .ok (m.1, val)
    else if resume = false then
      proveunsecure_loop env fuel { val with labels := env.depth m.2 + 1 }
    else proveunsecure_loop env fuel { val with labels := val.labels + 1 }

/-! ## Denial of existence -/

/-- Modelled from the spec: `dns_message_firstname` for the authority section
(lib/dns/message.c is not among the sources), the start of the iteration over the
authority-section names: `ISC_R_NOMORE` for an empty section. -/
def dns_message_firstname (msg : dns_message) : isc_result × dns_message :=
  if msg.authority = [] then (ISC_R_NOMORE, msg) else (ISC_R_SUCCESS, { msg with cursor := 0 })

/-- Modelled from the spec: `dns_message_nextname` for the authority section
(lib/dns/message.c is not among the sources): success with the cursor advanced, or
`ISC_R_NOMORE` after the last name. -/
def dns_message_nextname (msg : dns_message) : isc_result × dns_message :=
  if msg.cursor + 1 < msg.authority.length then (ISC_R_SUCCESS, { msg with cursor := msg.cursor + 1 })
  else (ISC_R_NOMORE, msg)

/-- The first rdataset of a name's list that is a SIG covering type `t`
(the innermost loop of `nxtvalidate`). -/
def nxtvalidate_findsig (env : Env) (t : Nat) : List dns_rdataset → Option dns_rdataset
  | [] => none
  | s :: rest =>
    if s.type = env.dns_rdatatype_sig ∧ s.covers = t then some s
    else nxtvalidate_findsig env t rest

/-- The loop of `nxtvalidate` over the rdatasets of one name, from index `i` on: the first
rdataset that is not a SIG and has a covering SIG in the list `all`, with its index and
that SIG. -/
def nxtvalidate_scan (env : Env) (all : List dns_rdataset) :
    Nat → List dns_rdataset → Option (Nat × dns_rdataset × dns_rdataset)
  | _, [] => none
  | i, r :: rest =>
    if r.type = env.dns_rdatatype_sig then nxtvalidate_scan env all (i + 1) rest
    else
      match nxtvalidate_findsig env r.type all with
      | none => nxtvalidate_scan env all (i + 1) rest
      | some s => some (i, r, s)

/-- How the `for` loop of `nxtvalidate` over the authority names ends: with a `return`, or
by running out of names, with the value the local `name` then has. -/
inductive nxtvalidate_step where
  | returned (result : isc_result) (val : dns_validator)
  | exhausted (val : dns_validator) (name : Option dns_name)

/-- Store the message back through `val->event->message`. -/
def set_message (val : dns_validator) (msg : dns_message) : dns_validator :=
  { val with event := val.event.map (fun e => { e with message := some msg }) }

/-- The `for` loop of `nxtvalidate` over the authority names, entered with
`result == ISC_R_SUCCESS`; `resume` is the local flag. -/
def nxtvalidate_loop (env : Env) : Nat → dns_message → dns_validator → Bool →
    Except Stop nxtvalidate_step
  | 0, _, _, _ => .error Stop.out_of_fuel
  | fuel + 1, msg, val, resume =>
    match msg.authority.get? msg.cursor with
    | none => .error Stop.null_deref
    | some (name, list) =>
      let start : Except Stop (Nat × List dns_rdataset × dns_validator) :=
        if resume then
          match val.currentset with
          | none => .error Stop.null_deref
          | some i => .ok (i + 1, list, { val with currentset := none })
        else .ok (0, list.map (fun r => { r with trust := dns_trust_pending }), val)
      match start with
      | .error e => .error e
      | .ok (i, list1, val1) =>
        let msg1 := { msg with authority := msg.authority.set msg.cursor (name, list1) }
        let val2 := set_message val1 msg1
        match nxtvalidate_scan env list1 i (list1.drop i) with
        | some (j, rdataset, sigrdataset) =>
          let val3 := { val2 with seensig := true, authvalidator := none, currentset := some j }
          match dns_validator_create env (some name) rdataset.type (some rdataset)
              (some sigrdataset) none 0 taskaction.authvalidated val3.authvalidator with
          | .error e => .error e
          | .ok (r, _) =>
            if r ≠ ISC_R_SUCCESS then .ok (nxtvalidate_step.returned r val3)
            else
              let c := subvalidator_of name rdataset.type (some rdataset) (some sigrdataset)
                none taskaction.authvalidated
              .ok (nxtvalidate_step.returned DNS_R_WAIT
                { val3 with authvalidator := some c,
                            effects := val3.effects ++ [Effect.validator_create c] })
        | none =>
          let nx := dns_message_nextname msg1
          let val3 := set_message val2 nx.2
          if nx.1 = ISC_R_SUCCESS then nxtvalidate_loop env fuel nx.2 val3 false
          else .ok (nxtvalidate_step.exhausted val3 (some name))

/-- The part of `nxtvalidate` after the loop over the authority names; `result` is the
result the loop ended with and `name` the value of the local `name`. -/
def nxtvalidate_finish (env : Env) (val : dns_validator) (result : isc_result)
    (name : Option dns_name) : Except Stop (isc_result × dns_validator) :=
  let result1 := if result = ISC_R_NOMORE then ISC_R_SUCCESS else result
  let done : Except Stop dns_validator :=
    if result1 ≠ ISC_R_SUCCESS then validator_done val result1 else .ok val
  match done with
  | .error e => .error e
  | .ok val1 =>
    if val1.attributes &&& VALATTR_FOUNDNONEXISTENCE = 0 then
      if val1.seensig = false then
        match dns_validator_create env name env.dns_rdatatype_soa (some val1.frdataset) none
            none 0 taskaction.negauthvalidated val1.authvalidator with
        | .error e => .error e
        | .ok (r, _) =>
          if r ≠ ISC_R_SUCCESS then .ok (r, val1)
          else
            let c := subvalidator_of (name.getD []) env.dns_rdatatype_soa (some val1.frdataset)
              none none taskaction.negauthvalidated
            .ok (DNS_R_WAIT, { val1 with authvalidator := some c,
                                         effects := val1.effects ++ [Effect.validator_create c] })
      else .ok (DNS_R_NOVALIDNXT, val1)
    else .ok (ISC_R_SUCCESS, val1)

/-- The function `nxtvalidate`. -/
def nxtvalidate (env : Env) (fuel : Nat) (val : dns_validator) (resume : Bool) :
    Except Stop (isc_result × dns_validator) :=
  match val.event with
  | none => .error Stop.null_deref
  | some event =>
    match event.message with
    | none => .error Stop.null_deref
    | some message =>
      if resume = false then
        let fst := dns_message_firstname message
        let val1 := set_message val fst.2
        if fst.1 ≠ ISC_R_SUCCESS then
          match validator_done val1 ISC_R_NOTFOUND with
          | .error e => .error e
          | .ok val2 => nxtvalidate_finish env val2 fst.1 env.name_uninitialized
        else
          match nxtvalidate_loop env fuel fst.2 val1 false with
          | .error e => .error e
          | .ok (nxtvalidate_step.returned r v) => .ok (r, v)
          | .ok (nxtvalidate_step.exhausted v name) => nxtvalidate_finish env v ISC_R_NOMORE name
      else
        match nxtvalidate_loop env fuel message val true with
        | .error e => .error e
        | .ok (nxtvalidate_step.returned r v) => .ok (r, v)
        | .ok (nxtvalidate_step.exhausted v name) => nxtvalidate_finish env v ISC_R_NOMORE name

/-! ## The controller -/

/-- The branch of the `if` chain of `validator_start` that a request takes. -/
inductive start_branch where
  | positive
  | insecurity
  | denial
  | shouldnt_happen
  deriving DecidableEq, Repr

/-- The conditions of the `if` chain of `validator_start`, in order. -/
def validator_start_branch (event : dns_validatorevent) : start_branch :=
  if event.rdataset.isSome ∧ event.sigrdataset.isSome then start_branch.positive
  else if event.rdataset.isSome then start_branch.insecurity
  else if event.rdataset.isNone ∧ event.sigrdataset.isNone then start_branch.denial
  else start_branch.shouldnt_happen

/-- The end of `validator_start`: post the completion event unless the strategy waits. -/
def start_finish (run : Except Stop (isc_result × dns_validator)) : Except Stop dns_validator :=
  match run with
  | .error e => .error e
  | .ok (result, val) => if result ≠ DNS_R_WAIT then validator_done val result else .ok val

/-- The function `validator_start`. -/
def validator_start (env : Env) (fuel : Nat) (val : dns_validator) : Except Stop dns_validator :=
  match val.event with
  | none => .error Stop.null_deref
  | some event =>
    match validator_start_branch event with
    | start_branch.positive => start_finish (validate env fuel val false)
    | start_branch.insecurity => start_finish (proveunsecure env fuel val false)
    | start_branch.denial => start_finish (nxtvalidate env fuel val false)
    | start_branch.shouldnt_happen => .error Stop.insist_shouldnt_happen

/-- The call `dns_validator_destroy(&val->keyvalidator)` made by a parent: the child is
another object, so the call is recorded and the slot cleared. -/
def destroy_keyvalidator (val : dns_validator) : Except Stop dns_validator :=
  match val.keyvalidator with
  | none => .error Stop.require_valid_validator
  | some c => .ok { val with keyvalidator := none,
                             effects := val.effects ++ [Effect.validator_destroy c] }

/-- The call `dns_validator_destroy(&val->authvalidator)` made by a parent. -/
def destroy_authvalidator (val : dns_validator) : Except Stop dns_validator :=
  match val.authvalidator with
  | none => .error Stop.require_valid_validator
  | some c => .ok { val with authvalidator := none,
                             effects := val.effects ++ [Effect.validator_destroy c] }

/-- The function `fetch_callback_validator`.  The resolver has stored the answer through
`&val->frdataset` and `&val->fsigrdataset` before the event is delivered. -/
def fetch_callback_validator (env : Env) (fuel : Nat) (val : dns_validator)
    (devent : dns_fetchevent) : Except Stop dns_validator :=
  match val.fetch with
  | none => .error Stop.null_deref
  | some f =>
    let val1 := { val with
      frdataset := devent.rdataset, fsigrdataset := devent.sigrdataset, fetch := none,
      effects := val.effects ++ [Effect.resolver_destroyfetch f] }
    let body : Except Stop dns_validator :=
      if devent.result = ISC_R_SUCCESS then
        let keyed : Except Stop dns_validator :=
          if val1.frdataset.trust ≥ dns_trust_secure then
            match val1.siginfo with
            | none => .error Stop.null_deref
            | some siginfo =>
              match get_dst_key env val1 siginfo (some val1.frdataset) with
              | .error e => .error e
              | .ok (r, v) => if r = ISC_R_SUCCESS then .ok { v with keyset := true } else .ok v
          else .ok val1
        match keyed with
        | .error e => .error e
        | .ok val2 =>
          match validate env fuel val2 true with
          | .error e => .error e
          | .ok (result, val3) =>
            if result ≠ DNS_R_WAIT then validator_done val3 result else .ok val3
      else validator_done val1 devent.result
    match body with
    | .error e => .error e
    | .ok val4 =>
      .ok { val4 with
        frdataset := if val4.frdataset.associated ∧ val4.keyset = false then dns_rdataset_init
                     else val4.frdataset
        fsigrdataset := disassociate_if_associated val4.fsigrdataset }

/-- The function `keyvalidated`.  The child worked on `&val->frdataset` and
`&val->fsigrdataset`: what it left there is what its completion event points to. -/
def keyvalidated (env : Env) (fuel : Nat) (val : dns_validator) (devent : dns_validatorevent) :
    Except Stop dns_validator :=
  let val1 := { val with
    frdataset := devent.rdataset.getD val.frdataset,
    fsigrdataset := devent.sigrdataset.getD val.fsigrdataset }
  let body : Except Stop dns_validator :=
    if devent.result = ISC_R_SUCCESS then
      let keyed : Except Stop dns_validator :=
        if val1.frdataset.trust ≥ dns_trust_secure then
          match val1.siginfo with
          | none => .error Stop.null_deref
          | some siginfo =>
            match get_dst_key env val1 siginfo (some val1.frdataset) with
            | .error e => .error e
            | .ok (_, v) => .ok v
        else .ok val1
      match keyed with
      | .error e => .error e
      | .ok val2 =>
        match validate env fuel val2 true with
        | .error e => .error e
        | .ok (result, val3) =>
          if result ≠ DNS_R_WAIT then validator_done val3 result else .ok val3
    else validator_done val1 devent.result
  match body with
  | .error e => .error e
  | .ok val4 =>
    match destroy_keyvalidator val4 with
    | .error e => .error e
    | .ok val5 =>
      .ok { val5 with
        frdataset := disassociate_if_associated val5.frdataset
        fsigrdataset := disassociate_if_associated val5.fsigrdataset }

/-- The function `negauthvalidated`. -/
def negauthvalidated (val : dns_validator) (devent : dns_validatorevent) :
    Except Stop dns_validator :=
  match destroy_authvalidator val with
  | .error e => .error e
  | .ok val1 =>
    let body : Except Stop dns_validator :=
      if devent.result = ISC_R_SUCCESS then
        validator_done { val1 with attributes := val1.attributes ||| VALATTR_FOUNDNONEXISTENCE }
          ISC_R_SUCCESS
      else validator_done val1 devent.result
    match body with
    | .error e => .error e
    | .ok val2 => .ok { val2 with frdataset := disassociate_if_associated val2.frdataset }

/-- The function `nxtprovesnonexistence` for the NXT rdataset `nxtset` at owner name
`nxtname` and the SIG rdataset `signxtset` that covers it. -/
def nxtprovesnonexistence (env : Env) (val : dns_validator) (nxtname : dns_name)
    (nxtset signxtset : dns_rdataset) : Except Stop Bool :=
  match dns_rdataset_first nxtset with
  | .error e => .error e
  | .ok (r, nxtset1) =>
    if r ≠ ISC_R_SUCCESS then .error Stop.insist_first
    else
      match val.event with
      | none => .error Stop.null_deref
      | some event =>
        let rdata := dns_rdataset_current nxtset1
        let order := env.compare event.name nxtname
        if order = 0 then
          if event.type ≥ 128 then .ok false
          else if env.nxt_typepresent rdata event.type = true then .ok false
          else .ok true
        else if order > 0 then
          let nextname := env.nxt_next rdata
          if env.compare event.name nextname ≥ 0 then
            match dns_rdataset_first signxtset with
            | .error e => .error e
            | .ok (r2, signxtset1) =>
              if r2 ≠ ISC_R_SUCCESS then .error Stop.insist_first
              else if env.equal (env.tostruct_sig (dns_rdataset_current signxtset1)).signer
                  nextname = false then .ok false
              else .ok true
          else .ok true
        else .ok false

/-- The function `authvalidated`.  `devent->rdataset` and `devent->sigrdataset` point to the
rdatasets of the message the child was created for, as the child left them. -/
def authvalidated (env : Env) (fuel : Nat) (val : dns_validator) (devent : dns_validatorevent) :
    Except Stop dns_validator :=
  match destroy_authvalidator val with
  | .error e => .error e
  | .ok val1 =>
    if devent.result ≠ ISC_R_SUCCESS then validator_done val1 devent.result
    else
      match devent.rdataset with
      | none => .error Stop.null_deref
      | some rdataset =>
        let proved : Except Stop Bool :=
          if rdataset.type = env.dns_rdatatype_nxt then
            match devent.sigrdataset with
            | none => .error Stop.null_deref
            | some sigrdataset => nxtprovesnonexistence env val1 devent.name rdataset sigrdataset
          else .ok false
        match proved with
        | .error e => .error e
        | .ok b =>
          let val2 :=
            if b then { val1 with attributes := val1.attributes ||| VALATTR_FOUNDNONEXISTENCE }
            else val1
          match nxtvalidate env fuel val2 true with
          | .error e => .error e
          | .ok (result, val3) =>
            if result ≠ DNS_R_WAIT then validator_done val3 result else .ok val3

/-- The function `nullkeyvalidated`. -/
def nullkeyvalidated (env : Env) (fuel : Nat) (val : dns_validator) (devent : dns_validatorevent) :
    Except Stop dns_validator :=
  let body : Except Stop dns_validator :=
    if devent.result = ISC_R_SUCCESS then validator_done val ISC_R_SUCCESS
    else
      match proveunsecure env fuel val true with
      | .error e => .error e
      | .ok (result, val1) =>
        if result ≠ DNS_R_WAIT then validator_done val1 result else .ok val1
  match body with
  | .error e => .error e
  | .ok val2 =>
    match destroy_keyvalidator val2 with
    | .error e => .error e
    | .ok val3 =>
      .ok { val3 with
        frdataset := disassociate_if_associated val3.frdataset
        fsigrdataset := disassociate_if_associated val3.fsigrdataset }

/-- The function `fetch_callback_nullkey`.  The resolver has stored the answer through
`&val->frdataset` and `&val->fsigrdataset` before the event is delivered. -/
def fetch_callback_nullkey (env : Env) (fuel : Nat) (val : dns_validator)
    (devent : dns_fetchevent) : Except Stop dns_validator :=
  let fetch := val.fetch
  let val1 := { val with
    frdataset := devent.rdataset, fsigrdataset := devent.sigrdataset, fetch := none }
  let destroyfetch (v : dns_validator) : Except Stop dns_validator :=
    match fetch with
    | none => .error Stop.null_deref
    | some f => .ok { v with effects := v.effects ++ [Effect.resolver_destroyfetch f] }
  let finish (v : dns_validator) : Except Stop dns_validator :=
    match destroyfetch v with
    | .error e => .error e
    | .ok v1 =>
      .ok { v1 with
        frdataset := disassociate_if_associated v1.frdataset
        fsigrdataset := disassociate_if_associated v1.fsigrdataset }
  let resume (v : dns_validator) : Except Stop dns_validator :=
    match proveunsecure env fuel v true with
    | .error e => .error e
    | .ok (result, v1) =>
      match (if result ≠ DNS_R_WAIT then validator_done v1 result else .ok v1) with
      | .error e => .error e
      | .ok v2 => finish v2
  if devent.result = ISC_R_SUCCESS then
    match containsnullkey env val1.frdataset with
    | .error e => .error e
    | .ok false => resume val1
    | .ok true =>
      if val1.frdataset.trust ≥ dns_trust_secure then
        match val1.event with
        | none => .error Stop.null_deref
        | some event =>
          match event.rdataset with
          | none => .error Stop.null_deref
          | some erds =>
            match validator_done
                { val1 with event := some { event with
                    rdataset := some { erds with trust := dns_trust_answer } } }
                ISC_R_SUCCESS with
            | .error e => .error e
            | .ok v => finish v
      else if val1.fsigrdataset.associated = false then
        match validator_done val1 DNS_R_NOTINSECURE with
        | .error e => .error e
        | .ok v => finish v
      else
        match dns_validator_create env (some devent.foundname) env.dns_rdatatype_key
            (some val1.frdataset) (some val1.fsigrdataset) none 0 taskaction.nullkeyvalidated
            val1.keyvalidator with
        | .error e => .error e
        | .ok (r, _) =>
          let created : Except Stop dns_validator :=
            if r ≠ ISC_R_SUCCESS then validator_done val1 r
            else
              let c := subvalidator_of devent.foundname env.dns_rdatatype_key
                (some val1.frdataset) (some val1.fsigrdataset) none taskaction.nullkeyvalidated
              .ok { val1 with keyvalidator := some c,
                              effects := val1.effects ++ [Effect.validator_create c] }
          match created with
          | .error e => .error e
          | .ok v => destroyfetch v
  else if devent.result = DNS_R_NCACHENXDOMAIN ∨ devent.result = DNS_R_NCACHENXRRSET ∨
      devent.result = DNS_R_NXDOMAIN ∨ devent.result = DNS_R_NXRRSET then
    resume val1
  else
    match validator_done val1 devent.result with
    | .error e => .error e
    | .ok v => finish v

/-- The static function `destroy`: the checks, the two calls on the child slots, and the
release of the validator, after which its magic number is zero. -/
def destroy (val : dns_validator) : Except Stop dns_validator :=
  if val.attributes &&& VALATTR_SHUTDOWN = 0 then .error Stop.require_shutdown
  else if val.event.isSome then .error Stop.require_event_null
  else if val.fetch.isSome then .error Stop.require_fetch_null
  else
    let e1 := match val.keyvalidator with
      | some c => [Effect.validator_destroy c]
      | none => []
    let e2 := match val.authvalidator with
      | some c => [Effect.validator_destroy c]
      | none => []
    .ok { val with
      keynode := none, key := none, keyvalidator := none, authvalidator := none,
      siginfo := none, magic := 0,
      effects := val.effects ++ e1 ++ e2 ++ [Effect.validator_free] }

/-- The function `dns_validator_destroy` on the validator `*validatorp` points to. -/
def dns_validator_destroy (val : dns_validator) : Except Stop dns_validator :=
  if val.magic ≠ VALIDATOR_MAGIC then .error Stop.require_valid_validator
  else if val.event.isSome then .error Stop.require_event_null
  else
    let val1 := { val with attributes := val.attributes ||| VALATTR_SHUTDOWN }
    if val1.fetch.isNone then destroy val1 else .ok val1

/-! ## Concrete collaborators and requests -/

/-- The constants of RFC 2535 section 3.1.2. -/
def rfc2535 : keyvalues :=
  { DNS_KEYFLAG_TYPEMASK := 0xC000, DNS_KEYTYPE_NOAUTH := 0x8000, DNS_KEYTYPE_NOKEY := 0xC000,
    DNS_KEYFLAG_EXTENDED := 0x1000, DNS_KEYFLAG_OWNERMASK := 0x0300, DNS_KEYOWNER_ZONE := 0x0100,
    DNS_KEYPROTO_DNSSEC := 3, DNS_KEYPROTO_ANY := 255 }

/-- A toy algorithm: the key data is two bytes, the key id and the key material; two keys
compare equal when their material is equal. -/
def toy_func : dst_func :=
  { fromdns := some (fun key source =>
      match source with
      | [id, m] => .ok { key with key_id := id, material := m }
      | _ => .error DST_R_INVALIDPUBLICKEY)
    compare := some (fun k1 k2 => k1.material == k2.material) }

/-- Names are lists of labels from the root down: `a` is a subdomain of `b` when `b` is a
proper prefix of `a`. -/
def toy_fullcompare (a b : dns_name) : dns_namereln :=
  if a = b then dns_namereln.dns_namereln_equal
  else if b.isPrefixOf a then dns_namereln.dns_namereln_subdomain
  else if a.isPrefixOf b then dns_namereln.dns_namereln_contains
  else dns_namereln.dns_namereln_commonancestor

/-- A SIG rdata of the toy encoding: algorithm, key id, expiry time, then the signer name. -/
def toy_tostruct_sig (r : dns_rdata) : dns_rdata_sig :=
  { covered := 0, algorithm := r.getD 0 0, keyid := r.getD 1 0, timeexpire := r.getD 2 0,
    signer := r.drop 3 }

/-- A world with no trust anchor, an empty cache, a resolver that accepts every fetch and
a verification primitive that rejects every signature. -/
def env_base : Env :=
  { mem_ok := true, now := 1000,
    dns_rdatatype_soa := 6, dns_rdatatype_sig := 24, dns_rdatatype_key := 25,
    dns_rdatatype_nxt := 30,
    fullcompare := toy_fullcompare,
    compare := fun a b => if a = b then 0 else if a < b then -1 else 1,
    equal := fun a b => a == b,
    depth := fun a => a.length + 1,
    splitatdepth := fun a d => .ok (a.take (d - 1)),
    secroots := fun _ _ _ => [],
    finddeepestmatch := fun _ => (ISC_R_NOTFOUND, []),
    simplefind := fun _ => (ISC_R_NOTFOUND, dns_rdataset_init, dns_rdataset_init),
    createfetch := fun _ => ISC_R_SUCCESS,
    verify := fun _ _ _ _ => other 1,
    tostruct_sig := toy_tostruct_sig,
    kv := rfc2535, DST_MAX_ALGS := 256,
    dst_t_func := fun alg => if alg = 1 then some toy_func else none,
    nxt_next := fun r => r,
    nxt_typepresent := fun _ _ => false,
    name_uninitialized := none }

/-- An A rdataset with TTL 3600 and trust pending. -/
def rrset_a : dns_rdataset :=
  { associated := true, type := 1, covers := 0, ttl := 3600, trust := 1, rdatas := [[192, 0, 2, 1]],
    cursor := 0 }

/-- A SIG rdataset covering type A with the given records. -/
def sigset_a (rdatas : List dns_rdata) : dns_rdataset :=
  { associated := true, type := 24, covers := 1, ttl := 3600, trust := 1, rdatas := rdatas,
    cursor := 0 }

/-- A KEY rdataset with the given trust, TTL and records. -/
def keyset_of (trust ttl : Nat) (rdatas : List dns_rdata) : dns_rdataset :=
  { associated := true, type := 25, covers := 0, ttl := ttl, trust := trust, rdatas := rdatas,
    cursor := 0 }

/-- A validator that is not valid: its magic number is zero. -/
def blank_validator : dns_validator :=
  { magic := 0, options := 0, attributes := 0, event := none, fetch := none,
    keyvalidator := none, authvalidator := none, keynode := none, key := none, siginfo := none,
    action := taskaction.caller 0, labels := 0, currentset := none, seensig := false,
    keyset := false, frdataset := dns_rdataset_init, fsigrdataset := dns_rdataset_init,
    effects := [] }

/-- The validator `dns_validator_create` returns for a request of an outside caller
(`blank_validator` if it returns none). -/
def created (env : Env) (name : dns_name) (type : Nat) (rdataset sigrdataset : Option dns_rdataset)
    (message : Option dns_message) : dns_validator :=
  match dns_validator_create env (some name) type rdataset sigrdataset message 0
      (taskaction.caller 0) none with
  | .ok (_, some v) => v
  | _ => blank_validator

/-- A denial request: no rdataset, no signature set, a message with the given authority
section. -/
def denial_request (env : Env) (authority : List (dns_name × List dns_rdataset)) :
    dns_validator :=
  created env [1, 2] 1 none none (some { authority := authority, cursor := 0 })

/-- The world `env_base` with a chosen value for the uninitialised local of `nxtvalidate`. -/
def env_uninit (n : Option dns_name) : Env := { env_base with name_uninitialized := n }

/-- A completion event of a child validator carrying the given result. -/
def child_done (result : isc_result) (action : taskaction) : dns_validatorevent :=
  { ev_type := eventtype.DNS_EVENT_VALIDATORDONE, ev_action := action, result := result,
    name := [1], type := 25, rdataset := none, sigrdataset := none, message := none }

/-- A positive request for the A rdataset of the name `[1, 2]` with the given SIG records. -/
def positive_request (env : Env) (sigs : List dns_rdata) : dns_validator :=
  created env [1, 2] 1 (some rrset_a) (some (sigset_a sigs)) none

/-- An NXT rdataset and the SIG rdataset covering it. -/
def nxtset : dns_rdataset :=
  { associated := true, type := 30, covers := 0, ttl := 300, trust := 1, rdatas := [[1, 3]],
    cursor := 0 }

/-- The SIG rdataset covering `nxtset`. -/
def signxt : dns_rdataset :=
  { associated := true, type := 24, covers := 30, ttl := 300, trust := 1,
    rdatas := [[1, 7, 1500, 1]], cursor := 0 }

/-- A world whose cache holds, for the name `[1]`, a secure keyset of two zone KEY records
that differ in one flag bit only: both decode to algorithm 1, key id 7 and the same key
material.  Verification fails under every key. -/
def env_twin_keys : Env :=
  { env_base with
    simplefind := fun n =>
      if n = [1] then
        (ISC_R_SUCCESS, keyset_of 7 100 [[1, 0, 3, 1, 7, 42], [1, 1, 3, 1, 7, 42]], signxt)
      else (ISC_R_NOTFOUND, dns_rdataset_init, dns_rdataset_init) }

/-- A world with a trust anchor for (`[1]`, algorithm 1, key id 8) under which verification
succeeds, and whose cache holds for `[1]` a keyset of TTL 10 with trust pending and no
signature set. -/
def env_stale_keyset : Env :=
  { env_base with
    simplefind := fun n =>
      if n = [1] then (ISC_R_SUCCESS, keyset_of 1 10 [[1, 0, 3, 1, 7, 42]], dns_rdataset_init)
      else (ISC_R_NOTFOUND, dns_rdataset_init, dns_rdataset_init)
    secroots := fun n a i =>
      if n = [1] ∧ a = 1 ∧ i = 8 then
        [{ key_alg := 1, key_id := 8, key_flags := 256, key_proto := 3, material := 99 }]
      else []
    verify := fun _ _ k _ => if k.material = 99 then ISC_R_SUCCESS else other 1 }

/-- The event `dns_validator_create` builds for `positive_request`. -/
def positive_event (sigs : List dns_rdata) : dns_validatorevent :=
  { ev_type := eventtype.DNS_EVENT_VALIDATORSTART, ev_action := taskaction.validator_start,
    result := ISC_R_FAILURE, name := [1, 2], type := 1, rdataset := some rrset_a,
    sigrdataset := some (sigset_a sigs), message := none }

/-- The trust-anchor key of `env_stale_keyset`. -/
def anchor_key : dst_key :=
  { key_alg := 1, key_id := 8, key_flags := 256, key_proto := 3, material := 99 }

/-- A world whose cache holds, for the name `[1]`, a keyset with trust `answer` and no
signature set. -/
def env_insecure_keyset : Env :=
  { env_base with
    simplefind := fun n =>
      if n = [1] then (ISC_R_SUCCESS, keyset_of 4 100 [[1, 0, 3, 1, 7, 42]], dns_rdataset_init)
      else (ISC_R_NOTFOUND, dns_rdataset_init, dns_rdataset_init) }

/-- A world whose cache holds, for the name `[1]`, a keyset with trust `pending`, with or
without a covering signature set. -/
def env_pending_keyset (signed : Bool) : Env :=
  { env_base with
    simplefind := fun n =>
      if n = [1] then
        (ISC_R_SUCCESS, keyset_of 1 100 [[1, 0, 3, 1, 7, 42]],
          if signed then signxt else dns_rdataset_init)
      else (ISC_R_NOTFOUND, dns_rdataset_init, dns_rdataset_init) }

/-- The world `env_twin_keys` with the material of the second key changed, so that the two
keys do not compare equal. -/
def env_distinct_keys : Env :=
  { env_base with
    simplefind := fun n =>
      if n = [1] then
        (ISC_R_SUCCESS, keyset_of 7 100 [[1, 0, 3, 1, 7, 42], [1, 1, 3, 1, 7, 43]], signxt)
      else (ISC_R_NOTFOUND, dns_rdataset_init, dns_rdataset_init) }

/-- The key both KEY records of `env_twin_keys` decode to, up to the flags field. -/
def twin_key (flags : Nat) : dst_key :=
  { key_alg := 1, key_id := 7, key_flags := flags, key_proto := 3, material := 42 }

/-- The validator of the one-signature request in `env_twin_keys` once `get_key` has found
the cached keyset, with `val->key` and the calls made so far as given. -/
def twin_state (key : dst_key) (effects : List Effect) : dns_validator :=
  { positive_request env_twin_keys [[1, 7, 1500, 1]] with
    siginfo := some (toy_tostruct_sig [1, 7, 1500, 1]), key := some key, keyset := true,
    frdataset := keyset_of 7 100 [[1, 0, 3, 1, 7, 42], [1, 1, 3, 1, 7, 42]],
    effects := effects }

/-! ## Reference definitions, counts and further requests -/

/-- The reference definition of the different-name cases of the NXT test, from the words of
the specification: false when the owner sorts after the queried name; otherwise true when the
queried name sorts strictly before the successor name, and else true exactly when the signer
of the signature equals the successor name. -/
def nxt_gap_reference (env : Env) (qname owner successor signer : dns_name) : Bool :=
  if env.compare qname owner < 0 then false
  else if env.compare qname successor < 0 then true
  else env.equal signer successor

/-- An insecurity request for the A rdataset of the name `[1, 2]`: an rdataset and no
signature set. -/
def insecurity_request (env : Env) : dns_validator :=
  created env [1, 2] 1 (some rrset_a) none none

/-- The test `get_dst_key` applies to a decoded key: its algorithm and key tag are those of
the signature record, and it is a zone key. -/
def key_matches (env : Env) (siginfo : dns_rdata_sig) (key : dst_key) : Bool :=
  decide (siginfo.algorithm = key.key_alg % 256 ∧ siginfo.keyid = key.key_id % 65536 ∧
    dst_key_iszonekey env.kv key = true)

/-- The reference of the stepping interface, from the words of the specification: the first
key, in set order, that matches the signature record. -/
def first_matching_key (env : Env) (siginfo : dns_rdata_sig) : List dns_rdata → Option dst_key
  | [] => none
  | rdata :: rest =>
    match dst_key_fromdns env rdata with
    | .ok key =>
      if key_matches env siginfo key = true then some key
      else first_matching_key env siginfo rest
    | .error _ => first_matching_key env siginfo rest

/-- What the specification lets `get_dst_key` return for a candidate: success with
`val->key` set to it, or NotFound with `val->key` absent. -/
def get_dst_key_reference (val : dns_validator) (candidate : Option dst_key) :
    isc_result × dns_validator :=
  match candidate with
  | some key => (ISC_R_SUCCESS, { val with key := some key })
  | none => (ISC_R_NOTFOUND, { val with key := none })

/-- The world `env_distinct_keys` with an algorithm table whose entry has no `compare`
function. -/
def env_no_compare : Env :=
  { env_distinct_keys with
    dst_t_func := fun alg => if alg = 1 then some { toy_func with compare := none } else none }

/-- The two-key keyset of `env_distinct_keys`. -/
def distinct_keyset : dns_rdataset :=
  keyset_of 7 100 [[1, 0, 3, 1, 7, 42], [1, 1, 3, 1, 7, 43]]

/-- The two-key keyset of `env_twin_keys`. -/
def twin_keyset : dns_rdataset :=
  keyset_of 7 100 [[1, 0, 3, 1, 7, 42], [1, 1, 3, 1, 7, 42]]

/-- The keys the two records of `distinct_keyset` decode to. -/
def distinct_key (second : Bool) : dst_key :=
  if second then { key_alg := 1, key_id := 7, key_flags := 257, key_proto := 3, material := 43 }
  else { key_alg := 1, key_id := 7, key_flags := 256, key_proto := 3, material := 42 }

/-- The validator of the one-signature request at the point where `get_dst_key` is called,
with `val->key` as given. -/
def keyed_state (key : Option dst_key) : dns_validator :=
  { positive_request env_base [[1, 7, 1500, 1]] with
    siginfo := some (toy_tostruct_sig [1, 7, 1500, 1]), key := key }

/-- The world `env_base` with a cache that holds, for the name `[1]`, the given keyset and
signature set. -/
def env_cached (keyset sigset : dns_rdataset) : Env :=
  { env_base with
    simplefind := fun n =>
      if n = [1] then (ISC_R_SUCCESS, keyset, sigset)
      else (ISC_R_NOTFOUND, dns_rdataset_init, dns_rdataset_init) }

/-- The completion event of a fetch for the KEY rdataset of `[1]` that brought the given
keyset and signature set. -/
def fetch_done (result : isc_result) (keyset sigset : dns_rdataset) : dns_fetchevent :=
  { result := result, foundname := [1], rdataset := keyset, sigrdataset := sigset }

/-- A keyset with trust `secure` whose only key has algorithm 1 and key id 9. -/
def other_key_keyset : dns_rdataset := keyset_of 7 100 [[1, 0, 3, 1, 9, 42]]

/-- A keyset with trust `pending` whose only key has algorithm 1 and key id 7. -/
def pending_keyset : dns_rdataset := keyset_of 1 100 [[1, 0, 3, 1, 7, 42]]

/-- An SOA rdataset. -/
def soa_set : dns_rdataset :=
  { associated := true, type := 6, covers := 0, ttl := 300, trust := 1, rdatas := [[5]],
    cursor := 0 }

/-- A keyset with the given trust whose only record is a null zone key (both type bits of
the flags set). -/
def null_keyset (trust : Nat) : dns_rdataset := keyset_of trust 100 [[193, 0, 3, 1, 7, 42]]

/-- The world `env_cached` with a trust anchor at the root above every name. -/
def env_anchored (keyset sigset : dns_rdataset) : Env :=
  { env_cached keyset sigset with finddeepestmatch := fun _ => (ISC_R_SUCCESS, []) }

/-- The world `env_base` with a trust anchor at the root above every name. -/
def env_anchored_empty : Env :=
  { env_base with finddeepestmatch := fun _ => (ISC_R_SUCCESS, []) }

/-- The world `env_anchored_empty` with a cache that answers every KEY lookup with
`DNS_R_NXRRSET`. -/
def env_anchored_nxrrset : Env :=
  { env_anchored_empty with
    simplefind := fun _ => (DNS_R_NXRRSET, dns_rdataset_init, dns_rdataset_init) }

/-- The number of rdatasets among `rest` that the loop of `nxtvalidate` over one name stops
at: those that are not a SIG and for which the name's list `all` holds a SIG covering their
type. -/
def nxtvalidate_pairs (env : Env) (all : List dns_rdataset) : List dns_rdataset → Nat
  | [] => 0
  | r :: rest =>
    (if r.type ≠ env.dns_rdatatype_sig ∧ (nxtvalidate_findsig env r.type all).isSome = true
      then 1 else 0) + nxtvalidate_pairs env all rest

/-- The number of (rdataset, covering SIG) pairs of an authority section. -/
def authority_pairs (env : Env) : List (dns_name × List dns_rdataset) → Nat
  | [] => 0
  | p :: rest => nxtvalidate_pairs env p.2 p.2 + authority_pairs env rest

/-- The pairs `nxtvalidate` has still to reach while it waits for the child of the rdataset
at index `j` of the current authority name. -/
def pairs_left (env : Env) (msg : dns_message) (j : Nat) : Nat :=
  match msg.authority.get? msg.cursor with
  | some p =>
    nxtvalidate_pairs env p.2 (p.2.drop (j + 1)) +
      authority_pairs env (msg.authority.drop (msg.cursor + 1))
  | none => 0

/-- The test `authvalidated` makes on the completion event of a successful child: the
rdataset is an NXT and `nxtprovesnonexistence` holds for it. -/
def authvalidated_proves (env : Env) (val : dns_validator) (devent : dns_validatorevent) :
    Except Stop Bool :=
  match devent.rdataset with
  | none => .error Stop.null_deref
  | some rdataset =>
    if rdataset.type = env.dns_rdatatype_nxt then
      match devent.sigrdataset with
      | none => .error Stop.null_deref
      | some sigrdataset => nxtprovesnonexistence env val devent.name rdataset sigrdataset
    else .ok false

/-- Modelled from the spec: the task (lib/isc/task.c is not among the sources) runs the
handlers of one request one at a time, so the completion events of the successive children
of a denial request reach `authvalidated` in order, each on the state the previous call
left. -/
def authvalidated_run (env : Env) (fuel : Nat) :
    dns_validator → List dns_validatorevent → Except Stop dns_validator
  | val, [] => .ok val
  | val, devent :: rest =>
    match authvalidated env fuel val devent with
    | .error e => .error e
    | .ok v => authvalidated_run env fuel v rest

/-- The rdataset list of an authority name after the first pass of `nxtvalidate` over it:
every trust is pending. -/
def trust_pending (list : List dns_rdataset) : List dns_rdataset :=
  list.map (fun r => { r with trust := dns_trust_pending })

/-- The message with the rdataset list of the current authority name replaced. -/
def with_current (msg : dns_message) (name : dns_name) (list : List dns_rdataset) :
    dns_message :=
  { msg with authority := msg.authority.set msg.cursor (name, list) }

/-- The validator `val` with the message `msg` stored through `val->event->message`. -/
def with_message (val : dns_validator) (event : dns_validatorevent) (msg : dns_message) :
    dns_validator :=
  { val with event := some { event with message := some msg } }

/-- The state in which `nxtvalidate` returns `DNS_R_WAIT`: the child `c` has been created
for the rdataset at index `j` of the current authority name of `msg`. -/
def nxtvalidate_waiting (val : dns_validator) (event : dns_validatorevent) (msg : dns_message)
    (j : Nat) (c : subvalidator) : dns_validator :=
  { with_message val event msg with
    seensig := true, authvalidator := some c, currentset := some j,
    effects := val.effects ++ [Effect.validator_create c] }

/-- The state of a denial request for (`qname`, `qtype`) that waits for the child of a pair
of its authority section, with `left` pairs after that one still to reach. -/
def denial_waits (env : Env) (fuel : Nat) (qname : dns_name) (qtype : Nat)
    (val : dns_validator) (left : Nat) : Prop :=
  ∃ event msg j c, val.event = some event ∧ event.message = some msg ∧
    event.name = qname ∧ event.type = qtype ∧
    val.currentset = some j ∧ val.authvalidator = some c ∧ val.seensig = true ∧
    msg.cursor < msg.authority.length ∧ msg.authority.length ≤ fuel ∧
    (∀ p ∈ msg.authority, ∀ r ∈ p.2, r.type ≠ 0) ∧ pairs_left env msg j = left

/-- Whether one of the completion events makes `authvalidated` set the "non-existence
found" flag. -/
def proves_any (env : Env) (val : dns_validator) (devents : List dns_validatorevent) : Bool :=
  devents.any (fun d =>
    match authvalidated_proves env val d with
    | .ok true => true
    | _ => false)

/-- The number of children created among the calls recorded. -/
def children_created (effects : List Effect) : Nat :=
  (effects.filter (fun e =>
    match e with
    | Effect.validator_create _ => true
    | _ => false)).length

/-- The start event `dns_validator_create` builds for a denial request: no rdataset, no
signature set, the message. -/
def denial_event (qname : dns_name) (qtype : Nat) (msg : dns_message) : dns_validatorevent :=
  { ev_type := eventtype.DNS_EVENT_VALIDATORSTART, ev_action := taskaction.validator_start,
    result := ISC_R_FAILURE, name := qname, type := qtype, rdataset := none,
    sigrdataset := none, message := some msg }

/-- The validator `dns_validator_create` returns for a denial request of an outside
caller. -/
def denial_validator (qname : dns_name) (qtype : Nat) (msg : dns_message) : dns_validator :=
  { magic := VALIDATOR_MAGIC, options := 0, attributes := 0,
    event := some (denial_event qname qtype msg),
    fetch := none, keyvalidator := none, authvalidator := none, keynode := none,
    key := none, siginfo := none, action := taskaction.caller 0, labels := 0,
    currentset := none, seensig := false, keyset := false, frdataset := dns_rdataset_init,
    fsigrdataset := dns_rdataset_init,
    effects := [Effect.task_send (denial_event qname qtype msg)] }

/-- The SIG rdataset covering `soa_set`. -/
def sigsoa : dns_rdataset :=
  { associated := true, type := 24, covers := 6, ttl := 300, trust := 1,
    rdatas := [[1, 7, 1500, 1]], cursor := 0 }

/-- The completion event of the child that `nxtvalidate` created for an rdataset and its SIG
at a name of the authority section. -/
def auth_child_done (result : isc_result) (name : dns_name) (rdataset sigrdataset : dns_rdataset) :
    dns_validatorevent :=
  { ev_type := eventtype.DNS_EVENT_VALIDATORDONE, ev_action := taskaction.authvalidated,
    result := result, name := name, type := rdataset.type, rdataset := some rdataset,
    sigrdataset := some sigrdataset, message := none }

/-! ## Further worlds and requests -/

/-- A keyset with the given trust whose only record is a zone key of algorithm 1 and key
id 7, not a null key. -/
def plain_keyset (trust : Nat) : dns_rdataset := keyset_of trust 100 [[1, 0, 3, 1, 7, 42]]

/-- A world with a trust anchor at the root whose cache holds nothing for `[1]` and, for
`[1, 2]`, a keyset with trust `secure` that contains a null key, with a signature set. -/
def env_deep_null : Env :=
  { env_base with
    finddeepestmatch := fun _ => (ISC_R_SUCCESS, [])
    simplefind := fun n =>
      if n = [1, 2] then (ISC_R_SUCCESS, null_keyset 7, signxt)
      else (ISC_R_NOTFOUND, dns_rdataset_init, dns_rdataset_init) }

/-- A world with a trust anchor at the root whose cache holds, for every name, a keyset with
trust `pending` that contains a null key, with a signature set. -/
def env_pending_null_everywhere : Env :=
  { env_base with
    finddeepestmatch := fun _ => (ISC_R_SUCCESS, [])
    simplefind := fun _ => (ISC_R_SUCCESS, null_keyset 1, signxt) }

/-- The reference of the null-key test, from the words of the specification: at least one
entry of the keyset decodes to a null key. -/
def any_null_key (env : Env) (rdatas : List dns_rdata) : Bool :=
  rdatas.any (fun rdata =>
    match dst_key_fromdns env rdata with
    | .ok key => dst_key_isnullkey env.kv key
    | .error _ => false)

/-- A keyset with trust `secure` whose first record names the unsupported algorithm 9 and
whose second record is the given one. -/
def keyset_bad_first (second : dns_rdata) : dns_rdataset :=
  keyset_of 7 100 [[1, 0, 3, 9, 7, 42], second]

/-- The keys of a keyset that are candidates for a signature record, in set order: the
entries that decode to a key which `get_dst_key` accepts for the record. -/
def matching_keys (env : Env) (siginfo : dns_rdata_sig) : List dns_rdata → List dst_key
  | [] => []
  | rdata :: rest =>
    match dst_key_fromdns env rdata with
    | .ok key =>
      if key_matches env siginfo key = true then key :: matching_keys env siginfo rest
      else matching_keys env siginfo rest
    | .error _ => matching_keys env siginfo rest

/-- The validator of the one-signature request once `get_key` has found `distinct_keyset`
in the cache, with `val->key` as given. -/
def distinct_state (key : dst_key) : dns_validator :=
  { twin_state key [] with frdataset := distinct_keyset }

/-- The name the walk of `proveunsecure` examines at depth `d`: the queried name itself at
its own depth, else what `dns_name_splitatdepth` stores. -/
def walk_name (env : Env) (event : dns_validatorevent) (d : Nat) : Except isc_result dns_name :=
  if d = env.depth event.name then .ok event.name else env.splitatdepth event.name d

/-- Whether a call is one of those the walk makes for depth `d`: the cache lookup, the fetch
or the nested validator for the name of that depth. -/
def walk_effect (env : Env) (event : dns_validatorevent) (d : Nat) (e : Effect) : Bool :=
  match walk_name env event d with
  | .ok t =>
    match e with
    | Effect.view_simplefind n => decide (n = t)
    | Effect.resolver_createfetch f => decide (f.name = t)
    | Effect.validator_create c => decide (c.name = t)
    | _ => false
  | .error _ => false

/-- The results carried by the events sent to the task, in order. -/
def posted_results : List Effect → List isc_result
  | [] => []
  | Effect.task_send ev :: rest => ev.result :: posted_results rest
  | _ :: rest => posted_results rest

/-- What every step of a request keeps: the depth counter does not decrease, and when no
event sent so far carries `DNS_R_WAIT`, none does afterwards. -/
def keeps (val v : dns_validator) : Prop :=
  val.labels ≤ v.labels ∧
    (DNS_R_WAIT ∉ posted_results val.effects → DNS_R_WAIT ∉ posted_results v.effects)

/-- What a run of the walk of `proveunsecure` that started in `val` and returned in `v` has
done: the depth counter has not decreased; every call made is a lookup, a fetch or a nested
validator for the name of a depth from the entry value of the counter on; and when the entry
depth is one the walk examines, the first call is the lookup of its name. -/
def walk_result (env : Env) (event : dns_validatorevent) (val v : dns_validator) : Prop :=
  val.labels ≤ v.labels ∧
  ∃ ds : List (Nat × Effect), v.effects = val.effects ++ ds.map Prod.snd ∧
    (∀ p ∈ ds, val.labels ≤ p.1 ∧ p.1 ≤ env.depth event.name ∧
      walk_effect env event p.1 p.2 = true) ∧
    (∀ t, val.labels ≤ env.depth event.name →
      ¬ (val.labels = env.depth event.name ∧ event.type = env.dns_rdatatype_key) →
      walk_name env event val.labels = .ok t →
      ∃ rest, ds = (val.labels, Effect.view_simplefind t) :: rest)

/-- The insecurity request for `[1, 2]` under a trust anchor at the root and an empty cache,
suspended at depth 2 on the fetch of the KEY rdataset of `[1]`. -/
def suspended_walk : dns_validator :=
  { insecurity_request env_anchored_empty with
    labels := 2
    fetch := some { name := [1], type := 25, action := fetchaction.fetch_callback_nullkey }
    effects := (insecurity_request env_anchored_empty).effects ++
      [Effect.view_simplefind [1],
       Effect.resolver_createfetch
         { name := [1], type := 25, action := fetchaction.fetch_callback_nullkey }] }

/-- The validator at the end of one pass through the body of the loop of `validate`. -/
def validate_step.validator : validate_step → dns_validator
  | validate_step.returned _ v => v
  | validate_step.next_sig v => v

/-- The validator at the end of the loop of `nxtvalidate`. -/
def nxtvalidate_step.validator : nxtvalidate_step → dns_validator
  | nxtvalidate_step.returned _ v => v
  | nxtvalidate_step.exhausted v _ => v

/-- The states a validator can be in during a run: the state `dns_validator_create` returns,
and every state that one of the entry points returns from a reachable state.  A fetch
completion is any fetch event whose result is not `DNS_R_WAIT`; the completion of a nested
validator carries the result of an event that a reachable validator has sent. -/
inductive Reachable (env : Env) : dns_validator → Prop
  | created (name : Option dns_name) (type : Nat) (rdataset sigrdataset : Option dns_rdataset)
      (message : Option dns_message) (options : Nat) (action : taskaction)
      (slot : Option subvalidator) (r : isc_result) (v : dns_validator) :
      dns_validator_create env name type rdataset sigrdataset message options action slot =
        .ok (r, some v) → Reachable env v
  | started (fuel : Nat) (v v1 : dns_validator) :
      Reachable env v → validator_start env fuel v = .ok v1 → Reachable env v1
  | key_fetched (fuel : Nat) (v v1 : dns_validator) (devent : dns_fetchevent) :
      Reachable env v → devent.result ≠ DNS_R_WAIT →
      fetch_callback_validator env fuel v devent = .ok v1 → Reachable env v1
  | nullkey_fetched (fuel : Nat) (v v1 : dns_validator) (devent : dns_fetchevent) :
      Reachable env v → devent.result ≠ DNS_R_WAIT →
      fetch_callback_nullkey env fuel v devent = .ok v1 → Reachable env v1
  | key_validated (fuel : Nat) (v v1 c : dns_validator) (cev devent : dns_validatorevent) :
      Reachable env v → Reachable env c → Effect.task_send cev ∈ c.effects →
      devent.result = cev.result → keyvalidated env fuel v devent = .ok v1 → Reachable env v1
  | nullkey_validated (fuel : Nat) (v v1 c : dns_validator) (cev devent : dns_validatorevent) :
      Reachable env v → Reachable env c → Effect.task_send cev ∈ c.effects →
      devent.result = cev.result → nullkeyvalidated env fuel v devent = .ok v1 →
      Reachable env v1
  | auth_validated (fuel : Nat) (v v1 c : dns_validator) (cev devent : dns_validatorevent) :
      Reachable env v → Reachable env c → Effect.task_send cev ∈ c.effects →
      devent.result = cev.result → authvalidated env fuel v devent = .ok v1 → Reachable env v1
  | negauth_validated (v v1 c : dns_validator) (cev devent : dns_validatorevent) :
      Reachable env v → Reachable env c → Effect.task_send cev ∈ c.effects →
      devent.result = cev.result → negauthvalidated v devent = .ok v1 → Reachable env v1
  | cancelled (v v1 : dns_validator) :
      Reachable env v → dns_validator_cancel v = .ok v1 → Reachable env v1
  | destroyed (v v1 : dns_validator) :
      Reachable env v → dns_validator_destroy v = .ok v1 → Reachable env v1

/-- The key child of the positive request in `env_pending_keyset true`: the validator
created for the KEY rdataset of `[1]` and its signature set. -/
def pending_key_child : dns_validator :=
  match dns_validator_create (env_pending_keyset true) (some [1]) 25
      (some (keyset_of 1 100 [[1, 0, 3, 1, 7, 42]])) (some signxt) none 0
      taskaction.keyvalidated none with
  | .ok (_, some v) => v
  | _ => blank_validator

/-- The events sent to the task, in order. -/
def sends : List Effect → List dns_validatorevent
  | [] => []
  | Effect.task_send ev :: rest => ev :: sends rest
  | _ :: rest => sends rest

/-- A key that `get_dst_key` accepts from a keyset for a signature record: some entry of
the keyset decodes to it, its algorithm and key tag are those of the record, and it is a
zone key. -/
def key_of_keyset (env : Env) (siginfo : dns_rdata_sig) (rdatas : List dns_rdata)
    (key : dst_key) : Prop :=
  ∃ rdata ∈ rdatas, dst_key_fromdns env rdata = .ok key ∧ key_matches env siginfo key = true

/-- A key of a trust-anchor node for the signer, algorithm and key tag of a signature
record. -/
def key_of_anchor (env : Env) (siginfo : dns_rdata_sig) (key : dst_key) : Prop :=
  key ∈ env.secroots siginfo.signer siginfo.algorithm siginfo.keyid

/-- What the retry loop of `validate` leaves alone: the event, the signature structure, the
keyset and its flag, and the events sent; it only adds calls. -/
def verify_frame (val v : dns_validator) : Prop :=
  v.event = val.event ∧ v.siginfo = val.siginfo ∧ v.frdataset = val.frdataset ∧
    v.keyset = val.keyset ∧ sends v.effects = sends val.effects ∧ val.effects ⊆ v.effects

/-- The rdatasets of an event are those of the request, up to the cursor of the signature
set. -/
def plain_event (erds esig : dns_rdataset) (ev : dns_validatorevent) : Prop :=
  ev.rdataset = some erds ∧ ∃ i, ev.sigrdataset = some { esig with cursor := i }

/-- The rdatasets of an event are those of the request marked with trust `answer`. -/
def answer_event (erds esig : dns_rdataset) (ev : dns_validatorevent) : Prop :=
  ev.rdataset = some { erds with trust := dns_trust_answer } ∧
    ∃ i, ev.sigrdataset = some { esig with cursor := i, trust := dns_trust_answer }

/-- The rdatasets of an event are those of the request marked with trust `secure`, and
among the calls made is a `dns_dnssec_verify` of the request's name and rdataset under a key
`P` admits and the signature record under the cursor, which returned success. -/
def secure_event (env : Env) (name : dns_name) (erds esig : dns_rdataset)
    (P : dns_rdata → dst_key → Prop) (effects : List Effect) (ev : dns_validatorevent) : Prop :=
  ∃ key ttl i,
    ev.rdataset = some { erds with ttl := ttl, trust := dns_trust_secure } ∧
    ev.sigrdataset = some { esig with cursor := i, ttl := ttl, trust := dns_trust_secure } ∧
    env.verify name erds key (dns_rdataset_current { esig with cursor := i }) = ISC_R_SUCCESS ∧
    Effect.dnssec_verify key (dns_rdataset_current { esig with cursor := i }) ∈ effects ∧
    P (dns_rdataset_current { esig with cursor := i }) key

/-- The keys a fresh pass of `validate` may use for a signature record: the trust-anchor keys
for the record, and the keys that the keyset cached for the signer yields for it. -/
def cache_keys (env : Env) (rdata : dns_rdata) (key : dst_key) : Prop :=
  key_of_anchor env (env.tostruct_sig rdata) key ∨
    key_of_keyset env (env.tostruct_sig rdata)
      (env.simplefind (env.tostruct_sig rdata).signer).2.1.rdatas key

/-- Where `validate` leaves the validator of a positive request when it returns `r`: the
event is still held, under the name of the request; with a result other than success its
rdatasets are unchanged, and when the result is `DNS_R_WAIT` no key is held and the stored
signature structure is that of the record under the cursor; with success the rdatasets are
marked `answer`, or marked `secure` after a successful verification under a key that `P`
admits. -/
def validate_outcome (env : Env) (name : dns_name) (erds esig : dns_rdataset)
    (P : dns_rdata → dst_key → Prop) (r : isc_result) (v : dns_validator) : Prop :=
  ∃ ev, v.event = some ev ∧ ev.name = name ∧
    ((r ≠ ISC_R_SUCCESS ∧ plain_event erds esig ev ∧
        (r = DNS_R_WAIT → v.key = none ∧ v.keynode = none ∧
          ∀ s sg, v.siginfo = some s → ev.sigrdataset = some sg →
            s = env.tostruct_sig (dns_rdataset_current sg))) ∨
      (r = ISC_R_SUCCESS ∧
        (answer_event erds esig ev ∨ secure_event env name erds esig P v.effects ev)))

/-- The second event is the first one with, at most, the trust of its rdataset set to
`answer`: the name and the signature set are the same. -/
def same_or_answer (ev ev' : dns_validatorevent) : Prop :=
  ev'.name = ev.name ∧ ev'.sigrdataset = ev.sigrdataset ∧
    (ev'.rdataset = ev.rdataset ∨
      ∃ rds, ev.rdataset = some rds ∧ ev'.rdataset = some { rds with trust := dns_trust_answer })

/-- What a step outside `validate` that goes from `val` to `v` and yields the result `r` does
to the request: it only adds calls; every event it sends is the event held at entry with, at
most, the trust of its rdataset set to `answer`; and when the validator still holds an event,
that event is related to the one held at entry in the same way, its rdataset is unchanged if
the result is `DNS_R_WAIT`, and the key, the trust-anchor node and the signature structure
are unchanged. -/
def no_raise (val : dns_validator) (r : isc_result) (v : dns_validator) : Prop :=
  val.effects ⊆ v.effects ∧
    (∃ new, sends v.effects = sends val.effects ++ new ∧
      ∀ e ∈ new, ∃ ev, val.event = some ev ∧ same_or_answer ev e) ∧
    (∀ ev', v.event = some ev' → ∃ ev, val.event = some ev ∧ same_or_answer ev ev' ∧
      (r = DNS_R_WAIT → ev'.rdataset = ev.rdataset) ∧
      v.key = val.key ∧ v.keynode = val.keynode ∧ v.siginfo = val.siginfo)

/-- The keys a request may use for a signature record, given what the keysets delivered to it
satisfy: the keys `cache_keys` allows, and the keys that a delivered keyset yields for the
record. -/
def run_keys (env : Env) (resolved : List dns_rdata → Prop) (rdata : dns_rdata)
    (key : dst_key) : Prop :=
  cache_keys env rdata key ∨
    ∃ rdatas, resolved rdatas ∧ key_of_keyset env (env.tostruct_sig rdata) rdatas key

/-- The second set is the first one up to the cursor. -/
def same_cursor (o x : Option dns_rdataset) : Prop :=
  (o = none ∧ x = none) ∨ ∃ r i, o = some r ∧ x = some { r with cursor := i }

/-- The second set is the first one up to the cursor, with the trust it had or the trust
`answer`. -/
def unraised (o x : Option dns_rdataset) : Prop :=
  (o = none ∧ x = none) ∨
    ∃ r i, o = some r ∧
      (x = some { r with cursor := i } ∨
        x = some { r with cursor := i, trust := dns_trust_answer })

/-- What an event sent for the request for `name` with the rdatasets `ords` and `osig`
carries: the name of the request, and either the rdatasets of the request with the trust
they had or the trust `answer`, or both rdatasets marked `secure` after a successful
verification under a key that `P` admits. -/
def request_verdict (env : Env) (name : dns_name) (ords osig : Option dns_rdataset)
    (P : dns_rdata → dst_key → Prop) (effects : List Effect) (ev : dns_validatorevent) : Prop :=
  ev.name = name ∧
    ((unraised ords ev.rdataset ∧ unraised osig ev.sigrdataset) ∨
      ∃ erds esig, ords = some erds ∧ osig = some esig ∧
        secure_event env name erds esig P effects ev)

/-- The runs of a request for `name` with the rdatasets `ords` and `osig`, in a world where
every keyset delivered to the request satisfies `resolved`: creation, then any sequence of
the start event, fetch completions, completions of nested validators, cancellation and
destruction, each delivered to any of the handlers. -/
inductive Run (env : Env) (resolved : List dns_rdata → Prop) (name : dns_name)
    (ords osig : Option dns_rdataset) : dns_validator → Prop
  | created (type : Nat) (message : Option dns_message) (options : Nat) (action : taskaction)
      (slot : Option subvalidator) (r : isc_result) (v : dns_validator) :
      dns_validator_create env (some name) type ords osig message options action slot =
        .ok (r, some v) → Run env resolved name ords osig v
  | started (fuel : Nat) (v v1 : dns_validator) :
      Run env resolved name ords osig v → validator_start env fuel v = .ok v1 →
      Run env resolved name ords osig v1
  | key_fetched (fuel : Nat) (v v1 : dns_validator) (devent : dns_fetchevent) :
      Run env resolved name ords osig v → resolved devent.rdataset.rdatas →
      fetch_callback_validator env fuel v devent = .ok v1 → Run env resolved name ords osig v1
  | nullkey_fetched (fuel : Nat) (v v1 : dns_validator) (devent : dns_fetchevent) :
      Run env resolved name ords osig v →
      fetch_callback_nullkey env fuel v devent = .ok v1 → Run env resolved name ords osig v1
  | key_validated (fuel : Nat) (v v1 : dns_validator) (devent : dns_validatorevent) :
      Run env resolved name ords osig v →
      resolved (devent.rdataset.getD v.frdataset).rdatas →
      keyvalidated env fuel v devent = .ok v1 → Run env resolved name ords osig v1
  | nullkey_validated (fuel : Nat) (v v1 : dns_validator) (devent : dns_validatorevent) :
      Run env resolved name ords osig v →
      nullkeyvalidated env fuel v devent = .ok v1 → Run env resolved name ords osig v1
  | auth_validated (fuel : Nat) (v v1 : dns_validator) (devent : dns_validatorevent) :
      Run env resolved name ords osig v →
      authvalidated env fuel v devent = .ok v1 → Run env resolved name ords osig v1
  | negauth_validated (v v1 : dns_validator) (devent : dns_validatorevent) :
      Run env resolved name ords osig v →
      negauthvalidated v devent = .ok v1 → Run env resolved name ords osig v1
  | cancelled (v v1 : dns_validator) :
      Run env resolved name ords osig v → dns_validator_cancel v = .ok v1 →
      Run env resolved name ords osig v1
  | destroyed (v v1 : dns_validator) :
      Run env resolved name ords osig v → dns_validator_destroy v = .ok v1 →
      Run env resolved name ords osig v1

/-- What every state of a run satisfies: the request has an rdataset or no signature set;
while the event is held it carries the name and the rdatasets of the request, up to the
cursor of the signature set, no key and no trust-anchor node is held, and the stored
signature structure is that of the record under the cursor; and every event sent carries a
verdict of the request. -/
def run_inv (env : Env) (resolved : List dns_rdata → Prop) (name : dns_name)
    (ords osig : Option dns_rdataset) (v : dns_validator) : Prop :=
  (ords.isSome ∨ osig = none) ∧
    (∀ ev, v.event = some ev →
      ev.name = name ∧ ev.rdataset = ords ∧ same_cursor osig ev.sigrdataset ∧
      v.key = none ∧ v.keynode = none ∧
      ∀ s sg, v.siginfo = some s → ev.sigrdataset = some sg →
        s = env.tostruct_sig (dns_rdataset_current sg)) ∧
    (∀ ev ∈ sends v.effects,
      request_verdict env name ords osig (run_keys env resolved) v.effects ev)

/-- The world `env_base` with a verification primitive that accepts the signatures made with
the key of material 42. -/
def env_fetched_key : Env :=
  { env_base with verify := fun _ _ k _ => if k.material = 42 then ISC_R_SUCCESS else other 1 }

/-! ## Cancellation and completion -/

/-- C3: `dns_validator_cancel` is idempotent.  If a first call returns the state `v1`, a
second call returns `v1` again: the state, the trace of calls included, is exactly as the
first call left it, so the second call posts no event and sends no cancel to a fetch or to a
child validator. -/
theorem dns_validator_cancel_idempotent (v v1 : dns_validator)
    (h : dns_validator_cancel v = .ok v1) :
    dns_validator_cancel v1 = .ok v1 ∧ v1.event = none ∧
      ∀ v2, dns_validator_cancel v1 = .ok v2 → v2 = v1 ∧ v2.effects = v1.effects := by
  have key : dns_validator_cancel v1 = .ok v1 ∧ v1.event = none := by
    unfold dns_validator_cancel at h
    split at h
    · cases h
    · rename_i hm
      cases hev : v.event with
      | none =>
        rw [hev] at h
        cases h
        refine ⟨?_, hev⟩
        unfold dns_validator_cancel
        rw [if_neg hm, hev]
      | some ev =>
        rw [hev] at h
        cases h
        refine ⟨?_, rfl⟩
        unfold dns_validator_cancel
        rw [if_neg hm]
  refine ⟨key.1, key.2, ?_⟩
  intro v2 h2
  rw [key.1] at h2
  cases h2
  exact ⟨rfl, rfl⟩

/-- Witness of C3: cancelling a freshly created positive request posts one event (the trace
grows from one entry to two), and cancelling again changes nothing. -/
theorem dns_validator_cancel_idempotent_witness :
    ∃ v1, dns_validator_cancel (positive_request env_base [[1, 7, 1500, 1]]) = .ok v1 ∧
      v1.effects.length = 2 ∧
      dns_validator_cancel v1 = .ok v1 ∧ v1.event = none ∧
      ∀ v2, dns_validator_cancel v1 = .ok v2 → v2 = v1 ∧ v2.effects = v1.effects :=
  ⟨_, rfl, rfl, dns_validator_cancel_idempotent (positive_request env_base [[1, 7, 1500, 1]]) _ rfl⟩

/-- C4 at its failing input: a denial request whose authority section holds an NXT rdataset
and its SIG.  `validator_start` spawns a child in the authority-child slot and waits.
`dns_validator_cancel` then posts the event with result Canceled and makes no other call:
the child in `authvalidator` is still there and no cancel was sent to it.  A child in the
key-child slot, in contrast, is sent a cancel (second part: a positive request waiting for
the proof of a pending keyset). -/
theorem dns_validator_cancel_skips_authvalidator :
    (∃ v1 v2 c ev,
      validator_start env_base 1 (denial_request env_base [([1, 1], [nxtset, signxt])]) = .ok v1 ∧
      v1.event.isSome = true ∧ v1.fetch = none ∧ v1.keyvalidator = none ∧
      v1.authvalidator = some c ∧
      dns_validator_cancel v1 = .ok v2 ∧
      v2.authvalidator = some c ∧
      v2.effects = v1.effects ++ [Effect.task_send ev] ∧ ev.result = ISC_R_CANCELED ∧
      Effect.validator_cancel c ∉ v2.effects) ∧
    ∃ w1 w2 k ev,
      validator_start (env_pending_keyset true) 1
        (positive_request (env_pending_keyset true) [[1, 7, 1500, 1]]) = .ok w1 ∧
      w1.keyvalidator = some k ∧
      dns_validator_cancel w1 = .ok w2 ∧
      w2.effects = w1.effects ++ [Effect.task_send ev, Effect.validator_cancel k] ∧
      ev.result = ISC_R_CANCELED :=
  ⟨⟨_, _, _, _, rfl, rfl, rfl, rfl, rfl, rfl, rfl, rfl, rfl, by decide⟩,
   ⟨_, _, _, _, rfl, rfl, rfl, rfl, rfl⟩⟩

/-- C1 at its failing input: a denial request whose message has an empty authority section,
never cancelled.  If the uninitialised local `name` happens to be NULL, `validator_start`
stops at `REQUIRE(name != NULL)` of `dns_validator_create`.  For every other value,
`validator_start` posts the completion event with result NotFound, then still spawns a child
in the authority-child slot; when that child completes, with whatever result,
`negauthvalidated` calls `validator_done` a second time and stops at
`REQUIRE(val->event != NULL)`. -/
theorem nxtvalidate_empty_authority_done_twice :
    (∀ fuel, validator_start (env_uninit none) fuel (denial_request env_base []) =
        .error Stop.require_name) ∧
      ∀ (n : dns_name) (fuel : Nat) (devent : dns_validatorevent),
        ∃ v1 start done c,
          validator_start (env_uninit (some n)) fuel (denial_request env_base []) = .ok v1 ∧
          v1.event = none ∧
          v1.effects = [Effect.task_send start, Effect.task_send done, Effect.validator_create c] ∧
          done.ev_type = eventtype.DNS_EVENT_VALIDATORDONE ∧ done.result = ISC_R_NOTFOUND ∧
          v1.authvalidator = some c ∧ c.action = taskaction.negauthvalidated ∧
          negauthvalidated v1 devent = .error Stop.require_event_not_null := by
  refine ⟨fun _ => rfl, fun n fuel devent => ⟨_, _, _, _, rfl, rfl, rfl, rfl, rfl, rfl, rfl, ?_⟩⟩
  unfold negauthvalidated
  by_cases h : devent.result = ISC_R_SUCCESS <;> simp [destroy_authvalidator, validator_done, h]

/-- The function `get_dst_key` changes nothing but `val->key`. -/
theorem get_dst_key_keeps (env : Env) (val : dns_validator) (siginfo : dns_rdata_sig)
    (rdataset : Option dns_rdataset) (r : isc_result) (v : dns_validator)
    (h : get_dst_key env val siginfo rdataset = .ok (r, v)) :
    v = { val with key := v.key } := by
  unfold get_dst_key at h
  split at h
  · cases h
  · split at h
    · cases h
    · split at h <;> cases h <;> rfl

/-- Resuming `validate` on a validator whose event is gone stops. -/
theorem validate_resume_without_event (env : Env) (fuel : Nat) (val : dns_validator)
    (h : val.event = none) : ∃ stop, validate env fuel val true = .error stop := by
  cases fuel with
  | zero => exact ⟨_, rfl⟩
  | succ n =>
    refine ⟨Stop.null_deref, ?_⟩
    simp [validate, validate_loop, validate_body, h]

/-- On a validator whose event is gone, `fetch_callback_validator` stops, whatever the
fetch event carries. -/
theorem fetch_callback_validator_without_event (env : Env) (fuel : Nat) (val : dns_validator)
    (devent : dns_fetchevent) (h : val.event = none) :
    ∃ stop, fetch_callback_validator env fuel val devent = .error stop := by
  unfold fetch_callback_validator
  cases hf : val.fetch with
  | none => exact ⟨_, rfl⟩
  | some f =>
    simp only []
    by_cases hr : devent.result = ISC_R_SUCCESS
    · simp only [hr, if_true]
      by_cases ht : devent.rdataset.trust ≥ dns_trust_secure
      · simp only [ht, if_true]
        cases hs : val.siginfo with
        | none => exact ⟨_, rfl⟩
        | some siginfo =>
          simp only []
          cases hg : get_dst_key env _ siginfo (some devent.rdataset) with
          | error e => exact ⟨_, rfl⟩
          | ok p =>
            obtain ⟨r, v⟩ := p
            have hv := get_dst_key_keeps _ _ _ _ _ _ hg
            have hev : v.event = none := by rw [hv]; exact h
            simp only []
            by_cases hrr : r = ISC_R_SUCCESS
            · simp only [hrr, if_true]
              obtain ⟨st, hst⟩ := validate_resume_without_event env fuel { v with keyset := true } hev
              exact ⟨st, by rw [hst]⟩
            · simp only [hrr, if_false]
              obtain ⟨st, hst⟩ := validate_resume_without_event env fuel v hev
              exact ⟨st, by rw [hst]⟩
      · simp only [ht, if_false]
        obtain ⟨st, hst⟩ := validate_resume_without_event env fuel
          { val with frdataset := devent.rdataset, fsigrdataset := devent.sigrdataset, fetch := none,
                     effects := val.effects ++ [Effect.resolver_destroyfetch f] } h
        exact ⟨st, by rw [hst]⟩
    · simp only [hr, if_false]
      exact ⟨Stop.require_event_not_null, by simp [validator_done, h]⟩

/-- On a validator whose event is gone, `keyvalidated` stops, whatever the completion event
of the child carries. -/
theorem keyvalidated_without_event (env : Env) (fuel : Nat) (val : dns_validator)
    (devent : dns_validatorevent) (h : val.event = none) :
    ∃ stop, keyvalidated env fuel val devent = .error stop := by
  unfold keyvalidated
  simp only []
  by_cases hr : devent.result = ISC_R_SUCCESS
  · simp only [hr, if_true]
    by_cases ht : (devent.rdataset.getD val.frdataset).trust ≥ dns_trust_secure
    · simp only [ht, if_true]
      cases hs : val.siginfo with
      | none => exact ⟨_, rfl⟩
      | some siginfo =>
        simp only []
        cases hg : get_dst_key env _ siginfo (some (devent.rdataset.getD val.frdataset)) with
        | error e => exact ⟨_, rfl⟩
        | ok p =>
          obtain ⟨r, v⟩ := p
          have hv := get_dst_key_keeps _ _ _ _ _ _ hg
          have hev : v.event = none := by rw [hv]; exact h
          simp only []
          obtain ⟨st, hst⟩ := validate_resume_without_event env fuel v hev
          exact ⟨st, by rw [hst]⟩
    · simp only [ht, if_false]
      obtain ⟨st, hst⟩ := validate_resume_without_event env fuel
        { val with frdataset := devent.rdataset.getD val.frdataset,
                   fsigrdataset := devent.sigrdataset.getD val.fsigrdataset } h
      exact ⟨st, by rw [hst]⟩
  · simp only [hr, if_false]
    exact ⟨Stop.require_event_not_null, by simp [validator_done, h]⟩

/-- C2 at its failing inputs.  First part: a positive request whose key is neither a trust
anchor nor in the cache, so that `validator_start` issues a fetch and waits.
`dns_validator_cancel` posts the event and cancels the fetch.  When the fetch then completes
with result Canceled, `fetch_callback_validator` calls `validator_done` and stops at
`REQUIRE(val->event != NULL)`; with any other event it stops as well (a failed assertion or
a null dereference): no completion is discarded.  Second part: the same with a child
validator in the key-child slot, whose completion event (here one that reports a failed
proof) reaches `keyvalidated` after the cancel. -/
theorem fetch_completion_after_cancel_stops :
    (∃ v1 v2 f,
      validator_start env_base 1 (positive_request env_base [[1, 7, 1500, 1]]) = .ok v1 ∧
      v1.fetch = some f ∧ v1.event.isSome = true ∧
      dns_validator_cancel v1 = .ok v2 ∧ v2.fetch = some f ∧
      Effect.resolver_cancelfetch f ∈ v2.effects ∧
      (∀ fuel foundname rdataset sigrdataset,
        fetch_callback_validator env_base fuel v2
          { result := ISC_R_CANCELED, foundname := foundname, rdataset := rdataset,
            sigrdataset := sigrdataset } = .error Stop.require_event_not_null) ∧
      ∀ fuel devent, ∃ stop, fetch_callback_validator env_base fuel v2 devent = .error stop) ∧
    ∃ w1 w2 k,
      validator_start (env_pending_keyset true) 1
        (positive_request (env_pending_keyset true) [[1, 7, 1500, 1]]) = .ok w1 ∧
      w1.keyvalidator = some k ∧ w1.event.isSome = true ∧
      dns_validator_cancel w1 = .ok w2 ∧ w2.keyvalidator = some k ∧
      Effect.validator_cancel k ∈ w2.effects ∧
      (∀ fuel, keyvalidated (env_pending_keyset true) fuel w2
        (child_done DNS_R_NOVALIDSIG taskaction.keyvalidated) =
          .error Stop.require_event_not_null) ∧
      ∀ fuel devent, ∃ stop, keyvalidated (env_pending_keyset true) fuel w2 devent =
        .error stop := by
  refine ⟨⟨_, _, _, rfl, rfl, rfl, rfl, rfl, by decide, fun _ _ _ _ => rfl, ?_⟩,
    ⟨_, _, _, rfl, rfl, rfl, rfl, rfl, by decide, fun _ => rfl, ?_⟩⟩
  · intro fuel devent
    exact fetch_callback_validator_without_event _ _ _ _ rfl
  · intro fuel devent
    exact keyvalidated_without_event _ _ _ _ rfl

/-! ## Strategy dispatch -/

/-- C5: `validator_start` on a request accepted by `dns_validator_create`.  The validator
holds the event of the request, and the `if` chain takes exactly one strategy by the shape of
the request: rdataset and signature set both present, `validate`; rdataset present and
signature set absent, `proveunsecure`; rdataset absent, then the signature set is absent and
the message present, `nxtvalidate`.  The branch of `INSIST(0)` is not taken. -/
theorem validator_start_dispatch (env : Env) (fuel : Nat) (name : Option dns_name) (type : Nat)
    (rdataset sigrdataset : Option dns_rdataset) (message : Option dns_message) (options : Nat)
    (action : taskaction) (slot : Option subvalidator) (val : dns_validator)
    (h : dns_validator_create env name type rdataset sigrdataset message options action slot =
      .ok (ISC_R_SUCCESS, some val)) :
    ∃ event, val.event = some event ∧ event.rdataset = rdataset ∧
      event.sigrdataset = sigrdataset ∧ event.message = message ∧
      validator_start_branch event ≠ start_branch.shouldnt_happen ∧
      (rdataset.isSome = true → sigrdataset.isSome = true →
        validator_start_branch event = start_branch.positive ∧
        validator_start env fuel val = start_finish (validate env fuel val false)) ∧
      (rdataset.isSome = true → sigrdataset = none →
        validator_start_branch event = start_branch.insecurity ∧
        validator_start env fuel val = start_finish (proveunsecure env fuel val false)) ∧
      (rdataset = none →
        sigrdataset = none ∧ message.isSome = true ∧
        validator_start_branch event = start_branch.denial ∧
        validator_start env fuel val = start_finish (nxtvalidate env fuel val false)) := by
  unfold dns_validator_create at h
  cases name with
  | none => cases h
  | some nm =>
    simp only [] at h
    split at h
    · cases h
    · split at h
      · cases h
      · rename_i hshape
        split at h
        · cases h
        · split at h
          · cases h
          · split at h
            · cases h
            · injection h with h
              injection h with _ h
              injection h with h
              subst h
              refine ⟨_, rfl, rfl, rfl, rfl, ?_, ?_, ?_, ?_⟩
              · cases rdataset <;> cases sigrdataset <;> cases message <;>
                  simp_all [validator_start_branch]
              · intro h1 h2
                cases rdataset <;> cases sigrdataset <;>
                  simp_all [validator_start_branch, validator_start]
              · intro h1 h2
                cases rdataset <;>
                  simp_all [validator_start_branch, validator_start]
              · intro h1
                cases sigrdataset <;> cases message <;>
                  simp_all [validator_start_branch, validator_start]

/-! ## Positive proof -/

/-- C9: positive proof, at the signature record under the cursor.  If the signer is
acceptable, no trust anchor matches and the cache holds a keyset for the signer whose trust
is below `secure` and is not `pending`, then `get_key` returns success with `val->key` NULL,
and `validate`, from that record on, returns success at once: both rdatasets get trust
`answer`, every other field of theirs (the TTLs among them) is unchanged, and the only call
made is the cache lookup (no verification).  When the record is the first of an associated
signature set, `validate` itself is that loop. -/
theorem validate_insecure_keyset_answer (env : Env) (fuel : Nat) (val : dns_validator)
    (event : dns_validatorevent) (erds esig rd sg : dns_rdataset)
    (hev : val.event = some event) (hrd : event.rdataset = some erds)
    (hsg : event.sigrdataset = some esig)
    (hmem : env.mem_ok = true) (hnode : val.keynode = none)
    (hsigner : env.fullcompare event.name
          (env.tostruct_sig (dns_rdataset_current esig)).signer =
        dns_namereln.dns_namereln_subdomain ∨
      (erds.type ≠ env.dns_rdatatype_key ∧
        env.fullcompare event.name (env.tostruct_sig (dns_rdataset_current esig)).signer =
          dns_namereln.dns_namereln_equal))
    (hanchor : env.secroots (env.tostruct_sig (dns_rdataset_current esig)).signer
        (env.tostruct_sig (dns_rdataset_current esig)).algorithm
        (env.tostruct_sig (dns_rdataset_current esig)).keyid = [])
    (hfind : env.simplefind (env.tostruct_sig (dns_rdataset_current esig)).signer =
      (ISC_R_SUCCESS, rd, sg))
    (hlow : rd.trust < dns_trust_secure) (hnp : rd.trust ≠ dns_trust_pending) :
    get_key env { val with siginfo := some (env.tostruct_sig (dns_rdataset_current esig)) }
        (env.tostruct_sig (dns_rdataset_current esig)) =
      .ok (ISC_R_SUCCESS,
        { val with
          siginfo := some (env.tostruct_sig (dns_rdataset_current esig)), key := none,
          keyset := true, frdataset := rd, fsigrdataset := disassociate_if_associated sg,
          effects := val.effects ++
            [Effect.view_simplefind (env.tostruct_sig (dns_rdataset_current esig)).signer] }) ∧
    validate_loop env false (fuel + 1) val =
      .ok (ISC_R_SUCCESS,
        { val with
          siginfo := some (env.tostruct_sig (dns_rdataset_current esig)), key := none,
          keyset := true, frdataset := rd, fsigrdataset := disassociate_if_associated sg,
          event := some { event with
            rdataset := some { erds with trust := dns_trust_answer },
            sigrdataset := some { esig with trust := dns_trust_answer } },
          effects := val.effects ++
            [Effect.view_simplefind (env.tostruct_sig (dns_rdataset_current esig)).signer] }) ∧
    (esig.associated = true → esig.cursor = 0 → esig.rdatas ≠ [] →
      validate env (fuel + 1) val false = validate_loop env false (fuel + 1) val) := by
  obtain ⟨eassoc, etype, ecov, ettl, etrust, erdatas, ecursor⟩ := esig
  obtain ⟨evt, eva, eres, ename, ety, erd, esg, emsg⟩ := event
  obtain ⟨magic, options, attributes, vevent, fetch, keyvalidator, authvalidator, keynode, key,
    siginfo, action, labels, currentset, seensig, keyset, frdataset, fsigrdataset, effects⟩ := val
  simp only at hev hrd hsg hnode hsigner hanchor hfind
  subst hev hrd hsg hnode
  have hcond1 : ¬ (erds.type = env.dns_rdatatype_key ∧
      env.fullcompare ename (env.tostruct_sig (dns_rdataset_current
        { associated := eassoc, type := etype, covers := ecov, ttl := ettl, trust := etrust,
          rdatas := erdatas, cursor := ecursor })).signer ≠
        dns_namereln.dns_namereln_subdomain) := by
    rcases hsigner with h | ⟨h1, _⟩
    · simp [h]
    · simp [h1]
  have hcond2 : ¬ (env.fullcompare ename (env.tostruct_sig (dns_rdataset_current
        { associated := eassoc, type := etype, covers := ecov, ttl := ettl, trust := etrust,
          rdatas := erdatas, cursor := ecursor })).signer ≠
        dns_namereln.dns_namereln_subdomain ∧
      env.fullcompare ename (env.tostruct_sig (dns_rdataset_current
        { associated := eassoc, type := etype, covers := ecov, ttl := ettl, trust := etrust,
          rdatas := erdatas, cursor := ecursor })).signer ≠
        dns_namereln.dns_namereln_equal) := by
    rcases hsigner with h | ⟨_, h2⟩
    · simp [h]
    · simp [h2]
  have hge : ¬ (dns_trust_secure ≤ rd.trust) := Nat.not_le_of_lt hlow
  refine ⟨?_, ?_, ?_⟩
  · simp [get_key, hcond1, hcond2, hanchor, hfind, hnp, hlow, get_key_cleanup]
  · simp [validate_loop, validate_body, hmem, get_key, hcond1, hcond2, hanchor, hfind, hnp, hlow,
      get_key_cleanup]
  · intro h1 h2 h3
    simp only at h1 h2 h3
    subst h1 h2
    simp [validate, dns_rdataset_first, h3]

/-- C10: key resolution when no trust anchor matches and the cache holds a keyset for the
signer with trust `pending`.  With an associated signature set (and an empty key-child slot,
working allocation, a non-zero KEY type code) `get_key` returns Wait, having put into
`val->keyvalidator` exactly one child, created for (signer, KEY, keyset, signature set) with
handler `keyvalidated`; that child takes the positive-proof branch.  With no associated
signature set `get_key` returns Continue: no fetch and no child, the only call is the cache
lookup. -/
theorem get_key_pending_keyset (env : Env) (val : dns_validator) (event : dns_validatorevent)
    (erds : dns_rdataset) (siginfo : dns_rdata_sig) (rd sg : dns_rdataset)
    (hev : val.event = some event) (hrd : event.rdataset = some erds)
    (hnode : val.keynode = none)
    (hsigner : env.fullcompare event.name siginfo.signer = dns_namereln.dns_namereln_subdomain ∨
      (erds.type ≠ env.dns_rdatatype_key ∧
        env.fullcompare event.name siginfo.signer = dns_namereln.dns_namereln_equal))
    (hanchor : env.secroots siginfo.signer siginfo.algorithm siginfo.keyid = [])
    (hfind : env.simplefind siginfo.signer = (ISC_R_SUCCESS, rd, sg))
    (hpending : rd.trust = dns_trust_pending) :
    (sg.associated = true → env.mem_ok = true → val.keyvalidator = none →
        env.dns_rdatatype_key ≠ 0 →
      get_key env val siginfo =
        .ok (DNS_R_WAIT,
          { val with
            keyset := true, frdataset := rd, fsigrdataset := sg,
            keyvalidator := some (subvalidator_of siginfo.signer env.dns_rdatatype_key (some rd)
              (some sg) none taskaction.keyvalidated),
            effects := val.effects ++
              [Effect.view_simplefind siginfo.signer,
               Effect.validator_create (subvalidator_of siginfo.signer env.dns_rdatatype_key
                 (some rd) (some sg) none taskaction.keyvalidated)] }) ∧
      ∃ child cev, dns_validator_create env (some siginfo.signer) env.dns_rdatatype_key (some rd)
          (some sg) none 0 taskaction.keyvalidated none = .ok (ISC_R_SUCCESS, some child) ∧
        child.event = some cev ∧ cev.name = siginfo.signer ∧
        validator_start_branch cev = start_branch.positive) ∧
    (sg.associated = false →
      get_key env val siginfo =
        .ok (DNS_R_CONTINUE,
          { val with
            keyset := true, frdataset := rd, fsigrdataset := sg,
            effects := val.effects ++ [Effect.view_simplefind siginfo.signer] })) := by
  obtain ⟨evt, eva, eres, ename, ety, erd, esg, emsg⟩ := event
  obtain ⟨magic, options, attributes, vevent, fetch, keyvalidator, authvalidator, keynode, key,
    siginfo0, action, labels, currentset, seensig, keyset, frdataset, fsigrdataset, effects⟩ := val
  simp only at hev hrd hnode hsigner
  subst hev hrd hnode
  have hcond1 : ¬ (erds.type = env.dns_rdatatype_key ∧
      env.fullcompare ename siginfo.signer ≠ dns_namereln.dns_namereln_subdomain) := by
    rcases hsigner with h | ⟨h1, _⟩
    · simp [h]
    · simp [h1]
  have hcond2 : ¬ (env.fullcompare ename siginfo.signer ≠ dns_namereln.dns_namereln_subdomain ∧
      env.fullcompare ename siginfo.signer ≠ dns_namereln.dns_namereln_equal) := by
    rcases hsigner with h | ⟨_, h2⟩
    · simp [h]
    · simp [h2]
  refine ⟨?_, ?_⟩
  · intro hassoc hmem hslot hkt
    simp only at hslot
    subst hslot
    refine ⟨?_, ?_⟩
    · simp [get_key, hcond1, hcond2, hanchor, hfind, hpending, hassoc, dns_validator_create, hmem,
        hkt]
    · simp [dns_validator_create, hmem, hkt, validator_start_branch]
  · intro hassoc
    simp [get_key, hcond1, hcond2, hanchor, hfind, hpending, hassoc, get_key_cleanup,
      disassociate_if_associated]

/-- Witness of C5: the positive request for `[1, 2]` is accepted and starts `validate`. -/
theorem validator_start_dispatch_witness :
    dns_validator_create env_base (some [1, 2]) 1 (some rrset_a) (some (sigset_a [[1, 7, 1500, 1]]))
        none 0 (taskaction.caller 0) none =
      .ok (ISC_R_SUCCESS, some (positive_request env_base [[1, 7, 1500, 1]])) ∧
    validator_start_branch (positive_event [[1, 7, 1500, 1]]) = start_branch.positive ∧
    validator_start env_base 1 (positive_request env_base [[1, 7, 1500, 1]]) =
      start_finish (validate env_base 1 (positive_request env_base [[1, 7, 1500, 1]]) false) := by
  obtain ⟨event, h1, _, _, _, _, h2, _, _⟩ :=
    validator_start_dispatch env_base 1 (some [1, 2]) 1 (some rrset_a)
      (some (sigset_a [[1, 7, 1500, 1]])) none 0 (taskaction.caller 0) none
      (positive_request env_base [[1, 7, 1500, 1]]) rfl
  exact ⟨rfl, rfl, (h2 rfl rfl).2⟩

/-- Witness of C9: the cache of `env_insecure_keyset` holds a keyset of trust `answer` for
the signer: `validate` returns success with trust `answer` after one cache lookup. -/
theorem validate_insecure_keyset_answer_witness :
    validate env_insecure_keyset 1 (positive_request env_insecure_keyset [[1, 7, 1500, 1]]) false =
      .ok (ISC_R_SUCCESS,
        { positive_request env_insecure_keyset [[1, 7, 1500, 1]] with
          siginfo := some { covered := 0, algorithm := 1, timeexpire := 1500, keyid := 7,
                            signer := [1] },
          keyset := true, frdataset := keyset_of 4 100 [[1, 0, 3, 1, 7, 42]],
          event := some { positive_event [[1, 7, 1500, 1]] with
            rdataset := some { rrset_a with trust := 4 },
            sigrdataset := some { sigset_a [[1, 7, 1500, 1]] with trust := 4 } },
          effects := (positive_request env_insecure_keyset [[1, 7, 1500, 1]]).effects ++
            [Effect.view_simplefind [1]] }) := by
  have h := validate_insecure_keyset_answer env_insecure_keyset 0
    (positive_request env_insecure_keyset [[1, 7, 1500, 1]]) (positive_event [[1, 7, 1500, 1]])
    rrset_a (sigset_a [[1, 7, 1500, 1]]) (keyset_of 4 100 [[1, 0, 3, 1, 7, 42]]) dns_rdataset_init
    rfl rfl rfl rfl rfl (Or.inl rfl) rfl rfl (by decide) (by decide)
  rw [h.2.2 rfl rfl (by decide)]
  exact h.2.1

/-- Witness of C10: the pending keyset of `env_pending_keyset`, with and without its
signature set. -/
theorem get_key_pending_keyset_witness :
    get_key (env_pending_keyset true) (positive_request (env_pending_keyset true) [[1, 7, 1500, 1]])
        (toy_tostruct_sig [1, 7, 1500, 1]) =
      .ok (DNS_R_WAIT,
        { positive_request (env_pending_keyset true) [[1, 7, 1500, 1]] with
          keyset := true, frdataset := keyset_of 1 100 [[1, 0, 3, 1, 7, 42]], fsigrdataset := signxt,
          keyvalidator := some (subvalidator_of [1] 25 (some (keyset_of 1 100 [[1, 0, 3, 1, 7, 42]]))
            (some signxt) none taskaction.keyvalidated),
          effects := (positive_request (env_pending_keyset true) [[1, 7, 1500, 1]]).effects ++
            [Effect.view_simplefind [1],
             Effect.validator_create (subvalidator_of [1] 25
               (some (keyset_of 1 100 [[1, 0, 3, 1, 7, 42]])) (some signxt) none
               taskaction.keyvalidated)] }) ∧
    get_key (env_pending_keyset false) (positive_request (env_pending_keyset false) [[1, 7, 1500, 1]])
        (toy_tostruct_sig [1, 7, 1500, 1]) =
      .ok (DNS_R_CONTINUE,
        { positive_request (env_pending_keyset false) [[1, 7, 1500, 1]] with
          keyset := true, frdataset := keyset_of 1 100 [[1, 0, 3, 1, 7, 42]],
          effects := (positive_request (env_pending_keyset false) [[1, 7, 1500, 1]]).effects ++
            [Effect.view_simplefind [1]] }) :=
  ⟨((get_key_pending_keyset (env_pending_keyset true)
      (positive_request (env_pending_keyset true) [[1, 7, 1500, 1]])
      (positive_event [[1, 7, 1500, 1]]) rrset_a (toy_tostruct_sig [1, 7, 1500, 1])
      (keyset_of 1 100 [[1, 0, 3, 1, 7, 42]]) signxt rfl rfl rfl (Or.inl rfl) rfl rfl rfl).1
      rfl rfl rfl (by decide)).1,
   (get_key_pending_keyset (env_pending_keyset false)
      (positive_request (env_pending_keyset false) [[1, 7, 1500, 1]])
      (positive_event [[1, 7, 1500, 1]]) rrset_a (toy_tostruct_sig [1, 7, 1500, 1])
      (keyset_of 1 100 [[1, 0, 3, 1, 7, 42]]) dns_rdataset_init rfl rfl rfl (Or.inl rfl) rfl rfl
      rfl).2 rfl⟩

/-- In `env_twin_keys`, a failed verification under the second key steps to the second key. -/
theorem twin_keys_step (fuel : Nat) (effects : List Effect) :
    verify_loop env_twin_keys [1, 2] rrset_a [1, 7, 1500, 1] (toy_tostruct_sig [1, 7, 1500, 1])
        (fuel + 1) (twin_state (twin_key 257) effects) =
      verify_loop env_twin_keys [1, 2] rrset_a [1, 7, 1500, 1] (toy_tostruct_sig [1, 7, 1500, 1])
        fuel (twin_state (twin_key 257)
          (effects ++ [Effect.dnssec_verify (twin_key 257) [1, 7, 1500, 1]])) := rfl

/-- In `env_twin_keys`, a failed verification under the first key steps to the second key. -/
theorem twin_keys_first_step (fuel : Nat) (effects : List Effect) :
    verify_loop env_twin_keys [1, 2] rrset_a [1, 7, 1500, 1] (toy_tostruct_sig [1, 7, 1500, 1])
        (fuel + 1) (twin_state (twin_key 256) effects) =
      verify_loop env_twin_keys [1, 2] rrset_a [1, 7, 1500, 1] (toy_tostruct_sig [1, 7, 1500, 1])
        fuel (twin_state (twin_key 257)
          (effects ++ [Effect.dnssec_verify (twin_key 256) [1, 7, 1500, 1]])) := rfl

/-- In `env_twin_keys`, the verification loop entered with the second key runs out of every
fuel. -/
theorem twin_keys_loop (fuel : Nat) : ∀ effects : List Effect,
    verify_loop env_twin_keys [1, 2] rrset_a [1, 7, 1500, 1] (toy_tostruct_sig [1, 7, 1500, 1])
        fuel (twin_state (twin_key 257) effects) = .error Stop.out_of_fuel := by
  induction fuel with
  | zero => intro effects; rfl
  | succ n ih => intro effects; rw [twin_keys_step]; exact ih _

/-- In `env_twin_keys`, the verification loop entered with the first key runs out of every
fuel. -/
theorem twin_keys_diverge (fuel : Nat) (effects : List Effect) :
    verify_loop env_twin_keys [1, 2] rrset_a [1, 7, 1500, 1] (toy_tostruct_sig [1, 7, 1500, 1])
        fuel (twin_state (twin_key 256) effects) = .error Stop.out_of_fuel := by
  cases fuel with
  | zero => rfl
  | succ n => rw [twin_keys_first_step]; exact twin_keys_loop n _

/-- When key resolution yields a key and the verification loop stops, the body of the loop
of `validate` stops the same way. -/
theorem validate_body_verify_stop (env : Env) (fuel : Nat) (val val2 : dns_validator)
    (event : dns_validatorevent) (erds esig : dns_rdataset) (stop : Stop)
    (hev : val.event = some event) (hrd : event.rdataset = some erds)
    (hsg : event.sigrdataset = some esig) (hmem : env.mem_ok = true)
    (hkey : get_key env { val with siginfo := some (env.tostruct_sig (dns_rdataset_current esig)) }
        (env.tostruct_sig (dns_rdataset_current esig)) = .ok (ISC_R_SUCCESS, val2))
    (hsome : val2.key.isNone = false)
    (hloop : verify_loop env event.name erds (dns_rdataset_current esig)
        (env.tostruct_sig (dns_rdataset_current esig)) fuel val2 = .error stop) :
    validate_body env false fuel val = .error stop := by
  obtain ⟨evt, eva, eres, ename, ety, erd, esg, emsg⟩ := event
  obtain ⟨magic, options, attributes, vevent, fetch, keyvalidator, authvalidator, keynode, key,
    siginfo, action, labels, currentset, seensig, keyset, frdataset, fsigrdataset, effects⟩ := val
  simp only at hev hrd hsg hkey hloop
  subst hev hrd hsg
  have hsome2 : ¬ (val2.key = none) := by
    intro hn
    rw [hn] at hsome
    cases hsome
  simp [validate_body, hmem, hkey, hsome2, hloop]

/-- When the body stops, the loop of `validate` stops the same way. -/
theorem validate_loop_body_stop (env : Env) (resume : Bool) (fuel : Nat) (val : dns_validator)
    (stop : Stop) (h : validate_body env resume fuel val = .error stop) :
    validate_loop env resume (fuel + 1) val = .error stop := by
  simp [validate_loop, h]

/-- C7 at its failing input: one signature record whose signer's keyset is in the cache with
trust `secure` and holds two zone KEY records that decode to keys of the same algorithm, key
id and key material (they differ in one flag bit), so that `dst_key_compare` calls them equal;
verification fails under every key.  `validate` does not return `DNS_R_NOVALIDSIG`: it does
not return at all, whatever the number of steps it is given, because `get_dst_key` steps from
the second key to the second key again.  (When the two keys differ in their material, the
same request returns `DNS_R_NOVALIDSIG` after two verifications.) -/
theorem validate_twin_keys_never_returns :
    (env_twin_keys.simplefind [1]).2.1.trust = dns_trust_secure ∧
    dst_key_fromdns env_twin_keys [1, 0, 3, 1, 7, 42] = .ok (twin_key 256) ∧
    dst_key_fromdns env_twin_keys [1, 1, 3, 1, 7, 42] = .ok (twin_key 257) ∧
    dst_key_iszonekey rfc2535 (twin_key 256) = true ∧
    dst_key_iszonekey rfc2535 (twin_key 257) = true ∧
    dst_key_compare env_twin_keys (twin_key 257) (twin_key 256) = true ∧
    (∀ name rdataset key sig, env_twin_keys.verify name rdataset key sig = other 1) ∧
    (∀ fuel, validate env_twin_keys fuel (positive_request env_twin_keys [[1, 7, 1500, 1]]) false =
      .error Stop.out_of_fuel) ∧
    ∃ v, validate env_distinct_keys 3 (positive_request env_distinct_keys [[1, 7, 1500, 1]]) false =
        .ok (DNS_R_NOVALIDSIG, v) ∧
      v.effects = (positive_request env_distinct_keys [[1, 7, 1500, 1]]).effects ++
        [Effect.view_simplefind [1],
         Effect.dnssec_verify (twin_key 256) [1, 7, 1500, 1],
         Effect.dnssec_verify { twin_key 257 with material := 43 } [1, 7, 1500, 1]] := by
  refine ⟨rfl, rfl, rfl, rfl, rfl, rfl, fun _ _ _ _ => rfl, ?_, ⟨_, rfl, rfl⟩⟩
  intro fuel
  cases fuel with
  | zero => rfl
  | succ n =>
    have hbody := validate_body_verify_stop env_twin_keys n
      (positive_request env_twin_keys [[1, 7, 1500, 1]])
      (twin_state (twin_key 256)
        ((positive_request env_twin_keys [[1, 7, 1500, 1]]).effects ++ [Effect.view_simplefind [1]]))
      (positive_event [[1, 7, 1500, 1]]) rrset_a (sigset_a [[1, 7, 1500, 1]]) Stop.out_of_fuel
      rfl rfl rfl rfl rfl rfl (twin_keys_diverge n _)
    exact validate_loop_body_stop env_twin_keys false n _ _ hbody

/-- C8 at its failing input: two signature records by the same signer.  For the first, no
trust anchor matches and the cache holds a keyset of TTL 10 with trust `pending` and no
signature set, so the record is rejected.  The second is verified under a trust-anchor key.
`validate` returns success with trust `secure` and TTL 10, the TTL of the keyset looked up
for the rejected record, although `min (rdataset TTL) (expiry - now)` is 500. -/
theorem validate_stale_keyset_ttl :
    dns_validator_create env_stale_keyset (some [1, 2]) 1 (some rrset_a)
        (some (sigset_a [[1, 7, 1500, 1], [1, 8, 1500, 1]])) none 0 (taskaction.caller 0) none =
      .ok (ISC_R_SUCCESS,
        some (positive_request env_stale_keyset [[1, 7, 1500, 1], [1, 8, 1500, 1]])) ∧
    env_stale_keyset.secroots [1] 1 7 = [] ∧
    env_stale_keyset.simplefind [1] =
      (ISC_R_SUCCESS, keyset_of dns_trust_pending 10 [[1, 0, 3, 1, 7, 42]], dns_rdataset_init) ∧
    env_stale_keyset.secroots [1] 1 8 = [anchor_key] ∧
    validate env_stale_keyset 3
        (positive_request env_stale_keyset [[1, 7, 1500, 1], [1, 8, 1500, 1]]) false =
      .ok (ISC_R_SUCCESS,
        { positive_request env_stale_keyset [[1, 7, 1500, 1], [1, 8, 1500, 1]] with
          siginfo := some (toy_tostruct_sig [1, 8, 1500, 1]), keyset := true,
          frdataset := keyset_of dns_trust_pending 10 [[1, 0, 3, 1, 7, 42]],
          event := some { positive_event [[1, 7, 1500, 1], [1, 8, 1500, 1]] with
            rdataset := some { rrset_a with trust := dns_trust_secure, ttl := 10 },
            sigrdataset := some { sigset_a [[1, 7, 1500, 1], [1, 8, 1500, 1]] with
              cursor := 1, trust := dns_trust_secure, ttl := 10 } },
          effects := (positive_request env_stale_keyset [[1, 7, 1500, 1], [1, 8, 1500, 1]]).effects ++
            [Effect.view_simplefind [1], Effect.dnssec_verify anchor_key [1, 8, 1500, 1]] }) ∧
    min rrset_a.ttl (sub_uint32 (toy_tostruct_sig [1, 8, 1500, 1]).timeexpire env_stale_keyset.now) =
      500 :=
  ⟨rfl, rfl, rfl, rfl, rfl, rfl⟩

/-! ## Key resolution -/

/-- Once the previous candidate has been passed (or there is none), the loop of
`get_dst_key` returns the first matching key of what is left. -/
theorem get_dst_key_scan_found (env : Env) (siginfo : dns_rdata_sig) (oldkey : Option dst_key) :
    ∀ l : List dns_rdata, (∀ rdata ∈ l, ∃ key, dst_key_fromdns env rdata = .ok key) →
      get_dst_key_scan env siginfo oldkey true l =
        match first_matching_key env siginfo l with
        | some key => (ISC_R_SUCCESS, some key)
        | none => (ISC_R_NOTFOUND, none) := by
  intro l
  induction l with
  | nil => intro _; rfl
  | cons rdata rest ih =>
    intro hdec
    obtain ⟨key, hk⟩ := hdec rdata (List.mem_cons_self _ _)
    have ih1 := ih (fun r hr => hdec r (List.mem_cons_of_mem _ hr))
    by_cases hm : key_matches env siginfo key = true
    · have hm1 := hm
      simp only [key_matches, decide_eq_true_eq] at hm1
      simp [get_dst_key_scan, first_matching_key, hk, hm, hm1]
    · have hm1 := hm
      simp only [key_matches, decide_eq_true_eq] at hm1
      simp only [get_dst_key_scan, first_matching_key, hk, hm, hm1]
      simpa using ih1

/-- Before the previous candidate is recognised, the loop of `get_dst_key` passes over
every entry that does not match or does not compare equal to it, and goes on behind the
first matching entry that does. -/
theorem get_dst_key_scan_skip (env : Env) (siginfo : dns_rdata_sig) (old : dst_key)
    (rdata : dns_rdata) (post : List dns_rdata) (key : dst_key)
    (hk : dst_key_fromdns env rdata = .ok key) (hm : key_matches env siginfo key = true)
    (hc : dst_key_compare env old key = true) :
    ∀ pre : List dns_rdata, (∀ r ∈ pre, ∃ k, dst_key_fromdns env r = .ok k) →
      (∀ r ∈ pre, ∀ k, dst_key_fromdns env r = .ok k → key_matches env siginfo k = true →
        dst_key_compare env old k = false) →
      get_dst_key_scan env siginfo (some old) false (pre ++ rdata :: post) =
        get_dst_key_scan env siginfo (some old) true post := by
  intro pre
  induction pre with
  | nil =>
    intro _ _
    have hm1 := hm
    simp only [key_matches, decide_eq_true_eq] at hm1
    simp [get_dst_key_scan, hk, hm1, hc]
  | cons r rest ih =>
    intro hdec hno
    obtain ⟨k, hrk⟩ := hdec r (List.mem_cons_self _ _)
    have ih1 := ih (fun x hx => hdec x (List.mem_cons_of_mem _ hx))
      (fun x hx => hno x (List.mem_cons_of_mem _ hx))
    by_cases hmk : key_matches env siginfo k = true
    · have hno1 := hno r (List.mem_cons_self _ _) k hrk hmk
      have hm1 := hmk
      simp only [key_matches, decide_eq_true_eq] at hm1
      simp only [List.cons_append, get_dst_key_scan, hrk, hm1, hno1]
      simpa using ih1
    · have hm1 := hmk
      simp only [key_matches, decide_eq_true_eq] at hm1
      simp only [List.cons_append, get_dst_key_scan, hrk, hm1]
      simpa using ih1

/-- C12, as amended: over a non-empty keyset all of whose entries decode, `get_dst_key`
with no previous candidate returns the first key in set order that matches the signature
record (algorithm, key tag, zone key); with a previous candidate that is the key of a
matching entry of the set, and that `dst_key_compare` finds equal to itself and to no
matching key positioned before that entry, it returns the first matching key positioned
after that entry; when there is no such key it returns `ISC_R_NOTFOUND` and leaves
`val->key` absent.  A keyset in which a matching key positioned before the previous
candidate compares equal to it is outside this statement. -/
theorem get_dst_key_next_candidate (env : Env) (val : dns_validator) (siginfo : dns_rdata_sig)
    (rds : dns_rdataset) (hassoc : rds.associated = true) (hne : rds.rdatas ≠ [])
    (hdec : ∀ rdata ∈ rds.rdatas, ∃ key, dst_key_fromdns env rdata = .ok key) :
    (val.key = none →
      get_dst_key env val siginfo (some rds) =
        .ok (get_dst_key_reference val (first_matching_key env siginfo rds.rdatas))) ∧
    (∀ (old : dst_key) (pre post : List dns_rdata) (rdata : dns_rdata),
      val.key = some old → rds.rdatas = pre ++ rdata :: post →
      dst_key_fromdns env rdata = .ok old → key_matches env siginfo old = true →
      dst_key_compare env old old = true →
      (∀ r ∈ pre, ∀ k, dst_key_fromdns env r = .ok k → key_matches env siginfo k = true →
        dst_key_compare env old k = false) →
      get_dst_key env val siginfo (some rds) =
        .ok (get_dst_key_reference val (first_matching_key env siginfo post))) := by
  have hshape : get_dst_key env val siginfo (some rds) =
      .ok ((get_dst_key_scan env siginfo val.key val.key.isNone rds.rdatas).1,
        { val with key := (get_dst_key_scan env siginfo val.key val.key.isNone rds.rdatas).2 }) := by
    unfold get_dst_key
    simp only [hassoc]
    cases hr : rds.rdatas with
    | nil => exact absurd hr hne
    | cons a l => simp
  constructor
  · intro hkey
    rw [hshape, hkey]
    have h := get_dst_key_scan_found env siginfo none rds.rdatas hdec
    simp only [Option.isNone_none]
    rw [h]
    cases first_matching_key env siginfo rds.rdatas <;> simp [get_dst_key_reference]
  · intro old pre post rdata hkey hsplit hk hm hc hno
    rw [hshape, hkey, hsplit]
    have hdec1 : ∀ r ∈ pre, ∃ k, dst_key_fromdns env r = .ok k := fun r hr =>
      hdec r (by rw [hsplit]; exact List.mem_append_left _ hr)
    have hdec2 : ∀ r ∈ post, ∃ k, dst_key_fromdns env r = .ok k := fun r hr =>
      hdec r (by rw [hsplit]; exact List.mem_append_right _ (List.mem_cons_of_mem _ hr))
    have h1 := get_dst_key_scan_skip env siginfo old rdata post old hk hm hc pre hdec1 hno
    have h2 := get_dst_key_scan_found env siginfo (some old) post hdec2
    simp only [Option.isNone_some]
    rw [h1, h2]
    cases first_matching_key env siginfo post <;> simp [get_dst_key_reference]

/-- C12 at its counterexamples.  With an algorithm that has no `compare` function and the
key of the first entry of `distinct_keyset` as previous candidate, `get_dst_key` returns
`ISC_R_NOTFOUND` although the second entry matches.  On an empty keyset it returns
`ISC_R_NOMORE`. -/
theorem get_dst_key_next_candidate_counterexample :
    dst_key_fromdns env_no_compare [1, 0, 3, 1, 7, 42] = .ok (distinct_key false) ∧
    key_matches env_no_compare (toy_tostruct_sig [1, 7, 1500, 1]) (distinct_key false) = true ∧
    first_matching_key env_no_compare (toy_tostruct_sig [1, 7, 1500, 1]) [[1, 1, 3, 1, 7, 43]] =
      some (distinct_key true) ∧
    get_dst_key env_no_compare (keyed_state (some (distinct_key false)))
        (toy_tostruct_sig [1, 7, 1500, 1]) (some distinct_keyset) =
      .ok (ISC_R_NOTFOUND, keyed_state none) ∧
    first_matching_key env_base (toy_tostruct_sig [1, 7, 1500, 1]) [] = none ∧
    get_dst_key env_base (keyed_state none) (toy_tostruct_sig [1, 7, 1500, 1])
        (some (keyset_of 7 100 [])) =
      .ok (ISC_R_NOMORE, keyed_state none) :=
  ⟨rfl, rfl, rfl, rfl, rfl, rfl⟩

/-- Witness of C12 as amended: in `distinct_keyset` both records match and their keys do
not compare equal; with the key of the first entry as previous candidate `get_dst_key`
returns the second. -/
theorem get_dst_key_next_candidate_witness :
    get_dst_key env_distinct_keys (keyed_state (some (distinct_key false)))
        (toy_tostruct_sig [1, 7, 1500, 1]) (some distinct_keyset) =
      .ok (ISC_R_SUCCESS, keyed_state (some (distinct_key true))) :=
  (get_dst_key_next_candidate env_distinct_keys (keyed_state (some (distinct_key false)))
    (toy_tostruct_sig [1, 7, 1500, 1]) distinct_keyset rfl (by decide)
    (by
      intro rdata hr
      simp only [distinct_keyset, keyset_of, List.mem_cons, List.mem_singleton,
        List.not_mem_nil, or_false] at hr
      rcases hr with h | h
      · exact ⟨distinct_key false, by rw [h]; rfl⟩
      · exact ⟨distinct_key true, by rw [h]; rfl⟩)).2
    (distinct_key false) [] [[1, 1, 3, 1, 7, 43]] [1, 0, 3, 1, 7, 42]
    rfl rfl rfl rfl rfl (by simp)

/-- C11 at its failing inputs: a positive request with one signature record, by algorithm 1
and key id 7 of the signer `[1]`, and no trust anchor.

First keyset: trust `secure`, one key of key id 9, none matching the record.  Found in the
cache, `get_key` rejects the record and the request ends with `DNS_R_NOVALIDSIG`.  Delivered
by a fetch, `fetch_callback_validator` ignores the failure of `get_dst_key`, `validate`
resumes with `val->key == NULL`, and the request ends with success and trust `answer`.

Second keyset: trust `pending`, with a signature set.  Found in the cache, a nested
validator is created and the request waits.  Delivered by a fetch, the request ends with
success and trust `answer`, and no nested validator is created. -/
theorem fetch_callback_validator_skips_classification :
    first_matching_key env_base (toy_tostruct_sig [1, 7, 1500, 1]) other_key_keyset.rdatas = none ∧
    other_key_keyset.trust = dns_trust_secure ∧
    (∃ v ev,
      validator_start (env_cached other_key_keyset signxt) 3
        (positive_request (env_cached other_key_keyset signxt) [[1, 7, 1500, 1]]) = .ok v ∧
      v.effects = [Effect.task_send (positive_event [[1, 7, 1500, 1]]),
        Effect.view_simplefind [1], Effect.task_send ev] ∧
      ev.result = DNS_R_NOVALIDSIG ∧ ev.rdataset = some rrset_a) ∧
    (∃ v1 v2 f ev,
      validator_start env_base 3 (positive_request env_base [[1, 7, 1500, 1]]) = .ok v1 ∧
      v1.event.isSome = true ∧ v1.fetch = some f ∧
      f.action = fetchaction.fetch_callback_validator ∧
      fetch_callback_validator env_base 3 v1 (fetch_done ISC_R_SUCCESS other_key_keyset signxt) =
        .ok v2 ∧
      v2.effects = v1.effects ++ [Effect.resolver_destroyfetch f, Effect.task_send ev] ∧
      ev.result = ISC_R_SUCCESS ∧
      ev.rdataset = some { rrset_a with trust := dns_trust_answer }) ∧
    pending_keyset.trust = dns_trust_pending ∧
    (∃ v c,
      validator_start (env_cached pending_keyset signxt) 3
        (positive_request (env_cached pending_keyset signxt) [[1, 7, 1500, 1]]) = .ok v ∧
      v.event.isSome = true ∧ v.keyvalidator = some c ∧
      c.action = taskaction.keyvalidated ∧
      v.effects = [Effect.task_send (positive_event [[1, 7, 1500, 1]]),
        Effect.view_simplefind [1], Effect.validator_create c]) ∧
    ∃ v1 v2 f ev,
      validator_start env_base 3 (positive_request env_base [[1, 7, 1500, 1]]) = .ok v1 ∧
      v1.fetch = some f ∧
      fetch_callback_validator env_base 3 v1 (fetch_done ISC_R_SUCCESS pending_keyset signxt) =
        .ok v2 ∧
      v2.keyvalidator = none ∧
      v2.effects = v1.effects ++ [Effect.resolver_destroyfetch f, Effect.task_send ev] ∧
      ev.result = ISC_R_SUCCESS ∧
      ev.rdataset = some { rrset_a with trust := dns_trust_answer } :=
  ⟨rfl, rfl, ⟨_, _, rfl, rfl, rfl, rfl⟩, ⟨_, _, _, _, rfl, rfl, rfl, rfl, rfl, rfl, rfl, rfl⟩, rfl,
   ⟨_, _, rfl, rfl, rfl, rfl, rfl⟩, ⟨_, _, _, _, rfl, rfl, rfl, rfl, rfl, rfl, rfl⟩⟩

/-! ## Insecurity proof -/

/-- C18: for a name with no trust-anchor ancestor (`dns_keytable_finddeepestmatch` reports
`ISC_R_NOTFOUND`) `proveunsecure` returns `ISC_R_SUCCESS` at once and leaves the validator
as it was: no cache lookup, no fetch and no nested validator is recorded, and `val->labels`
is untouched.  An insecurity request for such a name therefore ends in `validator_start`
itself: the only call made is the posting of the completion event, with success. -/
theorem proveunsecure_no_trust_anchor (env : Env) (fuel : Nat) (val : dns_validator)
    (resume : Bool) (event : dns_validatorevent) (hev : val.event = some event)
    (hnone : (env.finddeepestmatch event.name).1 = ISC_R_NOTFOUND) :
    proveunsecure env fuel val resume = .ok (ISC_R_SUCCESS, val) ∧
    (validator_start_branch event = start_branch.insecurity →
      validator_start env fuel val =
        .ok { val with
          event := none,
          effects := val.effects ++ [Effect.task_send
            { event with result := ISC_R_SUCCESS,
                         ev_type := eventtype.DNS_EVENT_VALIDATORDONE,
                         ev_action := val.action }] }) := by
  have hrun : ∀ r, proveunsecure env fuel val r = .ok (ISC_R_SUCCESS, val) := by
    intro r
    simp [proveunsecure, hev, hnone]
  refine ⟨hrun resume, ?_⟩
  intro hbranch
  unfold validator_start
  simp only [hev, hbranch, hrun false, start_finish]
  simp [validator_done, hev]

/-- Witness of C18: the insecurity request in the world without trust anchors. -/
theorem proveunsecure_no_trust_anchor_witness :
    proveunsecure env_base 0 (insecurity_request env_base) false =
      .ok (ISC_R_SUCCESS, insecurity_request env_base) ∧
    ∃ v done, validator_start env_base 0 (insecurity_request env_base) = .ok v ∧
      v.event = none ∧ v.fetch = none ∧ v.keyvalidator = none ∧ v.labels = 0 ∧
      v.effects = (insecurity_request env_base).effects ++ [Effect.task_send done] ∧
      done.result = ISC_R_SUCCESS :=
  have h := proveunsecure_no_trust_anchor env_base 0 (insecurity_request env_base) false
    { ev_type := eventtype.DNS_EVENT_VALIDATORSTART, ev_action := taskaction.validator_start,
      result := ISC_R_FAILURE, name := [1, 2], type := 1, rdataset := some rrset_a,
      sigrdataset := none, message := none } rfl rfl
  ⟨h.1, _, _, h.2 rfl, rfl, rfl, rfl, rfl, rfl, rfl⟩

/-- C19 at its failing input: an insecurity request for `[1, 2]` under a trust anchor at the
root, and for the ancestor `[1]` a keyset with trust `secure` that holds a null key and has
no signature set with it.  Found in the cache, `proveunsecure` tests the missing signature
set first and the request ends with `DNS_R_NOTINSECURE`.  Delivered by a fetch,
`fetch_callback_nullkey` tests the trust first and the request ends with success and trust
`answer`, as it does on the cache path when a signature set is there. -/
theorem proveunsecure_secure_null_key_unsigned :
    containsnullkey env_base (null_keyset 7) = .ok true ∧
    (null_keyset 7).trust = dns_trust_secure ∧
    (∃ v start ev,
      validator_start (env_anchored (null_keyset 7) dns_rdataset_init) 3
        (insecurity_request (env_anchored (null_keyset 7) dns_rdataset_init)) = .ok v ∧
      v.effects = [Effect.task_send start, Effect.view_simplefind [1], Effect.task_send ev] ∧
      v.keyvalidator = none ∧
      ev.result = DNS_R_NOTINSECURE ∧ ev.rdataset = some rrset_a) ∧
    (∃ v1 v2 f ev,
      validator_start env_anchored_empty 3 (insecurity_request env_anchored_empty) = .ok v1 ∧
      v1.event.isSome = true ∧ v1.fetch = some f ∧
      f.action = fetchaction.fetch_callback_nullkey ∧
      fetch_callback_nullkey env_anchored_empty 3 v1
        (fetch_done ISC_R_SUCCESS (null_keyset 7) dns_rdataset_init) = .ok v2 ∧
      v2.effects = v1.effects ++ [Effect.task_send ev, Effect.resolver_destroyfetch f] ∧
      v2.keyvalidator = none ∧
      ev.result = ISC_R_SUCCESS ∧
      ev.rdataset = some { rrset_a with trust := dns_trust_answer }) ∧
    ∃ v start ev,
      validator_start (env_anchored (null_keyset 7) signxt) 3
        (insecurity_request (env_anchored (null_keyset 7) signxt)) = .ok v ∧
      v.effects = [Effect.task_send start, Effect.view_simplefind [1], Effect.task_send ev] ∧
      v.keyvalidator = none ∧
      ev.result = ISC_R_SUCCESS ∧
      ev.rdataset = some { rrset_a with trust := dns_trust_answer } :=
  ⟨rfl, rfl, ⟨_, _, _, rfl, rfl, rfl, rfl, rfl⟩,
   ⟨_, _, _, _, rfl, rfl, rfl, rfl, rfl, rfl, rfl, rfl, rfl⟩,
   ⟨_, _, _, rfl, rfl, rfl, rfl, rfl⟩⟩

/-- The loop of `proveunsecure` when every keyset lookup reports a no-such-name or
no-such-rrset outcome: it looks up the `n` depths from `val->labels` on, one after the
other, and returns `DNS_R_NOTINSECURE`. -/
theorem proveunsecure_loop_walk (env : Env) (event : dns_validatorevent) (tn : Nat → dns_name) :
    ∀ (n fuel : Nat) (val : dns_validator), val.event = some event → n < fuel →
      n = (if event.type = env.dns_rdatatype_key then env.depth event.name - val.labels
           else env.depth event.name + 1 - val.labels) →
      (∀ k, val.labels ≤ k → k < val.labels + n →
        (if k = env.depth event.name then tn k = event.name
         else env.splitatdepth event.name k = .ok (tn k)) ∧
        ((env.simplefind (tn k)).1 = DNS_R_NCACHENXDOMAIN ∨
         (env.simplefind (tn k)).1 = DNS_R_NCACHENXRRSET ∨
         (env.simplefind (tn k)).1 = DNS_R_NXDOMAIN ∨
         (env.simplefind (tn k)).1 = DNS_R_NXRRSET)) →
      ∃ val', proveunsecure_loop env fuel val = .ok (DNS_R_NOTINSECURE, val') ∧
        val'.effects = val.effects ++
          (List.range' val.labels n).map (fun k => Effect.view_simplefind (tn k)) ∧
        val'.labels = val.labels + n ∧ val'.event = val.event ∧ val'.fetch = val.fetch ∧
        val'.keyvalidator = val.keyvalidator ∧ val'.authvalidator = val.authvalidator := by
  intro n
  induction n with
  | zero =>
    intro fuel val hev hfuel hn _
    obtain ⟨f, rfl⟩ : ∃ f, fuel = f + 1 := ⟨fuel - 1, by omega⟩
    refine ⟨val, ?_, by simp, rfl, rfl, rfl, rfl, rfl⟩
    unfold proveunsecure_loop
    simp only [hev]
    by_cases hkey : event.type = env.dns_rdatatype_key
    · simp only [hkey, if_true] at hn
      by_cases hle : val.labels ≤ env.depth event.name
      · have : val.labels = env.depth event.name := by omega
        simp [hle, this, hkey]
      · simp [hle]
    · simp only [hkey, if_false] at hn
      have hle : ¬ val.labels ≤ env.depth event.name := by omega
      simp [hle]
  | succ m ih =>
    intro fuel val hev hfuel hn hall
    obtain ⟨f, rfl⟩ : ∃ f, fuel = f + 1 := ⟨fuel - 1, by omega⟩
    have hle : val.labels ≤ env.depth event.name := by
      by_cases hkey : event.type = env.dns_rdatatype_key
      · simp only [hkey, if_true] at hn; omega
      · simp only [hkey, if_false] at hn; omega
    have hbrk : ¬ (val.labels = env.depth event.name ∧ event.type = env.dns_rdatatype_key) := by
      rintro ⟨h1, h2⟩
      simp only [h2, if_true] at hn
      omega
    obtain ⟨hsplit, hnx⟩ := hall val.labels (le_refl _) (by omega)
    have hsplit1 : (if val.labels = env.depth event.name then
          (Except.ok event.name : Except isc_result dns_name)
        else env.splitatdepth event.name val.labels) = .ok (tn val.labels) := by
      by_cases h : val.labels = env.depth event.name
      · simp only [h, if_true] at hsplit ⊢
        rw [hsplit]
      · simp only [h, if_false] at hsplit ⊢
        exact hsplit
    have hns : (env.simplefind (tn val.labels)).1 ≠ ISC_R_SUCCESS := by
      rcases hnx with h | h | h | h <;> rw [h] <;> decide
    have hnf : (env.simplefind (tn val.labels)).1 ≠ ISC_R_NOTFOUND := by
      rcases hnx with h | h | h | h <;> rw [h] <;> decide
    have hstep : proveunsecure_loop env (f + 1) val =
        proveunsecure_loop env f
          { val with
            frdataset := (env.simplefind (tn val.labels)).2.1,
            fsigrdataset := (env.simplefind (tn val.labels)).2.2,
            effects := val.effects ++ [Effect.view_simplefind (tn val.labels)],
            labels := val.labels + 1 } := by
      conv => lhs; unfold proveunsecure_loop
      simp only [hev, hle, hbrk, hsplit1, hns, hnf, hnx, not_true_eq_false, if_false, if_true]
    obtain ⟨val', hrun, heff, hlab, hev', hfetch, hkv, hav⟩ := ih f
      { val with
        frdataset := (env.simplefind (tn val.labels)).2.1,
        fsigrdataset := (env.simplefind (tn val.labels)).2.2,
        effects := val.effects ++ [Effect.view_simplefind (tn val.labels)],
        labels := val.labels + 1 }
      hev (by omega)
      (by
        by_cases hkey : event.type = env.dns_rdatatype_key
        · simp only [hkey, if_true] at hn ⊢; omega
        · simp only [hkey, if_false] at hn ⊢; omega)
      (fun k hk1 hk2 => hall k (by simp only at hk1; omega) (by simp only at hk2; omega))
    refine ⟨val', by rw [hstep]; exact hrun, ?_, ?_, hev', hfetch, hkv, hav⟩
    · rw [heff]
      simp [List.range'_succ]
    · rw [hlab]
      simp only
      omega

/-- C20: for a request whose name has depth `d` under a deepest trust anchor of depth `a`,
when every keyset lookup of the walk reports a no-such-name or no-such-rrset outcome,
`proveunsecure` looks up the KEY rdataset at the depths `a + 1`, `a + 2`, ... in increasing
order, each once, up to `d` (up to `d - 1` when the queried type is KEY), makes no other
call, and returns `DNS_R_NOTINSECURE`.  `tn k` is the ancestor of the name at depth `k`. -/
theorem proveunsecure_walk_range (env : Env) (fuel : Nat) (val : dns_validator)
    (event : dns_validatorevent) (anchor : dns_name) (tn : Nat → dns_name) (n : Nat)
    (hev : val.event = some event)
    (hanchor : env.finddeepestmatch event.name = (ISC_R_SUCCESS, anchor))
    (hn : n = (if event.type = env.dns_rdatatype_key then env.depth event.name - 1
               else env.depth event.name) - env.depth anchor)
    (hfuel : n < fuel)
    (hall : ∀ k, env.depth anchor < k → k ≤ env.depth anchor + n →
      (if k = env.depth event.name then tn k = event.name
       else env.splitatdepth event.name k = .ok (tn k)) ∧
      ((env.simplefind (tn k)).1 = DNS_R_NCACHENXDOMAIN ∨
       (env.simplefind (tn k)).1 = DNS_R_NCACHENXRRSET ∨
       (env.simplefind (tn k)).1 = DNS_R_NXDOMAIN ∨
       (env.simplefind (tn k)).1 = DNS_R_NXRRSET)) :
    ∃ val', proveunsecure env fuel val false = .ok (DNS_R_NOTINSECURE, val') ∧
      val'.effects = val.effects ++
        (List.range' (env.depth anchor + 1) n).map (fun k => Effect.view_simplefind (tn k)) ∧
      val'.labels = env.depth anchor + 1 + n ∧ val'.event = val.event ∧
      val'.fetch = val.fetch ∧ val'.keyvalidator = val.keyvalidator ∧
      val'.authvalidator = val.authvalidator := by
  have hrun := proveunsecure_loop_walk env event tn n fuel
    { val with labels := env.depth anchor + 1 } hev hfuel
    (by
      by_cases hkey : event.type = env.dns_rdatatype_key
      · simp only [hkey, if_true] at hn ⊢; omega
      · simp only [hkey, if_false] at hn ⊢; omega)
    (fun k hk1 hk2 => hall k (by simp only at hk1; omega) (by simp only at hk2; omega))
  obtain ⟨val', h1, h2, h3, h4, h5, h6, h7⟩ := hrun
  refine ⟨val', ?_, h2, h3, h4, h5, h6, h7⟩
  unfold proveunsecure
  simp only [hev, hanchor] at h1 ⊢
  simpa using h1

/-- Witness of C20: the insecurity request for `[1, 2]` (depth 3) under a trust anchor at
the root (depth 1) when every lookup reports `DNS_R_NXRRSET`: the lookups are those for
`[1]` and `[1, 2]`, in this order. -/
theorem proveunsecure_walk_range_witness :
    ∃ val', proveunsecure env_anchored_nxrrset 3 (insecurity_request env_anchored_nxrrset) false =
        .ok (DNS_R_NOTINSECURE, val') ∧
      val'.effects = (insecurity_request env_anchored_nxrrset).effects ++
        [Effect.view_simplefind [1], Effect.view_simplefind [1, 2]] ∧
      val'.labels = 4 ∧ val'.event = (insecurity_request env_anchored_nxrrset).event ∧
      val'.fetch = none ∧ val'.keyvalidator = none ∧ val'.authvalidator = none :=
  proveunsecure_walk_range env_anchored_nxrrset 3 (insecurity_request env_anchored_nxrrset)
    { ev_type := eventtype.DNS_EVENT_VALIDATORSTART, ev_action := taskaction.validator_start,
      result := ISC_R_FAILURE, name := [1, 2], type := 1, rdataset := some rrset_a,
      sigrdataset := none, message := none }
    [] (fun k => ([1, 2] : dns_name).take (k - 1)) 2 rfl rfl rfl (by decide)
    (by
      intro k h1 h2
      have hk : k = 2 ∨ k = 3 := by
        have e1 : env_anchored_nxrrset.depth [] = 1 := rfl
        rw [e1] at h1 h2
        omega
      rcases hk with rfl | rfl
      · exact ⟨rfl, Or.inr (Or.inr (Or.inr rfl))⟩
      · exact ⟨rfl, Or.inr (Or.inr (Or.inr rfl))⟩)

/-! ## Denial of existence -/

/-- C14: in the different-name cases `nxtprovesnonexistence` returns what the reference
definition `nxt_gap_reference` gives for the queried name, the owner name, the successor
name of the first NXT record and the signer of the first record of the signature set. -/
theorem nxtprovesnonexistence_different_name (env : Env) (val : dns_validator)
    (event : dns_validatorevent) (nxtname : dns_name) (nxtset signxtset : dns_rdataset)
    (nrd srd : dns_rdata) (nrest srest : List dns_rdata)
    (hev : val.event = some event)
    (hn : nxtset.associated = true) (hnr : nxtset.rdatas = nrd :: nrest)
    (hs : signxtset.associated = true) (hsr : signxtset.rdatas = srd :: srest)
    (hne : env.compare event.name nxtname ≠ 0) :
    nxtprovesnonexistence env val nxtname nxtset signxtset =
      .ok (nxt_gap_reference env event.name nxtname (env.nxt_next nrd)
        (env.tostruct_sig srd).signer) := by
  have h1 : ¬ (0 < env.compare event.name nxtname) → env.compare event.name nxtname < 0 := by
    intro h; omega
  have h2 : 0 < env.compare event.name nxtname → ¬ env.compare event.name nxtname < 0 := by
    intro h; omega
  simp only [nxtprovesnonexistence, dns_rdataset_first, dns_rdataset_current, nxt_gap_reference,
    hev, hn, hnr, hs, hsr]
  by_cases hpos : 0 < env.compare event.name nxtname
  · by_cases h3 : 0 ≤ env.compare event.name (env.nxt_next nrd)
    · have h4 : ¬ env.compare event.name (env.nxt_next nrd) < 0 := by omega
      cases hq : env.equal (env.tostruct_sig srd).signer (env.nxt_next nrd) <;>
        simp [hne, hpos, h2 hpos, h3, h4, hq]
    · have h4 : env.compare event.name (env.nxt_next nrd) < 0 := by omega
      simp [hne, hpos, h2 hpos, h3, h4]
  · simp [hne, hpos, h1 hpos]

/-- Witness of C14: the queried name `[1, 2]` lies after the owner `[1, 1]` and before the
successor `[1, 3]`. -/
theorem nxtprovesnonexistence_different_name_witness :
    nxtprovesnonexistence env_base (denial_request env_base []) [1, 1] nxtset signxt =
      .ok (nxt_gap_reference env_base [1, 2] [1, 1] (env_base.nxt_next [1, 3])
        (env_base.tostruct_sig [1, 7, 1500, 1]).signer) :=
  nxtprovesnonexistence_different_name env_base (denial_request env_base [])
    { ev_type := eventtype.DNS_EVENT_VALIDATORSTART, ev_action := taskaction.validator_start,
      result := ISC_R_FAILURE, name := [1, 2], type := 1, rdataset := none,
      sigrdataset := none, message := some { authority := [], cursor := 0 } }
    [1, 1] nxtset signxt [1, 3] [1, 7, 1500, 1] [] [] rfl rfl rfl rfl rfl (by decide)

/-- Setting the trust of every rdataset of a list to pending does not change which types
have a covering SIG. -/
theorem nxtvalidate_findsig_pending (env : Env) (t : Nat) (l : List dns_rdataset) :
    (nxtvalidate_findsig env t (l.map (fun r => { r with trust := dns_trust_pending }))).isSome =
      (nxtvalidate_findsig env t l).isSome := by
  induction l with
  | nil => rfl
  | cons s rest ih =>
    simp only [List.map_cons, nxtvalidate_findsig]
    by_cases h : s.type = env.dns_rdatatype_sig ∧ s.covers = t
    · simp [h]
    · simp only [h, if_false]
      exact ih

/-- Setting the trust of every rdataset of a list to pending does not change the number of
pairs. -/
theorem nxtvalidate_pairs_pending (env : Env) (all : List dns_rdataset) :
    ∀ l : List dns_rdataset,
      nxtvalidate_pairs env (all.map (fun r => { r with trust := dns_trust_pending }))
          (l.map (fun r => { r with trust := dns_trust_pending })) =
        nxtvalidate_pairs env all l := by
  intro l
  induction l with
  | nil => rfl
  | cons r rest ih =>
    simp only [List.map_cons, nxtvalidate_pairs, nxtvalidate_findsig_pending, ih]

/-- The scan of `nxtvalidate` over the rdatasets of one name finds nothing exactly when no
pair is left; what it finds is the first pair, at an index `j` from which one pair fewer is
left. -/
theorem nxtvalidate_scan_pairs (env : Env) (all : List dns_rdataset) :
    ∀ (l : List dns_rdataset) (i : Nat),
      match nxtvalidate_scan env all i l with
      | none => nxtvalidate_pairs env all l = 0
      | some (j, r, _) =>
        i ≤ j ∧ r ∈ l ∧
          nxtvalidate_pairs env all l = nxtvalidate_pairs env all (l.drop (j - i + 1)) + 1 := by
  intro l
  induction l with
  | nil => intro i; simp [nxtvalidate_scan, nxtvalidate_pairs]
  | cons r rest ih =>
    intro i
    have ih1 := ih (i + 1)
    by_cases hsig : r.type = env.dns_rdatatype_sig
    · simp only [nxtvalidate_scan, hsig, if_true]
      cases hscan : nxtvalidate_scan env all (i + 1) rest with
      | none =>
        rw [hscan] at ih1
        simp only at ih1 ⊢
        simp [nxtvalidate_pairs, hsig, ih1]
      | some x =>
        obtain ⟨j, r', s⟩ := x
        rw [hscan] at ih1
        simp only at ih1 ⊢
        obtain ⟨h1, h2, h3⟩ := ih1
        refine ⟨by omega, List.mem_cons_of_mem _ h2, ?_⟩
        have e : j - i + 1 = (j - (i + 1) + 1) + 1 := by omega
        rw [e, List.drop_succ_cons]
        simp [nxtvalidate_pairs, hsig, h3]
    · cases hfind : nxtvalidate_findsig env r.type all with
      | none =>
        simp only [nxtvalidate_scan, hsig, if_false, hfind]
        cases hscan : nxtvalidate_scan env all (i + 1) rest with
        | none =>
          rw [hscan] at ih1
          simp only at ih1 ⊢
          simp [nxtvalidate_pairs, hfind, ih1]
        | some x =>
          obtain ⟨j, r', s⟩ := x
          rw [hscan] at ih1
          simp only at ih1 ⊢
          obtain ⟨h1, h2, h3⟩ := ih1
          refine ⟨by omega, List.mem_cons_of_mem _ h2, ?_⟩
          have e : j - i + 1 = (j - (i + 1) + 1) + 1 := by omega
          rw [e, List.drop_succ_cons]
          simp [nxtvalidate_pairs, hfind, h3]
      | some s =>
        simp only [nxtvalidate_scan, hsig, if_false, hfind]
        refine ⟨le_refl _, List.mem_cons_self _ _, ?_⟩
        simp [nxtvalidate_pairs, hsig, hfind]
        omega

/-- A list from an index on starts with the element at that index. -/
theorem list_drop_of_get? {α : Type} : ∀ (l : List α) (n : Nat) (a : α),
    l.get? n = some a → l.drop n = a :: l.drop (n + 1) := by
  intro l
  induction l with
  | nil => intro n a h; simp at h
  | cons x rest ih =>
    intro n a h
    cases n with
    | zero => simp at h; simp [h]
    | succ m =>
      simp only [List.get?_cons_succ] at h
      simpa using ih m a h

/-- Reading back the index that `List.set` has written. -/
theorem list_get?_set_self {α : Type} : ∀ (l : List α) (n : Nat) (a b : α),
    l.get? n = some a → (l.set n b).get? n = some b := by
  intro l
  induction l with
  | nil => intro n a b h; simp at h
  | cons x rest ih =>
    intro n a b h
    cases n with
    | zero => simp
    | succ m =>
      simp only [List.get?_cons_succ] at h
      simpa using ih m a b (by simpa using h)

/-- The element at an index belongs to the list. -/
theorem list_mem_of_get? {α : Type} : ∀ (l : List α) (n : Nat) (a : α),
    l.get? n = some a → a ∈ l := by
  intro l
  induction l with
  | nil => intro n a h; simp at h
  | cons x rest ih =>
    intro n a h
    cases n with
    | zero => simp at h; simp [h]
    | succ m =>
      simp only [List.get?_cons_succ] at h
      exact List.mem_cons_of_mem _ (ih m a h)

/-- One pass of the loop of `nxtvalidate` over a name reached from the previous name, when
the name holds a pair: every trust of the name becomes pending, a child is created for the
first pair, and the loop returns `DNS_R_WAIT`. -/
theorem nxtvalidate_loop_fresh_found (env : Env) (hmem : env.mem_ok = true) (f : Nat) (msg : dns_message)
    (val : dns_validator) (event : dns_validatorevent) (name : dns_name)
    (list : List dns_rdataset) (j : Nat) (r s : dns_rdataset)
    (hev : val.event = some event)
    (hget : msg.authority.get? msg.cursor = some (name, list))
    (hscan : nxtvalidate_scan env (trust_pending list) 0 (trust_pending list) = some (j, r, s))
    (hr : r.type ≠ 0) :
    nxtvalidate_loop env (f + 1) msg val false =
      .ok (nxtvalidate_step.returned DNS_R_WAIT
        (nxtvalidate_waiting val event (with_current msg name (trust_pending list)) j
          (subvalidator_of name r.type (some r) (some s) none taskaction.authvalidated))) := by
  unfold nxtvalidate_loop
  simp only [trust_pending] at hscan
  simp only [hget, Bool.false_eq_true, if_false, List.drop_zero, hscan]
  simp [dns_validator_create, hr, hmem, set_message, hev, nxtvalidate_waiting,
    with_message, with_current, trust_pending]

/-- One pass of the loop of `nxtvalidate` over a name reached from the previous name, when
the name holds no pair: the loop goes on with the next name, or ends after the last. -/
theorem nxtvalidate_loop_fresh_none (env : Env) (f : Nat) (msg : dns_message)
    (val : dns_validator) (event : dns_validatorevent) (name : dns_name)
    (list : List dns_rdataset)
    (hev : val.event = some event)
    (hget : msg.authority.get? msg.cursor = some (name, list))
    (hscan : nxtvalidate_scan env (trust_pending list) 0 (trust_pending list) = none) :
    nxtvalidate_loop env (f + 1) msg val false =
      if msg.cursor + 1 < msg.authority.length then
        nxtvalidate_loop env f
          (dns_message_nextname (with_current msg name (trust_pending list))).2
          (with_message val event
            (dns_message_nextname (with_current msg name (trust_pending list))).2) false
      else
        .ok (nxtvalidate_step.exhausted
          (with_message val event (with_current msg name (trust_pending list))) (some name)) := by
  conv => lhs; unfold nxtvalidate_loop
  simp only [trust_pending] at hscan
  simp only [hget, Bool.false_eq_true, if_false, List.drop_zero, hscan]
  by_cases h : msg.cursor + 1 < msg.authority.length
  · simp [h, set_message, hev, with_message, with_current, trust_pending, dns_message_nextname]
  · simp [h, set_message, hev, with_message, with_current, trust_pending, dns_message_nextname]

/-- The pass of the loop of `nxtvalidate` that resumes behind `val->currentset`, when a pair
follows: a child is created for it and the loop returns `DNS_R_WAIT`. -/
theorem nxtvalidate_loop_resume_found (env : Env) (hmem : env.mem_ok = true) (f : Nat) (msg : dns_message)
    (val : dns_validator) (event : dns_validatorevent) (name : dns_name)
    (list : List dns_rdataset) (j0 j : Nat) (r s : dns_rdataset)
    (hev : val.event = some event) (hcur : val.currentset = some j0)
    (hget : msg.authority.get? msg.cursor = some (name, list))
    (hscan : nxtvalidate_scan env list (j0 + 1) (list.drop (j0 + 1)) = some (j, r, s))
    (hr : r.type ≠ 0) :
    nxtvalidate_loop env (f + 1) msg val true =
      .ok (nxtvalidate_step.returned DNS_R_WAIT
        (nxtvalidate_waiting val event (with_current msg name list) j
          (subvalidator_of name r.type (some r) (some s) none taskaction.authvalidated))) := by
  unfold nxtvalidate_loop
  simp only [hget, if_true, hcur, hscan]
  simp [dns_validator_create, hr, hmem, set_message, hev, nxtvalidate_waiting,
    with_message, with_current]

/-- The pass of the loop of `nxtvalidate` that resumes behind `val->currentset`, when no
pair follows at that name: the loop goes on with the next name, or ends after the last. -/
theorem nxtvalidate_loop_resume_none (env : Env) (f : Nat) (msg : dns_message)
    (val : dns_validator) (event : dns_validatorevent) (name : dns_name)
    (list : List dns_rdataset) (j0 : Nat)
    (hev : val.event = some event) (hcur : val.currentset = some j0)
    (hget : msg.authority.get? msg.cursor = some (name, list))
    (hscan : nxtvalidate_scan env list (j0 + 1) (list.drop (j0 + 1)) = none) :
    nxtvalidate_loop env (f + 1) msg val true =
      if msg.cursor + 1 < msg.authority.length then
        nxtvalidate_loop env f
          (dns_message_nextname (with_current msg name list)).2
          (with_message { val with currentset := none } event
            (dns_message_nextname (with_current msg name list)).2) false
      else
        .ok (nxtvalidate_step.exhausted
          (with_message { val with currentset := none } event (with_current msg name list))
          (some name)) := by
  conv => lhs; unfold nxtvalidate_loop
  simp only [hget, if_true, hcur, hscan]
  by_cases h : msg.cursor + 1 < msg.authority.length
  · simp [h, set_message, hev, with_message, with_current, dns_message_nextname]
  · simp [h, set_message, hev, with_message, with_current, dns_message_nextname]

/-- An rdataset of the list with every trust pending has the type of one of the list. -/
theorem trust_pending_type (list : List dns_rdataset) (r : dns_rdataset)
    (h : r ∈ trust_pending list) : ∃ r0 ∈ list, r.type = r0.type := by
  simp only [trust_pending, List.mem_map] at h
  obtain ⟨r0, h0, h1⟩ := h
  exact ⟨r0, h0, by rw [← h1]⟩

/-- The loop of `nxtvalidate` from the start of the current name on: with no pair at or
behind that name it runs out of names; otherwise it creates the child of the first pair and
returns `DNS_R_WAIT`, with one pair fewer left. -/
theorem nxtvalidate_loop_fresh (env : Env) (hmem : env.mem_ok = true) :
    ∀ (fuel : Nat) (msg : dns_message) (val : dns_validator) (event : dns_validatorevent),
      val.event = some event →
      msg.cursor < msg.authority.length →
      msg.authority.length ≤ msg.cursor + fuel →
      (∀ p ∈ msg.authority, ∀ r ∈ p.2, r.type ≠ 0) →
      (authority_pairs env (msg.authority.drop msg.cursor) = 0 →
        ∃ msg' nm, nxtvalidate_loop env fuel msg val false =
          .ok (nxtvalidate_step.exhausted (with_message val event msg') nm)) ∧
      (authority_pairs env (msg.authority.drop msg.cursor) ≠ 0 →
        ∃ msg' j c, nxtvalidate_loop env fuel msg val false =
            .ok (nxtvalidate_step.returned DNS_R_WAIT (nxtvalidate_waiting val event msg' j c)) ∧
          msg'.cursor < msg'.authority.length ∧
          msg'.authority.length = msg.authority.length ∧
          (∀ p ∈ msg'.authority, ∀ r ∈ p.2, r.type ≠ 0) ∧
          pairs_left env msg' j + 1 = authority_pairs env (msg.authority.drop msg.cursor)) := by
  intro fuel
  induction fuel with
  | zero => intro msg val event _ hlt hfuel _; omega
  | succ f ih =>
    intro msg val event hev hlt hfuel htypes
    obtain ⟨⟨name, list⟩, hget⟩ : ∃ p, msg.authority.get? msg.cursor = some p :=
      ⟨_, List.get?_eq_some.2 ⟨hlt, rfl⟩⟩
    have hdrop := list_drop_of_get? _ _ _ hget
    have hR : authority_pairs env (msg.authority.drop msg.cursor) =
        nxtvalidate_pairs env list list +
          authority_pairs env (msg.authority.drop (msg.cursor + 1)) := by
      rw [hdrop]; rfl
    have hpend : nxtvalidate_pairs env (trust_pending list) (trust_pending list) =
        nxtvalidate_pairs env list list := nxtvalidate_pairs_pending env list list
    have hlist : ∀ r ∈ trust_pending list, r.type ≠ 0 := by
      intro r hr
      obtain ⟨r0, h0, h1⟩ := trust_pending_type list r hr
      rw [h1]
      exact htypes (name, list) (list_mem_of_get? _ _ _ hget) r0 h0
    have htypes1 : ∀ p ∈ msg.authority.set msg.cursor (name, trust_pending list),
        ∀ r ∈ p.2, r.type ≠ 0 := by
      intro p hp r hr
      rcases List.mem_or_eq_of_mem_set hp with h | h
      · exact htypes p h r hr
      · subst h; exact hlist r hr
    have hsc := nxtvalidate_scan_pairs env (trust_pending list) (trust_pending list) 0
    cases hscan : nxtvalidate_scan env (trust_pending list) 0 (trust_pending list) with
    | some x =>
      obtain ⟨j, r, s⟩ := x
      rw [hscan] at hsc
      simp only at hsc
      obtain ⟨_, hmr, hcount⟩ := hsc
      have hrun := nxtvalidate_loop_fresh_found env hmem f msg val event name list j r s hev hget hscan
        (hlist r hmr)
      constructor
      · intro h0; omega
      · intro _
        refine ⟨with_current msg name (trust_pending list), j, _, hrun, ?_, ?_, htypes1, ?_⟩
        · simpa [with_current] using hlt
        · simp [with_current]
        · have hg := list_get?_set_self msg.authority msg.cursor (name, list)
            (name, trust_pending list) hget
          have hd := List.drop_set_of_lt (name, trust_pending list) msg.authority
            (Nat.lt_succ_self msg.cursor)
          simp only [Nat.succ_eq_add_one] at hd
          simp only [pairs_left, with_current, hg, hd]
          simp only [Nat.sub_zero] at hcount
          omega
    | none =>
      rw [hscan] at hsc
      simp only at hsc
      have hrun := nxtvalidate_loop_fresh_none env f msg val event name list hev hget hscan
      by_cases hnext : msg.cursor + 1 < msg.authority.length
      · rw [if_pos hnext] at hrun
        have hm2 : (dns_message_nextname (with_current msg name (trust_pending list))).2 =
            { authority := msg.authority.set msg.cursor (name, trust_pending list),
              cursor := msg.cursor + 1 } := by
          simp [dns_message_nextname, with_current, hnext]
        rw [hm2] at hrun
        have ih1 := ih
          { authority := msg.authority.set msg.cursor (name, trust_pending list),
            cursor := msg.cursor + 1 }
          (with_message val event
            { authority := msg.authority.set msg.cursor (name, trust_pending list),
              cursor := msg.cursor + 1 })
          _ rfl (by simpa using hnext) (by simp only [List.length_set]; omega) htypes1
        have hd := List.drop_set_of_lt (name, trust_pending list) msg.authority
          (Nat.lt_succ_self msg.cursor)
        simp only [Nat.succ_eq_add_one] at hd
        simp only [hd, List.length_set] at ih1
        have hR1 : authority_pairs env (msg.authority.drop msg.cursor) =
            authority_pairs env (msg.authority.drop (msg.cursor + 1)) := by omega
        rw [hR1, hrun]
        exact ih1
      · rw [if_neg hnext] at hrun
        have hnil : msg.authority.drop (msg.cursor + 1) = [] :=
          List.drop_of_length_le (by omega)
        constructor
        · intro _
          exact ⟨_, _, hrun⟩
        · intro h
          rw [hR, hnil] at h
          exact absurd (by simp [authority_pairs]; omega) h

/-- The loop of `nxtvalidate`, resumed behind `val->currentset`: with no pair left it runs
out of names; otherwise it creates the child of the next pair and returns `DNS_R_WAIT`, with
one pair fewer left. -/
theorem nxtvalidate_loop_resume (env : Env) (hmem : env.mem_ok = true) (fuel : Nat)
    (msg : dns_message) (val : dns_validator) (event : dns_validatorevent) (j0 : Nat)
    (hev : val.event = some event) (hcur : val.currentset = some j0)
    (hlt : msg.cursor < msg.authority.length)
    (hfuel : msg.authority.length ≤ msg.cursor + fuel)
    (htypes : ∀ p ∈ msg.authority, ∀ r ∈ p.2, r.type ≠ 0) :
    (pairs_left env msg j0 = 0 →
      ∃ msg' nm, nxtvalidate_loop env fuel msg val true =
        .ok (nxtvalidate_step.exhausted
          (with_message { val with currentset := none } event msg') nm)) ∧
    (pairs_left env msg j0 ≠ 0 →
      ∃ msg' j c, nxtvalidate_loop env fuel msg val true =
          .ok (nxtvalidate_step.returned DNS_R_WAIT (nxtvalidate_waiting val event msg' j c)) ∧
        msg'.cursor < msg'.authority.length ∧
        msg'.authority.length = msg.authority.length ∧
        (∀ p ∈ msg'.authority, ∀ r ∈ p.2, r.type ≠ 0) ∧
        pairs_left env msg' j + 1 = pairs_left env msg j0) := by
  obtain ⟨f, rfl⟩ : ∃ f, fuel = f + 1 := ⟨fuel - 1, by omega⟩
  obtain ⟨⟨name, list⟩, hget⟩ : ∃ p, msg.authority.get? msg.cursor = some p :=
    ⟨_, List.get?_eq_some.2 ⟨hlt, rfl⟩⟩
  have hL : pairs_left env msg j0 =
      nxtvalidate_pairs env list (list.drop (j0 + 1)) +
        authority_pairs env (msg.authority.drop (msg.cursor + 1)) := by
    simp only [pairs_left, hget]
  have hin : (name, list) ∈ msg.authority := list_mem_of_get? _ _ _ hget
  have htypes1 : ∀ p ∈ msg.authority.set msg.cursor (name, list), ∀ r ∈ p.2, r.type ≠ 0 := by
    intro p hp r hr
    rcases List.mem_or_eq_of_mem_set hp with h | h
    · exact htypes p h r hr
    · subst h; exact htypes _ hin r hr
  have hd := List.drop_set_of_lt (name, list) msg.authority (Nat.lt_succ_self msg.cursor)
  simp only [Nat.succ_eq_add_one] at hd
  have hsc := nxtvalidate_scan_pairs env list (list.drop (j0 + 1)) (j0 + 1)
  cases hscan : nxtvalidate_scan env list (j0 + 1) (list.drop (j0 + 1)) with
  | some x =>
    obtain ⟨j, r, s⟩ := x
    rw [hscan] at hsc
    simp only at hsc
    obtain ⟨hj, hmr, hcount⟩ := hsc
    have hr : r.type ≠ 0 := htypes _ hin r (List.mem_of_mem_drop hmr)
    have hrun := nxtvalidate_loop_resume_found env hmem f msg val event name list j0 j r s hev hcur hget
      hscan hr
    have hidx : j0 + 1 + (j - (j0 + 1) + 1) = j + 1 := by omega
    rw [List.drop_drop, hidx] at hcount
    constructor
    · intro h0; omega
    · intro _
      refine ⟨with_current msg name list, j, _, hrun, ?_, ?_, htypes1, ?_⟩
      · simpa [with_current] using hlt
      · simp [with_current]
      · have hg := list_get?_set_self msg.authority msg.cursor (name, list) (name, list) hget
        rw [hL]
        simp only [pairs_left, with_current, hg, hd]
        omega
  | none =>
    rw [hscan] at hsc
    simp only at hsc
    have hrun := nxtvalidate_loop_resume_none env f msg val event name list j0 hev hcur hget hscan
    by_cases hnext : msg.cursor + 1 < msg.authority.length
    · rw [if_pos hnext] at hrun
      have hm2 : (dns_message_nextname (with_current msg name list)).2 =
          { authority := msg.authority.set msg.cursor (name, list),
            cursor := msg.cursor + 1 } := by
        simp [dns_message_nextname, with_current, hnext]
      rw [hm2] at hrun
      have h1 := nxtvalidate_loop_fresh env hmem f
        { authority := msg.authority.set msg.cursor (name, list), cursor := msg.cursor + 1 }
        (with_message { val with currentset := none } event
          { authority := msg.authority.set msg.cursor (name, list), cursor := msg.cursor + 1 })
        _ rfl (by simpa using hnext) (by simp only [List.length_set]; omega) htypes1
      simp only [hd, List.length_set] at h1
      have hL1 : pairs_left env msg j0 =
          authority_pairs env (msg.authority.drop (msg.cursor + 1)) := by omega
      rw [hL1, hrun]
      exact h1
    · rw [if_neg hnext] at hrun
      have hnil : msg.authority.drop (msg.cursor + 1) = [] :=
        List.drop_of_length_le (by omega)
      constructor
      · intro _
        exact ⟨_, _, hrun⟩
      · intro h
        rw [hL, hnil] at h
        exact absurd (by simp [authority_pairs]; omega) h

/-- The call `nxtvalidate(val, ISC_TRUE)` of a request that has seen a pair: with no pair
left it returns success or `DNS_R_NOVALIDNXT` as the "non-existence found" flag says;
otherwise it creates the child of the next pair and returns `DNS_R_WAIT`. -/
theorem nxtvalidate_resume (env : Env) (hmem : env.mem_ok = true) (fuel : Nat)
    (val : dns_validator) (event : dns_validatorevent) (msg : dns_message) (j0 : Nat)
    (hev : val.event = some event) (hmsg : event.message = some msg)
    (hcur : val.currentset = some j0) (hseen : val.seensig = true)
    (hlt : msg.cursor < msg.authority.length) (hfuel : msg.authority.length ≤ fuel)
    (htypes : ∀ p ∈ msg.authority, ∀ r ∈ p.2, r.type ≠ 0) :
    (pairs_left env msg j0 = 0 →
      ∃ msg', nxtvalidate env fuel val true =
        .ok (if val.attributes &&& VALATTR_FOUNDNONEXISTENCE = 0 then DNS_R_NOVALIDNXT
             else ISC_R_SUCCESS,
          with_message { val with currentset := none } event msg')) ∧
    (pairs_left env msg j0 ≠ 0 →
      ∃ msg' j c, nxtvalidate env fuel val true =
          .ok (DNS_R_WAIT, nxtvalidate_waiting val event msg' j c) ∧
        msg'.cursor < msg'.authority.length ∧
        msg'.authority.length = msg.authority.length ∧
        (∀ p ∈ msg'.authority, ∀ r ∈ p.2, r.type ≠ 0) ∧
        pairs_left env msg' j + 1 = pairs_left env msg j0) := by
  have hloop := nxtvalidate_loop_resume env hmem fuel msg val event j0 hev hcur hlt
    (by omega) htypes
  have hshape : nxtvalidate env fuel val true =
      match nxtvalidate_loop env fuel msg val true with
      | .error e => .error e
      | .ok (nxtvalidate_step.returned r v) => .ok (r, v)
      | .ok (nxtvalidate_step.exhausted v name) => nxtvalidate_finish env v ISC_R_NOMORE name := by
    unfold nxtvalidate
    simp [hev, hmsg]
  constructor
  · intro h0
    obtain ⟨msg', nm, hrun⟩ := hloop.1 h0
    refine ⟨msg', ?_⟩
    rw [hshape, hrun]
    by_cases hflag : val.attributes &&& VALATTR_FOUNDNONEXISTENCE = 0
    · simp [nxtvalidate_finish, with_message, hflag, hseen]
    · simp [nxtvalidate_finish, with_message, hflag]
  · intro h1
    obtain ⟨msg', j, c, hrun, h2, h3, h4, h5⟩ := hloop.2 h1
    exact ⟨msg', j, c, by rw [hshape, hrun], h2, h3, h4, h5⟩

/-- After `val->attributes |= VALATTR_FOUNDNONEXISTENCE` the test of the flag is non-zero. -/
theorem found_flag_set (a : Nat) :
    (a ||| VALATTR_FOUNDNONEXISTENCE) &&& VALATTR_FOUNDNONEXISTENCE ≠ 0 := by
  have h : (a ||| VALATTR_FOUNDNONEXISTENCE) &&& VALATTR_FOUNDNONEXISTENCE =
      VALATTR_FOUNDNONEXISTENCE := by
    apply Nat.eq_of_testBit_eq
    intro i
    simp only [Nat.testBit_and, Nat.testBit_or]
    cases a.testBit i <;> cases VALATTR_FOUNDNONEXISTENCE.testBit i <;> rfl
  rw [h]
  decide

/-- The function `nxtprovesnonexistence` reads nothing of the validator but its event. -/
theorem nxtprovesnonexistence_event (env : Env) (val val' : dns_validator) (nxtname : dns_name)
    (nxtset signxtset : dns_rdataset) (h : val.event = val'.event) :
    nxtprovesnonexistence env val nxtname nxtset signxtset =
      nxtprovesnonexistence env val' nxtname nxtset signxtset := by
  unfold nxtprovesnonexistence
  rw [h]

/-- The function `authvalidated` on the completion event of a successful child: the child
is destroyed, the flag is set if the test holds, and `nxtvalidate` is resumed. -/
theorem authvalidated_success (env : Env) (fuel : Nat) (val : dns_validator) (c : subvalidator)
    (devent : dns_validatorevent) (b : Bool)
    (hav : val.authvalidator = some c) (hres : devent.result = ISC_R_SUCCESS)
    (hp : authvalidated_proves env val devent = .ok b) :
    authvalidated env fuel val devent =
      match nxtvalidate env fuel
          { val with
            authvalidator := none,
            effects := val.effects ++ [Effect.validator_destroy c],
            attributes := if b = true then val.attributes ||| VALATTR_FOUNDNONEXISTENCE
                          else val.attributes } true with
      | .error e => .error e
      | .ok (result, val3) =>
        if result ≠ DNS_R_WAIT then validator_done val3 result else .ok val3 := by
  unfold authvalidated_proves at hp
  unfold authvalidated
  simp only [destroy_authvalidator, hav, hres, ne_eq, not_true_eq_false, if_false]
  cases hrd : devent.rdataset with
  | none => simp [hrd] at hp
  | some rdataset =>
    simp only [hrd] at hp ⊢
    by_cases hnxt : rdataset.type = env.dns_rdatatype_nxt
    · simp only [hnxt, if_true] at hp ⊢
      cases hsg : devent.sigrdataset with
      | none => simp [hsg] at hp
      | some sigrdataset =>
        simp only [hsg] at hp ⊢
        rw [nxtprovesnonexistence_event env
          { val with authvalidator := none,
                     effects := val.effects ++ [Effect.validator_destroy c] }
          val devent.name rdataset sigrdataset rfl, hp]
        cases b <;> simp
    · simp only [hnxt, if_false] at hp ⊢
      have hb : b = false := by
        injection hp with h
        exact h.symm
      subst hb
      simp

/-- Neither result of the end of `nxtvalidate` is `DNS_R_WAIT`. -/
theorem nxtvalidate_end_not_wait (p : Prop) [Decidable p] :
    (if p then DNS_R_NOVALIDNXT else ISC_R_SUCCESS) ≠ DNS_R_WAIT := by
  by_cases h : p <;> simp [h]

/-- The function `validator_done` on a validator that has an event. -/
theorem validator_done_with_message (val : dns_validator) (event : dns_validatorevent)
    (msg : dns_message) (r : isc_result) :
    validator_done (with_message val event msg) r =
      .ok { with_message val event msg with
        event := none,
        effects := val.effects ++ [Effect.task_send
          { event with message := some msg, result := r,
                       ev_type := eventtype.DNS_EVENT_VALIDATORDONE,
                       ev_action := val.action }] } := by
  simp [validator_done, with_message]

/-- One completion event of a successful child delivered to a waiting denial request: if no
pair is left the request ends, with success if the flag is set by now and with
`DNS_R_NOVALIDNXT` if not; otherwise the child of the next pair is created and the request
waits again. -/
theorem authvalidated_step (env : Env) (hmem : env.mem_ok = true) (fuel : Nat)
    (qname : dns_name) (qtype : Nat) (val : dns_validator) (left : Nat)
    (devent : dns_validatorevent) (b : Bool)
    (hw : denial_waits env fuel qname qtype val left)
    (hres : devent.result = ISC_R_SUCCESS)
    (hp : authvalidated_proves env val devent = .ok b) :
    (left = 0 →
      ∃ v' c ev, authvalidated env fuel val devent = .ok v' ∧ v'.event = none ∧
        val.authvalidator = some c ∧
        v'.effects = val.effects ++ [Effect.validator_destroy c, Effect.task_send ev] ∧
        ev.result = (if b = true ∨ val.attributes &&& VALATTR_FOUNDNONEXISTENCE ≠ 0
          then ISC_R_SUCCESS else DNS_R_NOVALIDNXT) ∧
        ev.name = qname ∧ ev.type = qtype ∧
        ev.ev_type = eventtype.DNS_EVENT_VALIDATORDONE) ∧
    (left ≠ 0 →
      ∃ v' c c', authvalidated env fuel val devent = .ok v' ∧
        denial_waits env fuel qname qtype v' (left - 1) ∧
        val.authvalidator = some c ∧ v'.authvalidator = some c' ∧
        v'.effects = val.effects ++ [Effect.validator_destroy c, Effect.validator_create c'] ∧
        v'.attributes = (if b = true then val.attributes ||| VALATTR_FOUNDNONEXISTENCE
          else val.attributes)) := by
  obtain ⟨event, msg, j, c, hev, hmsg, hname, htype, hcur, hav, hseen, hlt, hfuel, htypes,
    hleft⟩ := hw
  have hshape := authvalidated_success env fuel val c devent b hav hres hp
  have hnx := nxtvalidate_resume env hmem fuel
    { val with
      authvalidator := none,
      effects := val.effects ++ [Effect.validator_destroy c],
      attributes := if b = true then val.attributes ||| VALATTR_FOUNDNONEXISTENCE
                    else val.attributes }
    event msg j hev hmsg hcur hseen hlt hfuel htypes
  rw [hleft] at hnx
  constructor
  · intro h0
    obtain ⟨msg', hrun⟩ := hnx.1 h0
    rw [hrun] at hshape
    simp only at hshape
    rw [if_pos (nxtvalidate_end_not_wait _), validator_done_with_message] at hshape
    refine ⟨_, c,
      { event with
        message := some msg',
        result := if (if b = true then val.attributes ||| VALATTR_FOUNDNONEXISTENCE
            else val.attributes) &&& VALATTR_FOUNDNONEXISTENCE = 0
          then DNS_R_NOVALIDNXT else ISC_R_SUCCESS,
        ev_type := eventtype.DNS_EVENT_VALIDATORDONE,
        ev_action := val.action },
      hshape, rfl, hav, by simp, ?_, hname, htype, rfl⟩
    cases b with
    | true => simp [found_flag_set]
    | false =>
      by_cases hflag : val.attributes &&& VALATTR_FOUNDNONEXISTENCE = 0 <;> simp [hflag]
  · intro h1
    obtain ⟨msg', j', c', hrun, h2, h3, h4, h5⟩ := hnx.2 h1
    rw [hrun] at hshape
    simp only [ne_eq, not_true_eq_false, if_false] at hshape
    refine ⟨_, c, c', hshape, ?_, hav, rfl, ?_, rfl⟩
    · exact ⟨{ event with message := some msg' }, msg', j', c', rfl, rfl, hname, htype, rfl,
        rfl, rfl, h2, by omega, h4, by omega⟩
    · simp [nxtvalidate_waiting]

/-- The test of `authvalidated` reads nothing of the validator but the name and the type of
its event. -/
theorem authvalidated_proves_event (env : Env) (val val' : dns_validator)
    (e e' : dns_validatorevent) (devent : dns_validatorevent)
    (h : val.event = some e) (h' : val'.event = some e')
    (hname : e.name = e'.name) (htype : e.type = e'.type) :
    authvalidated_proves env val devent = authvalidated_proves env val' devent := by
  unfold authvalidated_proves nxtprovesnonexistence
  simp only [h, h', hname, htype]

/-- The children created among two lists of calls. -/
theorem children_created_append (a b : List Effect) :
    children_created (a ++ b) = children_created a + children_created b := by
  simp [children_created, List.filter_append]

/-- The completion events of successful children delivered in turn to a waiting denial
request with `left` pairs still to reach: up to `left` events leave the request waiting, with
one child created per event; the next event ends it, with success if the flag was set or one
of the events set it, and with `DNS_R_NOVALIDNXT` if not. -/
theorem authvalidated_run_spec (env : Env) (hmem : env.mem_ok = true) (fuel : Nat)
    (qname : dns_name) (qtype : Nat) (v0 : dns_validator) (e0 : dns_validatorevent)
    (h0 : v0.event = some e0) (hn0 : e0.name = qname) (ht0 : e0.type = qtype) :
    ∀ (devents : List dns_validatorevent) (val : dns_validator) (left : Nat),
      denial_waits env fuel qname qtype val left →
      (∀ d ∈ devents, d.result = ISC_R_SUCCESS ∧ ∃ b, authvalidated_proves env v0 d = .ok b) →
      (devents.length ≤ left →
        ∃ v', authvalidated_run env fuel val devents = .ok v' ∧
          denial_waits env fuel qname qtype v' (left - devents.length) ∧
          children_created v'.effects = children_created val.effects + devents.length ∧
          (v'.attributes &&& VALATTR_FOUNDNONEXISTENCE ≠ 0 ↔
            (val.attributes &&& VALATTR_FOUNDNONEXISTENCE ≠ 0 ∨
              proves_any env v0 devents = true))) ∧
      (devents.length = left + 1 →
        ∃ v' ev, authvalidated_run env fuel val devents = .ok v' ∧ v'.event = none ∧
          v'.effects.getLast? = some (Effect.task_send ev) ∧
          children_created v'.effects = children_created val.effects + left ∧
          ev.result = (if val.attributes &&& VALATTR_FOUNDNONEXISTENCE ≠ 0 ∨
              proves_any env v0 devents = true then ISC_R_SUCCESS else DNS_R_NOVALIDNXT) ∧
          ev.name = qname ∧ ev.type = qtype ∧
          ev.ev_type = eventtype.DNS_EVENT_VALIDATORDONE) := by
  intro devents
  induction devents with
  | nil =>
    intro val left hw _
    constructor
    · intro _
      exact ⟨val, rfl, by simpa using hw, by simp, by simp [proves_any]⟩
    · intro h; simp at h
  | cons d rest ih =>
    intro val left hw hall
    obtain ⟨hres, b, hb0⟩ := hall d (List.mem_cons_self _ _)
    have hrest : ∀ x ∈ rest, x.result = ISC_R_SUCCESS ∧
        ∃ b, authvalidated_proves env v0 x = .ok b :=
      fun x hx => hall x (List.mem_cons_of_mem _ hx)
    have hb : authvalidated_proves env val d = .ok b := by
      obtain ⟨event, _, _, _, hev, _, hname, htype, _⟩ := hw
      rw [authvalidated_proves_event env val v0 event e0 d hev h0 (by rw [hname, hn0])
        (by rw [htype, ht0])]
      exact hb0
    have hany : proves_any env v0 (d :: rest) = (b || proves_any env v0 rest) := by
      simp only [proves_any, List.any_cons, hb0]
      cases b <;> rfl
    have hstep := authvalidated_step env hmem fuel qname qtype val left d b hw hres hb
    cases left with
    | zero =>
      constructor
      · intro h; simp at h
      · intro hlen
        have hnil : rest = [] := by
          cases rest with
          | nil => rfl
          | cons x xs => simp at hlen
        subst hnil
        obtain ⟨v', c, ev, hrun, hevn, _, heff, hr, hnm, hty, hdone⟩ := hstep.1 rfl
        refine ⟨v', ev, ?_, hevn, ?_, ?_, ?_, hnm, hty, hdone⟩
        · simp [authvalidated_run, hrun]
        · rw [heff]; simp
        · rw [heff, children_created_append]; simp [children_created]
        · rw [hr, hany]
          simp [proves_any, or_comm]
    | succ l =>
      obtain ⟨v', c, c', hrun, hw', _, _, heff, hattr⟩ := hstep.2 (Nat.succ_ne_zero l)
      simp only [Nat.add_sub_cancel] at hw'
      have ih1 := ih v' l hw' hrest
      have hflag : (v'.attributes &&& VALATTR_FOUNDNONEXISTENCE ≠ 0) ↔
          (val.attributes &&& VALATTR_FOUNDNONEXISTENCE ≠ 0 ∨ b = true) := by
        rw [hattr]
        cases b with
        | true => simp [found_flag_set]
        | false => simp
      have hcc : children_created v'.effects = children_created val.effects + 1 := by
        rw [heff, children_created_append]; simp [children_created]
      constructor
      · intro hlen
        obtain ⟨v'', hrun2, hw2, hc2, hf2⟩ := ih1.1 (by simpa using hlen)
        refine ⟨v'', ?_, ?_, ?_, ?_⟩
        · simp [authvalidated_run, hrun, hrun2]
        · simpa using hw2
        · rw [hc2, hcc]; simp; omega
        · rw [hf2, hflag, hany]
          simp [or_assoc]
      · intro hlen
        obtain ⟨v'', ev, hrun2, hevn, hlast, hc2, hr, hnm, hty, hdone⟩ :=
          ih1.2 (by simpa using hlen)
        refine ⟨v'', ev, ?_, hevn, hlast, ?_, ?_, hnm, hty, hdone⟩
        · simp [authvalidated_run, hrun, hrun2]
        · rw [hc2, hcc]; omega
        · rw [hr, hany]
          have hiff : (v'.attributes &&& VALATTR_FOUNDNONEXISTENCE ≠ 0 ∨
                proves_any env v0 rest = true) ↔
              (val.attributes &&& VALATTR_FOUNDNONEXISTENCE ≠ 0 ∨
                (b || proves_any env v0 rest) = true) := by
            rw [hflag]
            simp [or_assoc]
          by_cases hx : v'.attributes &&& VALATTR_FOUNDNONEXISTENCE ≠ 0 ∨
              proves_any env v0 rest = true
          · rw [if_pos hx, if_pos (hiff.1 hx)]
          · rw [if_neg hx, if_neg (fun h => hx (hiff.2 h))]

/-- An authority section with a pair is not empty. -/
theorem authority_pairs_nil_of_nil (env : Env) (l : List (dns_name × List dns_rdataset))
    (h : authority_pairs env l ≠ 0) : l ≠ [] := by
  intro hl
  subst hl
  exact h rfl

/-- The call `nxtvalidate(val, ISC_FALSE)` on a message whose authority section holds a
pair: the child of the first pair is created and the call returns `DNS_R_WAIT`. -/
theorem nxtvalidate_first (env : Env) (hmem : env.mem_ok = true) (fuel : Nat)
    (val : dns_validator) (event : dns_validatorevent) (msg : dns_message)
    (hev : val.event = some event) (hmsg : event.message = some msg)
    (hne : authority_pairs env msg.authority ≠ 0)
    (hfuel : msg.authority.length ≤ fuel)
    (htypes : ∀ p ∈ msg.authority, ∀ r ∈ p.2, r.type ≠ 0) :
    ∃ msg' j c, nxtvalidate env fuel val false =
        .ok (DNS_R_WAIT, nxtvalidate_waiting val event msg' j c) ∧
      msg'.cursor < msg'.authority.length ∧
      msg'.authority.length = msg.authority.length ∧
      (∀ p ∈ msg'.authority, ∀ r ∈ p.2, r.type ≠ 0) ∧
      pairs_left env msg' j + 1 = authority_pairs env msg.authority := by
  have hnil := authority_pairs_nil_of_nil env msg.authority hne
  have hpos : 0 < msg.authority.length := List.length_pos.2 hnil
  have hloop := nxtvalidate_loop_fresh env hmem fuel { msg with cursor := 0 }
    (with_message val event { msg with cursor := 0 }) { event with message := some { msg with cursor := 0 } }
    rfl hpos (by simpa using hfuel) htypes
  obtain ⟨msg', j, c, hrun, h2, h3, h4, h5⟩ := hloop.2 (by simpa using hne)
  refine ⟨msg', j, c, ?_, h2, h3, h4, by simpa using h5⟩
  unfold nxtvalidate
  simp only [hev, hmsg, dns_message_firstname, hnil, if_false, ne_eq, not_true_eq_false,
    set_message, Option.map_some']
  have hrun' : nxtvalidate_loop env fuel { msg with cursor := 0 }
      { val with event := some { event with message := some { msg with cursor := 0 } } } false =
      .ok (nxtvalidate_step.returned DNS_R_WAIT (nxtvalidate_waiting val event msg' j c)) := hrun
  simp only [hev] at hrun'
  rw [hrun']
  simp

/-- What `dns_validator_create` returns for a denial request. -/
theorem created_denial (env : Env) (hmem : env.mem_ok = true) (qname : dns_name) (qtype : Nat)
    (msg : dns_message) (hq : qtype ≠ 0) :
    created env qname qtype none none (some msg) = denial_validator qname qtype msg := by
  simp [created, dns_validator_create, hq, hmem, denial_validator, denial_event]

/-- The function `validator_start` on a denial request whose authority section holds a
pair: the child of the first pair is created and the request waits. -/
theorem denial_start (env : Env) (hmem : env.mem_ok = true) (fuel : Nat) (qname : dns_name)
    (qtype : Nat) (msg : dns_message)
    (hne : authority_pairs env msg.authority ≠ 0)
    (hfuel : msg.authority.length ≤ fuel)
    (htypes : ∀ p ∈ msg.authority, ∀ r ∈ p.2, r.type ≠ 0) :
    ∃ v1 c, validator_start env fuel (denial_validator qname qtype msg) = .ok v1 ∧
      denial_waits env fuel qname qtype v1 (authority_pairs env msg.authority - 1) ∧
      v1.attributes = 0 ∧ v1.authvalidator = some c ∧
      v1.effects = [Effect.task_send (denial_event qname qtype msg),
        Effect.validator_create c] := by
  obtain ⟨msg', j, c, hrun, h2, h3, h4, h5⟩ := nxtvalidate_first env hmem fuel
    (denial_validator qname qtype msg) (denial_event qname qtype msg) msg rfl rfl hne hfuel
    htypes
  refine ⟨nxtvalidate_waiting (denial_validator qname qtype msg)
    (denial_event qname qtype msg) msg' j c, c, ?_, ?_, rfl, rfl, rfl⟩
  · have hb : validator_start_branch (denial_event qname qtype msg) = start_branch.denial := rfl
    have hs : validator_start env fuel (denial_validator qname qtype msg) =
        start_finish (nxtvalidate env fuel (denial_validator qname qtype msg) false) := by
      unfold validator_start
      simp only [denial_validator, hb]
    rw [hs, hrun]
    simp [start_finish]
  · exact ⟨{ denial_event qname qtype msg with message := some msg' }, msg', j, c, rfl, rfl,
      rfl, rfl, rfl, rfl, rfl, h2, by omega, h4, by omega⟩

/-- The function `authvalidated` on the completion event of a child that failed: the child
is destroyed and the request ends with the result of the child. -/
theorem authvalidated_failure (env : Env) (fuel : Nat) (val : dns_validator) (c : subvalidator)
    (event devent : dns_validatorevent)
    (hav : val.authvalidator = some c) (hev : val.event = some event)
    (hres : devent.result ≠ ISC_R_SUCCESS) :
    authvalidated env fuel val devent =
      .ok { val with
        authvalidator := none, event := none,
        effects := val.effects ++ [Effect.validator_destroy c, Effect.task_send
          { event with result := devent.result,
                       ev_type := eventtype.DNS_EVENT_VALIDATORDONE,
                       ev_action := val.action }] } := by
  unfold authvalidated
  simp [destroy_authvalidator, hav, hres, validator_done, hev]

/-- A denial request whose authority section holds pairs, from `validator_start` through
the completion events of its children, all successful: while fewer events than pairs have
been delivered the request waits for the child of the next pair; the event of the last pair
ends it, with success if one of the events set the flag and with `DNS_R_NOVALIDNXT` if not. -/
theorem denial_run_from_start (env : Env) (fuel : Nat) (qname : dns_name) (qtype : Nat)
    (msg : dns_message) (devents : List dns_validatorevent)
    (hmem : env.mem_ok = true) (hq : qtype ≠ 0)
    (hpairs : authority_pairs env msg.authority ≠ 0)
    (hfuel : msg.authority.length ≤ fuel)
    (htypes : ∀ p ∈ msg.authority, ∀ r ∈ p.2, r.type ≠ 0)
    (hall : ∀ d ∈ devents, d.result = ISC_R_SUCCESS ∧
      ∃ b, authvalidated_proves env (created env qname qtype none none (some msg)) d = .ok b) :
    ∃ v1 c, validator_start env fuel (created env qname qtype none none (some msg)) = .ok v1 ∧
      v1.event.isSome = true ∧ v1.authvalidator = some c ∧
      v1.effects = [Effect.task_send (denial_event qname qtype msg),
        Effect.validator_create c] ∧
      (devents.length < authority_pairs env msg.authority →
        ∃ w, authvalidated_run env fuel v1 devents = .ok w ∧ w.event.isSome = true ∧
          w.authvalidator.isSome = true ∧
          children_created w.effects = devents.length + 1) ∧
      (devents.length = authority_pairs env msg.authority →
        ∃ v2 ev, authvalidated_run env fuel v1 devents = .ok v2 ∧ v2.event = none ∧
          v2.effects.getLast? = some (Effect.task_send ev) ∧
          children_created v2.effects = authority_pairs env msg.authority ∧
          ev.result = (if proves_any env (created env qname qtype none none (some msg)) devents
            = true then ISC_R_SUCCESS else DNS_R_NOVALIDNXT) ∧
          ev.name = qname ∧ ev.type = qtype ∧
          ev.ev_type = eventtype.DNS_EVENT_VALIDATORDONE) := by
  rw [created_denial env hmem qname qtype msg hq] at hall ⊢
  have ha1 : devents.length < authority_pairs env msg.authority →
      devents.length ≤ authority_pairs env msg.authority - 1 := by omega
  have ha2 : devents.length = authority_pairs env msg.authority →
      devents.length = authority_pairs env msg.authority - 1 + 1 := by omega
  have ha3 : 1 + (authority_pairs env msg.authority - 1) = authority_pairs env msg.authority := by
    omega
  obtain ⟨v1, c, hstart, hw, hattr, hav, heff⟩ :=
    denial_start env hmem fuel qname qtype msg hpairs hfuel htypes
  have hrun := authvalidated_run_spec env hmem fuel qname qtype
    (denial_validator qname qtype msg) (denial_event qname qtype msg) rfl rfl rfl devents v1
    (authority_pairs env msg.authority - 1) hw hall
  have hcc : children_created v1.effects = 1 := by
    rw [heff]; simp [children_created]
  have hev1 : v1.event.isSome = true := by
    obtain ⟨event, _, _, _, hev, _⟩ := hw
    simp [hev]
  refine ⟨v1, c, hstart, hev1, hav, heff, ?_, ?_⟩
  · intro hlt
    obtain ⟨w, hr, hw2, hc2, _⟩ := hrun.1 (ha1 hlt)
    obtain ⟨event, _, _, c2, hev, _, _, _, _, hav2, _⟩ := hw2
    exact ⟨w, hr, by simp [hev], by simp [hav2], by rw [hc2, hcc, Nat.add_comm]⟩
  · intro hlen
    obtain ⟨v2, ev, hr, hevn, hlast, hc2, hres, hnm, hty, hdone⟩ := hrun.2 (ha2 hlen)
    refine ⟨v2, ev, hr, hevn, hlast, by rw [hc2, hcc, ha3], ?_, hnm, hty, hdone⟩
    rw [hres, hattr]
    simp [VALATTR_FOUNDNONEXISTENCE]

/-- The same-name case of `nxtprovesnonexistence`: false for a queried type of 128 or
above, and else true exactly when the bit of the queried type is not set in the first NXT
record. -/
theorem nxtprovesnonexistence_order_zero (env : Env) (val : dns_validator)
    (event : dns_validatorevent) (nxtname : dns_name) (nxtset signxtset : dns_rdataset)
    (r : dns_rdata) (rest : List dns_rdata)
    (hev : val.event = some event) (hn : nxtset.associated = true)
    (hnr : nxtset.rdatas = r :: rest) (heq : env.compare event.name nxtname = 0) :
    nxtprovesnonexistence env val nxtname nxtset signxtset =
      .ok (decide (event.type < 128) && !env.nxt_typepresent r event.type) := by
  simp only [nxtprovesnonexistence, dns_rdataset_first, dns_rdataset_current, hev, hn, hnr, heq]
  by_cases h128 : event.type < 128
  · have h : ¬ event.type ≥ 128 := by omega
    cases hp : env.nxt_typepresent r event.type <;> simp [h128, h, hp]
  · have h : event.type ≥ 128 := by omega
    simp [h128, h]

/-- The test of `authvalidated` is false for an rdataset that is not an NXT. -/
theorem authvalidated_proves_other (env : Env) (val : dns_validator)
    (devent : dns_validatorevent) (r : dns_rdataset) (hrd : devent.rdataset = some r)
    (ht : r.type ≠ env.dns_rdatatype_nxt) :
    authvalidated_proves env val devent = .ok false := by
  simp [authvalidated_proves, hrd, ht]

/-- C13 at its counterexample: a denial request for the type 200 at `[1, 2]` whose
authority section holds an NXT rdataset with its SIG at the owner `[1, 2]`; the bit of the
type 200 is not set in the NXT record.  `nxtprovesnonexistence` returns false, and after the
successful validation of the NXT the request ends with `DNS_R_NOVALIDNXT`. -/
theorem nxtprovesnonexistence_same_name_counterexample :
    env_base.compare [1, 2] [1, 2] = 0 ∧
    env_base.nxt_typepresent [1, 3] 200 = false ∧
    nxtprovesnonexistence env_base
      (created env_base [1, 2] 200 none none
        (some { authority := [([1, 2], [nxtset, signxt])], cursor := 0 }))
      [1, 2] nxtset signxt = .ok false ∧
    ∃ v1 v2 ev,
      validator_start env_base 2
        (created env_base [1, 2] 200 none none
          (some { authority := [([1, 2], [nxtset, signxt])], cursor := 0 })) = .ok v1 ∧
      authvalidated_run env_base 2 v1 [auth_child_done ISC_R_SUCCESS [1, 2] nxtset signxt] =
        .ok v2 ∧
      v2.event = none ∧ v2.effects.getLast? = some (Effect.task_send ev) ∧
      ev.result = DNS_R_NOVALIDNXT :=
  ⟨rfl, rfl, rfl, _, _, _, rfl, rfl, rfl, rfl, rfl⟩

/-- C13, as amended: in the same-name case `nxtprovesnonexistence` returns false for a
queried type of 128 or above, and for a queried type below 128 it returns true exactly when
the bit of the type is not set in the NXT record.  Consequently a denial request all of
whose nested validations succeed and whose only authenticated NXT has the queried name as
owner ends with success when the queried type is below 128 and its bit is clear, and with
`DNS_R_NOVALIDNXT` otherwise. -/
theorem nxtprovesnonexistence_same_name (env : Env) (fuel : Nat) (qname : dns_name)
    (qtype : Nat) (msg : dns_message) (pre post : List dns_validatorevent)
    (d0 : dns_validatorevent) (nxt sg : dns_rdataset) (nrd : dns_rdata)
    (nrest : List dns_rdata)
    (hmem : env.mem_ok = true) (hq : qtype ≠ 0)
    (hpairs : authority_pairs env msg.authority ≠ 0)
    (hfuel : msg.authority.length ≤ fuel)
    (htypes : ∀ p ∈ msg.authority, ∀ r ∈ p.2, r.type ≠ 0)
    (hlen : (pre ++ d0 :: post).length = authority_pairs env msg.authority)
    (hothers : ∀ d ∈ pre ++ post, d.result = ISC_R_SUCCESS ∧
      ∃ r, d.rdataset = some r ∧ r.type ≠ env.dns_rdatatype_nxt)
    (hres0 : d0.result = ISC_R_SUCCESS) (hrd : d0.rdataset = some nxt)
    (hsg : d0.sigrdataset = some sg) (hnt : nxt.type = env.dns_rdatatype_nxt)
    (hna : nxt.associated = true) (hnr : nxt.rdatas = nrd :: nrest)
    (hown : env.compare qname d0.name = 0) :
    (∀ (val : dns_validator) (event : dns_validatorevent) (nxtname : dns_name)
        (nxtset signxtset : dns_rdataset) (r : dns_rdata) (rest : List dns_rdata),
      val.event = some event → nxtset.associated = true → nxtset.rdatas = r :: rest →
      env.compare event.name nxtname = 0 →
      nxtprovesnonexistence env val nxtname nxtset signxtset =
        .ok (decide (event.type < 128) && !env.nxt_typepresent r event.type)) ∧
    ∃ v1 v2 ev,
      validator_start env fuel (created env qname qtype none none (some msg)) = .ok v1 ∧
      authvalidated_run env fuel v1 (pre ++ d0 :: post) = .ok v2 ∧ v2.event = none ∧
      v2.effects.getLast? = some (Effect.task_send ev) ∧
      ev.result = (if qtype < 128 ∧ env.nxt_typepresent nrd qtype = false then ISC_R_SUCCESS
        else DNS_R_NOVALIDNXT) ∧
      ev.name = qname ∧ ev.type = qtype ∧
      ev.ev_type = eventtype.DNS_EVENT_VALIDATORDONE := by
  refine ⟨fun val event nxtname nxtset signxtset r rest hev hn hnr heq =>
    nxtprovesnonexistence_order_zero env val event nxtname nxtset signxtset r rest hev hn hnr
      heq, ?_⟩
  have hc := created_denial env hmem qname qtype msg hq
  have hp0 : authvalidated_proves env (created env qname qtype none none (some msg)) d0 =
      .ok (decide (qtype < 128) && !env.nxt_typepresent nrd qtype) := by
    rw [hc]
    simp only [authvalidated_proves, hrd, hnt, if_true, hsg]
    exact nxtprovesnonexistence_order_zero env (denial_validator qname qtype msg)
      (denial_event qname qtype msg) d0.name nxt sg nrd nrest rfl hna hnr hown
  have hpo : ∀ d ∈ pre ++ post,
      authvalidated_proves env (created env qname qtype none none (some msg)) d = .ok false := by
    intro d hd
    obtain ⟨_, r, h1, h2⟩ := hothers d hd
    exact authvalidated_proves_other env _ d r h1 h2
  have hall : ∀ d ∈ pre ++ d0 :: post, d.result = ISC_R_SUCCESS ∧
      ∃ b, authvalidated_proves env (created env qname qtype none none (some msg)) d = .ok b := by
    intro d hd
    rcases List.mem_append.1 hd with h | h
    · exact ⟨(hothers d (List.mem_append_left _ h)).1, false,
        hpo d (List.mem_append_left _ h)⟩
    · rcases List.mem_cons.1 h with h | h
      · subst h; exact ⟨hres0, _, hp0⟩
      · exact ⟨(hothers d (List.mem_append_right _ h)).1, false,
          hpo d (List.mem_append_right _ h)⟩
  have hany : proves_any env (created env qname qtype none none (some msg)) (pre ++ d0 :: post) =
      (decide (qtype < 128) && !env.nxt_typepresent nrd qtype) := by
    have hpre : proves_any env (created env qname qtype none none (some msg)) pre = false := by
      simp only [proves_any, List.any_eq_false]
      intro d hd
      rw [hpo d (List.mem_append_left _ hd)]
      simp
    have hpost : proves_any env (created env qname qtype none none (some msg)) post = false := by
      simp only [proves_any, List.any_eq_false]
      intro d hd
      rw [hpo d (List.mem_append_right _ hd)]
      simp
    simp only [proves_any, List.any_append, List.any_cons] at hpre hpost ⊢
    rw [hpre, hpost, hp0]
    cases (decide (qtype < 128) && !env.nxt_typepresent nrd qtype) <;> rfl
  obtain ⟨v1, c, hstart, _, _, _, _, hfull⟩ :=
    denial_run_from_start env fuel qname qtype msg (pre ++ d0 :: post) hmem hq hpairs hfuel
      htypes hall
  obtain ⟨v2, ev, hrun, hevn, hlast, _, hres, hnm, hty, hdone⟩ := hfull hlen
  refine ⟨v1, v2, ev, hstart, hrun, hevn, hlast, ?_, hnm, hty, hdone⟩
  rw [hres, hany]
  by_cases h128 : qtype < 128
  · cases hp : env.nxt_typepresent nrd qtype <;> simp [h128, hp]
  · simp [h128]

/-- Witness of C13 as amended: a denial request for the type 1 at `[1, 2]` whose authority
section holds an NXT rdataset with its SIG at the owner `[1, 2]`, the bit of the type 1
clear: the request ends with success. -/
theorem nxtprovesnonexistence_same_name_witness :
    ∃ v1 v2 ev,
      validator_start env_base 2 (denial_request env_base [([1, 2], [nxtset, signxt])]) =
        .ok v1 ∧
      authvalidated_run env_base 2 v1 [auth_child_done ISC_R_SUCCESS [1, 2] nxtset signxt] =
        .ok v2 ∧
      v2.event = none ∧ v2.effects.getLast? = some (Effect.task_send ev) ∧
      ev.result = ISC_R_SUCCESS := by
  obtain ⟨_, v1, v2, ev, h1, h2, h3, h4, h5, _⟩ :=
    nxtprovesnonexistence_same_name env_base 2 [1, 2] 1
      { authority := [([1, 2], [nxtset, signxt])], cursor := 0 } [] []
      (auth_child_done ISC_R_SUCCESS [1, 2] nxtset signxt) nxtset signxt [1, 3] []
      rfl (by decide) (by decide) (by decide) (by decide) rfl (by simp) rfl rfl rfl rfl rfl rfl
      rfl
  exact ⟨v1, v2, ev, h1, h2, h3, h4, h5⟩

/-- C15 at its counterexample: a denial request for `[1, 2]` whose authority section holds,
at the owner `[1, 1]`, an NXT rdataset with its SIG and an SOA rdataset with its SIG.  The
child of the NXT succeeds and the record proves non-existence: the flag is set, and
`authvalidated` creates the child of the SOA and waits.  That child fails with
`DNS_R_NOVALIDSIG`, and the request ends with `DNS_R_NOVALIDSIG`, not with success. -/
theorem nxtvalidate_found_then_secure_counterexample :
    ∃ v1 v2 v3 c2 ev,
      validator_start env_base 2
        (denial_request env_base [([1, 1], [nxtset, signxt, soa_set, sigsoa])]) = .ok v1 ∧
      authvalidated_proves env_base v1 (auth_child_done ISC_R_SUCCESS [1, 1] nxtset signxt) =
        .ok true ∧
      authvalidated env_base 2 v1 (auth_child_done ISC_R_SUCCESS [1, 1] nxtset signxt) =
        .ok v2 ∧
      v2.attributes &&& VALATTR_FOUNDNONEXISTENCE = VALATTR_FOUNDNONEXISTENCE ∧
      v2.event.isSome = true ∧ v2.authvalidator = some c2 ∧ c2.type = 6 ∧
      authvalidated env_base 2 v2 (auth_child_done DNS_R_NOVALIDSIG [1, 1] soa_set sigsoa) =
        .ok v3 ∧
      v3.event = none ∧
      v3.effects = v2.effects ++ [Effect.validator_destroy c2, Effect.task_send ev] ∧
      ev.result = DNS_R_NOVALIDSIG ∧ ev.ev_type = eventtype.DNS_EVENT_VALIDATORDONE :=
  ⟨_, _, _, _, _, rfl, rfl, rfl, rfl, rfl, rfl, rfl, rfl, rfl, rfl, rfl, rfl⟩

/-- C15, as amended: when an authenticated NXT record proves non-existence (one of the
completion events sets the flag), the pairs that remain in the authority section are still
validated in turn, whatever they are, and the request ends with success once the nested
validation of every pair has succeeded.  A nested validation that fails ends the request
with the result of that validation, also when the flag is set. -/
theorem nxtvalidate_found_then_secure (env : Env) (fuel : Nat) (qname : dns_name) (qtype : Nat)
    (msg : dns_message) (devents : List dns_validatorevent)
    (hmem : env.mem_ok = true) (hq : qtype ≠ 0)
    (hpairs : authority_pairs env msg.authority ≠ 0)
    (hfuel : msg.authority.length ≤ fuel)
    (htypes : ∀ p ∈ msg.authority, ∀ r ∈ p.2, r.type ≠ 0)
    (hlen : devents.length = authority_pairs env msg.authority)
    (hall : ∀ d ∈ devents, d.result = ISC_R_SUCCESS ∧
      ∃ b, authvalidated_proves env (created env qname qtype none none (some msg)) d = .ok b)
    (hfound : proves_any env (created env qname qtype none none (some msg)) devents = true) :
    (∃ v1 v2 ev,
      validator_start env fuel (created env qname qtype none none (some msg)) = .ok v1 ∧
      v1.event.isSome = true ∧
      (∀ k, k < devents.length →
        ∃ w, authvalidated_run env fuel v1 (devents.take k) = .ok w ∧
          w.event.isSome = true ∧ w.authvalidator.isSome = true ∧
          children_created w.effects = k + 1) ∧
      authvalidated_run env fuel v1 devents = .ok v2 ∧ v2.event = none ∧
      v2.effects.getLast? = some (Effect.task_send ev) ∧
      children_created v2.effects = authority_pairs env msg.authority ∧
      ev.result = ISC_R_SUCCESS ∧ ev.name = qname ∧ ev.type = qtype ∧
      ev.ev_type = eventtype.DNS_EVENT_VALIDATORDONE) ∧
    ∀ (val : dns_validator) (c : subvalidator) (event devent : dns_validatorevent),
      val.authvalidator = some c → val.event = some event →
      val.attributes &&& VALATTR_FOUNDNONEXISTENCE ≠ 0 →
      devent.result ≠ ISC_R_SUCCESS →
      ∃ v' ev, authvalidated env fuel val devent = .ok v' ∧ v'.event = none ∧
        v'.effects = val.effects ++ [Effect.validator_destroy c, Effect.task_send ev] ∧
        ev.result = devent.result := by
  refine ⟨?_, fun val c event devent hav hev _ hres =>
    ⟨_, _, authvalidated_failure env fuel val c event devent hav hev hres, rfl, rfl, rfl⟩⟩
  obtain ⟨v1, c, hstart, hev1, _, _, _, hfull⟩ :=
    denial_run_from_start env fuel qname qtype msg devents hmem hq hpairs hfuel htypes hall
  obtain ⟨v2, ev, hrun, hevn, hlast, hcc, hres, hnm, hty, hdone⟩ := hfull hlen
  refine ⟨v1, v2, ev, hstart, hev1, ?_, hrun, hevn, hlast, hcc, ?_, hnm, hty, hdone⟩
  · intro k hk
    obtain ⟨v1', _, hstart', _, _, _, hpre, _⟩ :=
      denial_run_from_start env fuel qname qtype msg (devents.take k) hmem hq hpairs hfuel
        htypes (fun d hd => hall d (List.mem_of_mem_take hd))
    have hv : v1' = v1 := by
      rw [hstart] at hstart'
      injection hstart' with h
      exact h.symm
    subst hv
    have hlk : (devents.take k).length = k := by
      rw [List.length_take]; omega
    rw [hlk] at hpre
    exact hpre (by omega)
  · rw [hres, hfound]
    simp

/-- Witness of C15 as amended: the authority section of the counterexample, with both
children successful.  The NXT record proves non-existence, the SOA is validated next, and
the request ends with success. -/
theorem nxtvalidate_found_then_secure_witness :
    ∃ v1 v2 ev,
      validator_start env_base 2
        (denial_request env_base [([1, 1], [nxtset, signxt, soa_set, sigsoa])]) = .ok v1 ∧
      authvalidated_run env_base 2 v1
        [auth_child_done ISC_R_SUCCESS [1, 1] nxtset signxt,
         auth_child_done ISC_R_SUCCESS [1, 1] soa_set sigsoa] = .ok v2 ∧
      v2.event = none ∧ v2.effects.getLast? = some (Effect.task_send ev) ∧
      children_created v2.effects = 2 ∧ ev.result = ISC_R_SUCCESS := by
  obtain ⟨⟨v1, v2, ev, h1, _, _, h2, h3, h4, h5, h6, _⟩, _⟩ :=
    nxtvalidate_found_then_secure env_base 2 [1, 2] 1
      { authority := [([1, 1], [nxtset, signxt, soa_set, sigsoa])], cursor := 0 }
      [auth_child_done ISC_R_SUCCESS [1, 1] nxtset signxt,
       auth_child_done ISC_R_SUCCESS [1, 1] soa_set sigsoa]
      rfl (by decide) (by decide) (by decide) (by decide) rfl
      (by
        intro d hd
        simp only [List.mem_cons, List.mem_singleton, List.not_mem_nil, or_false] at hd
        rcases hd with h | h
        · subst h; exact ⟨rfl, true, rfl⟩
        · subst h; exact ⟨rfl, false, rfl⟩)
      rfl
  exact ⟨v1, v2, ev, h1, h2, h3, h4, h5, h6⟩

/-- C16 at its counterexample: a denial request whose authority section holds, at one name,
an SOA rdataset with its SIG and an NXT rdataset with its SIG.  The child of the first pair
fails with `DNS_R_NOVALIDSIG`.  `authvalidated` ends the request with that result: the
second pair is never reached (one child has been created) and the result is not
`DNS_R_NOVALIDNXT`. -/
theorem nxtvalidate_nothing_proved_counterexample :
    authority_pairs env_base [([1, 3], [soa_set, sigsoa, nxtset, signxt])] = 2 ∧
    ∃ v1 v2 c ev,
      validator_start env_base 2
        (denial_request env_base [([1, 3], [soa_set, sigsoa, nxtset, signxt])]) = .ok v1 ∧
      v1.event.isSome = true ∧ v1.authvalidator = some c ∧ c.type = 6 ∧
      authvalidated env_base 2 v1
        (auth_child_done DNS_R_NOVALIDSIG [1, 3] soa_set sigsoa) = .ok v2 ∧
      v2.event = none ∧
      v2.effects = v1.effects ++ [Effect.validator_destroy c, Effect.task_send ev] ∧
      children_created v2.effects = 1 ∧
      ev.result = DNS_R_NOVALIDSIG ∧ ev.ev_type = eventtype.DNS_EVENT_VALIDATORDONE :=
  ⟨rfl, _, _, _, _, rfl, rfl, rfl, rfl, rfl, rfl, rfl, rfl, rfl, rfl⟩

/-- C16, as amended: for every authority section that holds at least one (rdataset, covering
SIG) pair, if the nested validation of every pair succeeds and none proves non-existence
(the rdataset is not an NXT, or `nxtprovesnonexistence` is false for it), each completion
is followed by the creation of the child of the next pair, one child per pair, and the
completion of the last ends the request with `DNS_R_NOVALIDNXT`.  A nested validation that
fails ends the request at once with the result of that validation. -/
theorem nxtvalidate_nothing_proved (env : Env) (fuel : Nat) (qname : dns_name) (qtype : Nat)
    (msg : dns_message) (devents : List dns_validatorevent)
    (hmem : env.mem_ok = true) (hq : qtype ≠ 0)
    (hpairs : authority_pairs env msg.authority ≠ 0)
    (hfuel : msg.authority.length ≤ fuel)
    (htypes : ∀ p ∈ msg.authority, ∀ r ∈ p.2, r.type ≠ 0)
    (hlen : devents.length = authority_pairs env msg.authority)
    (hall : ∀ d ∈ devents, d.result = ISC_R_SUCCESS ∧
      authvalidated_proves env (created env qname qtype none none (some msg)) d = .ok false) :
    (∃ v1 v2 ev,
      validator_start env fuel (created env qname qtype none none (some msg)) = .ok v1 ∧
      v1.event.isSome = true ∧
      (∀ k, k < devents.length →
        ∃ w, authvalidated_run env fuel v1 (devents.take k) = .ok w ∧
          w.event.isSome = true ∧ w.authvalidator.isSome = true ∧
          children_created w.effects = k + 1) ∧
      authvalidated_run env fuel v1 devents = .ok v2 ∧ v2.event = none ∧
      v2.effects.getLast? = some (Effect.task_send ev) ∧
      children_created v2.effects = authority_pairs env msg.authority ∧
      ev.result = DNS_R_NOVALIDNXT ∧ ev.name = qname ∧ ev.type = qtype ∧
      ev.ev_type = eventtype.DNS_EVENT_VALIDATORDONE) ∧
    ∀ (val : dns_validator) (c : subvalidator) (event devent : dns_validatorevent),
      val.authvalidator = some c → val.event = some event →
      devent.result ≠ ISC_R_SUCCESS →
      authvalidated env fuel val devent =
        .ok { val with
          authvalidator := none, event := none,
          effects := val.effects ++ [Effect.validator_destroy c, Effect.task_send
            { event with result := devent.result,
                         ev_type := eventtype.DNS_EVENT_VALIDATORDONE,
                         ev_action := val.action }] } := by
  refine ⟨?_, fun val c event devent hav hev hres =>
    authvalidated_failure env fuel val c event devent hav hev hres⟩
  have hall' : ∀ d ∈ devents, d.result = ISC_R_SUCCESS ∧
      ∃ b, authvalidated_proves env (created env qname qtype none none (some msg)) d = .ok b :=
    fun d hd => ⟨(hall d hd).1, false, (hall d hd).2⟩
  have hnone : proves_any env (created env qname qtype none none (some msg)) devents = false := by
    simp only [proves_any, List.any_eq_false]
    intro d hd
    rw [(hall d hd).2]
    simp
  obtain ⟨v1, c, hstart, hev1, _, _, _, hfull⟩ :=
    denial_run_from_start env fuel qname qtype msg devents hmem hq hpairs hfuel htypes hall'
  obtain ⟨v2, ev, hrun, hevn, hlast, hcc, hres, hnm, hty, hdone⟩ := hfull hlen
  refine ⟨v1, v2, ev, hstart, hev1, ?_, hrun, hevn, hlast, hcc, ?_, hnm, hty, hdone⟩
  · intro k hk
    obtain ⟨v1', _, hstart', _, _, _, hpre, _⟩ :=
      denial_run_from_start env fuel qname qtype msg (devents.take k) hmem hq hpairs hfuel
        htypes (fun d hd => hall' d (List.mem_of_mem_take hd))
    have hv : v1' = v1 := by
      rw [hstart] at hstart'
      injection hstart' with h
      exact h.symm
    subst hv
    have hlk : (devents.take k).length = k := by
      rw [List.length_take]; omega
    rw [hlk] at hpre
    exact hpre (by omega)
  · rw [hres, hnone]
    simp

/-- Witness of C16 as amended: a denial request for `[1, 2]` whose authority section holds
an NXT rdataset with its SIG at the owner `[1, 3]`, which sorts after the queried name.  The
child succeeds, the record proves nothing, and the request ends with `DNS_R_NOVALIDNXT`. -/
theorem nxtvalidate_nothing_proved_witness :
    ∃ v1 v2 ev,
      validator_start env_base 2 (denial_request env_base [([1, 3], [nxtset, signxt])]) =
        .ok v1 ∧
      authvalidated_run env_base 2 v1 [auth_child_done ISC_R_SUCCESS [1, 3] nxtset signxt] =
        .ok v2 ∧
      v2.event = none ∧ v2.effects.getLast? = some (Effect.task_send ev) ∧
      ev.result = DNS_R_NOVALIDNXT := by
  obtain ⟨⟨v1, v2, ev, h1, _, _, h2, h3, h4, _, h5, _⟩, _⟩ :=
    nxtvalidate_nothing_proved env_base 2 [1, 2] 1
      { authority := [([1, 3], [nxtset, signxt])], cursor := 0 }
      [auth_child_done ISC_R_SUCCESS [1, 3] nxtset signxt] rfl (by decide) (by decide)
      (by decide) (by decide) rfl
      (by
        intro d hd
        simp only [List.mem_singleton] at hd
        subst hd
        exact ⟨rfl, rfl⟩)
  exact ⟨v1, v2, ev, h1, h2, h3, h4, h5⟩

/-- Replacing the rdataset list of a name leaves the names of the section as they are. -/
theorem map_fst_set_same (l : List (dns_name × List dns_rdataset)) (i : Nat) (name : dns_name)
    (list list1 : List dns_rdataset) (h : l.get? i = some (name, list)) :
    (l.set i (name, list1)).map Prod.fst = l.map Prod.fst := by
  induction l generalizing i with
  | nil => rfl
  | cons p rest ih =>
    cases i with
    | zero =>
      simp only [List.get?_cons_zero, Option.some.injEq] at h
      subst h
      rfl
    | succ j =>
      simp only [List.get?_cons_succ] at h
      simp only [List.set_cons_succ, List.map_cons, ih j h]

/-- The entry at the last index is the last entry. -/
theorem list_getLast?_of_get? {α : Type} (l : List α) (i : Nat) (a : α) (h : l.get? i = some a)
    (hlast : ¬ i + 1 < l.length) : l.getLast? = some a := by
  have hi : i < l.length := (List.get?_eq_some.1 h).1
  have : i = l.length - 1 := by omega
  rw [List.getLast?_eq_getElem?, ← this, ← List.get?_eq_getElem?]
  exact h

/-- When the loop of `nxtvalidate` runs out of names, the local `name` is the last name of
the authority section. -/
theorem nxtvalidate_loop_exhausted_name (env : Env) :
    ∀ (fuel : Nat) (msg : dns_message) (val : dns_validator) (resume : Bool)
      (v : dns_validator) (nm : Option dns_name),
      nxtvalidate_loop env fuel msg val resume = .ok (nxtvalidate_step.exhausted v nm) →
      nm = (msg.authority.map Prod.fst).getLast? := by
  intro fuel
  induction fuel with
  | zero => intro msg val resume v nm h; simp [nxtvalidate_loop] at h
  | succ fuel ih =>
    intro msg val resume v nm h
    rw [nxtvalidate_loop] at h
    dsimp only at h
    split at h
    · cases h
    · rename_i name list hget
      generalize hstart : (if resume = true then _ else _) = start at h
      cases start with
      | error e => cases h
      | ok p =>
        obtain ⟨i, list1, val1⟩ := p
        dsimp only at h
        split at h
        · split at h
          · cases h
          · split_ifs at h <;> cases h
        · split_ifs at h with hnx
          · have h1 := ih _ _ _ _ _ h
            rw [h1]
            simp only [dns_message_nextname]
            split_ifs
            · simp only [map_fst_set_same _ _ _ _ _ hget]
            · simp only [map_fst_set_same _ _ _ _ _ hget]
          · cases h
            have hlast : ¬ msg.cursor + 1 < msg.authority.length := by
              intro hlt
              apply hnx
              simp [dns_message_nextname, hlt]
            have := list_getLast?_of_get? _ _ _ hget hlast
            rw [List.getLast?_map, this]
            rfl
/-- The call `nxtvalidate(val, ISC_FALSE)` of a fresh denial request whose authority section
is not empty and holds no pair: one child is created in the authority-child slot, for type
SOA at the last name of the section, with `&val->frdataset` and no signature set, and the
call returns `DNS_R_WAIT`. -/
theorem nxtvalidate_fallback (env : Env) (hmem : env.mem_ok = true)
    (hsoa : env.dns_rdatatype_soa ≠ 0) (fuel : Nat)
    (qname : dns_name) (qtype : Nat) (msg : dns_message)
    (hne : msg.authority ≠ []) (hpairs : authority_pairs env msg.authority = 0)
    (hfuel : msg.authority.length ≤ fuel)
    (htypes : ∀ p ∈ msg.authority, ∀ r ∈ p.2, r.type ≠ 0) :
    ∃ msg' nm, (msg.authority.map Prod.fst).getLast? = some nm ∧
      nxtvalidate env fuel (denial_validator qname qtype msg) false =
        .ok (DNS_R_WAIT,
          { with_message (denial_validator qname qtype msg) (denial_event qname qtype msg) msg' with
            authvalidator := some (subvalidator_of nm env.dns_rdatatype_soa
              (some dns_rdataset_init) none none taskaction.negauthvalidated),
            effects := [Effect.task_send (denial_event qname qtype msg),
              Effect.validator_create (subvalidator_of nm env.dns_rdatatype_soa
                (some dns_rdataset_init) none none taskaction.negauthvalidated)] }) := by
  have hpos : 0 < msg.authority.length := List.length_pos.2 hne
  have hloop := nxtvalidate_loop_fresh env hmem fuel { msg with cursor := 0 }
    (with_message (denial_validator qname qtype msg) (denial_event qname qtype msg)
      { msg with cursor := 0 })
    { denial_event qname qtype msg with message := some { msg with cursor := 0 } }
    rfl hpos (by simpa using hfuel) htypes
  obtain ⟨msg', nm, hrun⟩ := hloop.1 (by simpa using hpairs)
  have hnm := nxtvalidate_loop_exhausted_name env _ _ _ _ _ _ hrun
  obtain ⟨last, hlast⟩ : ∃ last, (msg.authority.map Prod.fst).getLast? = some last := by
    cases hl : (msg.authority.map Prod.fst).getLast? with
    | some x => exact ⟨x, rfl⟩
    | none =>
      rw [List.getLast?_eq_none_iff, List.map_eq_nil_iff] at hl
      exact absurd hl hne
  have hnm' : nm = some last := by rw [hnm]; exact hlast
  subst hnm'
  refine ⟨msg', last, hlast, ?_⟩
  unfold nxtvalidate
  simp only [denial_validator, denial_event, dns_message_firstname, hne, if_false, ne_eq,
    not_true_eq_false, set_message, Option.map_some']
  have hrun' : nxtvalidate_loop env fuel { msg with cursor := 0 }
      (with_message (denial_validator qname qtype msg) (denial_event qname qtype msg)
        { msg with cursor := 0 }) false = _ := hrun
  simp only [with_message, denial_validator, denial_event] at hrun'
  rw [hrun']
  simp [nxtvalidate_finish, with_message, dns_validator_create, hsoa, hmem, VALATTR_FOUNDNONEXISTENCE,
    denial_validator, denial_event, subvalidator_of]

/-- The function `negauthvalidated` on a validator that holds its event and waits for the
child in the authority-child slot: the child is destroyed and the request ends with the
result of the completion event. -/
theorem negauthvalidated_ends (val : dns_validator) (c : subvalidator)
    (event devent : dns_validatorevent)
    (hav : val.authvalidator = some c) (hev : val.event = some event) :
    ∃ v2, negauthvalidated val devent = .ok v2 ∧ v2.event = none ∧ v2.authvalidator = none ∧
      v2.effects = val.effects ++ [Effect.validator_destroy c, Effect.task_send
        { event with result := devent.result, ev_type := eventtype.DNS_EVENT_VALIDATORDONE,
                     ev_action := val.action }] := by
  unfold negauthvalidated
  by_cases hres : devent.result = ISC_R_SUCCESS
  · simp [destroy_authvalidator, hav, hres, validator_done, hev]
  · simp [destroy_authvalidator, hav, hres, validator_done, hev]

/-- C17, as amended: a fresh denial request whose authority section is not empty and holds no
(rdataset, covering SIG) pair.  `validator_start` creates exactly one child, in the
authority-child slot, and the request waits.  The child is a request of type SOA at the last
name of the authority section, with the rdataset `&val->frdataset`, which is as
`dns_rdataset_init` left it, and no signature set: its start event takes the insecurity
branch of `validator_start`, not the positive proof.  Whatever completion event of the child
is delivered, `negauthvalidated` destroys the child and ends the request with the result of
that event, hence with success if and only if the child succeeded. -/
theorem nxtvalidate_soa_fallback (env : Env) (fuel : Nat) (qname : dns_name) (qtype : Nat)
    (msg : dns_message) (devent : dns_validatorevent)
    (hmem : env.mem_ok = true) (hq : qtype ≠ 0) (hsoa : env.dns_rdatatype_soa ≠ 0)
    (hne : msg.authority ≠ []) (hpairs : authority_pairs env msg.authority = 0)
    (hfuel : msg.authority.length ≤ fuel)
    (htypes : ∀ p ∈ msg.authority, ∀ r ∈ p.2, r.type ≠ 0) :
    ∃ v1 c nm,
      validator_start env fuel (created env qname qtype none none (some msg)) = .ok v1 ∧
      v1.event.isSome = true ∧ v1.authvalidator = some c ∧
      v1.effects = [Effect.task_send (denial_event qname qtype msg),
        Effect.validator_create c] ∧
      (msg.authority.map Prod.fst).getLast? = some nm ∧
      c = subvalidator_of nm env.dns_rdatatype_soa (some dns_rdataset_init) none none
        taskaction.negauthvalidated ∧
      (∃ child cstart,
        dns_validator_create env (some c.name) c.type c.rdataset c.sigrdataset c.message 0
          c.action none = .ok (ISC_R_SUCCESS, some child) ∧
        child.event = some cstart ∧
        validator_start_branch cstart = start_branch.insecurity) ∧
      ∃ v2 done,
        negauthvalidated v1 devent = .ok v2 ∧ v2.event = none ∧ v2.authvalidator = none ∧
        v2.effects = v1.effects ++ [Effect.validator_destroy c, Effect.task_send done] ∧
        done.result = devent.result ∧ done.name = qname ∧ done.type = qtype ∧
        done.ev_type = eventtype.DNS_EVENT_VALIDATORDONE := by
  obtain ⟨msg', nm, hlast, hrun⟩ :=
    nxtvalidate_fallback env hmem hsoa fuel qname qtype msg hne hpairs hfuel htypes
  rw [created_denial env hmem qname qtype msg hq]
  have hb : validator_start_branch (denial_event qname qtype msg) = start_branch.denial := rfl
  have hs : validator_start env fuel (denial_validator qname qtype msg) =
      start_finish (nxtvalidate env fuel (denial_validator qname qtype msg) false) := by
    unfold validator_start
    simp only [denial_validator, hb]
  refine ⟨{ with_message (denial_validator qname qtype msg) (denial_event qname qtype msg) msg' with
      authvalidator := some (subvalidator_of nm env.dns_rdatatype_soa
        (some dns_rdataset_init) none none taskaction.negauthvalidated),
      effects := [Effect.task_send (denial_event qname qtype msg),
        Effect.validator_create (subvalidator_of nm env.dns_rdatatype_soa
          (some dns_rdataset_init) none none taskaction.negauthvalidated)] },
    subvalidator_of nm env.dns_rdatatype_soa (some dns_rdataset_init) none none
      taskaction.negauthvalidated, nm, ?_, rfl, rfl, rfl, hlast, rfl, ?_, ?_⟩
  · rw [hs, hrun]
    simp [start_finish]
  · simp [dns_validator_create, subvalidator_of, hsoa, hmem, validator_start_branch]
  · obtain ⟨v2, h1, h2, h3, h4⟩ := negauthvalidated_ends
      { with_message (denial_validator qname qtype msg) (denial_event qname qtype msg) msg' with
        authvalidator := some (subvalidator_of nm env.dns_rdatatype_soa
          (some dns_rdataset_init) none none taskaction.negauthvalidated),
        effects := [Effect.task_send (denial_event qname qtype msg),
          Effect.validator_create (subvalidator_of nm env.dns_rdatatype_soa
            (some dns_rdataset_init) none none taskaction.negauthvalidated)] }
      (subvalidator_of nm env.dns_rdatatype_soa (some dns_rdataset_init) none none
        taskaction.negauthvalidated)
      { denial_event qname qtype msg with message := some msg' } devent rfl rfl
    exact ⟨v2, _, h1, h2, h3, h4, rfl, rfl, rfl, rfl⟩

/-- Witness of C17 as amended: in `env_base`, the denial request whose authority section
holds the name `[1]` with an SOA rdataset and no SIG, and a successful completion event of
the child. -/
theorem nxtvalidate_soa_fallback_witness :
    ∃ v1 c nm,
      validator_start env_base 2 (created env_base [1, 2] 1 none none
        (some { authority := [([1], [soa_set])], cursor := 0 })) = .ok v1 ∧
      v1.event.isSome = true ∧ v1.authvalidator = some c ∧
      v1.effects = [Effect.task_send
          (denial_event [1, 2] 1 { authority := [([1], [soa_set])], cursor := 0 }),
        Effect.validator_create c] ∧
      (([([1], [soa_set])] : List (dns_name × List dns_rdataset)).map Prod.fst).getLast? =
        some nm ∧
      c = subvalidator_of nm env_base.dns_rdatatype_soa (some dns_rdataset_init) none none
        taskaction.negauthvalidated ∧
      (∃ child cstart,
        dns_validator_create env_base (some c.name) c.type c.rdataset c.sigrdataset c.message 0
          c.action none = .ok (ISC_R_SUCCESS, some child) ∧
        child.event = some cstart ∧
        validator_start_branch cstart = start_branch.insecurity) ∧
      ∃ v2 done,
        negauthvalidated v1 (child_done ISC_R_SUCCESS taskaction.negauthvalidated) = .ok v2 ∧
        v2.event = none ∧ v2.authvalidator = none ∧
        v2.effects = v1.effects ++ [Effect.validator_destroy c, Effect.task_send done] ∧
        done.result = (child_done ISC_R_SUCCESS taskaction.negauthvalidated).result ∧
        done.name = [1, 2] ∧ done.type = 1 ∧
        done.ev_type = eventtype.DNS_EVENT_VALIDATORDONE :=
  nxtvalidate_soa_fallback env_base 2 [1, 2] 1 { authority := [([1], [soa_set])], cursor := 0 }
    (child_done ISC_R_SUCCESS taskaction.negauthvalidated) rfl (by decide) (by decide)
    (by simp) rfl (by decide)
    (by
      intro p hp r hr
      simp only [List.mem_singleton] at hp
      subst hp
      simp only [List.mem_singleton] at hr
      subst hr
      decide)

/-- Counterexample to C17 as stated: a denial request whose authority section holds one name
with an SOA rdataset and no SIG.  `nxtvalidate` finds no pair and creates one child in the
authority-child slot, for type SOA at that name; the rdataset of the child is
`&val->frdataset`, as `dns_rdataset_init` left it, not the SOA rdataset of the message, and
it has no signature set.  Such a child takes the insecurity branch of `validator_start`, not
the positive proof.  With no trust anchor above the name the child reports success at once,
without a lookup or a verification, and `negauthvalidated` then ends the request with
success. -/
theorem nxtvalidate_soa_fallback_counterexample :
    ∃ v1 v2 c child child1 start cstart cdone done,
      validator_start env_base 2 (denial_request env_base [([1], [soa_set])]) = .ok v1 ∧
      v1.event.isSome = true ∧ v1.authvalidator = some c ∧
      v1.effects = [Effect.task_send start, Effect.validator_create c] ∧
      c = subvalidator_of [1] 6 (some dns_rdataset_init) none none
        taskaction.negauthvalidated ∧
      c.rdataset ≠ some soa_set ∧ c.sigrdataset = none ∧
      dns_validator_create env_base (some c.name) c.type c.rdataset c.sigrdataset c.message 0
        c.action none = .ok (ISC_R_SUCCESS, some child) ∧
      child.event = some cstart ∧
      validator_start_branch cstart = start_branch.insecurity ∧
      validator_start_branch cstart ≠ start_branch.positive ∧
      validator_start env_base 2 child = .ok child1 ∧
      child1.effects = [Effect.task_send cstart, Effect.task_send cdone] ∧
      cdone.result = ISC_R_SUCCESS ∧
      negauthvalidated v1 cdone = .ok v2 ∧
      v2.effects = v1.effects ++ [Effect.validator_destroy c, Effect.task_send done] ∧
      done.result = ISC_R_SUCCESS :=
  ⟨_, _, _, _, _, _, _, _, _, rfl, rfl, rfl, rfl, rfl, by decide, rfl, rfl, rfl, rfl, by decide,
    rfl, rfl, rfl, rfl, rfl, rfl⟩

/-! ## Insecurity proof: the two paths -/

/-- C22 at its failing input: an insecurity request for `[1, 2]` under a trust anchor at the
root, and for the ancestor `[1]` a keyset with trust `answer` that holds no null key and has
no signature set with it.  Found in the cache, `proveunsecure` ends the request with
`DNS_R_NOTINSECURE`.  Delivered by a fetch, `fetch_callback_nullkey` tests for a null key
first, finds none and resumes the walk at the next depth: the request does not end with
`DNS_R_NOTINSECURE`, and here, with a secure null-key keyset in the cache for `[1, 2]`, it ends
with success.  (With a null key in the unsigned keyset both paths end with
`DNS_R_NOTINSECURE`.) -/
theorem fetch_callback_nullkey_unsigned_keyset :
    containsnullkey env_base (plain_keyset 4) = .ok false ∧
    (plain_keyset 4).trust < dns_trust_secure ∧
    (∃ v start ev,
      validator_start (env_anchored (plain_keyset 4) dns_rdataset_init) 3
        (insecurity_request env_base) = .ok v ∧
      v.effects = [Effect.task_send start, Effect.view_simplefind [1], Effect.task_send ev] ∧
      ev.result = DNS_R_NOTINSECURE) ∧
    (∃ v1 v2 f start ev,
      validator_start env_deep_null 3 (insecurity_request env_base) = .ok v1 ∧
      v1.event.isSome = true ∧ v1.fetch = some f ∧ f.name = [1] ∧
      v1.effects = [Effect.task_send start, Effect.view_simplefind [1],
        Effect.resolver_createfetch f] ∧
      fetch_callback_nullkey env_deep_null 3 v1
        (fetch_done ISC_R_SUCCESS (plain_keyset 4) dns_rdataset_init) = .ok v2 ∧
      v2.effects = v1.effects ++ [Effect.view_simplefind [1, 2], Effect.task_send ev,
        Effect.resolver_destroyfetch f] ∧
      ev.result = ISC_R_SUCCESS ∧
      ev.rdataset = some { rrset_a with trust := dns_trust_answer }) ∧
    (∃ v start ev,
      validator_start (env_anchored (null_keyset 4) dns_rdataset_init) 3
        (insecurity_request env_base) = .ok v ∧
      v.effects = [Effect.task_send start, Effect.view_simplefind [1], Effect.task_send ev] ∧
      ev.result = DNS_R_NOTINSECURE) ∧
    ∃ v1 v2 f ev,
      validator_start env_anchored_empty 3 (insecurity_request env_base) = .ok v1 ∧
      v1.fetch = some f ∧
      fetch_callback_nullkey env_anchored_empty 3 v1
        (fetch_done ISC_R_SUCCESS (null_keyset 4) dns_rdataset_init) = .ok v2 ∧
      v2.effects = v1.effects ++ [Effect.task_send ev, Effect.resolver_destroyfetch f] ∧
      ev.result = DNS_R_NOTINSECURE :=
  ⟨rfl, by decide, ⟨_, _, _, rfl, rfl, rfl⟩,
   ⟨_, _, _, _, _, rfl, rfl, rfl, rfl, rfl, rfl, rfl, rfl, rfl⟩,
   ⟨_, _, _, rfl, rfl, rfl⟩, ⟨_, _, _, _, rfl, rfl, rfl, rfl, rfl⟩⟩

/-- C28 at its failing inputs: an insecurity request for an A rdataset with trust `pending`.
With no trust anchor above the name the request ends with success and the rdataset still has
trust `pending`.  Under a trust anchor, with a null-key keyset of trust `pending` and its
signature set in the cache for `[1]`, a nested validator is created; when it reports
success, `nullkeyvalidated` ends the request with success and the rdataset still has trust
`pending`.  (With a null-key keyset of trust `secure` the rdataset is marked `answer`.) -/
theorem proveunsecure_success_without_answer :
    rrset_a.trust = dns_trust_pending ∧
    (∃ v start ev,
      validator_start env_base 3 (insecurity_request env_base) = .ok v ∧
      v.effects = [Effect.task_send start, Effect.task_send ev] ∧
      ev.result = ISC_R_SUCCESS ∧ ev.ev_type = eventtype.DNS_EVENT_VALIDATORDONE ∧
      ev.rdataset = some rrset_a) ∧
    (∃ v1 v2 c ev,
      validator_start (env_anchored (null_keyset 1) signxt) 3 (insecurity_request env_base) =
        .ok v1 ∧
      v1.event.isSome = true ∧ v1.keyvalidator = some c ∧
      c.action = taskaction.nullkeyvalidated ∧
      nullkeyvalidated (env_anchored (null_keyset 1) signxt) 3 v1
        (child_done ISC_R_SUCCESS taskaction.nullkeyvalidated) = .ok v2 ∧
      v2.effects = v1.effects ++ [Effect.task_send ev, Effect.validator_destroy c] ∧
      ev.result = ISC_R_SUCCESS ∧ ev.ev_type = eventtype.DNS_EVENT_VALIDATORDONE ∧
      ev.rdataset = some rrset_a) ∧
    ∃ v start ev,
      validator_start (env_anchored (null_keyset 7) signxt) 3 (insecurity_request env_base) =
        .ok v ∧
      v.effects = [Effect.task_send start, Effect.view_simplefind [1], Effect.task_send ev] ∧
      ev.result = ISC_R_SUCCESS ∧
      ev.rdataset = some { rrset_a with trust := dns_trust_answer } :=
  ⟨rfl, ⟨_, _, _, rfl, rfl, rfl, rfl, rfl⟩, ⟨_, _, _, _, rfl, rfl, rfl, rfl, rfl, rfl, rfl, rfl, rfl⟩,
   ⟨_, _, _, rfl, rfl, rfl, rfl⟩⟩

/-- C29 at its failing input: an insecurity request for `[1, 2]` under a trust anchor at the
root; the cache holds, for `[1]` and for `[1, 2]`, a null-key keyset of trust `pending` with
its signature set.  `validator_start` creates a nested validator for the keyset of `[1]` and
waits.  The nested validator fails.  `nullkeyvalidated` re-enters `proveunsecure` while
`val->keyvalidator` still holds that child (it is destroyed only afterwards), the walk reaches
the keyset of `[1, 2]`, and `dns_validator_create` stops at
`REQUIRE(validatorp != NULL && *validatorp == NULL)`. -/
theorem nullkeyvalidated_slot_occupied :
    ∃ v1 c start,
      validator_start env_pending_null_everywhere 3 (insecurity_request env_base) = .ok v1 ∧
      v1.event.isSome = true ∧ v1.fetch = none ∧ v1.keyvalidator = some c ∧
      v1.authvalidator = none ∧ c.name = [1] ∧
      v1.effects = [Effect.task_send start, Effect.view_simplefind [1],
        Effect.validator_create c] ∧
      ∀ fuel, nullkeyvalidated env_pending_null_everywhere (fuel + 1) v1
        (child_done DNS_R_NOVALIDSIG taskaction.nullkeyvalidated) =
          .error Stop.require_validatorp :=
  ⟨_, _, _, rfl, rfl, rfl, rfl, rfl, rfl, rfl, fun _ => rfl⟩

/-! ## Destruction -/

/-- C23 at its failing inputs.  What holds: `dns_validator_destroy` stops at
`REQUIRE(val->event == NULL)` while the completion event has not been posted; when it
returns, the shutdown flag is set; with a fetch outstanding the validator is not freed.
What fails: a positive request waits for the nested validator of a pending keyset; the
caller cancels it (the event is posted) and calls `dns_validator_destroy`.  No fetch is
outstanding, so `destroy` runs and frees the validator although the child in
`val->keyvalidator` has not delivered its completion event, which carries a pointer to the
freed validator.  The same happens with the child in `val->authvalidator` of a denial
request; that child was not even cancelled and still has its event, so the
`dns_validator_destroy` that `destroy` calls on it stops at `REQUIRE(val->event == NULL)`. -/
theorem dns_validator_destroy_frees_with_child :
    (∀ val : dns_validator, val.magic = VALIDATOR_MAGIC → val.event.isSome = true →
      dns_validator_destroy val = .error Stop.require_event_null) ∧
    (∀ val v : dns_validator, dns_validator_destroy val = .ok v →
      v.attributes &&& VALATTR_SHUTDOWN ≠ 0) ∧
    (∀ (val : dns_validator) (f : dns_fetch), val.magic = VALIDATOR_MAGIC → val.event = none →
      val.fetch = some f →
      dns_validator_destroy val =
        .ok { val with attributes := val.attributes ||| VALATTR_SHUTDOWN }) ∧
    (∃ v1 v2 v3 c canceled,
      validator_start (env_pending_keyset true) 3
        (positive_request env_base [[1, 7, 1500, 1]]) = .ok v1 ∧
      v1.fetch = none ∧ v1.keyvalidator = some c ∧
      dns_validator_cancel v1 = .ok v2 ∧
      v2.effects = v1.effects ++ [Effect.task_send canceled, Effect.validator_cancel c] ∧
      v2.keyvalidator = some c ∧
      dns_validator_destroy v2 = .ok v3 ∧
      v3.magic = 0 ∧
      v3.effects = v2.effects ++ [Effect.validator_destroy c, Effect.validator_free]) ∧
    ∃ v1 v2 v3 c child canceled,
      validator_start env_base 3 (denial_request env_base [([1, 1], [nxtset, signxt])]) =
        .ok v1 ∧
      v1.fetch = none ∧ v1.authvalidator = some c ∧
      dns_validator_cancel v1 = .ok v2 ∧
      v2.effects = v1.effects ++ [Effect.task_send canceled] ∧
      dns_validator_destroy v2 = .ok v3 ∧
      v3.magic = 0 ∧
      v3.effects = v2.effects ++ [Effect.validator_destroy c, Effect.validator_free] ∧
      dns_validator_create env_base (some c.name) c.type c.rdataset c.sigrdataset c.message 0
        c.action none = .ok (ISC_R_SUCCESS, some child) ∧
      dns_validator_destroy child = .error Stop.require_event_null := by
  refine ⟨?_, ?_, ?_, ⟨_, _, _, _, _, rfl, rfl, rfl, rfl, rfl, rfl, rfl, rfl, rfl⟩,
    ⟨_, _, _, _, _, _, rfl, rfl, rfl, rfl, rfl, rfl, rfl, rfl, rfl, rfl⟩⟩
  · intro val hm he
    simp [dns_validator_destroy, hm, he]
  · intro val v h
    unfold dns_validator_destroy at h
    have hflag : ∀ a : Nat, (a ||| VALATTR_SHUTDOWN) &&& VALATTR_SHUTDOWN ≠ 0 := by
      intro a
      have h1 : (a ||| VALATTR_SHUTDOWN) &&& VALATTR_SHUTDOWN = VALATTR_SHUTDOWN := by
        apply Nat.eq_of_testBit_eq
        intro i
        simp only [Nat.testBit_and, Nat.testBit_or]
        cases a.testBit i <;> cases VALATTR_SHUTDOWN.testBit i <;> rfl
      rw [h1]
      decide
    by_cases hm : val.magic ≠ VALIDATOR_MAGIC
    · simp [hm] at h
    · by_cases he : val.event.isSome = true
      · simp [hm, he] at h
      · simp only [hm, he, if_false] at h
        by_cases hf : val.fetch.isNone = true
        · simp only [hf, if_true] at h
          unfold destroy at h
          simp only [hflag, he, hf] at h
          by_cases hf2 : val.fetch.isSome = true
          · simp [hf2] at h
          · simp only [hf2, if_false] at h
            injection h with h
            rw [← h]
            exact hflag _
        · simp only [hf, if_false] at h
          injection h with h
          rw [← h]
          exact hflag _
  · intro val f hm he hf
    simp [dns_validator_destroy, hm, he, hf]

/-! ## Positive proof: records after a resumption -/

/-- C25 at its failing input: a positive request with two signature records by the signer
`[1]`, key ids 7 and 8; no trust anchor, nothing in the cache, verification fails under
every key.  `validate` issues a fetch for the keyset of the first record and waits.  The
fetch brings a keyset with trust `secure` that holds the key 7.  `validate`, re-entered with
`resume`, verifies the first record under that key, which fails, and moves to the second
record; `resume` is still true, so `get_key` is not called for the second record, `val->key`
is NULL, and `validate` returns success with trust `answer`: no key was resolved for the
second record and no keyset was found unauthenticated.  With the same keyset in the cache
from the start, `get_key` is called for both records and the request ends with
`DNS_R_NOVALIDSIG`. -/
theorem validate_resume_skips_get_key :
    (∀ name rdataset key sig, env_base.verify name rdataset key sig = other 1) ∧
    (plain_keyset 7).trust = dns_trust_secure ∧
    (∃ v1 v2 f start ev,
      validator_start env_base 3
        (positive_request env_base [[1, 7, 1500, 1], [1, 8, 1500, 1]]) = .ok v1 ∧
      v1.event.isSome = true ∧ v1.fetch = some f ∧
      v1.effects = [Effect.task_send start, Effect.view_simplefind [1],
        Effect.resolver_createfetch f] ∧
      fetch_callback_validator env_base 3 v1
        (fetch_done ISC_R_SUCCESS (plain_keyset 7) signxt) = .ok v2 ∧
      v2.effects = v1.effects ++ [Effect.resolver_destroyfetch f,
        Effect.dnssec_verify (twin_key 256) [1, 7, 1500, 1], Effect.task_send ev] ∧
      ev.result = ISC_R_SUCCESS ∧
      ev.rdataset = some { rrset_a with trust := dns_trust_answer }) ∧
    ∃ v start ev,
      validator_start (env_cached (plain_keyset 7) signxt) 3
        (positive_request env_base [[1, 7, 1500, 1], [1, 8, 1500, 1]]) = .ok v ∧
      v.effects = [Effect.task_send start, Effect.view_simplefind [1],
        Effect.dnssec_verify (twin_key 256) [1, 7, 1500, 1], Effect.view_simplefind [1],
        Effect.task_send ev] ∧
      ev.result = DNS_R_NOVALIDSIG ∧ ev.rdataset = some rrset_a :=
  ⟨fun _ _ _ _ => rfl, rfl, ⟨_, _, _, _, _, rfl, rfl, rfl, rfl, rfl, rfl, rfl, rfl⟩,
   ⟨_, _, _, rfl, rfl, rfl, rfl⟩⟩

/-! ## Keyset entries that do not decode -/

/-- The loop of `containsnullkey` over entries that all decode finds a null key exactly when
there is one. -/
theorem containsnullkey_scan_all_decode (env : Env) :
    ∀ l : List dns_rdata, (∀ rdata ∈ l, ∃ key, dst_key_fromdns env rdata = .ok key) →
      containsnullkey_scan env l = any_null_key env l := by
  intro l
  induction l with
  | nil => intro _; rfl
  | cons rdata rest ih =>
    intro hdec
    obtain ⟨key, hk⟩ := hdec rdata (List.mem_cons_self _ _)
    have ih1 := ih (fun r hr => hdec r (List.mem_cons_of_mem _ hr))
    simp only [any_null_key, List.any_cons, hk] at ih1 ⊢
    simp only [containsnullkey_scan, hk]
    cases hn : dst_key_isnullkey env.kv key
    · simpa using ih1
    · simp

/-- The loop of `get_dst_key` with no previous candidate, over entries that decode and do
not match, followed by an entry that does not decode: it ends with the decoding error. -/
theorem get_dst_key_scan_decode_error (env : Env) (siginfo : dns_rdata_sig)
    (bad : dns_rdata) (post : List dns_rdata) (r : isc_result)
    (hbad : dst_key_fromdns env bad = .error r) :
    ∀ pre : List dns_rdata, (∀ rdata ∈ pre, ∃ key, dst_key_fromdns env rdata = .ok key) →
      first_matching_key env siginfo pre = none →
      get_dst_key_scan env siginfo none true (pre ++ bad :: post) = (r, none) := by
  intro pre
  induction pre with
  | nil =>
    intro _ _
    simp [get_dst_key_scan, hbad]
  | cons rdata rest ih =>
    intro hdec hnone
    obtain ⟨key, hk⟩ := hdec rdata (List.mem_cons_self _ _)
    simp only [first_matching_key, hk] at hnone
    by_cases hm : key_matches env siginfo key = true
    · simp [hm] at hnone
    · simp only [hm, if_false] at hnone
      have hm1 := hm
      simp only [key_matches, decide_eq_true_eq] at hm1
      simp only [List.cons_append, get_dst_key_scan, hk, hm1]
      simpa using ih (fun x hx => hdec x (List.mem_cons_of_mem _ hx)) hnone

/-- C27 at its counterexamples: a keyset whose first record names an unsupported algorithm,
so that it does not decode.  With a second record that matches the signature record,
`get_dst_key` returns `DST_R_UNSUPPORTEDALG` and no key.  With a second record that is a null
key, `containsnullkey` returns false. -/
theorem decode_failure_not_skipped_counterexample :
    dst_key_fromdns env_base [1, 0, 3, 9, 7, 42] = .error DST_R_UNSUPPORTEDALG ∧
    first_matching_key env_base (toy_tostruct_sig [1, 7, 1500, 1])
      (keyset_bad_first [1, 0, 3, 1, 7, 42]).rdatas = some (twin_key 256) ∧
    get_dst_key env_base (keyed_state none) (toy_tostruct_sig [1, 7, 1500, 1])
      (some (keyset_bad_first [1, 0, 3, 1, 7, 42])) =
        .ok (DST_R_UNSUPPORTEDALG, keyed_state none) ∧
    any_null_key env_base (keyset_bad_first [193, 0, 3, 1, 7, 42]).rdatas = true ∧
    containsnullkey env_base (keyset_bad_first [193, 0, 3, 1, 7, 42]) = .ok false :=
  ⟨rfl, rfl, rfl, rfl, rfl⟩

/-- C27, as amended: `get_dst_key` does not skip a keyset entry that fails to decode: when,
with no previous candidate, the scan reaches such an entry before a matching one, it
returns the decoding error and leaves `val->key` absent, whatever follows the entry.  For a
keyset all of whose entries decode, `containsnullkey` returns true exactly when at least
one entry decodes to a null key. -/
theorem decode_failure_not_skipped (env : Env) (val : dns_validator) (siginfo : dns_rdata_sig)
    (rds nullset : dns_rdataset) (pre post : List dns_rdata) (bad : dns_rdata)
    (r : isc_result)
    (hassoc : rds.associated = true) (hsplit : rds.rdatas = pre ++ bad :: post)
    (hpre : ∀ rdata ∈ pre, ∃ key, dst_key_fromdns env rdata = .ok key)
    (hbad : dst_key_fromdns env bad = .error r)
    (hnomatch : first_matching_key env siginfo pre = none)
    (hkey : val.key = none)
    (hnassoc : nullset.associated = true)
    (hndec : ∀ rdata ∈ nullset.rdatas, ∃ key, dst_key_fromdns env rdata = .ok key) :
    get_dst_key env val siginfo (some rds) = .ok (r, { val with key := none }) ∧
    containsnullkey env nullset = .ok (any_null_key env nullset.rdatas) := by
  constructor
  · have hscan := get_dst_key_scan_decode_error env siginfo bad post r hbad pre hpre hnomatch
    unfold get_dst_key
    simp only [hassoc, hkey, Option.isNone_none]
    cases hr : rds.rdatas with
    | nil =>
      rw [hr] at hsplit
      simp at hsplit
    | cons a l =>
      simp only [Bool.true_eq_false, if_false]
      rw [← hr, hsplit, hscan]
  · simp [containsnullkey, hnassoc, containsnullkey_scan_all_decode env nullset.rdatas hndec]

/-- Witness of C27 as amended: the keyset of the counterexample for `get_dst_key`, and a
keyset of one zone key and one null key for `containsnullkey`. -/
theorem decode_failure_not_skipped_witness :
    get_dst_key env_base (keyed_state none) (toy_tostruct_sig [1, 7, 1500, 1])
      (some (keyset_bad_first [1, 0, 3, 1, 7, 42])) =
        .ok (DST_R_UNSUPPORTEDALG, keyed_state none) ∧
    containsnullkey env_base (keyset_of 7 100 [[1, 0, 3, 1, 7, 42], [193, 0, 3, 1, 7, 42]]) =
      .ok true :=
  decode_failure_not_skipped env_base (keyed_state none) (toy_tostruct_sig [1, 7, 1500, 1])
    (keyset_bad_first [1, 0, 3, 1, 7, 42])
    (keyset_of 7 100 [[1, 0, 3, 1, 7, 42], [193, 0, 3, 1, 7, 42]])
    [] [[1, 0, 3, 1, 7, 42]] [1, 0, 3, 9, 7, 42] DST_R_UNSUPPORTEDALG rfl rfl (by simp) rfl rfl
    rfl rfl
    (by
      intro rdata hr
      simp only [keyset_of, List.mem_cons, List.mem_singleton, List.not_mem_nil,
        or_false] at hr
      rcases hr with h | h
      · exact ⟨twin_key 256, by rw [h]; rfl⟩
      · exact ⟨twin_key 49408, by rw [h]; rfl⟩)

/-! ## Candidate stepping -/

/-- The candidates of a keyset in two parts. -/
theorem matching_keys_append (env : Env) (siginfo : dns_rdata_sig) (a b : List dns_rdata) :
    matching_keys env siginfo (a ++ b) = matching_keys env siginfo a ++ matching_keys env siginfo b := by
  induction a with
  | nil => rfl
  | cons rdata rest ih =>
    simp only [List.cons_append, matching_keys]
    cases hk : dst_key_fromdns env rdata with
    | error e => simpa using ih
    | ok key =>
      by_cases hm : key_matches env siginfo key = true
      · simp [hm, ih]
      · simpa [hm] using ih

/-- A matching key that an entry decodes to is among the candidates. -/
theorem mem_matching_keys (env : Env) (siginfo : dns_rdata_sig) :
    ∀ (l : List dns_rdata) (rdata : dns_rdata) (key : dst_key), rdata ∈ l →
      dst_key_fromdns env rdata = .ok key → key_matches env siginfo key = true →
      key ∈ matching_keys env siginfo l := by
  intro l
  induction l with
  | nil => intro _ _ h; simp at h
  | cons x rest ih =>
    intro rdata key hin hk hm
    rcases List.mem_cons.1 hin with h | h
    · subst h
      simp [matching_keys, hk, hm]
    · have := ih rdata key h hk hm
      simp only [matching_keys]
      cases hx : dst_key_fromdns env x with
      | error e => simpa using this
      | ok kx =>
        by_cases hmx : key_matches env siginfo kx = true
        · simp [hmx, this]
        · simpa [hmx] using this

/-- Where the first matching key of a list of entries that all decode sits: no candidate
precedes it. -/
theorem first_matching_key_split (env : Env) (siginfo : dns_rdata_sig) :
    ∀ (l : List dns_rdata) (key : dst_key),
      (∀ rdata ∈ l, ∃ k, dst_key_fromdns env rdata = .ok k) →
      first_matching_key env siginfo l = some key →
      ∃ pre rdata post, l = pre ++ rdata :: post ∧ dst_key_fromdns env rdata = .ok key ∧
        key_matches env siginfo key = true ∧ matching_keys env siginfo pre = [] := by
  intro l
  induction l with
  | nil => intro key _ h; simp [first_matching_key] at h
  | cons x rest ih =>
    intro key hdec h
    obtain ⟨kx, hx⟩ := hdec x (List.mem_cons_self _ _)
    simp only [first_matching_key, hx] at h
    by_cases hm : key_matches env siginfo kx = true
    · simp only [hm, if_true, Option.some.injEq] at h
      subst h
      exact ⟨[], x, rest, rfl, hx, hm, rfl⟩
    · simp only [hm, if_false] at h
      obtain ⟨pre, rdata, post, h1, h2, h3, h4⟩ :=
        ih key (fun r hr => hdec r (List.mem_cons_of_mem _ hr)) h
      refine ⟨x :: pre, rdata, post, by rw [h1]; rfl, h2, h3, ?_⟩
      simp [matching_keys, hx, hm, h4]

/-- A list of entries that all decode has no first matching key exactly when it has no
candidate. -/
theorem first_matching_key_none (env : Env) (siginfo : dns_rdata_sig) :
    ∀ l : List dns_rdata, (∀ rdata ∈ l, ∃ k, dst_key_fromdns env rdata = .ok k) →
      first_matching_key env siginfo l = none → matching_keys env siginfo l = [] := by
  intro l
  induction l with
  | nil => intro _ _; rfl
  | cons x rest ih =>
    intro hdec h
    obtain ⟨kx, hx⟩ := hdec x (List.mem_cons_self _ _)
    simp only [first_matching_key, hx] at h
    by_cases hm : key_matches env siginfo kx = true
    · simp [hm] at h
    · simp only [hm, if_false] at h
      simp [matching_keys, hx, hm, ih (fun r hr => hdec r (List.mem_cons_of_mem _ hr)) h]

/-- The loop of `get_dst_key` finds no key when no candidate compares equal to the previous
one. -/
theorem get_dst_key_scan_never_found (env : Env) (siginfo : dns_rdata_sig) (old : dst_key) :
    ∀ l : List dns_rdata, (∀ rdata ∈ l, ∃ k, dst_key_fromdns env rdata = .ok k) →
      (∀ k ∈ matching_keys env siginfo l, dst_key_compare env old k = false) →
      get_dst_key_scan env siginfo (some old) false l = (ISC_R_NOTFOUND, none) := by
  intro l
  induction l with
  | nil => intro _ _; rfl
  | cons x rest ih =>
    intro hdec hno
    obtain ⟨kx, hx⟩ := hdec x (List.mem_cons_self _ _)
    have hdec1 := fun r hr => hdec r (List.mem_cons_of_mem x hr)
    by_cases hm : key_matches env siginfo kx = true
    · have hno1 : dst_key_compare env old kx = false :=
        hno kx (by simp [matching_keys, hx, hm])
      have hrest : ∀ k ∈ matching_keys env siginfo rest, dst_key_compare env old k = false :=
        fun k hk => hno k (by simp [matching_keys, hx, hm, hk])
      have hm1 := hm
      simp only [key_matches, decide_eq_true_eq] at hm1
      simp only [get_dst_key_scan, hx, hm1, hno1]
      simpa using ih hdec1 hrest
    · have hrest : ∀ k ∈ matching_keys env siginfo rest, dst_key_compare env old k = false :=
        fun k hk => hno k (by simpa [matching_keys, hx, hm] using hk)
      have hm1 := hm
      simp only [key_matches, decide_eq_true_eq] at hm1
      simp only [get_dst_key_scan, hx, hm1]
      simpa using ih hdec1 hrest

/-- The function `get_dst_key` on an associated keyset that is not empty. -/
theorem get_dst_key_nonempty (env : Env) (siginfo : dns_rdata_sig) (w : dns_validator)
    (l : List dns_rdata) (hassoc : w.frdataset.associated = true)
    (hL : w.frdataset.rdatas = l) (hne : l ≠ []) :
    get_dst_key env w siginfo (some w.frdataset) =
      .ok ((get_dst_key_scan env siginfo w.key w.key.isNone l).1,
        { w with key := (get_dst_key_scan env siginfo w.key w.key.isNone l).2 }) := by
  unfold get_dst_key
  simp only [hassoc, hL]
  cases l with
  | nil => exact absurd rfl hne
  | cons x xs => simp

/-- The retry loop over a keyset whose entries all decode and whose candidates are pairwise
distinct under `dst_key_compare`: entered with `val->key` the candidate of the entry `rd`,
it returns once the fuel exceeds the number of candidates from that entry on, and the keys it
verified under are an initial run of those candidates, in set order. -/
theorem verify_loop_distinct_candidates (env : Env) (name : dns_name) (erds : dns_rdataset)
    (rdata : dns_rdata) (siginfo : dns_rdata_sig) :
    ∀ (fuel : Nat) (val : dns_validator) (pre : List dns_rdata) (rd : dns_rdata)
      (post : List dns_rdata) (k : dst_key),
      val.key = some k → val.keynode = none → val.keyset = true →
      val.frdataset.associated = true → val.frdataset.rdatas = pre ++ rd :: post →
      (∀ r ∈ pre ++ rd :: post, ∃ key, dst_key_fromdns env r = .ok key) →
      dst_key_fromdns env rd = .ok k → key_matches env siginfo k = true →
      (matching_keys env siginfo (pre ++ rd :: post)).Pairwise
        (fun a b => dst_key_compare env a b = false ∧ dst_key_compare env b a = false) →
      (matching_keys env siginfo post).length + 1 ≤ fuel →
      ∃ r v tried rest, verify_loop env name erds rdata siginfo fuel val = .ok (r, v) ∧
        v.effects = val.effects ++ tried.map (fun key => Effect.dnssec_verify key rdata) ∧
        k :: matching_keys env siginfo post = tried ++ rest ∧
        (r = ISC_R_SUCCESS → ∃ key ∈ tried, env.verify name erds key rdata = ISC_R_SUCCESS) := by
  intro fuel
  induction fuel with
  | zero => intro val pre rd post k _ _ _ _ _ _ _ _ _ hf; omega
  | succ fuel ih =>
    intro val pre rd post k hkey hnode hset hassoc hL hdec hrd hm hpw hf
    have hmk : matching_keys env siginfo (pre ++ rd :: post) =
        matching_keys env siginfo pre ++ k :: matching_keys env siginfo post := by
      rw [matching_keys_append]
      simp [matching_keys, hrd, hm]
    rw [hmk, List.pairwise_append] at hpw
    obtain ⟨_, hpost, hcross⟩ := hpw
    have hpre : ∀ r ∈ pre, ∀ k1, dst_key_fromdns env r = .ok k1 →
        key_matches env siginfo k1 = true → dst_key_compare env k k1 = false := by
      intro r hr k1 hk1 hm1
      exact (hcross k1 (mem_matching_keys env siginfo pre r k1 hr hk1 hm1) k
        (List.mem_cons_self _ _)).2
    have hdecpre : ∀ r ∈ pre, ∃ key, dst_key_fromdns env r = .ok key :=
      fun r hr => hdec r (by simp [hr])
    have hdecpost : ∀ r ∈ post, ∃ key, dst_key_fromdns env r = .ok key :=
      fun r hr => hdec r (by simp [hr])
    unfold verify_loop
    simp only [hkey]
    by_cases hres : env.verify name erds k rdata = ISC_R_SUCCESS
    · simp only [hres, if_true]
      refine ⟨_, _, [k], matching_keys env siginfo post, rfl, ?_, rfl,
        fun _ => ⟨k, List.mem_cons_self _ _, hres⟩⟩
      simp
    · simp only [hres, if_false, hnode, hset, if_true]
      have hget := get_dst_key_nonempty env siginfo
        { val with keynode := none, key := some k, keyset := true,
                   effects := val.effects ++ [Effect.dnssec_verify k rdata] }
        (pre ++ rd :: post) hassoc hL (by simp)
      rw [hget]
      dsimp only [Option.isNone]
      by_cases hc : dst_key_compare env k k = true
      · rw [get_dst_key_scan_skip env siginfo k rd post k hrd hm hc pre hdecpre hpre,
          get_dst_key_scan_found env siginfo (some k) post hdecpost]
        cases hfm : first_matching_key env siginfo post with
        | none =>
          simp only []
          refine ⟨_, _, [k], matching_keys env siginfo post, rfl, ?_, rfl, ?_⟩
          · simp
          · intro h; exact absurd h hres
        | some k2 =>
          simp only []
          obtain ⟨pre2, rd2, post2, hsplit, hrd2, hm2, hnone⟩ :=
            first_matching_key_split env siginfo post k2 hdecpost hfm
          have hmk2 : matching_keys env siginfo post = k2 :: matching_keys env siginfo post2 := by
            rw [hsplit, matching_keys_append, hnone]
            simp [matching_keys, hrd2, hm2]
          have hlist : pre ++ rd :: post = (pre ++ rd :: pre2) ++ rd2 :: post2 := by
            rw [hsplit]; simp
          obtain ⟨r, v, tried, rest, hrun, heff, hpref, hsucc⟩ :=
            ih { val with keynode := none, keyset := true,
                          effects := val.effects ++ [Effect.dnssec_verify k rdata],
                          key := some k2 }
              (pre ++ rd :: pre2) rd2 post2 k2 rfl rfl rfl hassoc
              (by simp only []; rw [hL, hlist])
              (by rw [← hlist]; exact hdec) hrd2 hm2
              (by rw [← hlist, hmk, List.pairwise_append]; exact ⟨by assumption, hpost, hcross⟩)
              (by rw [hmk2] at hf; simp at hf; omega)
          refine ⟨r, v, k :: tried, rest, ?_, ?_, ?_, ?_⟩
          · exact hrun
          · rw [heff]; simp
          · rw [hmk2, hpref]; rfl
          · intro h
            obtain ⟨key, hk, hv⟩ := hsucc h
            exact ⟨key, List.mem_cons_of_mem _ hk, hv⟩
      · have hcf : dst_key_compare env k k = false := by simpa using hc
        have hall : ∀ k1 ∈ matching_keys env siginfo (pre ++ rd :: post),
            dst_key_compare env k k1 = false := by
          intro k1 hk1
          rw [hmk] at hk1
          rcases List.mem_append.1 hk1 with h | h
          · exact (hcross k1 h k (List.mem_cons_self _ _)).2
          · rcases List.mem_cons.1 h with h | h
            · rw [h]; exact hcf
            · exact ((List.pairwise_cons.1 hpost).1 k1 h).1
        rw [get_dst_key_scan_never_found env siginfo k (pre ++ rd :: post) hdec hall]
        refine ⟨_, _, [k], matching_keys env siginfo post, rfl, ?_, rfl, ?_⟩
        · simp
        · intro h; exact absurd h hres

/-- More fuel does not change a result of the retry loop. -/
theorem verify_loop_fuel_succ (env : Env) (name : dns_name) (erds : dns_rdataset)
    (rdata : dns_rdata) (siginfo : dns_rdata_sig) :
    ∀ (fuel : Nat) (val : dns_validator) (x : isc_result × dns_validator),
      verify_loop env name erds rdata siginfo fuel val = .ok x →
      verify_loop env name erds rdata siginfo (fuel + 1) val = .ok x := by
  intro fuel
  induction fuel with
  | zero => intro val x h; simp [verify_loop] at h
  | succ fuel ih =>
    intro val x h
    rw [verify_loop] at h
    rw [verify_loop]
    cases hkey : val.key with
    | none => simp [hkey] at h
    | some key =>
      simp only [hkey] at h ⊢
      by_cases hres : env.verify name erds key rdata = ISC_R_SUCCESS
      · simpa [hres] using h
      · simp only [hres, if_false] at h ⊢
        cases hnode : val.keynode with
        | some node =>
          simp only [hnode] at h ⊢
          cases hnext : node.next with
          | nil => simpa [hnext] using h
          | cons k rest =>
            simp only [hnext] at h ⊢
            exact ih _ _ h
        | none =>
          simp only [hnode] at h ⊢
          generalize get_dst_key env _ siginfo _ = g at h ⊢
          cases g with
          | error e => simp at h
          | ok p =>
            obtain ⟨r, v2⟩ := p
            by_cases hr : r = ISC_R_SUCCESS
            · simp only [hr, ne_eq, not_true_eq_false, if_false] at h ⊢
              exact ih _ _ h
            · simpa [hr] using h

/-- Any larger fuel gives the result of the retry loop. -/
theorem verify_loop_fuel_le (env : Env) (name : dns_name) (erds : dns_rdataset)
    (rdata : dns_rdata) (siginfo : dns_rdata_sig) (val : dns_validator)
    (x : isc_result × dns_validator) (fuel : Nat)
    (h : verify_loop env name erds rdata siginfo fuel val = .ok x) :
    ∀ more, fuel ≤ more → verify_loop env name erds rdata siginfo more val = .ok x := by
  intro more hle
  induction more with
  | zero =>
    have : fuel = 0 := by omega
    rw [this] at h; exact h
  | succ n ih =>
    by_cases hn : fuel = n + 1
    · rw [← hn]; exact h
    · exact verify_loop_fuel_succ env name erds rdata siginfo n val x (ih (by omega))

/-- C30: the retry loop of `validate` over a keyset whose entries decode and whose candidates
for the signature record (the keys with its algorithm and key tag that are zone keys) are
pairwise distinct under `dst_key_compare`.  Entered with `val->key` the candidate of one
entry, the loop returns, with the same result for every fuel above the number of candidates
from that entry on; the keys handed to `dns_dnssec_verify` are an initial run of those
candidates in set order, so each matching entry is used at most once and none that was
rejected comes back; and a successful result is the success of one of these calls. -/
theorem verify_loop_terminates_distinct_keys (env : Env) (name : dns_name)
    (erds : dns_rdataset) (rdata : dns_rdata) (siginfo : dns_rdata_sig) (val : dns_validator)
    (pre : List dns_rdata) (rd : dns_rdata) (post : List dns_rdata) (k : dst_key)
    (hkey : val.key = some k) (hnode : val.keynode = none) (hset : val.keyset = true)
    (hassoc : val.frdataset.associated = true) (hL : val.frdataset.rdatas = pre ++ rd :: post)
    (hdec : ∀ r ∈ pre ++ rd :: post, ∃ key, dst_key_fromdns env r = .ok key)
    (hrd : dst_key_fromdns env rd = .ok k) (hm : key_matches env siginfo k = true)
    (hpw : (matching_keys env siginfo (pre ++ rd :: post)).Pairwise
      (fun a b => dst_key_compare env a b = false ∧ dst_key_compare env b a = false)) :
    ∃ r v tried rest,
      (∀ fuel, (matching_keys env siginfo post).length + 1 ≤ fuel →
        verify_loop env name erds rdata siginfo fuel val = .ok (r, v)) ∧
      v.effects = val.effects ++ tried.map (fun key => Effect.dnssec_verify key rdata) ∧
      k :: matching_keys env siginfo post = tried ++ rest ∧
      tried.length ≤ (matching_keys env siginfo val.frdataset.rdatas).length ∧
      (r = ISC_R_SUCCESS → ∃ key ∈ tried, env.verify name erds key rdata = ISC_R_SUCCESS) := by
  obtain ⟨r, v, tried, rest, hrun, heff, hpref, hsucc⟩ :=
    verify_loop_distinct_candidates env name erds rdata siginfo
      ((matching_keys env siginfo post).length + 1) val pre rd post k hkey hnode hset hassoc hL
      hdec hrd hm hpw (Nat.le_refl _)
  refine ⟨r, v, tried, rest, ?_, heff, hpref, ?_, hsucc⟩
  · intro fuel hf
    exact verify_loop_fuel_le env name erds rdata siginfo val (r, v) _ hrun fuel hf
  · have hlen := congrArg List.length hpref
    rw [hL, matching_keys_append]
    simp only [matching_keys, hrd, hm, if_true, List.length_append, List.length_cons] at hlen ⊢
    omega

/-- Witness of C30: in `distinct_keyset` both records are candidates and their keys do not
compare equal; entered with the first, the loop verifies under the first and then under the
second key. -/
theorem verify_loop_terminates_distinct_keys_witness :
    ∃ r v tried rest,
      (∀ fuel, (matching_keys env_distinct_keys (toy_tostruct_sig [1, 7, 1500, 1])
          [[1, 1, 3, 1, 7, 43]]).length + 1 ≤ fuel →
        verify_loop env_distinct_keys [1, 2] rrset_a [1, 7, 1500, 1]
          (toy_tostruct_sig [1, 7, 1500, 1]) fuel (distinct_state (distinct_key false)) =
          .ok (r, v)) ∧
      v.effects = (distinct_state (distinct_key false)).effects ++
        tried.map (fun key => Effect.dnssec_verify key [1, 7, 1500, 1]) ∧
      distinct_key false :: matching_keys env_distinct_keys (toy_tostruct_sig [1, 7, 1500, 1])
        [[1, 1, 3, 1, 7, 43]] = tried ++ rest ∧
      tried.length ≤ (matching_keys env_distinct_keys (toy_tostruct_sig [1, 7, 1500, 1])
        (distinct_state (distinct_key false)).frdataset.rdatas).length ∧
      (r = ISC_R_SUCCESS → ∃ key ∈ tried,
        env_distinct_keys.verify [1, 2] rrset_a key [1, 7, 1500, 1] = ISC_R_SUCCESS) :=
  verify_loop_terminates_distinct_keys env_distinct_keys [1, 2] rrset_a [1, 7, 1500, 1]
    (toy_tostruct_sig [1, 7, 1500, 1]) (distinct_state (distinct_key false))
    [] [1, 0, 3, 1, 7, 42] [[1, 1, 3, 1, 7, 43]] (distinct_key false) rfl rfl rfl rfl rfl
    (by
      intro r hr
      simp only [List.nil_append, List.mem_cons, List.mem_singleton, List.not_mem_nil,
        or_false] at hr
      rcases hr with h | h
      · exact ⟨distinct_key false, by rw [h]; rfl⟩
      · exact ⟨distinct_key true, by rw [h]; rfl⟩)
    rfl rfl (by decide)

/-! ## What the steps of a request keep -/

/-- The results sent by two runs of calls, one after the other. -/
theorem posted_results_append (a b : List Effect) :
    posted_results (a ++ b) = posted_results a ++ posted_results b := by
  induction a with
  | nil => rfl
  | cons e rest ih => cases e <;> simp [posted_results, ih]

/-- Doing nothing keeps. -/
theorem keeps_refl (val : dns_validator) : keeps val val := ⟨le_refl _, fun h => h⟩

/-- Two steps that keep, one after the other. -/
theorem keeps_trans {a b c : dns_validator} (h1 : keeps a b) (h2 : keeps b c) : keeps a c :=
  ⟨le_trans h1.1 h2.1, fun h => h2.2 (h1.2 h)⟩

/-- A step that does not lower the depth counter and adds calls none of which sends
`DNS_R_WAIT` keeps. -/
theorem keeps_intro (val v : dns_validator) (new : List Effect) (hl : val.labels ≤ v.labels)
    (he : v.effects = val.effects ++ new) (hn : DNS_R_WAIT ∉ posted_results new) :
    keeps val v := by
  refine ⟨hl, fun h => ?_⟩
  rw [he, posted_results_append]
  simp [h, hn]

/-- A step that keeps, followed by one that leaves the depth counter and adds calls none of
which sends `DNS_R_WAIT`. -/
theorem keeps_step {val : dns_validator} (a b : dns_validator) (new : List Effect)
    (hab : keeps val a) (hl : b.labels = a.labels) (he : b.effects = a.effects ++ new)
    (hn : DNS_R_WAIT ∉ posted_results new) : keeps val b :=
  keeps_trans hab (keeps_intro a b new (by omega) he hn)

/-- The function `validator_done` sends one event, with the result it is given. -/
theorem validator_done_ok (val v : dns_validator) (r : isc_result)
    (h : validator_done val r = .ok v) :
    ∃ ev, val.event = some ev ∧
      v = { val with event := none,
                     effects := val.effects ++ [Effect.task_send
                       { ev with result := r, ev_type := eventtype.DNS_EVENT_VALIDATORDONE,
                                 ev_action := val.action }] } := by
  unfold validator_done at h
  cases hev : val.event with
  | none => simp [hev] at h
  | some ev =>
    simp only [hev] at h
    cases h
    exact ⟨ev, rfl, rfl⟩

/-- The function `validator_done` with a result other than `DNS_R_WAIT` keeps. -/
theorem validator_done_keeps (val v : dns_validator) (r : isc_result) (hr : r ≠ DNS_R_WAIT)
    (h : validator_done val r = .ok v) : keeps val v := by
  obtain ⟨ev, _, rfl⟩ := validator_done_ok val v r h
  exact keeps_intro _ _ [_] (le_refl _) rfl (by simp [posted_results]; exact fun h => hr h.symm)

/-- The end of a strategy run keeps: the event is sent unless the result is `DNS_R_WAIT`. -/
theorem done_unless_wait_keeps (val v : dns_validator) (r : isc_result)
    (h : (if r ≠ DNS_R_WAIT then validator_done val r else .ok val) = .ok v) : keeps val v := by
  by_cases hr : r = DNS_R_WAIT
  · simp only [hr, ne_eq, not_true_eq_false, if_false] at h
    cases h
    exact keeps_refl _
  · simp only [ne_eq, hr, not_false_eq_true, if_true] at h
    exact validator_done_keeps val v r hr h

/-- The call that destroys the key child keeps. -/
theorem destroy_keyvalidator_keeps (val v : dns_validator)
    (h : destroy_keyvalidator val = .ok v) : keeps val v := by
  unfold destroy_keyvalidator at h
  cases hk : val.keyvalidator with
  | none => simp [hk] at h
  | some c =>
    simp only [hk] at h
    cases h
    exact keeps_intro _ _ [_] (le_refl _) rfl (by simp [posted_results])

/-- The call that destroys the authority child keeps. -/
theorem destroy_authvalidator_keeps (val v : dns_validator)
    (h : destroy_authvalidator val = .ok v) : keeps val v := by
  unfold destroy_authvalidator at h
  cases hk : val.authvalidator with
  | none => simp [hk] at h
  | some c =>
    simp only [hk] at h
    cases h
    exact keeps_intro _ _ [_] (le_refl _) rfl (by simp [posted_results])

/-- No call of the walk sends an event. -/
theorem posted_results_walk (env : Env) (event : dns_validatorevent) :
    ∀ ds : List (Nat × Effect), (∀ p ∈ ds, walk_effect env event p.1 p.2 = true) →
      posted_results (ds.map Prod.snd) = [] := by
  intro ds
  induction ds with
  | nil => intro _; rfl
  | cons p rest ih =>
    intro h
    have h1 := h p (List.mem_cons_self _ _)
    have h2 := ih (fun q hq => h q (List.mem_cons_of_mem _ hq))
    obtain ⟨d, e⟩ := p
    cases hw : walk_name env event d <;> cases e <;> simp_all [walk_effect, posted_results]

/-- The function `dns_validator_create` never returns `DNS_R_WAIT`. -/
theorem dns_validator_create_not_wait (env : Env) (name : Option dns_name) (type : Nat)
    (rdataset sigrdataset : Option dns_rdataset) (message : Option dns_message)
    (options : Nat) (action : taskaction) (slot : Option subvalidator) (r : isc_result)
    (o : Option dns_validator)
    (h : dns_validator_create env name type rdataset sigrdataset message options action slot =
      .ok (r, o)) : r ≠ DNS_R_WAIT := by
  unfold dns_validator_create at h
  repeat' split at h
  all_goals cases h
  all_goals decide

/-! ## Insecurity proof: resumption -/

/-- What a run of the loop of `proveunsecure` that returns has done: the depth counter has
not decreased, and every call made is a lookup, a fetch or a nested validator for the name of
a depth from the entry value of the counter on. -/
theorem proveunsecure_loop_spec (env : Env) (event : dns_validatorevent) :
    ∀ (fuel : Nat) (val : dns_validator) (r : isc_result) (v : dns_validator),
      val.event = some event → proveunsecure_loop env fuel val = .ok (r, v) →
      walk_result env event val v := by
  intro fuel
  induction fuel with
  | zero => intro val r v _ h; simp [proveunsecure_loop] at h
  | succ fuel ih =>
    intro val r v hev h
    rw [proveunsecure_loop] at h
    simp only [hev] at h
    by_cases hle : val.labels ≤ env.depth event.name
    swap
    · rw [if_pos hle] at h
      cases h
      exact ⟨le_refl _, [], by simp, by simp, fun t h1 => absurd h1 hle⟩
    rw [if_neg (not_not.mpr hle)] at h
    by_cases hbrk : val.labels = env.depth event.name ∧ event.type = env.dns_rdatatype_key
    · rw [if_pos hbrk] at h
      cases h
      exact ⟨le_refl _, [], by simp, by simp, fun t _ h2 => absurd hbrk h2⟩
    rw [if_neg hbrk] at h
    cases hsplit : walk_name env event val.labels with
    | error e =>
      have hsplit0 := hsplit
      simp only [walk_name] at hsplit
      simp only [hsplit] at h
      cases h
      exact ⟨le_refl _, [], by simp, by simp,
        fun t _ _ h3 => by rw [hsplit0] at h3; cases h3⟩
    | ok t =>
      have hw : walk_effect env event val.labels (Effect.view_simplefind t) = true := by
        simp [walk_effect, hsplit]
      have hwf : ∀ f : dns_fetch, f.name = t →
          walk_effect env event val.labels (Effect.resolver_createfetch f) = true := by
        intro f hf; simp [walk_effect, hsplit, hf]
      have hwc : ∀ c : subvalidator, c.name = t →
          walk_effect env event val.labels (Effect.validator_create c) = true := by
        intro c hc; simp [walk_effect, hsplit, hc]
      have hfirst : ∀ t1, walk_name env event val.labels = .ok t1 → t1 = t := by
        intro t1 h1; rw [hsplit] at h1; cases h1; rfl
      simp only [walk_name] at hsplit
      simp only [hsplit] at h
      have one : ∀ w : dns_validator, w.labels = val.labels → w.action = val.action →
          w.effects = val.effects ++ [Effect.view_simplefind t] →
          walk_result env event val w := by
        intro w h1 _ h3
        exact ⟨by omega, [(val.labels, Effect.view_simplefind t)], by simp [h3],
          by simp [hw, hle], fun t1 _ _ ht => ⟨[], by rw [hfirst t1 ht]⟩⟩
      have two : ∀ (w : dns_validator) (e : Effect), w.labels = val.labels →
          w.action = val.action →
          w.effects = val.effects ++ [Effect.view_simplefind t] ++ [e] →
          walk_effect env event val.labels e = true →
          walk_result env event val w := by
        intro w e h1 _ h3 h4
        exact ⟨by omega, [(val.labels, Effect.view_simplefind t), (val.labels, e)],
          by simp [h3], by simp [hw, hle, h4],
          fun t1 _ _ ht => ⟨[(val.labels, e)], by rw [hfirst t1 ht]⟩⟩
      have more : ∀ w : dns_validator, proveunsecure_loop env fuel w = .ok (r, v) →
          w.event = some event → w.labels = val.labels + 1 →
          w.action = val.action →
          w.effects = val.effects ++ [Effect.view_simplefind t] →
          walk_result env event val v := by
        intro w hrun h0 h1 _ h3
        obtain ⟨hl, ds, he, hds, _⟩ := ih w r v h0 hrun
        refine ⟨by omega, (val.labels, Effect.view_simplefind t) :: ds,
          by rw [he, h3]; simp, ?_, fun t1 _ _ ht => ⟨ds, by rw [hfirst t1 ht]⟩⟩
        intro p hp
        rcases List.mem_cons.1 hp with h | h
        · rw [h]; exact ⟨le_refl _, hle, hw⟩
        · obtain ⟨a, b, c⟩ := hds p h
          exact ⟨by omega, b, c⟩
      by_cases hs : (env.simplefind t).1 = ISC_R_SUCCESS
      · simp only [hs, if_true] at h
        by_cases hsig : (env.simplefind t).2.2.associated = false
        · simp only [hsig, if_true] at h
          cases h
          exact one _ rfl rfl rfl
        · simp only [hsig, if_false] at h
          cases hc : containsnullkey env (env.simplefind t).2.1 with
          | error e => simp only [hc] at h; cases h
          | ok b =>
            simp only [hc] at h
            cases b with
            | false => exact more _ h rfl rfl rfl rfl
            | true =>
              simp only at h
              by_cases htr : (env.simplefind t).2.1.trust ≥ dns_trust_secure
              · simp only [htr, if_true] at h
                cases herds : event.rdataset with
                | none => simp only [herds] at h; cases h
                | some erds =>
                  simp only [herds] at h
                  cases h
                  exact one _ rfl rfl rfl
              · simp only [htr, if_false] at h
                by_cases hmem : env.mem_ok = false
                · simp only [hmem, if_true] at h
                  cases h
                  exact one _ rfl rfl rfl
                · simp only [hmem, if_false] at h
                  generalize dns_validator_create env _ _ _ _ _ _ _ _ = g at h
                  cases g with
                  | error e => cases h
                  | ok p =>
                    obtain ⟨r1, o⟩ := p
                    simp only at h
                    by_cases hr1 : r1 = ISC_R_SUCCESS
                    · simp only [hr1, ne_eq, not_true_eq_false, if_false] at h
                      cases h
                      exact two _ _ rfl rfl rfl (hwc _ rfl)
                    · simp only [ne_eq, hr1, not_false_eq_true, if_true] at h
                      cases h
                      exact one _ rfl rfl rfl
      · simp only [hs, if_false] at h
        by_cases hnf : (env.simplefind t).1 = ISC_R_NOTFOUND
        · simp only [hnf, if_true] at h
          by_cases hcf : env.createfetch t = ISC_R_SUCCESS
          · simp only [hcf, ne_eq, not_true_eq_false, if_false] at h
            cases h
            exact two _ _ rfl rfl rfl (hwf _ rfl)
          · simp only [ne_eq, hcf, not_false_eq_true, if_true] at h
            cases h
            exact one _ rfl rfl rfl
        · simp only [hnf, if_false] at h
          by_cases hnx : (env.simplefind t).1 = DNS_R_NCACHENXDOMAIN ∨
              (env.simplefind t).1 = DNS_R_NCACHENXRRSET ∨
              (env.simplefind t).1 = DNS_R_NXDOMAIN ∨ (env.simplefind t).1 = DNS_R_NXRRSET
          · simp only [hnx, if_true] at h
            exact more _ h rfl rfl rfl rfl
          · simp only [hnx, if_false] at h
            cases h
            exact one _ rfl rfl rfl

/-- The loop of `proveunsecure` keeps. -/
theorem proveunsecure_loop_keeps (env : Env) (fuel : Nat) (val : dns_validator)
    (r : isc_result) (v : dns_validator) (h : proveunsecure_loop env fuel val = .ok (r, v)) :
    keeps val v := by
  cases hev : val.event with
  | none =>
    cases fuel with
    | zero => simp [proveunsecure_loop] at h
    | succ n => rw [proveunsecure_loop] at h; simp [hev] at h
  | some event =>
    obtain ⟨hl, ds, he, hds, _⟩ := proveunsecure_loop_spec env event fuel val r v hev h
    exact keeps_intro val v _ hl he
      (by rw [posted_results_walk env event ds (fun p hp => (hds p hp).2.2)]; simp)

/-- The function `proveunsecure` keeps. -/
theorem proveunsecure_keeps (env : Env) (fuel : Nat) (val : dns_validator) (resume : Bool)
    (r : isc_result) (v : dns_validator) (hres : resume = false → val.labels = 0)
    (h : proveunsecure env fuel val resume = .ok (r, v)) : keeps val v := by
  unfold proveunsecure at h
  cases hev : val.event with
  | none => simp [hev] at h
  | some event =>
    simp only [hev] at h
    split at h
    · cases h; exact keeps_refl _
    · split at h
      · cases h; exact keeps_refl _
      · split at h
        · rename_i hr
          have h0 := hres hr
          have hk := proveunsecure_loop_keeps env fuel _ r v h
          exact keeps_trans
            (keeps_intro val _ [] (by simp [h0]) (by simp [hev]) (by simp [posted_results])) hk
        · have hk := proveunsecure_loop_keeps env fuel _ r v h
          exact keeps_trans
            (keeps_intro val _ [] (by simp) (by simp [hev]) (by simp [posted_results])) hk

/-- The function `nullkeyvalidated` keeps. -/
theorem nullkeyvalidated_keeps (env : Env) (fuel : Nat) (val : dns_validator)
    (devent : dns_validatorevent) (v : dns_validator)
    (h : nullkeyvalidated env fuel val devent = .ok v) : keeps val v := by
  unfold nullkeyvalidated at h
  dsimp only at h
  generalize hb : (if devent.result = ISC_R_SUCCESS then validator_done val ISC_R_SUCCESS
    else _) = body at h
  cases body with
  | error e => cases h
  | ok val2 =>
    dsimp only at h
    generalize hd : destroy_keyvalidator val2 = d at h
    cases d with
    | error e => cases h
    | ok val3 =>
      cases h
      have h3 := destroy_keyvalidator_keeps val2 val3 hd
      have h4 : keeps val3 { val3 with
          frdataset := disassociate_if_associated val3.frdataset
          fsigrdataset := disassociate_if_associated val3.fsigrdataset } :=
        keeps_intro _ _ [] (le_refl _) (by simp) (by simp [posted_results])
      refine keeps_trans ?_ (keeps_trans h3 h4)
      split at hb
      · exact validator_done_keeps _ _ _ (by decide) hb
      · split at hb
        · cases hb
        · rename_i result val1 hrun
          exact keeps_trans (proveunsecure_keeps env fuel val true result val1 (by simp) hrun)
            (done_unless_wait_keeps _ _ _ hb)

/-- The function `fetch_callback_nullkey` keeps, when the fetch did not end with
`DNS_R_WAIT`. -/
theorem fetch_callback_nullkey_keeps (env : Env) (fuel : Nat) (val : dns_validator)
    (devent : dns_fetchevent) (v : dns_validator) (hw : devent.result ≠ DNS_R_WAIT)
    (h : fetch_callback_nullkey env fuel val devent = .ok v) : keeps val v := by
  unfold fetch_callback_nullkey at h
  dsimp only at h
  have h1 : keeps val { val with
      frdataset := devent.rdataset, fsigrdataset := devent.sigrdataset, fetch := none } :=
    keeps_intro _ _ [] (le_refl _) (by simp) (by simp [posted_results])
  have hres : ∀ w : dns_validator, keeps val w →
      (match proveunsecure env fuel w true with
        | .error e => (Except.error e : Except Stop dns_validator)
        | .ok (result, v1) =>
          match (if result ≠ DNS_R_WAIT then validator_done v1 result else .ok v1) with
          | .error e => .error e
          | .ok v2 =>
            match (match val.fetch with
              | none => (Except.error Stop.null_deref : Except Stop dns_validator)
              | some f => .ok { v2 with effects := v2.effects ++ [Effect.resolver_destroyfetch f] }) with
            | .error e => .error e
            | .ok v1 => .ok { v1 with
                frdataset := disassociate_if_associated v1.frdataset
                fsigrdataset := disassociate_if_associated v1.fsigrdataset }) = .ok v →
      keeps val v := by
    intro w hkw hrun
    split at hrun
    · cases hrun
    · rename_i result v1 hp
      have k1 := keeps_trans hkw (proveunsecure_keeps env fuel w true result v1 (by simp) hp)
      split at hrun
      · cases hrun
      · rename_i v2 hd
        have k2 := keeps_trans k1 (done_unless_wait_keeps _ _ _ hd)
        split at hrun
        · cases hrun
        · rename_i v3 hf
          split at hf
          · cases hf
          · cases hf
            cases hrun
            exact keeps_step _ _ [_] k2 rfl rfl (by simp [posted_results])
  split at h
  · split at h
    · cases h
    · exact hres _ h1 h
    · split at h
      · split at h
        · cases h
        · split at h
          · cases h
          · have h2 : keeps val
                { val with
                  frdataset := devent.rdataset, fsigrdataset := devent.sigrdataset, fetch := none,
                  event := some { ‹dns_validatorevent› with
                    rdataset := some { ‹dns_rdataset› with trust := dns_trust_answer } } } :=
              keeps_step _ _ [] h1 rfl (by simp) (by simp [posted_results])
            split at h
            · cases h
            · rename_i v2 hd
              have k2 := keeps_trans h2 (validator_done_keeps _ _ _ (by decide) hd)
              split at h
              · cases h
              · rename_i v3 hf
                split at hf
                · cases hf
                · cases hf
                  cases h
                  exact keeps_step _ _ [_] k2 rfl rfl (by simp [posted_results])
      · split at h
        · split at h
          · cases h
          · rename_i v2 hd
            have k2 := keeps_trans h1 (validator_done_keeps _ _ _ (by decide) hd)
            split at h
            · cases h
            · rename_i v3 hf
              split at hf
              · cases hf
              · cases hf
                cases h
                exact keeps_step _ _ [_] k2 rfl rfl (by simp [posted_results])
        · split at h
          · cases h
          · rename_i r o hc
            have hr := dns_validator_create_not_wait _ _ _ _ _ _ _ _ _ _ _ hc
            split at h
            · cases h
            · rename_i v2 hd
              have k2 : keeps val v2 := by
                split at hd
                · exact keeps_trans h1 (validator_done_keeps _ _ _ hr hd)
                · cases hd
                  exact keeps_step _ _ [_] h1 rfl rfl (by simp [posted_results])
              split at h
              · cases h
              · cases h
                exact keeps_step _ _ [_] k2 rfl rfl (by simp [posted_results])
  · split at h
    · exact hres _ h1 h
    · split at h
      · cases h
      · rename_i v2 hd
        have k2 := keeps_trans h1 (validator_done_keeps _ _ _ hw hd)
        split at h
        · cases h
        · rename_i v3 hf
          split at hf
          · cases hf
          · cases hf
            cases h
            exact keeps_step _ _ [_] k2 rfl rfl (by simp [posted_results])

/-- The function `fetch_callback_nullkey` does not lower the depth counter. -/
theorem fetch_callback_nullkey_labels (env : Env) (fuel : Nat) (val : dns_validator)
    (devent : dns_fetchevent) (v : dns_validator)
    (h : fetch_callback_nullkey env fuel val devent = .ok v) : val.labels ≤ v.labels := by
  by_cases hw : devent.result = DNS_R_WAIT
  · unfold fetch_callback_nullkey at h
    dsimp only at h
    split at h
    · rename_i hc; rw [hw] at hc; cases hc
    · split at h
      · rename_i hc; rw [hw] at hc; exact absurd hc (by decide)
      · split at h
        · cases h
        · rename_i v2 hd
          obtain ⟨ev, _, rfl⟩ := validator_done_ok _ _ _ hd
          split at h
          · cases h
          · rename_i v3 hf
            split at hf
            · cases hf
            · cases hf
              cases h
              exact le_refl _
  · exact (fetch_callback_nullkey_keeps env fuel val devent v hw h).1

/-- The function `containsnullkey` does not stop for lack of fuel. -/
theorem containsnullkey_fuel (env : Env) (rdataset : dns_rdataset) :
    containsnullkey env rdataset ≠ .error Stop.out_of_fuel := by
  unfold containsnullkey
  split <;> (intro h; cases h)

/-- The function `dns_validator_create` does not stop for lack of fuel. -/
theorem dns_validator_create_fuel (env : Env) (name : Option dns_name) (type : Nat)
    (rdataset sigrdataset : Option dns_rdataset) (message : Option dns_message)
    (options : Nat) (action : taskaction) (slot : Option subvalidator) :
    dns_validator_create env name type rdataset sigrdataset message options action slot ≠
      .error Stop.out_of_fuel := by
  unfold dns_validator_create
  repeat' split
  all_goals (intro h; cases h)

/-- The loop of `proveunsecure` does not stop for lack of fuel when the fuel covers the
depths that are left. -/
theorem proveunsecure_loop_fuel (env : Env) (event : dns_validatorevent) :
    ∀ (fuel : Nat) (val : dns_validator), val.event = some event → 1 ≤ fuel →
      env.depth event.name + 2 ≤ fuel + val.labels →
      proveunsecure_loop env fuel val ≠ .error Stop.out_of_fuel := by
  intro fuel
  induction fuel with
  | zero => intro val _ h1 _; omega
  | succ fuel ih =>
    intro val hev _ hf
    rw [proveunsecure_loop]
    simp only [hev]
    repeat' split
    all_goals first
      | (intro h; cases h; done)
      | (intro h; cases h; rename_i hc; exact containsnullkey_fuel _ _ hc)
      | (intro h; cases h; rename_i hc; exact dns_validator_create_fuel _ _ _ _ _ _ _ _ _ hc)
      | ((refine ih _ ?_ (by omega) ?_ <;> simp only); omega)

/-- C21: a request whose insecurity walk is suspended with the depth counter at `k`, under a
trust anchor.  Re-entering `proveunsecure` with `resume` set runs the loop from depth `k + 1`;
the run does not stop for lack of fuel once the fuel covers the depths left; when it
returns, the counter is at least `k + 1` and every call it made is a lookup, a fetch or a
nested validator for the name of a depth from `k + 1` on, the first of them the lookup for
depth `k + 1` when the walk examines that depth; and neither completion handler,
cancellation nor destruction lowers the counter. -/
theorem proveunsecure_resume_next_depth (env : Env) (fuel : Nat) (val : dns_validator)
    (event : dns_validatorevent) (hev : val.event = some event)
    (hanchor : (env.finddeepestmatch event.name).1 = ISC_R_SUCCESS) :
    proveunsecure env fuel val true =
      proveunsecure_loop env fuel { val with labels := val.labels + 1 } ∧
    (1 ≤ fuel → env.depth event.name + 1 ≤ fuel + val.labels →
      proveunsecure env fuel val true ≠ .error Stop.out_of_fuel) ∧
    (∀ r v, proveunsecure env fuel val true = .ok (r, v) →
      val.labels + 1 ≤ v.labels ∧
      ∃ ds : List (Nat × Effect), v.effects = val.effects ++ ds.map Prod.snd ∧
        ∀ p ∈ ds, val.labels + 1 ≤ p.1 ∧ p.1 ≤ env.depth event.name ∧
          walk_effect env event p.1 p.2 = true) ∧
    (∀ t r v, val.labels + 1 ≤ env.depth event.name →
      ¬ (val.labels + 1 = env.depth event.name ∧ event.type = env.dns_rdatatype_key) →
      walk_name env event (val.labels + 1) = .ok t →
      proveunsecure env fuel val true = .ok (r, v) →
      ∃ rest, v.effects = val.effects ++ Effect.view_simplefind t :: rest) ∧
    (∀ devent v, fetch_callback_nullkey env fuel val devent = .ok v → val.labels ≤ v.labels) ∧
    (∀ devent v, nullkeyvalidated env fuel val devent = .ok v → val.labels ≤ v.labels) ∧
    (∀ v, dns_validator_cancel val = .ok v → v.labels = val.labels) ∧
    (∀ v, dns_validator_destroy val = .ok v → v.labels = val.labels) := by
  have hre : proveunsecure env fuel val true =
      proveunsecure_loop env fuel { val with labels := val.labels + 1 } := by
    unfold proveunsecure
    simp only [hev, hanchor]
    simp
  refine ⟨hre, ?_, ?_, ?_, ?_, ?_, ?_, ?_⟩
  · intro h1 h2
    rw [hre]
    exact proveunsecure_loop_fuel env event fuel { val with labels := val.labels + 1 } hev h1
      (by simp only; omega)
  · intro r v h
    rw [hre] at h
    obtain ⟨hl, ds, he, hds, _⟩ := proveunsecure_loop_spec env event fuel
      { val with labels := val.labels + 1 } r v hev h
    exact ⟨hl, ds, he, hds⟩
  · intro t r v h1 h2 h3 h
    rw [hre] at h
    obtain ⟨_, ds, he, _, hfirst⟩ := proveunsecure_loop_spec env event fuel
      { val with labels := val.labels + 1 } r v hev h
    obtain ⟨rest, hrest⟩ := hfirst t h1 h2 h3
    exact ⟨rest.map Prod.snd, by rw [he, hrest]; rfl⟩
  · intro devent v h
    exact fetch_callback_nullkey_labels env fuel val devent v h
  · intro devent v h
    exact (nullkeyvalidated_keeps env fuel val devent v h).1
  · intro v h
    unfold dns_validator_cancel at h
    repeat' split at h
    all_goals cases h
    all_goals rfl
  · intro v h
    unfold dns_validator_destroy at h
    split at h
    · cases h
    · split at h
      · cases h
      · dsimp only at h
        split at h
        · unfold destroy at h
          repeat' split at h
          all_goals cases h
          all_goals rfl
        · cases h
          rfl

/-- Witness of C21: the insecurity request for `[1, 2]` under a trust anchor at the root and
an empty cache is suspended at depth 2 on the fetch for `[1]`; the resumed walk starts with the
lookup for `[1, 2]`, the name of depth 3. -/
theorem proveunsecure_resume_next_depth_witness :
    validator_start env_anchored_empty 5 (insecurity_request env_anchored_empty) =
      .ok suspended_walk ∧
    suspended_walk.labels = 2 ∧
    proveunsecure env_anchored_empty 5 suspended_walk true =
      proveunsecure_loop env_anchored_empty 5 { suspended_walk with labels := 3 } ∧
    ∃ v, proveunsecure env_anchored_empty 5 suspended_walk true = .ok (DNS_R_WAIT, v) ∧
      ∃ rest, v.effects = suspended_walk.effects ++ Effect.view_simplefind [1, 2] :: rest :=
  ⟨rfl, rfl,
    (proveunsecure_resume_next_depth env_anchored_empty 5 suspended_walk
      { ev_type := eventtype.DNS_EVENT_VALIDATORSTART, ev_action := taskaction.validator_start,
        result := ISC_R_FAILURE, name := [1, 2], type := 1, rdataset := some rrset_a,
        sigrdataset := none, message := none } rfl rfl).1,
    _, rfl,
    (proveunsecure_resume_next_depth env_anchored_empty 5 suspended_walk
      { ev_type := eventtype.DNS_EVENT_VALIDATORSTART, ev_action := taskaction.validator_start,
        result := ISC_R_FAILURE, name := [1, 2], type := 1, rdataset := some rrset_a,
        sigrdataset := none, message := none } rfl rfl).2.2.2.1 [1, 2] DNS_R_WAIT _
      (by decide) (by decide) rfl rfl⟩

/-! ## The positive proof keeps -/

/-- The function `get_dst_key` keeps. -/
theorem get_dst_key_keeps_all (env : Env) (val : dns_validator) (siginfo : dns_rdata_sig)
    (rdataset : Option dns_rdataset) (r : isc_result) (v : dns_validator)
    (h : get_dst_key env val siginfo rdataset = .ok (r, v)) : keeps val v := by
  rw [get_dst_key_keeps env val siginfo rdataset r v h]
  exact keeps_intro _ _ [] (le_refl _) (by simp) (by simp [posted_results])

/-- The function `get_key` keeps. -/
theorem get_key_keeps (env : Env) (val : dns_validator) (siginfo : dns_rdata_sig)
    (r : isc_result) (v : dns_validator) (h : get_key env val siginfo = .ok (r, v)) :
    keeps val v := by
  unfold get_key at h
  dsimp only at h
  repeat' first | (split_ifs at h) | (split at h)
  all_goals first
    | (cases h; done)
    | (have hk := get_dst_key_keeps_all _ _ _ _ _ _ (by assumption)
       cases h
       refine keeps_trans (keeps_trans ?_ hk) ?_ <;> refine ⟨?_, ?_⟩ <;>
         simp [get_key_cleanup, posted_results_append, posted_results])
    | (cases h
       refine ⟨?_, ?_⟩ <;>
         simp [get_key_cleanup, posted_results_append, posted_results])

/-- The retry loop of `validate` keeps. -/
theorem verify_loop_keeps (env : Env) (name : dns_name) (erds : dns_rdataset)
    (rdata : dns_rdata) (siginfo : dns_rdata_sig) :
    ∀ (fuel : Nat) (val : dns_validator) (r : isc_result) (v : dns_validator),
      verify_loop env name erds rdata siginfo fuel val = .ok (r, v) → keeps val v := by
  intro fuel
  induction fuel with
  | zero => intro val r v h; simp [verify_loop] at h
  | succ fuel ih =>
    intro val r v h
    rw [verify_loop] at h
    dsimp only at h
    repeat' first | (split_ifs at h) | (split at h)
    all_goals first
      | (cases h; done)
      | (have hk := get_dst_key_keeps_all _ _ _ _ _ _ (by assumption)
         have hk2 := ih _ _ _ h
         refine keeps_trans (keeps_trans ?_ hk) hk2
         refine ⟨?_, ?_⟩ <;> simp [posted_results_append, posted_results])
      | (have hk := get_dst_key_keeps_all _ _ _ _ _ _ (by assumption)
         cases h
         refine keeps_trans ?_ hk
         refine ⟨?_, ?_⟩ <;> simp [posted_results_append, posted_results])
      | (have hk := ih _ _ _ h
         refine keeps_trans ?_ hk
         refine ⟨?_, ?_⟩ <;> simp [posted_results_append, posted_results])
      | (cases h
         refine ⟨?_, ?_⟩ <;> simp [posted_results_append, posted_results])

/-- One pass through the body of the loop of `validate` keeps. -/
theorem validate_body_keeps (env : Env) (resume : Bool) (fuel : Nat) (val : dns_validator)
    (s : validate_step) (h : validate_body env resume fuel val = .ok s) :
    keeps val s.validator := by
  unfold validate_body at h
  dsimp only at h
  split at h
  · cases h
  · split at h
    · cases h
    · by_cases hm : env.mem_ok = false
      · rw [if_pos hm] at h
        cases h
        refine ⟨?_, ?_⟩ <;> simp [validate_step.validator]
      · rw [if_neg hm] at h
        generalize hkeyed : (if resume = false then _ else _) = keyed at h
        cases keyed with
        | error e => cases h
        | ok p =>
          obtain ⟨r, val2⟩ := p
          have hk : keeps val val2 := by
            split_ifs at hkeyed
            · exact keeps_trans (by refine ⟨?_, ?_⟩ <;> simp)
                (get_key_keeps _ _ _ _ _ hkeyed)
            · cases hkeyed
              refine ⟨?_, ?_⟩ <;> simp
          dsimp only at h
          repeat' first | (split_ifs at h) | (split at h)
          all_goals first
            | (cases h; done)
            | (have hv := verify_loop_keeps _ _ _ _ _ _ _ _ _ (by assumption)
               cases h
               refine keeps_trans (keeps_trans hk hv) ?_
               refine ⟨?_, ?_⟩ <;> simp [validate_step.validator])
            | (cases h
               refine keeps_trans hk ?_
               refine ⟨?_, ?_⟩ <;> simp [validate_step.validator])

/-- The loop of `validate` keeps. -/
theorem validate_loop_keeps (env : Env) (resume : Bool) :
    ∀ (fuel : Nat) (val : dns_validator) (r : isc_result) (v : dns_validator),
      validate_loop env resume fuel val = .ok (r, v) → keeps val v := by
  intro fuel
  induction fuel with
  | zero => intro val r v h; simp [validate_loop] at h
  | succ fuel ih =>
    intro val r v h
    rw [validate_loop] at h
    generalize hb : validate_body env resume fuel val = body at h
    cases body with
    | error e => cases h
    | ok s =>
      have hk := validate_body_keeps env resume fuel val s hb
      cases s with
      | returned r1 v1 =>
        cases h
        exact hk
      | next_sig v1 =>
        dsimp only at h
        repeat' first | (split_ifs at h) | (split at h)
        all_goals first
          | (cases h; done)
          | (have hk2 := ih _ _ _ h
             refine keeps_trans (keeps_trans hk ?_) hk2
             refine ⟨?_, ?_⟩ <;> simp [validate_step.validator])
          | (cases h
             refine keeps_trans hk ?_
             refine ⟨?_, ?_⟩ <;> simp [validate_step.validator])

/-- The function `validate` keeps. -/
theorem validate_keeps (env : Env) (fuel : Nat) (val : dns_validator) (resume : Bool)
    (r : isc_result) (v : dns_validator) (h : validate env fuel val resume = .ok (r, v)) :
    keeps val v := by
  unfold validate at h
  repeat' first | (split_ifs at h) | (split at h)
  all_goals first
    | (cases h; done)
    | (exact validate_loop_keeps _ _ _ _ _ _ h)
    | (have hk2 := validate_loop_keeps _ _ _ _ _ _ h
       refine keeps_trans ?_ hk2
       refine ⟨?_, ?_⟩ <;> simp)
    | (cases h
       refine ⟨?_, ?_⟩ <;> simp)

/-! ## The denial of existence keeps -/

/-- The loop of `nxtvalidate` keeps. -/
theorem nxtvalidate_loop_keeps (env : Env) :
    ∀ (fuel : Nat) (msg : dns_message) (val : dns_validator) (resume : Bool)
      (s : nxtvalidate_step),
      nxtvalidate_loop env fuel msg val resume = .ok s → keeps val s.validator := by
  intro fuel
  induction fuel with
  | zero => intro msg val resume s h; simp [nxtvalidate_loop] at h
  | succ fuel ih =>
    intro msg val resume s h
    rw [nxtvalidate_loop] at h
    dsimp only at h
    split at h
    · cases h
    · generalize hstart : (if resume = true then _ else _) = start at h
      cases start with
      | error e => cases h
      | ok p =>
        obtain ⟨i, list1, val1⟩ := p
        have hk : keeps val val1 := by
          split_ifs at hstart
          · split at hstart
            · cases hstart
            · cases hstart
              refine ⟨?_, ?_⟩ <;> simp
          · cases hstart
            exact keeps_refl _
        dsimp only at h
        split at h
        · split at h
          · cases h
          · split_ifs at h
            · cases h
              refine keeps_trans hk ?_
              refine ⟨?_, ?_⟩ <;> simp [set_message, nxtvalidate_step.validator]
            · cases h
              refine keeps_trans hk ?_
              refine ⟨?_, ?_⟩ <;>
                simp [set_message, nxtvalidate_step.validator, posted_results_append,
                  posted_results]
        · split_ifs at h
          · have hk2 := ih _ _ _ _ h
            refine keeps_trans (keeps_trans hk ?_) hk2
            refine ⟨?_, ?_⟩ <;> simp [set_message]
          · cases h
            refine keeps_trans hk ?_
            refine ⟨?_, ?_⟩ <;> simp [set_message, nxtvalidate_step.validator]

/-- The part of `nxtvalidate` after its loop keeps, when the loop did not end with
`DNS_R_WAIT`. -/
theorem nxtvalidate_finish_keeps (env : Env) (val : dns_validator) (result : isc_result)
    (name : Option dns_name) (r : isc_result) (v : dns_validator)
    (hw : result ≠ DNS_R_WAIT)
    (h : nxtvalidate_finish env val result name = .ok (r, v)) : keeps val v := by
  unfold nxtvalidate_finish at h
  dsimp only at h
  generalize hdone : (if (if result = ISC_R_NOMORE then ISC_R_SUCCESS else result) ≠
    ISC_R_SUCCESS then _ else _) = done at h
  cases done with
  | error e => cases h
  | ok val1 =>
    have hk : keeps val val1 := by
      split_ifs at hdone
      all_goals first
        | (cases hdone; exact keeps_refl _)
        | exact validator_done_keeps _ _ _ hw hdone
        | exact validator_done_keeps _ _ _ (by decide) hdone
    dsimp only at h
    repeat' first | (split_ifs at h) | (split at h)
    all_goals first
      | (cases h; done)
      | (cases h
         refine keeps_trans hk ?_
         refine ⟨?_, ?_⟩ <;> simp [posted_results_append, posted_results])

/-- The function `nxtvalidate` keeps. -/
theorem nxtvalidate_keeps (env : Env) (fuel : Nat) (val : dns_validator) (resume : Bool)
    (r : isc_result) (v : dns_validator) (h : nxtvalidate env fuel val resume = .ok (r, v)) :
    keeps val v := by
  unfold nxtvalidate at h
  dsimp only at h
  split at h
  · cases h
  · split at h
    · cases h
    · rename_i _ _ _ _ message _
      have hfst : (dns_message_firstname message).1 ≠ DNS_R_WAIT := by
        unfold dns_message_firstname
        split <;> simp
      have hset : ∀ m, keeps val (set_message val m) := by
        intro m
        refine ⟨?_, ?_⟩ <;> simp [set_message]
      split_ifs at h
      · split at h
        · cases h
        · rename_i val2 hd
          exact keeps_trans (keeps_trans (hset _) (validator_done_keeps _ _ _ (by decide) hd))
            (nxtvalidate_finish_keeps _ _ _ _ _ _ hfst h)
      · split at h
        · cases h
        · rename_i hl
          cases h
          exact keeps_trans (hset _) (nxtvalidate_loop_keeps _ _ _ _ _ _ hl)
        · rename_i hl
          exact keeps_trans (keeps_trans (hset _) (nxtvalidate_loop_keeps _ _ _ _ _ _ hl))
            (nxtvalidate_finish_keeps _ _ _ _ _ _ (by decide) h)
      · split at h
        · cases h
        · rename_i hl
          cases h
          exact nxtvalidate_loop_keeps _ _ _ _ _ _ hl
        · rename_i hl
          exact keeps_trans (nxtvalidate_loop_keeps _ _ _ _ _ _ hl)
            (nxtvalidate_finish_keeps _ _ _ _ _ _ (by decide) h)

/-! ## The completion handlers keep -/

/-- The steps of `fetch_callback_validator` and `keyvalidated` from the keyset on keep:
the key is looked for, `validate` is resumed, and the event is sent unless it waits. -/
theorem resume_validate_keeps (env : Env) (fuel : Nat) (val1 val4 : dns_validator)
    (keyed : Except Stop dns_validator)
    (hkeyed : ∀ val2, keyed = .ok val2 → keeps val1 val2)
    (h : (match keyed with
      | .error e => (Except.error e : Except Stop dns_validator)
      | .ok val2 =>
        match validate env fuel val2 true with
        | .error e => .error e
        | .ok (result, val3) =>
          if result ≠ DNS_R_WAIT then validator_done val3 result else .ok val3) = .ok val4) :
    keeps val1 val4 := by
  cases keyed with
  | error e => cases h
  | ok val2 =>
    have hk := hkeyed val2 rfl
    dsimp only at h
    split at h
    · cases h
    · rename_i result val3 hv
      exact keeps_trans (keeps_trans hk (validate_keeps _ _ _ _ _ _ hv))
        (done_unless_wait_keeps _ _ _ h)

/-- The function `fetch_callback_validator` keeps, when the fetch did not end with
`DNS_R_WAIT`. -/
theorem fetch_callback_validator_keeps (env : Env) (fuel : Nat) (val : dns_validator)
    (devent : dns_fetchevent) (v : dns_validator) (hw : devent.result ≠ DNS_R_WAIT)
    (h : fetch_callback_validator env fuel val devent = .ok v) : keeps val v := by
  unfold fetch_callback_validator at h
  dsimp only at h
  cases hf : val.fetch with
  | none => rw [hf] at h; cases h
  | some f =>
    rw [hf] at h
    dsimp only at h
    generalize hbody : (if devent.result = ISC_R_SUCCESS then _ else _) = body at h
    cases body with
    | error e => cases h
    | ok val4 =>
      dsimp only at h
      cases h
      suffices hk : keeps val val4 by
        exact keeps_trans hk (by refine ⟨?_, ?_⟩ <;> simp)
      have h1 : keeps val { val with
          frdataset := devent.rdataset, fsigrdataset := devent.sigrdataset, fetch := none,
          effects := val.effects ++ [Effect.resolver_destroyfetch f] } := by
        refine ⟨?_, ?_⟩ <;> simp [posted_results_append, posted_results]
      refine keeps_trans h1 ?_
      by_cases hres : devent.result = ISC_R_SUCCESS
      · rw [if_pos hres] at hbody
        refine resume_validate_keeps env fuel _ _ _ ?_ hbody
        intro val2 hkeyed
        split_ifs at hkeyed
        · split at hkeyed
          · cases hkeyed
          · split at hkeyed
            · cases hkeyed
            · rename_i hg
              have hk := get_dst_key_keeps_all _ _ _ _ _ _ hg
              split_ifs at hkeyed
              · cases hkeyed
                exact keeps_trans hk (by refine ⟨?_, ?_⟩ <;> simp)
              · cases hkeyed
                exact hk
        · cases hkeyed
          exact keeps_refl _
      · rw [if_neg hres] at hbody
        exact validator_done_keeps _ _ _ hw hbody

/-- The function `keyvalidated` keeps, when the child did not end with `DNS_R_WAIT`. -/
theorem keyvalidated_keeps (env : Env) (fuel : Nat) (val : dns_validator)
    (devent : dns_validatorevent) (v : dns_validator) (hw : devent.result ≠ DNS_R_WAIT)
    (h : keyvalidated env fuel val devent = .ok v) : keeps val v := by
  unfold keyvalidated at h
  dsimp only at h
  generalize hbody : (if devent.result = ISC_R_SUCCESS then _ else _) = body at h
  cases body with
  | error e => cases h
  | ok val4 =>
    dsimp only at h
    generalize hd : destroy_keyvalidator val4 = d at h
    cases d with
    | error e => cases h
    | ok val5 =>
      dsimp only at h
      cases h
      suffices hk : keeps val val4 by
        exact keeps_trans (keeps_trans hk (destroy_keyvalidator_keeps _ _ hd))
          (by refine ⟨?_, ?_⟩ <;> simp)
      have h1 : keeps val { val with
          frdataset := devent.rdataset.getD val.frdataset,
          fsigrdataset := devent.sigrdataset.getD val.fsigrdataset } := by
        refine ⟨?_, ?_⟩ <;> simp
      refine keeps_trans h1 ?_
      by_cases hres : devent.result = ISC_R_SUCCESS
      · rw [if_pos hres] at hbody
        refine resume_validate_keeps env fuel _ _ _ ?_ hbody
        intro val2 hkeyed
        split_ifs at hkeyed
        · split at hkeyed
          · cases hkeyed
          · split at hkeyed
            · cases hkeyed
            · rename_i hg
              cases hkeyed
              exact get_dst_key_keeps_all _ _ _ _ _ _ hg
        · cases hkeyed
          exact keeps_refl _
      · rw [if_neg hres] at hbody
        exact validator_done_keeps _ _ _ hw hbody

/-- The function `negauthvalidated` keeps, when the child did not end with `DNS_R_WAIT`. -/
theorem negauthvalidated_keeps (val : dns_validator) (devent : dns_validatorevent)
    (v : dns_validator) (hw : devent.result ≠ DNS_R_WAIT)
    (h : negauthvalidated val devent = .ok v) : keeps val v := by
  unfold negauthvalidated at h
  generalize hd : destroy_authvalidator val = d at h
  cases d with
  | error e => cases h
  | ok val1 =>
    dsimp only at h
    have h1 := destroy_authvalidator_keeps _ _ hd
    generalize hbody : (if devent.result = ISC_R_SUCCESS then _ else _) = body at h
    cases body with
    | error e => cases h
    | ok val2 =>
      dsimp only at h
      cases h
      suffices hk : keeps val1 val2 by
        exact keeps_trans (keeps_trans h1 hk) (by refine ⟨?_, ?_⟩ <;> simp)
      split_ifs at hbody
      · exact keeps_trans (by refine ⟨?_, ?_⟩ <;> simp)
          (validator_done_keeps _ _ _ (by decide) hbody)
      · exact validator_done_keeps _ _ _ hw hbody

/-- The function `authvalidated` keeps, when the child did not end with `DNS_R_WAIT`. -/
theorem authvalidated_keeps (env : Env) (fuel : Nat) (val : dns_validator)
    (devent : dns_validatorevent) (v : dns_validator) (hw : devent.result ≠ DNS_R_WAIT)
    (h : authvalidated env fuel val devent = .ok v) : keeps val v := by
  unfold authvalidated at h
  generalize hd : destroy_authvalidator val = d at h
  cases d with
  | error e => cases h
  | ok val1 =>
    dsimp only at h
    have h1 := destroy_authvalidator_keeps _ _ hd
    refine keeps_trans h1 ?_
    by_cases hres : devent.result = ISC_R_SUCCESS
    · rw [if_neg (not_not.mpr hres)] at h
      split at h
      · cases h
      · rename_i rdataset _
        generalize hproved :
          (if rdataset.type = env.dns_rdatatype_nxt then _ else _) = proved at h
        cases proved with
        | error e => cases h
        | ok b =>
          dsimp only at h
          split at h
          · cases h
          · rename_i result val3 hn
            refine keeps_trans (keeps_trans ?_ (nxtvalidate_keeps _ _ _ _ _ _ hn))
              (done_unless_wait_keeps _ _ _ h)
            cases b <;> refine ⟨?_, ?_⟩ <;> simp
    · rw [if_pos hres] at h
      exact validator_done_keeps _ _ _ hw h

/-! ## The wait signal is never sent -/

/-- The result of an event sent to the task is among the results sent. -/
theorem mem_posted_results (ev : dns_validatorevent) :
    ∀ effects : List Effect, Effect.task_send ev ∈ effects → ev.result ∈ posted_results effects := by
  intro effects
  induction effects with
  | nil => intro h; simp at h
  | cons e rest ih =>
    intro h
    rcases List.mem_cons.1 h with h1 | h1
    · rw [← h1]; simp [posted_results]
    · have := ih h1
      cases e <;> simp [posted_results, this]

/-- The function `proveunsecure` sends no event. -/
theorem proveunsecure_posted (env : Env) (fuel : Nat) (val : dns_validator) (resume : Bool)
    (r : isc_result) (v : dns_validator) (h : proveunsecure env fuel val resume = .ok (r, v))
    (hp : DNS_R_WAIT ∉ posted_results val.effects) : DNS_R_WAIT ∉ posted_results v.effects := by
  unfold proveunsecure at h
  dsimp only at h
  repeat' first | (split_ifs at h) | (split at h)
  all_goals first
    | (cases h; done)
    | (cases h; exact hp)
    | exact (proveunsecure_loop_keeps _ _ _ _ _ h).2 hp

/-- The function `validator_start` sends no event with `DNS_R_WAIT`. -/
theorem validator_start_posted (env : Env) (fuel : Nat) (val v : dns_validator)
    (h : validator_start env fuel val = .ok v)
    (hp : DNS_R_WAIT ∉ posted_results val.effects) : DNS_R_WAIT ∉ posted_results v.effects := by
  unfold validator_start at h
  split at h
  · cases h
  · split at h
    · unfold start_finish at h
      split at h
      · cases h
      · rename_i hv
        exact (done_unless_wait_keeps _ _ _ h).2 ((validate_keeps _ _ _ _ _ _ hv).2 hp)
    · unfold start_finish at h
      split at h
      · cases h
      · rename_i hv
        exact (done_unless_wait_keeps _ _ _ h).2 (proveunsecure_posted _ _ _ _ _ _ hv hp)
    · unfold start_finish at h
      split at h
      · cases h
      · rename_i hv
        exact (done_unless_wait_keeps _ _ _ h).2 ((nxtvalidate_keeps _ _ _ _ _ _ hv).2 hp)
    · cases h

/-- The function `dns_validator_cancel` keeps. -/
theorem dns_validator_cancel_keeps (val v : dns_validator)
    (h : dns_validator_cancel val = .ok v) : keeps val v := by
  unfold dns_validator_cancel at h
  dsimp only at h
  repeat' first | (split_ifs at h) | (split at h)
  all_goals first
    | (cases h; done)
    | (cases h
       refine ⟨?_, ?_⟩ <;> simp [posted_results_append, posted_results])

/-- The function `dns_validator_destroy` keeps. -/
theorem dns_validator_destroy_keeps (val v : dns_validator)
    (h : dns_validator_destroy val = .ok v) : keeps val v := by
  unfold dns_validator_destroy at h
  split at h
  · cases h
  · split at h
    · cases h
    · dsimp only at h
      split at h
      · unfold destroy at h
        repeat' split at h
        all_goals cases h
        all_goals (refine ⟨?_, ?_⟩ <;> simp [posted_results_append, posted_results])
      · cases h
        refine ⟨?_, ?_⟩ <;> simp

/-- The validator `dns_validator_create` returns has sent its start event only. -/
theorem dns_validator_create_posted (env : Env) (name : Option dns_name) (type : Nat)
    (rdataset sigrdataset : Option dns_rdataset) (message : Option dns_message)
    (options : Nat) (action : taskaction) (slot : Option subvalidator) (r : isc_result)
    (v : dns_validator)
    (h : dns_validator_create env name type rdataset sigrdataset message options action slot =
      .ok (r, some v)) : posted_results v.effects = [ISC_R_FAILURE] := by
  unfold dns_validator_create at h
  repeat' split at h
  all_goals cases h
  all_goals rfl

/-- C24: in every state a validator reaches, no event sent to the task carries `DNS_R_WAIT`,
provided no fetch completion carries it.  The states are those of `Reachable`: creation,
`validator_start`, the two fetch handlers, the four handlers for the completion of a nested
validator (fed with the result of an event that a reachable validator has sent),
cancellation and destruction. -/
theorem wait_never_posted (env : Env) (v : dns_validator) (h : Reachable env v) :
    ∀ ev, Effect.task_send ev ∈ v.effects → ev.result ≠ DNS_R_WAIT := by
  have hall : DNS_R_WAIT ∉ posted_results v.effects := by
    induction h with
    | created name type rdataset sigrdataset message options action slot r v hc =>
      rw [dns_validator_create_posted _ _ _ _ _ _ _ _ _ _ _ hc]
      decide
    | started fuel v v1 _ hrun ih => exact validator_start_posted _ _ _ _ hrun ih
    | key_fetched fuel v v1 devent _ hw hrun ih =>
      exact (fetch_callback_validator_keeps _ _ _ _ _ hw hrun).2 ih
    | nullkey_fetched fuel v v1 devent _ hw hrun ih =>
      exact (fetch_callback_nullkey_keeps _ _ _ _ _ hw hrun).2 ih
    | key_validated fuel v v1 c cev devent _ _ hmem hres hrun ih ihc =>
      have hw : devent.result ≠ DNS_R_WAIT := by
        rw [hres]
        intro hx
        exact ihc (hx ▸ mem_posted_results cev c.effects hmem)
      exact (keyvalidated_keeps _ _ _ _ _ hw hrun).2 ih
    | nullkey_validated fuel v v1 c cev devent _ _ hmem hres hrun ih ihc =>
      exact (nullkeyvalidated_keeps _ _ _ _ _ hrun).2 ih
    | auth_validated fuel v v1 c cev devent _ _ hmem hres hrun ih ihc =>
      have hw : devent.result ≠ DNS_R_WAIT := by
        rw [hres]
        intro hx
        exact ihc (hx ▸ mem_posted_results cev c.effects hmem)
      exact (authvalidated_keeps _ _ _ _ _ hw hrun).2 ih
    | negauth_validated v v1 c cev devent _ _ hmem hres hrun ih ihc =>
      have hw : devent.result ≠ DNS_R_WAIT := by
        rw [hres]
        intro hx
        exact ihc (hx ▸ mem_posted_results cev c.effects hmem)
      exact (negauthvalidated_keeps _ _ _ hw hrun).2 ih
    | cancelled v v1 _ hrun ih => exact (dns_validator_cancel_keeps _ _ hrun).2 ih
    | destroyed v v1 _ hrun ih => exact (dns_validator_destroy_keeps _ _ hrun).2 ih
  intro ev hev hx
  exact hall (hx ▸ mem_posted_results ev v.effects hev)

/-- Witness of C24: the positive request in `env_pending_keyset true` waits for the nested
validator of the pending keyset; that validator, run on its own, ends with
`DNS_R_NOVALIDSIG`; `keyvalidated` passes this result on.  The state reached has sent the
start event and the completion event with `DNS_R_NOVALIDSIG`. -/
theorem wait_never_posted_witness :
    ∃ v, Reachable (env_pending_keyset true) v ∧
      posted_results v.effects = [ISC_R_FAILURE, DNS_R_NOVALIDSIG] ∧
      ∀ ev, Effect.task_send ev ∈ v.effects → ev.result ≠ DNS_R_WAIT := by
  have hc0 : Reachable (env_pending_keyset true) pending_key_child :=
    Reachable.created (some [1]) 25 (some (keyset_of 1 100 [[1, 0, 3, 1, 7, 42]]))
      (some signxt) none 0 taskaction.keyvalidated none ISC_R_SUCCESS _ rfl
  have hp0 : Reachable (env_pending_keyset true)
      (positive_request (env_pending_keyset true) [[1, 7, 1500, 1]]) :=
    Reachable.created (some [1, 2]) 1 (some rrset_a) (some (sigset_a [[1, 7, 1500, 1]])) none 0
      (taskaction.caller 0) none ISC_R_SUCCESS _ rfl
  obtain ⟨c, hcrun, cev, hcev, hcres⟩ :
      ∃ c, validator_start (env_pending_keyset true) 3 pending_key_child = .ok c ∧
        ∃ cev, c.effects.get? 1 = some (Effect.task_send cev) ∧
          cev.result = DNS_R_NOVALIDSIG := ⟨_, rfl, _, rfl, rfl⟩
  obtain ⟨p, hprun, v, hkv, hposted⟩ :
      ∃ p, validator_start (env_pending_keyset true) 3
          (positive_request (env_pending_keyset true) [[1, 7, 1500, 1]]) = .ok p ∧
        ∃ v, keyvalidated (env_pending_keyset true) 3 p
            (child_done DNS_R_NOVALIDSIG taskaction.keyvalidated) = .ok v ∧
          posted_results v.effects = [ISC_R_FAILURE, DNS_R_NOVALIDSIG] :=
    ⟨_, rfl, _, rfl, rfl⟩
  have hreach : Reachable (env_pending_keyset true) v :=
    Reachable.key_validated 3 p v c cev (child_done DNS_R_NOVALIDSIG taskaction.keyvalidated)
      (Reachable.started 3 _ _ hp0 hprun) (Reachable.started 3 _ _ hc0 hcrun)
      (list_mem_of_get? _ _ _ hcev) (by rw [hcres]; rfl) hkv
  exact ⟨v, hreach, hposted, wait_never_posted (env_pending_keyset true) v hreach⟩

/-! ## Soundness of the secure verdict: keys -/

/-- A key that the loop of `get_dst_key` returns is a key of the keyset for the signature
record. -/
theorem get_dst_key_scan_of_keyset (env : Env) (siginfo : dns_rdata_sig)
    (oldkey : Option dst_key) :
    ∀ (l : List dns_rdata) (foundold : Bool) (r : isc_result) (key : dst_key),
      get_dst_key_scan env siginfo oldkey foundold l = (r, some key) →
      key_of_keyset env siginfo l key := by
  intro l
  induction l with
  | nil => intro foundold r key h; simp [get_dst_key_scan] at h
  | cons rdata rest ih =>
    intro foundold r key h
    have lift : ∀ k, key_of_keyset env siginfo rest k →
        key_of_keyset env siginfo (rdata :: rest) k := by
      intro k ⟨rd, hrd, h1, h2⟩
      exact ⟨rd, List.mem_cons_of_mem _ hrd, h1, h2⟩
    rw [get_dst_key_scan] at h
    cases hk : dst_key_fromdns env rdata with
    | error e => simp [hk] at h
    | ok k =>
      simp only [hk] at h
      by_cases hm : siginfo.algorithm = k.key_alg % 256 ∧ siginfo.keyid = k.key_id % 65536 ∧
          dst_key_iszonekey env.kv k = true
      · rw [if_pos hm] at h
        cases foundold with
        | true =>
          simp only [if_true] at h
          cases h
          exact ⟨rdata, List.mem_cons_self _ _, hk, by simp [key_matches, hm]⟩
        | false =>
          simp only [Bool.false_eq_true, if_false] at h
          cases oldkey with
          | none => exact lift _ (ih _ _ _ h)
          | some old =>
            simp only at h
            split_ifs at h
            · exact lift _ (ih _ _ _ h)
            · exact lift _ (ih _ _ _ h)
      · rw [if_neg hm] at h
        exact lift _ (ih _ _ _ h)

/-- A key that `get_dst_key` leaves in `val->key` is a key of the keyset for the signature
record. -/
theorem get_dst_key_of_keyset (env : Env) (val : dns_validator) (siginfo : dns_rdata_sig)
    (rds : dns_rdataset) (r : isc_result) (v : dns_validator) (key : dst_key)
    (h : get_dst_key env val siginfo (some rds) = .ok (r, v)) (hkey : v.key = some key) :
    key_of_keyset env siginfo rds.rdatas key := by
  unfold get_dst_key at h
  dsimp only at h
  split_ifs at h
  split at h
  · cases h
    simp at hkey
  · cases h
    dsimp only at hkey
    exact get_dst_key_scan_of_keyset env siginfo _ _ _ _ _ (Prod.ext rfl hkey)

/-- The events sent by two runs of calls, one after the other. -/
theorem sends_append (a b : List Effect) : sends (a ++ b) = sends a ++ sends b := by
  induction a with
  | nil => rfl
  | cons e rest ih => cases e <;> simp [sends, ih]

/-- An event sent to the task is among the events sent. -/
theorem mem_sends (ev : dns_validatorevent) :
    ∀ effects : List Effect, Effect.task_send ev ∈ effects ↔ ev ∈ sends effects := by
  intro effects
  induction effects with
  | nil => simp [sends]
  | cons e rest ih => cases e <;> simp [sends, ih]

/-- Doing nothing is within the frame of the retry loop. -/
theorem verify_frame_refl (val : dns_validator) : verify_frame val val :=
  ⟨rfl, rfl, rfl, rfl, rfl, fun _ h => h⟩

/-- Two steps within the frame of the retry loop, one after the other. -/
theorem verify_frame_trans {a b c : dns_validator} (h1 : verify_frame a b)
    (h2 : verify_frame b c) : verify_frame a c :=
  ⟨h2.1.trans h1.1, h2.2.1.trans h1.2.1, h2.2.2.1.trans h1.2.2.1,
    h2.2.2.2.1.trans h1.2.2.2.1, h2.2.2.2.2.1.trans h1.2.2.2.2.1,
    fun _ hmem => h2.2.2.2.2.2 (h1.2.2.2.2.2 hmem)⟩

/-- The function `get_dst_key` is within the frame of the retry loop. -/
theorem get_dst_key_frame (env : Env) (val : dns_validator) (siginfo : dns_rdata_sig)
    (rdataset : Option dns_rdataset) (r : isc_result) (v : dns_validator)
    (h : get_dst_key env val siginfo rdataset = .ok (r, v)) : verify_frame val v := by
  rw [get_dst_key_keeps env val siginfo rdataset r v h]
  exact ⟨rfl, rfl, rfl, rfl, rfl, fun _ h => h⟩

/-- Soundness of the retry loop of `validate`: it stays within its frame, and it returns
success only after `dns_dnssec_verify` returned success under a key that was `val->key` at
entry, a key of one of the following trust-anchor nodes, or a key that `get_dst_key` took
from the keyset. -/
theorem verify_loop_sound (env : Env) (name : dns_name) (erds : dns_rdataset)
    (rdata : dns_rdata) (siginfo : dns_rdata_sig) (P : dst_key → Prop) :
    ∀ (fuel : Nat) (val : dns_validator) (r : isc_result) (v : dns_validator),
      verify_loop env name erds rdata siginfo fuel val = .ok (r, v) →
      (∀ k, val.key = some k → P k) →
      (∀ node, val.keynode = some node → ∀ k ∈ node.next, P k) →
      (val.keynode = none → val.keyset = true →
        ∀ k, key_of_keyset env siginfo val.frdataset.rdatas k → P k) →
      verify_frame val v ∧
      (r = ISC_R_SUCCESS → ∃ key, P key ∧ env.verify name erds key rdata = ISC_R_SUCCESS ∧
        Effect.dnssec_verify key rdata ∈ v.effects) := by
  intro fuel
  induction fuel with
  | zero => intro val r v h; simp [verify_loop] at h
  | succ fuel ih =>
    intro val r v h hp1 hp2 hp3
    rw [verify_loop] at h
    cases hkey : val.key with
    | none => rw [hkey] at h; cases h
    | some key =>
      rw [hkey] at h
      dsimp only at h
      have hf1 : verify_frame val
          { val with effects := val.effects ++ [Effect.dnssec_verify key rdata] } :=
        ⟨rfl, rfl, rfl, rfl, by simp [sends_append, sends], by simp⟩
      by_cases hres : env.verify name erds key rdata = ISC_R_SUCCESS
      · rw [if_pos hres] at h
        cases h
        exact ⟨hf1, fun _ => ⟨key, hp1 key hkey, hres, by simp⟩⟩
      · rw [if_neg hres] at h
        cases hnode : val.keynode with
        | some node =>
          rw [hnode] at h
          dsimp only at h
          cases hnext : node.next with
          | nil =>
            rw [hnext] at h
            cases h
            exact ⟨⟨rfl, rfl, rfl, rfl, by simp [sends_append, sends], by simp⟩,
              fun hx => by cases hx⟩
          | cons k rest =>
            rw [hnext] at h
            dsimp only at h
            have hin : ∀ x ∈ k :: rest, P x := fun x hx => hp2 node hnode x (hnext ▸ hx)
            obtain ⟨hfr, hs⟩ := ih _ r v h
              (fun x hx => by cases hx; exact hin k (List.mem_cons_self _ _))
              (fun nd hnd x hx => by cases hnd; exact hin x (List.mem_cons_of_mem _ hx))
              (fun hnd => by cases hnd)
            refine ⟨verify_frame_trans ?_ hfr, hs⟩
            exact ⟨rfl, rfl, rfl, rfl, by simp [sends_append, sends], by simp⟩
        | none =>
          rw [hnode] at h
          dsimp only at h
          cases hset : val.keyset with
          | false =>
            rw [hset] at h
            cases h
          | true =>
            rw [hset] at h
            simp only [if_true] at h
            generalize hg : get_dst_key env _ siginfo _ = g at h
            cases g with
            | error e => cases h
            | ok p =>
              obtain ⟨r1, val2⟩ := p
              dsimp only at h
              have hf2 := get_dst_key_frame _ _ _ _ _ _ hg
              by_cases hr1 : r1 = ISC_R_SUCCESS
              · rw [if_neg (not_not.mpr hr1)] at h
                have hkeep := get_dst_key_keeps _ _ _ _ _ _ hg
                obtain ⟨hfr, hs⟩ := ih val2 r v h
                  (fun x hx => hp3 hnode hset x
                    (get_dst_key_of_keyset _ _ _ _ _ _ _ hg hx))
                  (fun nd hnd => by rw [hkeep] at hnd; simp [hnode] at hnd)
                  (fun _ _ x hx => hp3 hnode hset x (by rw [hkeep] at hx; exact hx))
                refine ⟨verify_frame_trans (verify_frame_trans ?_ hf2) hfr, hs⟩
                exact ⟨rfl, rfl, rfl, hset.symm, by simp [sends_append, sends], by simp⟩
              · rw [if_pos hr1] at h
                cases h
                refine ⟨verify_frame_trans ?_ hf2, fun hx => absurd hx hres⟩
                exact ⟨rfl, rfl, rfl, hset.symm, by simp [sends_append, sends], by simp⟩

/-- The loop of `get_dst_key` returns a key only together with success. -/
theorem get_dst_key_scan_some (env : Env) (siginfo : dns_rdata_sig) (oldkey : Option dst_key) :
    ∀ (l : List dns_rdata) (foundold : Bool) (r : isc_result) (key : dst_key),
      get_dst_key_scan env siginfo oldkey foundold l = (r, some key) → r = ISC_R_SUCCESS := by
  intro l
  induction l with
  | nil => intro foundold r key h; simp [get_dst_key_scan] at h
  | cons rdata rest ih =>
    intro foundold r key h
    rw [get_dst_key_scan] at h
    cases hk : dst_key_fromdns env rdata with
    | error e => simp [hk] at h
    | ok k =>
      simp only [hk] at h
      split_ifs at h
      · cases h; rfl
      · cases oldkey with
        | none => exact ih _ _ _ h
        | some old =>
          simp only at h
          split_ifs at h
          · exact ih _ _ _ h
          · exact ih _ _ _ h
      · exact ih _ _ _ h

/-- When `get_dst_key` does not report success it leaves `val->key` absent. -/
theorem get_dst_key_failure_key (env : Env) (val : dns_validator) (siginfo : dns_rdata_sig)
    (rdataset : Option dns_rdataset) (r : isc_result) (v : dns_validator)
    (h : get_dst_key env val siginfo rdataset = .ok (r, v)) (hr : r ≠ ISC_R_SUCCESS) :
    v.key = none := by
  unfold get_dst_key at h
  dsimp only at h
  split at h
  · cases h
  · split_ifs at h
    split at h
    · cases h; rfl
    · cases h
      dsimp only at hr ⊢
      cases hk : (get_dst_key_scan env siginfo val.key val.key.isNone _).2 with
      | none => rfl
      | some key =>
        exact absurd (get_dst_key_scan_some env siginfo _ _ _ _ key (Prod.ext rfl hk)) hr

/-- What `get_key` does to the validator: the event, the signature structure and the events
sent stay; and when it reports success with a key, the key is the key of the first
trust-anchor node for the signer, algorithm and key tag of the record, with the further nodes
behind it, or a key that `get_dst_key` took from the keyset found in the cache, to which
`val->keyset` then points. -/
theorem get_key_sound (env : Env) (val : dns_validator) (siginfo : dns_rdata_sig)
    (r : isc_result) (v : dns_validator) (h : get_key env val siginfo = .ok (r, v)) :
    v.event = val.event ∧ v.siginfo = val.siginfo ∧ sends v.effects = sends val.effects ∧
    val.effects ⊆ v.effects ∧
    (r = ISC_R_SUCCESS → ∀ k, v.key = some k →
      (∃ rest, v.keynode = some { key := k, next := rest } ∧
        env.secroots siginfo.signer siginfo.algorithm siginfo.keyid = k :: rest) ∨
      (v.keynode = none ∧ v.keyset = true ∧
        v.frdataset = (env.simplefind siginfo.signer).2.1 ∧
        key_of_keyset env siginfo v.frdataset.rdatas k)) ∧
    (r ≠ ISC_R_SUCCESS → v.keynode = val.keynode ∧ (v.key = val.key ∨ v.key = none)) := by
  unfold get_key at h
  dsimp only at h
  split at h
  · cases h
  rename_i event _
  split at h
  · cases h
  rename_i erds _
  by_cases c1 : erds.type = env.dns_rdatatype_key ∧
      env.fullcompare event.name siginfo.signer ≠ dns_namereln.dns_namereln_subdomain
  · rw [if_pos c1] at h
    cases h
    exact ⟨rfl, rfl, rfl, fun _ hx => hx, (by intro hr; cases hr), fun _ => ⟨rfl, Or.inl rfl⟩⟩
  rw [if_neg c1] at h
  by_cases c2 : env.fullcompare event.name siginfo.signer ≠ dns_namereln.dns_namereln_subdomain ∧
      env.fullcompare event.name siginfo.signer ≠ dns_namereln.dns_namereln_equal
  · rw [if_pos c2] at h
    cases h
    exact ⟨rfl, rfl, rfl, fun _ hx => hx, (by intro hr; cases hr), fun _ => ⟨rfl, Or.inl rfl⟩⟩
  rw [if_neg c2] at h
  by_cases c3 : val.keynode.isSome = true
  · rw [if_pos c3] at h
    cases h
  rw [if_neg c3] at h
  have hnode : val.keynode = none := by
    cases hn : val.keynode with
    | none => rfl
    | some n => rw [hn] at c3; exact absurd rfl c3
  cases hroots : env.secroots siginfo.signer siginfo.algorithm siginfo.keyid with
  | cons k rest =>
    rw [hroots] at h
    cases h
    exact ⟨rfl, rfl, rfl, fun _ hx => hx,
      (by intro _ k1 hk; cases hk; exact Or.inl ⟨rest, rfl, rfl⟩),
      (by intro hr; exact absurd rfl hr)⟩
  | nil =>
    rw [hroots] at h
    dsimp only at h
    by_cases hs : (env.simplefind siginfo.signer).1 = ISC_R_SUCCESS
    · rw [if_pos hs] at h
      by_cases hp : (env.simplefind siginfo.signer).2.1.trust = dns_trust_pending ∧
          (env.simplefind siginfo.signer).2.2.associated = true
      · rw [if_pos hp] at h
        generalize dns_validator_create env _ _ _ _ _ _ _ _ = g at h
        cases g with
        | error e => cases h
        | ok p =>
          obtain ⟨r1, o⟩ := p
          dsimp only at h
          by_cases hr1 : r1 = ISC_R_SUCCESS
          · rw [if_neg (not_not.mpr hr1)] at h
            cases h
            exact ⟨rfl, rfl, by simp [sends_append, sends], by simp,
              (by intro hr; cases hr), fun _ => ⟨rfl, Or.inl rfl⟩⟩
          · rw [if_pos hr1] at h
            cases h
            exact ⟨rfl, rfl, by simp [sends_append, sends], by simp,
              (by intro hr; exact absurd hr hr1), fun _ => ⟨rfl, Or.inl rfl⟩⟩
      · rw [if_neg hp] at h
        by_cases hp2 : (env.simplefind siginfo.signer).2.1.trust = dns_trust_pending
        · rw [if_pos hp2] at h
          cases h
          exact ⟨rfl, rfl, by simp [get_key_cleanup, sends_append, sends],
            by simp [get_key_cleanup], (by intro hr; cases hr), fun _ => ⟨rfl, Or.inl rfl⟩⟩
        · rw [if_neg hp2] at h
          by_cases htr : (env.simplefind siginfo.signer).2.1.trust < dns_trust_secure
          · rw [if_pos htr] at h
            cases h
            exact ⟨rfl, rfl, by simp [get_key_cleanup, sends_append, sends],
              by simp [get_key_cleanup], (by intro _ k hk; cases hk),
              (by intro hr; exact absurd rfl hr)⟩
          · rw [if_neg htr] at h
            generalize hg : get_dst_key env _ siginfo _ = g at h
            cases g with
            | error e => cases h
            | ok p =>
              obtain ⟨r1, val3⟩ := p
              dsimp only at h
              have hkeep := get_dst_key_keeps _ _ _ _ _ _ hg
              have hof := fun k hk => get_dst_key_of_keyset _ _ _ _ _ _ k hg hk
              have hfail := get_dst_key_failure_key _ _ _ _ _ _ hg
              have e1 : val3.event = val.event := by rw [hkeep]
              have e2 : val3.siginfo = val.siginfo := by rw [hkeep]
              have e3 : val3.effects = val.effects ++ [Effect.view_simplefind siginfo.signer] := by
                rw [hkeep]
              have e4 : val3.keynode = val.keynode := by rw [hkeep]
              have e5 : val3.keyset = true := by rw [hkeep]
              have e6 : val3.frdataset = (env.simplefind siginfo.signer).2.1 := by rw [hkeep]
              cases h
              refine ⟨e1, e2, ?_, ?_, ?_, ?_⟩
              · show sends val3.effects = _
                rw [e3]; simp [sends_append, sends]
              · show val.effects ⊆ val3.effects
                rw [e3]; simp
              · intro hr k hk
                have hr1 : r1 = ISC_R_SUCCESS := by
                  by_cases hx : r1 = ISC_R_SUCCESS
                  · exact hx
                  · rw [if_pos hx] at hr; cases hr
                refine Or.inr ⟨e4.trans hnode, e5, ?_, ?_⟩
                · show (if val3.frdataset.associated ∧ val3.keyset = false then dns_rdataset_init
                    else val3.frdataset) = _
                  rw [e5]; simp [e6]
                · show key_of_keyset env siginfo
                    (if val3.frdataset.associated ∧ val3.keyset = false then dns_rdataset_init
                      else val3.frdataset).rdatas k
                  rw [e5]
                  simp only [Bool.true_eq_false, and_false, if_false]
                  rw [e6]
                  exact hof k hk
              · intro hr
                have hr1 : r1 ≠ ISC_R_SUCCESS := by
                  intro hx
                  rw [if_neg (not_not.mpr hx)] at hr
                  exact hr hx
                exact ⟨e4, Or.inr (hfail hr1)⟩
    · rw [if_neg hs] at h
      by_cases hnf : (env.simplefind siginfo.signer).1 = ISC_R_NOTFOUND
      · rw [if_pos hnf] at h
        by_cases hcf : env.createfetch siginfo.signer = ISC_R_SUCCESS
        · rw [if_neg (not_not.mpr hcf)] at h
          cases h
          exact ⟨rfl, rfl, by simp [sends_append, sends], by simp,
            (by intro hr; cases hr), fun _ => ⟨rfl, Or.inl rfl⟩⟩
        · rw [if_pos hcf] at h
          cases h
          exact ⟨rfl, rfl, by simp [sends_append, sends], by simp,
            (by intro hr; exact absurd hr hcf), fun _ => ⟨rfl, Or.inl rfl⟩⟩
      · rw [if_neg hnf] at h
        by_cases hnx : (env.simplefind siginfo.signer).1 = DNS_R_NCACHENXDOMAIN ∨
            (env.simplefind siginfo.signer).1 = DNS_R_NCACHENXRRSET ∨
            (env.simplefind siginfo.signer).1 = DNS_R_NXDOMAIN ∨
            (env.simplefind siginfo.signer).1 = DNS_R_NXRRSET
        · rw [if_pos hnx] at h
          cases h
          exact ⟨rfl, rfl, by simp [get_key_cleanup, sends_append, sends],
            by simp [get_key_cleanup], (by intro hr; cases hr), fun _ => ⟨rfl, Or.inl rfl⟩⟩
        · rw [if_neg hnx] at h
          cases h
          exact ⟨rfl, rfl, by simp [get_key_cleanup, sends_append, sends],
            by simp [get_key_cleanup], (by intro hr; exact absurd hr hs),
            fun _ => ⟨rfl, Or.inl rfl⟩⟩

/-! ## Soundness of the secure verdict: `validate` -/

/-- One pass through the body of the loop of `validate`, for a validator that holds the
event of the request with its rdatasets unchanged.  The pass sends no event and only adds
calls.  It ends in one of three ways: the event is left as it was (the pass moves on, or
returns a result other than success); or it returns success with both rdatasets marked
`answer`; or it returns success with both rdatasets marked `secure`, and then
`dns_dnssec_verify` has returned success for the name and rdataset of the request, the
record under the cursor and a key that `P` admits.  `P` must admit, for a fresh pass, the
trust-anchor keys and the keys of the cached keyset for the record; for a resumed pass, the
key in `val->key` and the keys of the keyset in `val->frdataset`. -/
theorem validate_body_sound (env : Env) (resume : Bool) (fuel : Nat) (val : dns_validator)
    (s : validate_step) (event : dns_validatorevent) (erds esig : dns_rdataset)
    (P : dst_key → Prop)
    (hev : val.event = some event) (hrd : event.rdataset = some erds)
    (hsg : event.sigrdataset = some esig)
    (hfresh : resume = false → ∀ k,
      (key_of_anchor env (env.tostruct_sig (dns_rdataset_current esig)) k ∨
        key_of_keyset env (env.tostruct_sig (dns_rdataset_current esig))
          (env.simplefind (env.tostruct_sig (dns_rdataset_current esig)).signer).2.1.rdatas k) →
      P k)
    (hres : resume = true → val.keynode = none ∧ ∀ k0, val.key = some k0 →
      P k0 ∧ ∀ k, key_of_keyset env (env.tostruct_sig (dns_rdataset_current esig))
        val.frdataset.rdatas k → P k)
    (h : validate_body env resume fuel val = .ok s) :
    sends s.validator.effects = sends val.effects ∧ val.effects ⊆ s.validator.effects ∧
    ((s.validator.event = some event ∧
        (s.validator.key = none ∨ s.validator.key = val.key) ∧
        (s.validator.keynode = none ∨ s.validator.keynode = val.keynode) ∧
        (s.validator.siginfo = none ∨
          s.validator.siginfo = some (env.tostruct_sig (dns_rdataset_current esig))) ∧
        (∀ v, s ≠ validate_step.returned ISC_R_SUCCESS v) ∧
        (resume = true → ∀ v, s ≠ validate_step.returned DNS_R_WAIT v) ∧
        (resume = true → ∀ v, s = validate_step.next_sig v → v.key = none ∧ v.keynode = none)) ∨
      (∃ v, s = validate_step.returned ISC_R_SUCCESS v ∧
        v.event = some { event with
          rdataset := some { erds with trust := dns_trust_answer },
          sigrdataset := some { esig with trust := dns_trust_answer } }) ∨
      (∃ v key ttl, s = validate_step.returned ISC_R_SUCCESS v ∧
        v.event = some { event with
          rdataset := some { erds with ttl := ttl, trust := dns_trust_secure },
          sigrdataset := some { esig with ttl := ttl, trust := dns_trust_secure } } ∧
        env.verify event.name erds key (dns_rdataset_current esig) = ISC_R_SUCCESS ∧
        Effect.dnssec_verify key (dns_rdataset_current esig) ∈ v.effects ∧ P key)) := by
  unfold validate_body at h
  rw [hev] at h
  dsimp only at h
  rw [hsg] at h
  dsimp only at h
  by_cases hm : env.mem_ok = false
  · rw [if_pos hm] at h
    cases h
    refine ⟨rfl, fun _ hx => hx, Or.inl ⟨rfl, Or.inr rfl, Or.inr rfl, Or.inl rfl, ?_, ?_, ?_⟩⟩
    · intro v hx; cases hx
    · intro _ v hx; cases hx
    · intro _ v hx; cases hx
  rw [if_neg hm] at h
  generalize hkeyed : (if resume = false then _ else _) = keyed at h
  cases keyed with
  | error e => cases h
  | ok p =>
    obtain ⟨r, val2⟩ := p
    dsimp only at h
    have hk2 : val2.event = some event ∧
        val2.siginfo = some (env.tostruct_sig (dns_rdataset_current esig)) ∧
        sends val2.effects = sends val.effects ∧ val.effects ⊆ val2.effects ∧
        (r = ISC_R_SUCCESS → ∀ k0, val2.key = some k0 → P k0 ∧
          (∀ node, val2.keynode = some node → ∀ k ∈ node.next, P k) ∧
          (val2.keynode = none → val2.keyset = true →
            ∀ k, key_of_keyset env (env.tostruct_sig (dns_rdataset_current esig))
              val2.frdataset.rdatas k → P k)) ∧
        (r ≠ ISC_R_SUCCESS → val2.keynode = val.keynode ∧
          (val2.key = val.key ∨ val2.key = none)) ∧
        (resume = true → r = ISC_R_SUCCESS) := by
      cases resume with
      | false =>
        simp only [if_true] at hkeyed
        obtain ⟨a1, a2, a3, a4, a5, a6⟩ := get_key_sound _ _ _ _ _ hkeyed
        refine ⟨a1, a2, a3, a4, ?_, a6, fun hx => by cases hx⟩
        intro hr k0 hkey
        rcases a5 hr k0 hkey with ⟨rest, hn, hroots⟩ | ⟨hn, _, hfr, hof⟩
        · refine ⟨hfresh rfl k0 (Or.inl (by rw [key_of_anchor, hroots]; simp)), ?_, ?_⟩
          · intro node hnode k hk
            rw [hn] at hnode
            cases hnode
            exact hfresh rfl k (Or.inl (by rw [key_of_anchor, hroots]; simp [hk]))
          · intro hnone
            rw [hn] at hnone
            cases hnone
        · refine ⟨hfresh rfl k0 (Or.inr (by rw [← hfr]; exact hof)), ?_, ?_⟩
          · intro node hnode
            rw [hn] at hnode
            cases hnode
          · intro _ _ k hk
            exact hfresh rfl k (Or.inr (by rw [← hfr]; exact hk))
      | true =>
        simp only [Bool.true_eq_false, if_false] at hkeyed
        cases hkeyed
        obtain ⟨b2, b1⟩ := hres rfl
        refine ⟨rfl, rfl, rfl, fun _ hx => hx, ?_, fun hx => absurd rfl hx, fun _ => rfl⟩
        intro _ k0 hkey
        refine ⟨(b1 k0 hkey).1, ?_, fun _ _ => (b1 k0 hkey).2⟩
        intro node hn
        have hn2 : val.keynode = some node := hn
        rw [b2] at hn2
        cases hn2
    obtain ⟨k1, k2, k3, k4, k5, k6, k7⟩ := hk2
    by_cases hc : r = DNS_R_CONTINUE
    · rw [if_pos hc] at h
      cases h
      have hns : r ≠ ISC_R_SUCCESS := by rw [hc]; decide
      obtain ⟨n1, n2⟩ := k6 hns
      refine ⟨k3, k4, Or.inl ⟨k1, n2.symm, Or.inr n1, Or.inr k2, ?_, ?_, ?_⟩⟩
      · intro v hx; cases hx
      · intro _ v hx; cases hx
      · intro hres2 _ _; exact absurd (k7 hres2) hns
    rw [if_neg hc] at h
    by_cases hs : r = ISC_R_SUCCESS
    · rw [if_neg (not_not.mpr hs), hrd] at h
      dsimp only at h
      cases hkey : val2.key with
      | none =>
        rw [hkey] at h
        simp only [Option.isNone_none, if_true] at h
        cases h
        exact ⟨k3, k4, Or.inr (Or.inl ⟨_, rfl, rfl⟩)⟩
      | some k0 =>
        rw [hkey] at h
        simp only [Option.isNone_some, Bool.false_eq_true, if_false] at h
        obtain ⟨p1, p2, p3⟩ := k5 hs k0 hkey
        generalize hv : verify_loop env event.name erds _ _ fuel val2 = vl at h
        cases vl with
        | error e => cases h
        | ok q =>
          obtain ⟨result, val3⟩ := q
          dsimp only at h
          obtain ⟨hfr, hsucc⟩ := verify_loop_sound env event.name erds _ _ P fuel val2 result val3
            hv (fun k hk => by rw [hkey] at hk; cases hk; exact p1) p2 p3
          obtain ⟨f1, f2, f3, f4, f5, f6⟩ := hfr
          by_cases hreq : val3.keynode.isNone = true ∧ val3.keyset = true ∧
              val3.frdataset.associated = false
          · rw [if_pos hreq] at h
            cases h
          rw [if_neg hreq] at h
          have fin : ∀ (w : dns_validator) (ttl : Nat),
              (if result = ISC_R_SUCCESS then
                (Except.ok (validate_step.returned result
                  { w with event := some { event with
                      rdataset := some
                        { (if result = ISC_R_SUCCESS then { erds with ttl := ttl } else erds) with
                          trust := dns_trust_secure },
                      sigrdataset := some
                        { (if result = ISC_R_SUCCESS then { esig with ttl := ttl } else esig) with
                          trust := dns_trust_secure } } }) : Except Stop validate_step)
              else .ok (validate_step.next_sig w)) = .ok s →
              w.effects = val3.effects →
              w.event = val3.event → w.key = none → w.keynode = none →
              w.siginfo = val3.siginfo →
              sends s.validator.effects = sends val.effects ∧
              val.effects ⊆ s.validator.effects ∧
              ((s.validator.event = some event ∧
                  (s.validator.key = none ∨ s.validator.key = val.key) ∧
                  (s.validator.keynode = none ∨ s.validator.keynode = val.keynode) ∧
                  (s.validator.siginfo = none ∨
                    s.validator.siginfo =
                      some (env.tostruct_sig (dns_rdataset_current esig))) ∧
                  (∀ v, s ≠ validate_step.returned ISC_R_SUCCESS v) ∧
                  (resume = true → ∀ v, s ≠ validate_step.returned DNS_R_WAIT v) ∧
                  (resume = true → ∀ v, s = validate_step.next_sig v →
                    v.key = none ∧ v.keynode = none)) ∨
                (∃ v, s = validate_step.returned ISC_R_SUCCESS v ∧
                  v.event = some { event with
                    rdataset := some { erds with trust := dns_trust_answer },
                    sigrdataset := some { esig with trust := dns_trust_answer } }) ∨
                (∃ v key ttl, s = validate_step.returned ISC_R_SUCCESS v ∧
                  v.event = some { event with
                    rdataset := some { erds with ttl := ttl, trust := dns_trust_secure },
                    sigrdataset := some { esig with ttl := ttl, trust := dns_trust_secure } } ∧
                  env.verify event.name erds key (dns_rdataset_current esig) = ISC_R_SUCCESS ∧
                  Effect.dnssec_verify key (dns_rdataset_current esig) ∈ v.effects ∧
                  P key)) := by
            intro w ttl hh he hew hkw hknw hsw
            have hsends : sends w.effects = sends val.effects := by rw [he, f5, k3]
            have hsub : val.effects ⊆ w.effects := by
              rw [he]; exact fun e hx => f6 (k4 hx)
            by_cases hres2 : result = ISC_R_SUCCESS
            · subst hres2
              simp only [if_true] at hh
              cases hh
              obtain ⟨key, hP, hver, hmem⟩ := hsucc rfl
              exact ⟨hsends, hsub, Or.inr (Or.inr ⟨_, key, ttl, rfl, rfl, hver,
                by show Effect.dnssec_verify key _ ∈ w.effects; rw [he]; exact hmem, hP⟩)⟩
            · rw [if_neg hres2] at hh
              cases hh
              refine ⟨hsends, hsub, Or.inl ⟨hew.trans (f1.trans k1), Or.inl hkw, Or.inl hknw,
                Or.inr (hsw.trans (f2.trans k2)), ?_, ?_, ?_⟩⟩
              · intro v hx; cases hx
              · intro _ v hx; cases hx
              · intro _ v hx; cases hx; exact ⟨hkw, hknw⟩
          cases hkn3 : val3.keynode with
          | some node =>
            rw [hkn3] at h
            simp only [Option.isSome_some, if_true] at h
            exact fin _ _ h rfl rfl rfl rfl rfl
          | none =>
            rw [hkn3] at h
            simp only [Option.isSome_none, Bool.false_eq_true, if_false] at h
            cases hks : val3.keyset with
            | true =>
              rw [hks] at h
              simp only [if_true] at h
              exact fin _ _ h rfl rfl rfl rfl rfl
            | false =>
              rw [hks] at h
              simp only [Bool.false_eq_true, if_false] at h
              exact fin _ _ h rfl rfl rfl rfl rfl
    · rw [if_pos hs] at h
      cases h
      obtain ⟨n1, n2⟩ := k6 hs
      refine ⟨k3, k4, Or.inl ⟨k1, n2.symm, Or.inr n1, Or.inr k2, ?_, ?_, ?_⟩⟩
      · intro v hx; cases hx; exact hs rfl
      · intro hres2 v hx; cases hx; exact hs (k7 hres2)
      · intro _ v hx; cases hx

/-- Advancing the cursor of a signature set changes nothing but the cursor. -/
theorem dns_rdataset_next_cursor (r : dns_rdataset) :
    ∃ j, (dns_rdataset_next r).2 = { r with cursor := j } := by
  unfold dns_rdataset_next
  split_ifs
  · exact ⟨r.cursor + 1, rfl⟩
  · exact ⟨r.cursor, rfl⟩

/-- When the cursor cannot be advanced the signature set is left as it is. -/
theorem dns_rdataset_next_nomore (r : dns_rdataset)
    (h : (dns_rdataset_next r).1 ≠ ISC_R_SUCCESS) : (dns_rdataset_next r).2 = r := by
  unfold dns_rdataset_next at h ⊢
  split_ifs at h ⊢
  · exact absurd rfl h
  · rfl

/-- Soundness of the loop of `validate` entered afresh, for a validator that holds the event
of the request with its rdatasets unchanged and holds no key. -/
theorem validate_loop_fresh_sound (env : Env) (erds esig : dns_rdataset) :
    ∀ (fuel : Nat) (val : dns_validator) (r : isc_result) (v : dns_validator)
      (event : dns_validatorevent) (i : Nat),
      val.event = some event → event.rdataset = some erds →
      event.sigrdataset = some { esig with cursor := i } →
      val.key = none → val.keynode = none →
      validate_loop env false fuel val = .ok (r, v) →
      sends v.effects = sends val.effects ∧ val.effects ⊆ v.effects ∧
      validate_outcome env event.name erds esig (cache_keys env) r v := by
  intro fuel
  induction fuel with
  | zero => intro val r v event i _ _ _ _ _ h; simp [validate_loop] at h
  | succ fuel ih =>
    intro val r v event i hev hrd hsg hkey hnode h
    rw [validate_loop] at h
    generalize hb : validate_body env false fuel val = body at h
    cases body with
    | error e => cases h
    | ok s =>
      obtain ⟨b1, b2, b3⟩ := validate_body_sound env false fuel val s event erds
        { esig with cursor := i } (cache_keys env (dns_rdataset_current { esig with cursor := i }))
        hev hrd hsg (fun _ k hk => hk) (fun hx => by cases hx) hb
      cases s with
      | returned r1 v1 =>
        dsimp only at h
        cases h
        refine ⟨b1, b2, ?_⟩
        rcases b3 with ⟨u1, u2, u3, u4, u5, _⟩ | ⟨v2, a1, a2⟩ | ⟨v2, key, ttl, a1, a2, a3, a4, a5⟩
        · simp only [validate_step.validator] at u1 u2 u3 u4
          refine ⟨event, u1, rfl, Or.inl ⟨fun hx => u5 v (by rw [hx]), ⟨hrd, i, hsg⟩, ?_⟩⟩
          intro _
          refine ⟨?_, ?_, ?_⟩
          · rcases u2 with h1 | h1
            · exact h1
            · exact h1.trans hkey
          · rcases u3 with h1 | h1
            · exact h1
            · exact h1.trans hnode
          · intro s sg hs1 hs2
            rw [hsg] at hs2
            cases hs2
            rcases u4 with h1 | h1
            · rw [h1] at hs1; cases hs1
            · rw [h1] at hs1; cases hs1; rfl
        · cases a1
          exact ⟨_, a2, rfl, Or.inr ⟨rfl, Or.inl ⟨rfl, i, rfl⟩⟩⟩
        · cases a1
          exact ⟨_, a2, rfl, Or.inr ⟨rfl, Or.inr ⟨key, ttl, i, rfl, rfl, a3, a4, a5⟩⟩⟩
      | next_sig v1 =>
        dsimp only at h
        rcases b3 with ⟨u1, u2, u3, u4, u5, _⟩ | ⟨v2, a1, _⟩ | ⟨v2, key, ttl, a1, _⟩
        · have u1' : v1.event = some event := u1
          rw [u1'] at h
          dsimp only at h
          rw [hsg] at h
          dsimp only at h
          have hk1 : v1.key = none := by
            rcases u2 with h1 | h1
            · exact h1
            · exact h1.trans hkey
          have hn1 : v1.keynode = none := by
            rcases u3 with h1 | h1
            · exact h1
            · exact h1.trans hnode
          obtain ⟨j, hj⟩ := dns_rdataset_next_cursor { esig with cursor := i }
          by_cases hnx : (dns_rdataset_next { esig with cursor := i }).1 = ISC_R_SUCCESS
          · rw [if_pos hnx] at h
            obtain ⟨c1, c2, c3⟩ := (fun (w : dns_validator)
                (hw : validate_loop env false fuel w = .ok (r, v))
                (e1 : w.event = some { event with
                  sigrdataset := some (dns_rdataset_next { esig with cursor := i }).2 })
                (e2 : w.key = none) (e3 : w.keynode = none) =>
              ih w r v
                { event with sigrdataset := some (dns_rdataset_next { esig with cursor := i }).2 } j
                e1 hrd (by rw [hj]) e2 e3 hw) _ h rfl hk1 hn1
            exact ⟨c1.trans b1, fun e he => c2 (b2 he), c3⟩
          · rw [if_neg hnx] at h
            by_cases hnm : (dns_rdataset_next { esig with cursor := i }).1 ≠ ISC_R_NOMORE
            · rw [if_pos hnm] at h
              cases h
            · rw [if_neg hnm] at h
              cases h
              refine ⟨b1, b2, _, rfl, rfl, Or.inl ⟨by decide, ⟨hrd, j, by rw [← hj]⟩, ?_⟩⟩
              intro hx
              cases hx
        · cases a1
        · cases a1

/-- Soundness of the loop of `validate` entered on resumption, for a validator that holds the
event of the request with its rdatasets unchanged, no trust-anchor node, and a key that `Q`
admits for the record under the cursor: it never returns `DNS_R_WAIT`. -/
theorem validate_loop_resumed_sound (env : Env) (erds esig : dns_rdataset)
    (Q : dns_rdata → dst_key → Prop) :
    ∀ (fuel : Nat) (val : dns_validator) (r : isc_result) (v : dns_validator)
      (event : dns_validatorevent) (i : Nat),
      val.event = some event → event.rdataset = some erds →
      event.sigrdataset = some { esig with cursor := i } →
      val.keynode = none →
      (∀ k0, val.key = some k0 →
        Q (dns_rdataset_current { esig with cursor := i }) k0 ∧
        ∀ k, key_of_keyset env (env.tostruct_sig (dns_rdataset_current { esig with cursor := i }))
          val.frdataset.rdatas k → Q (dns_rdataset_current { esig with cursor := i }) k) →
      validate_loop env true fuel val = .ok (r, v) →
      sends v.effects = sends val.effects ∧ val.effects ⊆ v.effects ∧ r ≠ DNS_R_WAIT ∧
      validate_outcome env event.name erds esig Q r v := by
  intro fuel
  induction fuel with
  | zero => intro val r v event i _ _ _ _ _ h; simp [validate_loop] at h
  | succ fuel ih =>
    intro val r v event i hev hrd hsg hnode hq h
    rw [validate_loop] at h
    generalize hb : validate_body env true fuel val = body at h
    cases body with
    | error e => cases h
    | ok s =>
      obtain ⟨b1, b2, b3⟩ := validate_body_sound env true fuel val s event erds
        { esig with cursor := i } (Q (dns_rdataset_current { esig with cursor := i }))
        hev hrd hsg (fun hx => by cases hx) (fun _ => ⟨hnode, hq⟩) hb
      cases s with
      | returned r1 v1 =>
        dsimp only at h
        cases h
        refine ⟨b1, b2, ?_⟩
        rcases b3 with ⟨u1, _, _, _, u5, u6, _⟩ | ⟨v2, a1, a2⟩ | ⟨v2, key, ttl, a1, a2, a3, a4, a5⟩
        · have hw : r ≠ DNS_R_WAIT := fun hx => u6 rfl v (by rw [hx])
          exact ⟨hw, event, u1, rfl,
            Or.inl ⟨fun hx => u5 v (by rw [hx]), ⟨hrd, i, hsg⟩, fun hx => absurd hx hw⟩⟩
        · cases a1
          exact ⟨by decide, _, a2, rfl, Or.inr ⟨rfl, Or.inl ⟨rfl, i, rfl⟩⟩⟩
        · cases a1
          exact ⟨by decide, _, a2, rfl,
            Or.inr ⟨rfl, Or.inr ⟨key, ttl, i, rfl, rfl, a3, a4, a5⟩⟩⟩
      | next_sig v1 =>
        dsimp only at h
        rcases b3 with ⟨u1, _, _, _, _, _, u7⟩ | ⟨v2, a1, _⟩ | ⟨v2, key, ttl, a1, _⟩
        · have u1' : v1.event = some event := u1
          obtain ⟨hk1, hn1⟩ := u7 rfl v1 rfl
          rw [u1'] at h
          dsimp only at h
          rw [hsg] at h
          dsimp only at h
          obtain ⟨j, hj⟩ := dns_rdataset_next_cursor { esig with cursor := i }
          by_cases hnx : (dns_rdataset_next { esig with cursor := i }).1 = ISC_R_SUCCESS
          · rw [if_pos hnx] at h
            obtain ⟨c1, c2, c3⟩ := (fun (w : dns_validator)
                (hw : validate_loop env true fuel w = .ok (r, v))
                (e1 : w.event = some { event with
                  sigrdataset := some (dns_rdataset_next { esig with cursor := i }).2 })
                (e2 : w.key = none) (e3 : w.keynode = none) =>
              ih w r v
                { event with sigrdataset := some (dns_rdataset_next { esig with cursor := i }).2 } j
                e1 hrd (by rw [hj]) e3 (fun k0 hk0 => by rw [e2] at hk0; cases hk0) hw)
              _ h rfl hk1 hn1
            exact ⟨c1.trans b1, fun e he => c2 (b2 he), c3⟩
          · rw [if_neg hnx] at h
            by_cases hnm : (dns_rdataset_next { esig with cursor := i }).1 ≠ ISC_R_NOMORE
            · rw [if_pos hnm] at h
              cases h
            · rw [if_neg hnm] at h
              cases h
              refine ⟨b1, b2, by decide, _, rfl, rfl,
                Or.inl ⟨by decide, ⟨hrd, j, by rw [← hj]⟩, ?_⟩⟩
              intro hx
              cases hx
        · cases a1
        · cases a1

/-- The outcome of `validate` for a larger set of admitted keys. -/
theorem validate_outcome_mono (env : Env) (name : dns_name) (erds esig : dns_rdataset)
    (P Q : dns_rdata → dst_key → Prop) (r : isc_result) (v : dns_validator)
    (hpq : ∀ rdata key, P rdata key → Q rdata key)
    (h : validate_outcome env name erds esig P r v) :
    validate_outcome env name erds esig Q r v := by
  obtain ⟨ev, h1, h2, h3⟩ := h
  refine ⟨ev, h1, h2, ?_⟩
  rcases h3 with h3 | ⟨h3, h4 | ⟨key, ttl, i, s1, s2, s3, s4, s5⟩⟩
  · exact Or.inl h3
  · exact Or.inr ⟨h3, Or.inl h4⟩
  · exact Or.inr ⟨h3, Or.inr ⟨key, ttl, i, s1, s2, s3, s4, hpq _ _ s5⟩⟩

/-- Soundness of `validate` called afresh. -/
theorem validate_fresh_sound (env : Env) (erds esig : dns_rdataset) (fuel : Nat)
    (val : dns_validator) (r : isc_result) (v : dns_validator) (event : dns_validatorevent)
    (i : Nat) (hev : val.event = some event) (hrd : event.rdataset = some erds)
    (hsg : event.sigrdataset = some { esig with cursor := i })
    (hkey : val.key = none) (hnode : val.keynode = none)
    (h : validate env fuel val false = .ok (r, v)) :
    sends v.effects = sends val.effects ∧ val.effects ⊆ v.effects ∧
    validate_outcome env event.name erds esig (cache_keys env) r v := by
  unfold validate at h
  rw [if_neg (by decide)] at h
  rw [hev] at h
  dsimp only at h
  rw [hsg] at h
  dsimp only at h
  unfold dns_rdataset_first at h
  dsimp only at h
  by_cases ha : esig.associated = false
  · rw [if_pos ha] at h
    cases h
  · rw [if_neg ha] at h
    by_cases he : esig.rdatas = []
    · rw [if_pos he] at h
      dsimp only at h
      rw [if_neg (by decide), if_neg (by decide)] at h
      cases h
      exact ⟨rfl, fun _ hx => hx, _, rfl, rfl,
        Or.inl ⟨by decide, ⟨hrd, i, rfl⟩, fun hx => by cases hx⟩⟩
    · rw [if_neg he] at h
      dsimp only at h
      rw [if_pos rfl] at h
      have hh := (fun (w : dns_validator)
          (hw : validate_loop env false fuel w = .ok (r, v))
          (e1 : w.event = some { event with sigrdataset := some { esig with cursor := 0 } })
          (e2 : w.key = none) (e3 : w.keynode = none) =>
        validate_loop_fresh_sound env erds esig fuel w r v
          { event with sigrdataset := some { esig with cursor := 0 } } 0 e1 hrd rfl e2 e3 hw)
        _ h rfl hkey hnode
      exact hh

/-- Soundness of `validate` called on resumption: it never returns `DNS_R_WAIT`. -/
theorem validate_resumed_sound (env : Env) (erds esig : dns_rdataset)
    (Q : dns_rdata → dst_key → Prop) (fuel : Nat)
    (val : dns_validator) (r : isc_result) (v : dns_validator) (event : dns_validatorevent)
    (i : Nat) (hev : val.event = some event) (hrd : event.rdataset = some erds)
    (hsg : event.sigrdataset = some { esig with cursor := i })
    (hnode : val.keynode = none)
    (hq : ∀ k0, val.key = some k0 →
      Q (dns_rdataset_current { esig with cursor := i }) k0 ∧
      ∀ k, key_of_keyset env (env.tostruct_sig (dns_rdataset_current { esig with cursor := i }))
        val.frdataset.rdatas k → Q (dns_rdataset_current { esig with cursor := i }) k)
    (h : validate env fuel val true = .ok (r, v)) :
    sends v.effects = sends val.effects ∧ val.effects ⊆ v.effects ∧ r ≠ DNS_R_WAIT ∧
    validate_outcome env event.name erds esig Q r v := by
  unfold validate at h
  rw [if_pos rfl] at h
  exact validate_loop_resumed_sound env erds esig Q fuel val r v event i hev hrd hsg hnode hq h

/-- Without a signature set in its event `validate` does not return. -/
theorem validate_needs_sigrdataset (env : Env) (fuel : Nat) (val : dns_validator)
    (resume : Bool) (r : isc_result) (v : dns_validator) (event : dns_validatorevent)
    (hev : val.event = some event) (hsg : event.sigrdataset = none)
    (h : validate env fuel val resume = .ok (r, v)) : False := by
  unfold validate at h
  cases resume with
  | true =>
    rw [if_pos rfl] at h
    cases fuel with
    | zero => simp [validate_loop] at h
    | succ n =>
      rw [validate_loop] at h
      unfold validate_body at h
      rw [hev] at h
      dsimp only at h
      rw [hsg] at h
      cases h
  | false =>
    rw [if_neg (by decide)] at h
    rw [hev] at h
    dsimp only at h
    rw [hsg] at h
    cases h

/-! ## The steps outside `validate` do not raise trust -/

/-- An event is related to itself. -/
theorem same_or_answer_refl (ev : dns_validatorevent) : same_or_answer ev ev :=
  ⟨rfl, rfl, Or.inl rfl⟩

/-- Setting the trust to `answer` twice is setting it once. -/
theorem same_or_answer_trans {a b c : dns_validatorevent} (h1 : same_or_answer a b)
    (h2 : same_or_answer b c) : same_or_answer a c := by
  obtain ⟨a1, a2, a3⟩ := h1
  obtain ⟨b1, b2, b3⟩ := h2
  refine ⟨b1.trans a1, b2.trans a2, ?_⟩
  rcases a3 with a3 | ⟨rds, a3, a4⟩
  · rcases b3 with b3 | ⟨rds, b3, b4⟩
    · exact Or.inl (b3.trans a3)
    · exact Or.inr ⟨rds, a3 ▸ b3, b4⟩
  · rcases b3 with b3 | ⟨rds1, b3, b4⟩
    · exact Or.inr ⟨rds, a3, b3.trans a4⟩
    · rw [a4] at b3
      cases b3
      exact Or.inr ⟨rds, a3, b4⟩

/-- Doing nothing does not raise trust. -/
theorem no_raise_refl (val : dns_validator) (r : isc_result) : no_raise val r val :=
  ⟨fun _ h => h, ⟨[], by simp, fun e he => by cases he⟩,
    fun ev' h => ⟨ev', h, same_or_answer_refl _, fun _ => rfl, rfl, rfl, rfl⟩⟩

/-- Two steps, one after the other, of which the first leaves the rdataset alone. -/
theorem no_raise_trans {a b c : dns_validator} {r : isc_result}
    (h1 : no_raise a DNS_R_WAIT b) (h2 : no_raise b r c) : no_raise a r c := by
  obtain ⟨a1, ⟨n1, a2, a3⟩, a4⟩ := h1
  obtain ⟨b1, ⟨n2, b2, b3⟩, b4⟩ := h2
  refine ⟨fun e he => b1 (a1 he), ⟨n1 ++ n2, by rw [b2, a2, List.append_assoc], ?_⟩, ?_⟩
  · intro e he
    rcases List.mem_append.1 he with he | he
    · exact a3 e he
    · obtain ⟨evb, hb, sb⟩ := b3 e he
      obtain ⟨eva, ha, sa, _⟩ := a4 evb hb
      exact ⟨eva, ha, same_or_answer_trans sa sb⟩
  · intro ev' hev'
    obtain ⟨evb, hb, sb, wb, k1, k2, k3⟩ := b4 ev' hev'
    obtain ⟨eva, ha, sa, wa, j1, j2, j3⟩ := a4 evb hb
    exact ⟨eva, ha, same_or_answer_trans sa sb, fun hr => (wb hr).trans (wa rfl),
      k1.trans j1, k2.trans j2, k3.trans j3⟩

/-- A step that adds calls none of which sends an event and leaves alone the name and the
rdatasets of the event, the key, the trust-anchor node and the signature structure. -/
theorem no_raise_intro (val v : dns_validator) (r : isc_result) (add : List Effect)
    (he : v.effects = val.effects ++ add) (hs : sends add = [])
    (hev : ∀ ev', v.event = some ev' → ∃ ev, val.event = some ev ∧ ev'.name = ev.name ∧
      ev'.sigrdataset = ev.sigrdataset ∧ ev'.rdataset = ev.rdataset)
    (hk : v.key = val.key) (hn : v.keynode = val.keynode) (hsi : v.siginfo = val.siginfo) :
    no_raise val r v := by
  refine ⟨by rw [he]; exact List.subset_append_left _ _,
    ⟨[], by rw [he, sends_append, hs], fun e h => by cases h⟩, ?_⟩
  intro ev' h
  obtain ⟨ev, h1, h2, h3, h4⟩ := hev ev' h
  exact ⟨ev, h1, ⟨h2, h3, Or.inl h4⟩, fun _ => h4, hk, hn, hsi⟩

/-- A step that adds calls none of which sends an event and leaves alone the event, the key,
the trust-anchor node and the signature structure. -/
theorem no_raise_same (val v : dns_validator) (r : isc_result) (add : List Effect)
    (he : v.effects = val.effects ++ add) (hs : sends add = [])
    (hev : v.event = val.event)
    (hk : v.key = val.key) (hn : v.keynode = val.keynode) (hsi : v.siginfo = val.siginfo) :
    no_raise val r v :=
  no_raise_intro val v r add he hs
    (fun ev' h => ⟨ev', by rw [← hev]; exact h, rfl, rfl, rfl⟩) hk hn hsi

/-- A step that sets the trust of the rdataset of the event to `answer` and returns a result
other than `DNS_R_WAIT`. -/
theorem no_raise_mark (val v : dns_validator) (r : isc_result) (add : List Effect)
    (event : dns_validatorevent) (erds : dns_rdataset)
    (he : v.effects = val.effects ++ add) (hs : sends add = [])
    (h0 : val.event = some event) (h1 : event.rdataset = some erds)
    (hev : v.event = some { event with rdataset := some { erds with trust := dns_trust_answer } })
    (hr : r ≠ DNS_R_WAIT)
    (hk : v.key = val.key) (hn : v.keynode = val.keynode) (hsi : v.siginfo = val.siginfo) :
    no_raise val r v := by
  refine ⟨by rw [he]; exact List.subset_append_left _ _,
    ⟨[], by rw [he, sends_append, hs], fun e h => by cases h⟩, ?_⟩
  intro ev' h
  rw [hev] at h
  cases h
  exact ⟨event, h0, ⟨rfl, rfl, Or.inr ⟨erds, h1, rfl⟩⟩, fun hx => absurd hx hr, hk, hn, hsi⟩

/-- The function `validator_done` does not raise trust: it sends the event it holds. -/
theorem validator_done_no_raise (val v : dns_validator) (r r' : isc_result)
    (h : validator_done val r = .ok v) : no_raise val r' v := by
  obtain ⟨ev, hev, rfl⟩ := validator_done_ok val v r h
  refine ⟨List.subset_append_left _ _, ⟨[_], by rw [sends_append]; rfl, ?_⟩, ?_⟩
  · intro e he
    rw [List.mem_singleton] at he
    subst he
    exact ⟨ev, hev, rfl, rfl, Or.inl rfl⟩
  · intro ev' h
    cases h

/-- Sending the event after a step that does not raise trust does not raise trust. -/
theorem done_after_no_raise (a b c : dns_validator) (r r0 r' : isc_result)
    (hab : no_raise a r b) (h : validator_done b r0 = .ok c) : no_raise a r' c := by
  obtain ⟨ev, hev, rfl⟩ := validator_done_ok b c r0 h
  obtain ⟨a1, ⟨n1, a2, a3⟩, a4⟩ := hab
  obtain ⟨eva, ha, sa, _⟩ := a4 ev hev
  refine ⟨fun e he => List.subset_append_left _ _ (a1 he),
    ⟨n1 ++ [_], by rw [sends_append, a2, List.append_assoc]; rfl, ?_⟩, ?_⟩
  · intro e he
    rcases List.mem_append.1 he with he | he
    · exact a3 e he
    · rw [List.mem_singleton] at he
      subst he
      exact ⟨eva, ha, sa⟩
  · intro ev' h
    cases h

/-- The end of a strategy run does not raise trust: the event is sent unless the result is
`DNS_R_WAIT`, and in that case its rdataset is as it was. -/
theorem done_unless_wait_no_raise (a b c : dns_validator) (r : isc_result)
    (hab : no_raise a r b)
    (h : (if r ≠ DNS_R_WAIT then validator_done b r else .ok b) = .ok c) :
    no_raise a DNS_R_WAIT c := by
  by_cases hr : r = DNS_R_WAIT
  · rw [if_neg (not_not.mpr hr)] at h
    cases h
    rw [← hr]
    exact hab
  · rw [if_pos hr] at h
    exact done_after_no_raise a b c r r _ hab h

/-- A step that does not raise trust and leaves the rdataset alone, followed by one that adds
calls none of which sends an event and leaves alone the event, the key, the trust-anchor node
and the signature structure. -/
theorem no_raise_step {val : dns_validator} (a b : dns_validator) (r : isc_result)
    (add : List Effect) (hab : no_raise val DNS_R_WAIT a)
    (he : b.effects = a.effects ++ add) (hs : sends add = []) (hev : b.event = a.event)
    (hk : b.key = a.key) (hn : b.keynode = a.keynode) (hsi : b.siginfo = a.siginfo) :
    no_raise val r b :=
  no_raise_trans hab (no_raise_same a b r add he hs hev hk hn hsi)

/-- The call that destroys the key child does not raise trust. -/
theorem destroy_keyvalidator_no_raise (val v : dns_validator) (r : isc_result)
    (h : destroy_keyvalidator val = .ok v) : no_raise val r v := by
  unfold destroy_keyvalidator at h
  cases hk : val.keyvalidator with
  | none => simp [hk] at h
  | some c =>
    simp only [hk] at h
    cases h
    exact no_raise_same _ _ _ [_] rfl rfl rfl rfl rfl rfl

/-- The call that destroys the authority child does not raise trust. -/
theorem destroy_authvalidator_no_raise (val v : dns_validator) (r : isc_result)
    (h : destroy_authvalidator val = .ok v) : no_raise val r v := by
  unfold destroy_authvalidator at h
  cases hk : val.authvalidator with
  | none => simp [hk] at h
  | some c =>
    simp only [hk] at h
    cases h
    exact no_raise_same _ _ _ [_] rfl rfl rfl rfl rfl rfl

/-- The loop of `proveunsecure` does not raise trust. -/
theorem proveunsecure_loop_no_raise (env : Env) :
    ∀ (fuel : Nat) (val : dns_validator) (r : isc_result) (v : dns_validator),
      proveunsecure_loop env fuel val = .ok (r, v) → no_raise val r v := by
  intro fuel
  induction fuel with
  | zero => intro val r v h; simp [proveunsecure_loop] at h
  | succ fuel ih =>
    intro val r v h
    rw [proveunsecure_loop] at h
    cases hev : val.event with
    | none => simp [hev] at h
    | some event =>
    simp only [hev] at h
    by_cases hle : val.labels ≤ env.depth event.name
    swap
    · rw [if_pos hle] at h
      cases h
      exact no_raise_refl _ _
    rw [if_neg (not_not.mpr hle)] at h
    by_cases hbrk : val.labels = env.depth event.name ∧ event.type = env.dns_rdatatype_key
    · rw [if_pos hbrk] at h
      cases h
      exact no_raise_refl _ _
    rw [if_neg hbrk] at h
    cases hsplit : walk_name env event val.labels with
    | error e =>
      simp only [walk_name] at hsplit
      simp only [hsplit] at h
      cases h
      exact no_raise_refl _ _
    | ok t =>
      simp only [walk_name] at hsplit
      simp only [hsplit] at h
      have one : ∀ (w : dns_validator) (r0 : isc_result) (add : List Effect),
          w.effects = val.effects ++ add → sends add = [] → w.event = some event →
          w.key = val.key → w.keynode = val.keynode → w.siginfo = val.siginfo →
          no_raise val r0 w := by
        intro w r0 add h1 h2 h3 h4 h5 h6
        exact no_raise_same val w r0 add h1 h2 (h3.trans hev.symm) h4 h5 h6
      have two : ∀ (w : dns_validator) (r0 : isc_result) (e : Effect),
          w.effects = val.effects ++ [Effect.view_simplefind t] ++ [e] → sends [e] = [] →
          w.event = some event →
          w.key = val.key → w.keynode = val.keynode → w.siginfo = val.siginfo →
          no_raise val r0 w := by
        intro w r0 e h1 h2 h3 h4 h5 h6
        exact no_raise_same val w r0 [Effect.view_simplefind t, e] (by rw [h1]; simp)
          (by simpa [sends] using h2) (h3.trans hev.symm) h4 h5 h6
      have more : ∀ w : dns_validator, proveunsecure_loop env fuel w = .ok (r, v) →
          w.effects = val.effects ++ [Effect.view_simplefind t] → w.event = some event →
          w.key = val.key → w.keynode = val.keynode → w.siginfo = val.siginfo →
          no_raise val r v := by
        intro w hrun h1 h3 h4 h5 h6
        exact no_raise_trans (one w DNS_R_WAIT _ h1 rfl h3 h4 h5 h6) (ih w r v hrun)
      by_cases hs : (env.simplefind t).1 = ISC_R_SUCCESS
      · simp only [hs, if_true] at h
        by_cases hsig : (env.simplefind t).2.2.associated = false
        · simp only [hsig, if_true] at h
          cases h
          exact one _ _ [_] rfl rfl rfl rfl rfl rfl
        · simp only [hsig, if_false] at h
          cases hc : containsnullkey env (env.simplefind t).2.1 with
          | error e => simp only [hc] at h; cases h
          | ok b =>
            simp only [hc] at h
            cases b with
            | false => exact more _ h rfl rfl rfl rfl rfl
            | true =>
              simp only at h
              by_cases htr : (env.simplefind t).2.1.trust ≥ dns_trust_secure
              · simp only [htr, if_true] at h
                cases herds : event.rdataset with
                | none => simp only [herds] at h; cases h
                | some erds =>
                  simp only [herds] at h
                  cases h
                  exact no_raise_mark val _ _ [_] event erds rfl rfl hev herds rfl (by decide)
                    rfl rfl rfl
              · simp only [htr, if_false] at h
                by_cases hmem : env.mem_ok = false
                · simp only [hmem, if_true] at h
                  cases h
                  exact one _ _ [_] rfl rfl rfl rfl rfl rfl
                · simp only [hmem, if_false] at h
                  generalize dns_validator_create env _ _ _ _ _ _ _ _ = g at h
                  cases g with
                  | error e => cases h
                  | ok p =>
                    obtain ⟨r1, o⟩ := p
                    simp only at h
                    by_cases hr1 : r1 = ISC_R_SUCCESS
                    · simp only [hr1, ne_eq, not_true_eq_false, if_false] at h
                      cases h
                      exact two _ _ _ rfl rfl rfl rfl rfl rfl
                    · simp only [ne_eq, hr1, not_false_eq_true, if_true] at h
                      cases h
                      exact one _ _ [_] rfl rfl rfl rfl rfl rfl
      · simp only [hs, if_false] at h
        by_cases hnf : (env.simplefind t).1 = ISC_R_NOTFOUND
        · simp only [hnf, if_true] at h
          by_cases hcf : env.createfetch t = ISC_R_SUCCESS
          · simp only [hcf, ne_eq, not_true_eq_false, if_false] at h
            cases h
            exact two _ _ _ rfl rfl rfl rfl rfl rfl
          · simp only [ne_eq, hcf, not_false_eq_true, if_true] at h
            cases h
            exact one _ _ [_] rfl rfl rfl rfl rfl rfl
        · simp only [hnf, if_false] at h
          by_cases hnx : (env.simplefind t).1 = DNS_R_NCACHENXDOMAIN ∨
              (env.simplefind t).1 = DNS_R_NCACHENXRRSET ∨
              (env.simplefind t).1 = DNS_R_NXDOMAIN ∨ (env.simplefind t).1 = DNS_R_NXRRSET
          · simp only [hnx, if_true] at h
            exact more _ h rfl rfl rfl rfl rfl
          · simp only [hnx, if_false] at h
            cases h
            exact one _ _ [_] rfl rfl rfl rfl rfl rfl

/-- The function `proveunsecure` does not raise trust. -/
theorem proveunsecure_no_raise (env : Env) (fuel : Nat) (val : dns_validator) (resume : Bool)
    (r : isc_result) (v : dns_validator)
    (h : proveunsecure env fuel val resume = .ok (r, v)) : no_raise val r v := by
  unfold proveunsecure at h
  cases hev : val.event with
  | none => simp [hev] at h
  | some event =>
    simp only [hev] at h
    split at h
    · cases h; exact no_raise_refl _ _
    · split at h
      · cases h; exact no_raise_refl _ _
      · split at h
        · have hk := proveunsecure_loop_no_raise env fuel _ r v h
          refine no_raise_trans ?_ hk
          exact no_raise_same val _ _ [] (by simp) rfl (by simp [hev]) rfl rfl rfl
        · have hk := proveunsecure_loop_no_raise env fuel _ r v h
          refine no_raise_trans ?_ hk
          exact no_raise_same val _ _ [] (by simp) rfl (by simp [hev]) rfl rfl rfl

/-- The function `nullkeyvalidated` does not raise trust. -/
theorem nullkeyvalidated_no_raise (env : Env) (fuel : Nat) (val : dns_validator)
    (devent : dns_validatorevent) (v : dns_validator)
    (h : nullkeyvalidated env fuel val devent = .ok v) : no_raise val DNS_R_WAIT v := by
  unfold nullkeyvalidated at h
  dsimp only at h
  generalize hb : (if devent.result = ISC_R_SUCCESS then validator_done val ISC_R_SUCCESS
    else _) = body at h
  cases body with
  | error e => cases h
  | ok val2 =>
    dsimp only at h
    generalize hd : destroy_keyvalidator val2 = d at h
    cases d with
    | error e => cases h
    | ok val3 =>
      cases h
      have h3 := destroy_keyvalidator_no_raise val2 val3 DNS_R_WAIT hd
      have h4 : no_raise val3 DNS_R_WAIT { val3 with
          frdataset := disassociate_if_associated val3.frdataset
          fsigrdataset := disassociate_if_associated val3.fsigrdataset } :=
        no_raise_same _ _ _ [] (by simp) rfl rfl rfl rfl rfl
      refine no_raise_trans ?_ (no_raise_trans h3 h4)
      split at hb
      · exact validator_done_no_raise _ _ _ _ hb
      · split at hb
        · cases hb
        · rename_i result val1 hrun
          exact done_unless_wait_no_raise _ _ _ _
            (proveunsecure_no_raise env fuel val true result val1 hrun) hb

/-- The function `fetch_callback_nullkey` does not raise trust. -/
theorem fetch_callback_nullkey_no_raise (env : Env) (fuel : Nat) (val : dns_validator)
    (devent : dns_fetchevent) (v : dns_validator)
    (h : fetch_callback_nullkey env fuel val devent = .ok v) : no_raise val DNS_R_WAIT v := by
  unfold fetch_callback_nullkey at h
  dsimp only at h
  have h1 : no_raise val DNS_R_WAIT { val with
      frdataset := devent.rdataset, fsigrdataset := devent.sigrdataset, fetch := none } :=
    no_raise_same _ _ _ [] (by simp) rfl rfl rfl rfl rfl
  have hres : ∀ w : dns_validator, no_raise val DNS_R_WAIT w →
      (match proveunsecure env fuel w true with
        | .error e => (Except.error e : Except Stop dns_validator)
        | .ok (result, v1) =>
          match (if result ≠ DNS_R_WAIT then validator_done v1 result else .ok v1) with
          | .error e => .error e
          | .ok v2 =>
            match (match val.fetch with
              | none => (Except.error Stop.null_deref : Except Stop dns_validator)
              | some f => .ok { v2 with effects := v2.effects ++ [Effect.resolver_destroyfetch f] }) with
            | .error e => .error e
            | .ok v1 => .ok { v1 with
                frdataset := disassociate_if_associated v1.frdataset
                fsigrdataset := disassociate_if_associated v1.fsigrdataset }) = .ok v →
      no_raise val DNS_R_WAIT v := by
    intro w hkw hrun
    split at hrun
    · cases hrun
    · rename_i result v1 hp
      have k1 := no_raise_trans hkw (proveunsecure_no_raise env fuel w true result v1 hp)
      split at hrun
      · cases hrun
      · rename_i v2 hd
        have k2 := done_unless_wait_no_raise _ _ _ _ k1 hd
        split at hrun
        · cases hrun
        · rename_i v3 hf
          split at hf
          · cases hf
          · cases hf
            cases hrun
            exact no_raise_step _ _ _ [_] k2 rfl rfl rfl rfl rfl rfl
  split at h
  · split at h
    · cases h
    · exact hres _ h1 h
    · split at h
      · split at h
        · cases h
        · split at h
          · cases h
          · rename_i event hev0 _ erds herds
            have h2 : no_raise val ISC_R_SUCCESS
                { val with
                  frdataset := devent.rdataset, fsigrdataset := devent.sigrdataset, fetch := none,
                  event := some { event with
                    rdataset := some { erds with trust := dns_trust_answer } } } :=
              no_raise_mark val _ _ [] event erds (by simp) rfl hev0 herds rfl (by decide)
                rfl rfl rfl
            split at h
            · cases h
            · rename_i v2 hd
              have k2 := done_after_no_raise _ _ _ _ _ DNS_R_WAIT h2 hd
              split at h
              · cases h
              · rename_i v3 hf
                split at hf
                · cases hf
                · cases hf
                  cases h
                  exact no_raise_step _ _ _ [_] k2 rfl rfl rfl rfl rfl rfl
      · split at h
        · split at h
          · cases h
          · rename_i v2 hd
            have k2 := done_after_no_raise _ _ _ _ _ DNS_R_WAIT h1 hd
            split at h
            · cases h
            · rename_i v3 hf
              split at hf
              · cases hf
              · cases hf
                cases h
                exact no_raise_step _ _ _ [_] k2 rfl rfl rfl rfl rfl rfl
        · split at h
          · cases h
          · rename_i r o hc
            split at h
            · cases h
            · rename_i v2 hd
              have k2 : no_raise val DNS_R_WAIT v2 := by
                split at hd
                · exact done_after_no_raise _ _ _ _ _ DNS_R_WAIT h1 hd
                · cases hd
                  exact no_raise_step _ _ _ [_] h1 rfl rfl rfl rfl rfl rfl
              split at h
              · cases h
              · cases h
                exact no_raise_step _ _ _ [_] k2 rfl rfl rfl rfl rfl rfl
  · split at h
    · exact hres _ h1 h
    · split at h
      · cases h
      · rename_i v2 hd
        have k2 := done_after_no_raise _ _ _ _ _ DNS_R_WAIT h1 hd
        split at h
        · cases h
        · rename_i v3 hf
          split at hf
          · cases hf
          · cases hf
            cases h
            exact no_raise_step _ _ _ [_] k2 rfl rfl rfl rfl rfl rfl



/-- A step that leaves the rdataset alone does not raise trust, whatever its result. -/
theorem no_raise_weaken {val v : dns_validator} (r : isc_result)
    (h : no_raise val DNS_R_WAIT v) : no_raise val r v := by
  obtain ⟨a1, a2, a3⟩ := h
  refine ⟨a1, a2, fun ev' hev' => ?_⟩
  obtain ⟨ev, h1, h2, h3, h4⟩ := a3 ev' hev'
  exact ⟨ev, h1, h2, fun _ => h3 rfl, h4⟩

/-- A step that adds no call and leaves alone the event, the key, the trust-anchor node and
the signature structure. -/
theorem no_raise_fields (val v : dns_validator) (r : isc_result)
    (he : v.effects = val.effects) (hev : v.event = val.event)
    (hk : v.key = val.key) (hn : v.keynode = val.keynode) (hsi : v.siginfo = val.siginfo) :
    no_raise val r v :=
  no_raise_same val v r [] (by rw [he, List.append_nil]) rfl hev hk hn hsi

/-- Storing the message back does not raise trust. -/
theorem set_message_no_raise (val : dns_validator) (msg : dns_message) (r : isc_result) :
    no_raise val r (set_message val msg) := by
  refine no_raise_intro val _ r [] (by simp [set_message]) rfl ?_ rfl rfl rfl
  intro ev' h
  cases hev : val.event with
  | none => simp [set_message, hev] at h
  | some ev =>
    simp only [set_message, hev, Option.map_some', Option.some.injEq] at h
    subst h
    exact ⟨ev, rfl, rfl, rfl, rfl⟩

/-- The loop of `nxtvalidate` does not raise trust. -/
theorem nxtvalidate_loop_no_raise (env : Env) :
    ∀ (fuel : Nat) (msg : dns_message) (val : dns_validator) (resume : Bool)
      (s : nxtvalidate_step),
      nxtvalidate_loop env fuel msg val resume = .ok s →
      no_raise val DNS_R_WAIT s.validator := by
  intro fuel
  induction fuel with
  | zero => intro msg val resume s h; simp [nxtvalidate_loop] at h
  | succ fuel ih =>
    intro msg val resume s h
    rw [nxtvalidate_loop] at h
    dsimp only at h
    split at h
    · cases h
    · generalize hstart : (if resume = true then _ else _) = start at h
      cases start with
      | error e => cases h
      | ok p =>
        obtain ⟨i, list1, val1⟩ := p
        have hk : no_raise val DNS_R_WAIT val1 := by
          split_ifs at hstart
          · split at hstart
            · cases hstart
            · cases hstart
              exact no_raise_same _ _ _ [] (by simp) rfl rfl rfl rfl rfl
          · cases hstart
            exact no_raise_refl _ _
        dsimp only at h
        split at h
        · split at h
          · cases h
          · split_ifs at h
            · cases h
              refine no_raise_trans hk
                (no_raise_trans ?_ (no_raise_fields _ _ _ rfl rfl rfl rfl rfl))
              exact set_message_no_raise val1 _ _
            · cases h
              refine no_raise_trans hk
                (no_raise_trans ?_ (no_raise_same _ _ _ [_] rfl rfl rfl rfl rfl rfl))
              exact set_message_no_raise val1 _ _
        · split_ifs at h
          · have hk2 := ih _ _ _ _ h
            refine no_raise_trans (no_raise_trans hk ?_) hk2
            exact no_raise_trans (set_message_no_raise val1 _ _) (set_message_no_raise _ _ _)
          · cases h
            refine no_raise_trans hk ?_
            exact no_raise_trans (set_message_no_raise val1 _ _) (set_message_no_raise _ _ _)

/-- The part of `nxtvalidate` after its loop does not raise trust. -/
theorem nxtvalidate_finish_no_raise (env : Env) (val : dns_validator) (result : isc_result)
    (name : Option dns_name) (r : isc_result) (v : dns_validator)
    (h : nxtvalidate_finish env val result name = .ok (r, v)) :
    no_raise val DNS_R_WAIT v := by
  unfold nxtvalidate_finish at h
  dsimp only at h
  generalize hdone : (if (if result = ISC_R_NOMORE then ISC_R_SUCCESS else result) ≠
    ISC_R_SUCCESS then _ else _) = done at h
  cases done with
  | error e => cases h
  | ok val1 =>
    have hk : no_raise val DNS_R_WAIT val1 := by
      split_ifs at hdone
      all_goals first
        | (cases hdone; exact no_raise_refl _ _)
        | exact validator_done_no_raise _ _ _ _ hdone
    dsimp only at h
    repeat' first | (split_ifs at h) | (split at h)
    all_goals first
      | (cases h; done)
      | (cases h; exact hk)
      | (cases h
         refine no_raise_trans hk ?_
         exact no_raise_same _ _ _ [_] rfl rfl rfl rfl rfl rfl)

/-- The function `nxtvalidate` does not raise trust. -/
theorem nxtvalidate_no_raise (env : Env) (fuel : Nat) (val : dns_validator) (resume : Bool)
    (r : isc_result) (v : dns_validator) (h : nxtvalidate env fuel val resume = .ok (r, v)) :
    no_raise val DNS_R_WAIT v := by
  unfold nxtvalidate at h
  dsimp only at h
  split at h
  · cases h
  · split at h
    · cases h
    · split_ifs at h
      · split at h
        · cases h
        · rename_i val2 hd
          exact no_raise_trans
            (no_raise_trans (set_message_no_raise val _ _) (validator_done_no_raise _ _ _ _ hd))
            (nxtvalidate_finish_no_raise _ _ _ _ _ _ h)
      · split at h
        · cases h
        · rename_i hl
          cases h
          exact no_raise_trans (set_message_no_raise val _ _)
            (nxtvalidate_loop_no_raise _ _ _ _ _ _ hl)
        · rename_i hl
          exact no_raise_trans
            (no_raise_trans (set_message_no_raise val _ _)
              (nxtvalidate_loop_no_raise _ _ _ _ _ _ hl))
            (nxtvalidate_finish_no_raise _ _ _ _ _ _ h)
      · split at h
        · cases h
        · rename_i hl
          cases h
          exact nxtvalidate_loop_no_raise _ _ _ _ _ _ hl
        · rename_i hl
          exact no_raise_trans (nxtvalidate_loop_no_raise _ _ _ _ _ _ hl)
            (nxtvalidate_finish_no_raise _ _ _ _ _ _ h)



/-- A step after which no event is held does not raise trust, when every event it sends is
the event held at entry with, at most, the trust of its rdataset set to `answer`. -/
theorem no_raise_done (val v : dns_validator) (r : isc_result) (add : List Effect)
    (he : v.effects = val.effects ++ add)
    (hnew : ∀ e ∈ sends add, ∃ ev, val.event = some ev ∧ same_or_answer ev e)
    (hev : v.event = none) : no_raise val r v := by
  refine ⟨by rw [he]; exact List.subset_append_left _ _,
    ⟨sends add, by rw [he, sends_append], hnew⟩, ?_⟩
  intro ev' h
  rw [hev] at h
  cases h

/-- The function `negauthvalidated` does not raise trust. -/
theorem negauthvalidated_no_raise (val : dns_validator) (devent : dns_validatorevent)
    (v : dns_validator) (h : negauthvalidated val devent = .ok v) :
    no_raise val DNS_R_WAIT v := by
  unfold negauthvalidated at h
  generalize hd : destroy_authvalidator val = d at h
  cases d with
  | error e => cases h
  | ok val1 =>
    dsimp only at h
    have h1 := destroy_authvalidator_no_raise _ _ DNS_R_WAIT hd
    generalize hbody : (if devent.result = ISC_R_SUCCESS then _ else _) = body at h
    cases body with
    | error e => cases h
    | ok val2 =>
      dsimp only at h
      cases h
      suffices hk : no_raise val1 DNS_R_WAIT val2 by
        exact no_raise_trans (no_raise_trans h1 hk) (no_raise_fields _ _ _ rfl rfl rfl rfl rfl)
      split_ifs at hbody
      · refine no_raise_trans ?_ (validator_done_no_raise _ _ _ _ hbody)
        exact no_raise_fields val1 _ _ rfl rfl rfl rfl rfl
      · exact validator_done_no_raise _ _ _ _ hbody

/-- The function `authvalidated` does not raise trust. -/
theorem authvalidated_no_raise (env : Env) (fuel : Nat) (val : dns_validator)
    (devent : dns_validatorevent) (v : dns_validator)
    (h : authvalidated env fuel val devent = .ok v) : no_raise val DNS_R_WAIT v := by
  unfold authvalidated at h
  generalize hd : destroy_authvalidator val = d at h
  cases d with
  | error e => cases h
  | ok val1 =>
    dsimp only at h
    have h1 := destroy_authvalidator_no_raise _ _ DNS_R_WAIT hd
    refine no_raise_trans h1 ?_
    by_cases hres : devent.result = ISC_R_SUCCESS
    · rw [if_neg (not_not.mpr hres)] at h
      split at h
      · cases h
      · rename_i rdataset _
        generalize hproved :
          (if rdataset.type = env.dns_rdatatype_nxt then _ else _) = proved at h
        cases proved with
        | error e => cases h
        | ok b =>
          dsimp only at h
          split at h
          · cases h
          · rename_i result val3 hn
            refine done_unless_wait_no_raise _ _ _ result
              (no_raise_weaken _ (no_raise_trans ?_ (nxtvalidate_no_raise _ _ _ _ _ _ hn))) h
            cases b
            · exact no_raise_refl _ _
            · exact no_raise_fields val1 _ _ rfl rfl rfl rfl rfl
    · rw [if_pos hres] at h
      exact validator_done_no_raise _ _ _ _ h

/-- The function `dns_validator_cancel` does not raise trust: the event it sends is the one
the validator holds, with the result `ISC_R_CANCELED`. -/
theorem dns_validator_cancel_no_raise (val v : dns_validator)
    (h : dns_validator_cancel val = .ok v) : no_raise val DNS_R_WAIT v := by
  unfold dns_validator_cancel at h
  dsimp only at h
  split_ifs at h
  cases hev : val.event with
  | none =>
    rw [hev] at h
    cases h
    exact no_raise_refl _ _
  | some ev =>
    rw [hev] at h
    cases h
    refine no_raise_done val _ _ _ (by simp only [List.append_assoc]; rfl) ?_ rfl
    intro e he
    have : e = { ev with result := ISC_R_CANCELED } := by
      generalize val.fetch = f at he
      generalize val.keyvalidator = k at he
      cases f <;> cases k <;> simpa [sends_append, sends] using he
    subst this
    exact ⟨ev, hev, rfl, rfl, Or.inl rfl⟩

/-- The static function `destroy` does not raise trust: it runs with no event held and sends
none. -/
theorem destroy_no_raise (val v : dns_validator) (h : destroy val = .ok v) :
    no_raise val DNS_R_WAIT v := by
  unfold destroy at h
  split_ifs at h with c1 c2 c3
  cases h
  have hev : val.event = none := by
    cases hx : val.event with
    | none => rfl
    | some ev => rw [hx] at c2; exact absurd rfl c2
  refine no_raise_done val _ _ _ (by simp only [List.append_assoc]; rfl) ?_ hev
  intro e he
  exfalso
  generalize val.keyvalidator = k at he
  generalize val.authvalidator = a at he
  cases k <;> cases a <;> simp [sends_append, sends] at he

/-- The function `dns_validator_destroy` does not raise trust. -/
theorem dns_validator_destroy_no_raise (val v : dns_validator)
    (h : dns_validator_destroy val = .ok v) : no_raise val DNS_R_WAIT v := by
  unfold dns_validator_destroy at h
  split at h
  · cases h
  · split at h
    · cases h
    · dsimp only at h
      split at h
      · refine no_raise_trans ?_ (destroy_no_raise _ _ h)
        exact no_raise_fields val _ _ rfl rfl rfl rfl rfl
      · cases h
        exact no_raise_fields val _ _ rfl rfl rfl rfl rfl

/-! ## Soundness of the secure verdict: the runs of a request -/

/-- A verdict stays one when calls are added. -/
theorem request_verdict_mono (env : Env) (name : dns_name) (ords osig : Option dns_rdataset)
    (P : dns_rdata → dst_key → Prop) (a b : List Effect) (ev : dns_validatorevent)
    (hab : a ⊆ b) (h : request_verdict env name ords osig P a ev) :
    request_verdict env name ords osig P b ev := by
  obtain ⟨h1, h2⟩ := h
  refine ⟨h1, ?_⟩
  rcases h2 with h2 | ⟨erds, esig, e1, e2, key, ttl, i, s1, s2, s3, s4, s5⟩
  · exact Or.inl h2
  · exact Or.inr ⟨erds, esig, e1, e2, key, ttl, i, s1, s2, s3, hab s4, s5⟩

/-- A set is itself up to the cursor. -/
theorem same_cursor_refl (o : Option dns_rdataset) : same_cursor o o := by
  cases o with
  | none => exact Or.inl ⟨rfl, rfl⟩
  | some r => exact Or.inr ⟨r, r.cursor, rfl, rfl⟩

/-- A set up to the cursor has not been raised. -/
theorem unraised_of_same_cursor (o x : Option dns_rdataset) (h : same_cursor o x) :
    unraised o x := by
  rcases h with h | ⟨r, i, h1, h2⟩
  · exact Or.inl h
  · exact Or.inr ⟨r, i, h1, Or.inl h2⟩

/-- The event held at entry, with at most the trust of its rdataset set to `answer`, carries
a verdict of the request. -/
theorem request_verdict_of_same_or_answer (env : Env) (name : dns_name)
    (ords osig : Option dns_rdataset) (P : dns_rdata → dst_key → Prop) (effects : List Effect)
    (ev e : dns_validatorevent) (h1 : ev.name = name) (h2 : ev.rdataset = ords)
    (h3 : same_cursor osig ev.sigrdataset) (hs : same_or_answer ev e) :
    request_verdict env name ords osig P effects e := by
  obtain ⟨s1, s2, s3⟩ := hs
  refine ⟨s1.trans h1, Or.inl ⟨?_, ?_⟩⟩
  · rcases s3 with s3 | ⟨rds, s3, s4⟩
    · rw [s3, h2]
      exact unraised_of_same_cursor _ _ (same_cursor_refl _)
    · rw [h2] at s3
      exact Or.inr ⟨rds, rds.cursor, s3, Or.inr s4⟩
  · rw [s2]
    exact unraised_of_same_cursor _ _ h3

/-- A step that does not raise trust preserves the invariant of the runs. -/
theorem run_inv_no_raise (env : Env) (resolved : List dns_rdata → Prop) (name : dns_name)
    (ords osig : Option dns_rdataset) (val v : dns_validator)
    (hi : run_inv env resolved name ords osig val) (h : no_raise val DNS_R_WAIT v) :
    run_inv env resolved name ords osig v := by
  obtain ⟨i0, i1, i2⟩ := hi
  obtain ⟨a1, ⟨new, a2, a3⟩, a4⟩ := h
  refine ⟨i0, ?_, ?_⟩
  · intro ev' hev'
    obtain ⟨ev, h1, ⟨s1, s2, _⟩, s4, k1, k2, k3⟩ := a4 ev' hev'
    obtain ⟨j1, j2, j3, j4, j5, j6⟩ := i1 ev h1
    refine ⟨s1.trans j1, (s4 rfl).trans j2, by rw [s2]; exact j3, k1.trans j4, k2.trans j5, ?_⟩
    intro s sg hs hsg
    rw [k3] at hs
    rw [s2] at hsg
    exact j6 s sg hs hsg
  · intro e he
    rw [a2] at he
    rcases List.mem_append.1 he with he | he
    · exact request_verdict_mono _ _ _ _ _ _ _ _ a1 (i2 e he)
    · obtain ⟨ev, h1, hs⟩ := a3 e he
      obtain ⟨j1, j2, j3, _⟩ := i1 ev h1
      exact request_verdict_of_same_or_answer _ _ _ _ _ _ ev e j1 j2 j3 hs

/-- The invariant of the runs after `validate` and the sending of the event unless the result
is `DNS_R_WAIT`. -/
theorem run_inv_outcome (env : Env) (resolved : List dns_rdata → Prop) (name : dns_name)
    (erds esig : dns_rdataset) (val v' v1 : dns_validator) (r : isc_result)
    (hi : run_inv env resolved name (some erds) (some esig) val)
    (hs : sends v'.effects = sends val.effects) (hsub : val.effects ⊆ v'.effects)
    (ho : validate_outcome env name erds esig (run_keys env resolved) r v')
    (h : (if r ≠ DNS_R_WAIT then validator_done v' r else .ok v') = .ok v1) :
    run_inv env resolved name (some erds) (some esig) v1 := by
  obtain ⟨i0, i1, i2⟩ := hi
  obtain ⟨ev, o1, o2, o3⟩ := ho
  by_cases hr : r = DNS_R_WAIT
  · rw [if_neg (not_not.mpr hr)] at h
    cases h
    refine ⟨i0, ?_, ?_⟩
    · intro ev' hev'
      rw [o1] at hev'
      cases hev'
      rcases o3 with ⟨_, ⟨p1, i, p2⟩, p3⟩ | ⟨p1, _⟩
      · obtain ⟨q1, q2, q3⟩ := p3 hr
        exact ⟨o2, p1, Or.inr ⟨esig, i, rfl, p2⟩, q1, q2, q3⟩
      · rw [hr] at p1
        cases p1
    · intro e he
      rw [hs] at he
      exact request_verdict_mono _ _ _ _ _ _ _ _ hsub (i2 e he)
  · rw [if_pos hr] at h
    obtain ⟨ev0, hev0, rfl⟩ := validator_done_ok v' v1 r h
    rw [o1] at hev0
    cases hev0
    refine ⟨i0, fun ev' hev' => (by cases hev'), ?_⟩
    intro e he
    rw [sends_append, hs] at he
    rcases List.mem_append.1 he with he | he
    · exact request_verdict_mono _ _ _ _ _ _ _ _
        (fun x hx => List.subset_append_left _ _ (hsub hx)) (i2 e he)
    · simp only [sends, List.mem_singleton] at he
      subst he
      refine ⟨o2, ?_⟩
      rcases o3 with ⟨_, ⟨p1, i, p2⟩, _⟩ | ⟨_, ⟨p1, i, p2⟩ | ⟨key, ttl, i, s1, s2, s3, s4, s5⟩⟩
      · exact Or.inl ⟨Or.inr ⟨erds, erds.cursor, rfl, Or.inl p1⟩,
          Or.inr ⟨esig, i, rfl, Or.inl p2⟩⟩
      · exact Or.inl ⟨Or.inr ⟨erds, erds.cursor, rfl, Or.inr p1⟩,
          Or.inr ⟨esig, i, rfl, Or.inr p2⟩⟩
      · exact Or.inr ⟨erds, esig, rfl, rfl, key, ttl, i, s1, s2, s3,
          List.subset_append_left _ _ s4, s5⟩

/-- The validator `dns_validator_create` returns satisfies the invariant of the runs. -/
theorem run_inv_created (env : Env) (resolved : List dns_rdata → Prop) (name : dns_name)
    (ords osig : Option dns_rdataset) (type : Nat) (message : Option dns_message)
    (options : Nat) (action : taskaction) (slot : Option subvalidator) (r : isc_result)
    (v : dns_validator)
    (h : dns_validator_create env (some name) type ords osig message options action slot =
      .ok (r, some v)) : run_inv env resolved name ords osig v := by
  unfold dns_validator_create at h
  dsimp only at h
  split_ifs at h with c1 c2 c3 c4 c5
  · cases h
    have hshape : ords.isSome ∨ osig = none := by
      rcases c2 with c | ⟨_, c, _⟩
      · exact Or.inl c
      · right
        cases osig with
        | none => rfl
        | some s => cases c
    refine ⟨hshape, ?_, ?_⟩
    · intro ev hev
      cases hev
      exact ⟨rfl, rfl, same_cursor_refl _, rfl, rfl, fun s sg hs _ => by cases hs⟩
    · intro e he
      simp only [sends, List.mem_singleton] at he
      subst he
      exact ⟨rfl, Or.inl ⟨unraised_of_same_cursor _ _ (same_cursor_refl _),
        unraised_of_same_cursor _ _ (same_cursor_refl _)⟩⟩
  · cases h

/-- The function `validator_start` preserves the invariant of the runs. -/
theorem validator_start_inv (env : Env) (resolved : List dns_rdata → Prop) (name : dns_name)
    (ords osig : Option dns_rdataset) (fuel : Nat) (val v1 : dns_validator)
    (hi : run_inv env resolved name ords osig val)
    (h : validator_start env fuel val = .ok v1) :
    run_inv env resolved name ords osig v1 := by
  unfold validator_start at h
  cases hev : val.event with
  | none => rw [hev] at h; cases h
  | some event =>
    rw [hev] at h
    dsimp only at h
    cases hbr : validator_start_branch event with
    | positive =>
      rw [hbr] at h
      dsimp only at h
      unfold start_finish at h
      generalize hv : validate env fuel val false = run at h
      cases run with
      | error e => cases h
      | ok p =>
        obtain ⟨r, v'⟩ := p
        dsimp only at h
        obtain ⟨j1, j2, j3, j4, j5, _⟩ := hi.2.1 event hev
        rcases j3 with ⟨_, j3⟩ | ⟨esig, i, e1, e2⟩
        · exact (validate_needs_sigrdataset env fuel val false r v' event hev j3 hv).elim
        · subst e1
          cases ords with
          | none =>
            rcases hi.1 with c | c
            · cases c
            · cases c
          | some erds =>
            obtain ⟨hs, hsub, ho⟩ :=
              validate_fresh_sound env erds esig fuel val r v' event i hev j2 e2 j4 j5 hv
            rw [j1] at ho
            exact run_inv_outcome env resolved name erds esig val v' v1 r hi hs hsub
              (validate_outcome_mono env name erds esig _ _ r v' (fun _ _ hk => Or.inl hk) ho) h
    | insecurity =>
      rw [hbr] at h
      dsimp only at h
      unfold start_finish at h
      generalize hv : proveunsecure env fuel val false = run at h
      cases run with
      | error e => cases h
      | ok p =>
        obtain ⟨r, v'⟩ := p
        dsimp only at h
        exact run_inv_no_raise env resolved name ords osig val v1 hi
          (done_unless_wait_no_raise _ _ _ _ (proveunsecure_no_raise env fuel val false r v' hv) h)
    | denial =>
      rw [hbr] at h
      dsimp only at h
      unfold start_finish at h
      generalize hv : nxtvalidate env fuel val false = run at h
      cases run with
      | error e => cases h
      | ok p =>
        obtain ⟨r, v'⟩ := p
        dsimp only at h
        exact run_inv_no_raise env resolved name ords osig val v1 hi
          (done_unless_wait_no_raise _ _ _ _
            (no_raise_weaken r (nxtvalidate_no_raise env fuel val false r v' hv)) h)
    | shouldnt_happen =>
      rw [hbr] at h
      cases h

/-- Resuming `validate` with the key taken from a delivered keyset, and sending the event
unless the result is `DNS_R_WAIT`, preserves the invariant of the runs. -/
theorem resume_validate_inv (env : Env) (resolved : List dns_rdata → Prop) (name : dns_name)
    (ords osig : Option dns_rdataset) (fuel : Nat) (val val2 val3 val4 : dns_validator)
    (result : isc_result)
    (hi : run_inv env resolved name ords osig val)
    (h1 : val2.event = val.event) (h2 : val2.keynode = val.keynode)
    (h3 : sends val2.effects = sends val.effects) (h4 : val.effects ⊆ val2.effects)
    (h5 : resolved val2.frdataset.rdatas)
    (h6 : ∀ k0, val2.key = some k0 → val.key = some k0 ∨
      ∃ siginfo, val.siginfo = some siginfo ∧
        key_of_keyset env siginfo val2.frdataset.rdatas k0)
    (hv : validate env fuel val2 true = .ok (result, val3))
    (h : (if result ≠ DNS_R_WAIT then validator_done val3 result else .ok val3) = .ok val4) :
    run_inv env resolved name ords osig val4 := by
  cases hev : val.event with
  | none =>
    obtain ⟨stop, hx⟩ := validate_resume_without_event env fuel val2 (h1.trans hev)
    rw [hx] at hv
    cases hv
  | some event =>
    obtain ⟨j1, j2, j3, j4, j5, j6⟩ := hi.2.1 event hev
    rcases j3 with ⟨_, j3⟩ | ⟨esig, i, e1, e2⟩
    · exact (validate_needs_sigrdataset env fuel val2 true result val3 event
        (h1.trans hev) j3 hv).elim
    · subst e1
      cases ords with
      | none =>
        rcases hi.1 with c | c
        · cases c
        · cases c
      | some erds =>
        obtain ⟨hs, hsub, _, ho⟩ :=
          validate_resumed_sound env erds esig (run_keys env resolved) fuel val2 result val3
            event i (h1.trans hev) j2 e2 (h2.trans j5)
            (fun k0 hk0 => by
              rcases h6 k0 hk0 with hold | ⟨siginfo, s1, s2⟩
              · rw [j4] at hold
                cases hold
              have hsi := j6 siginfo _ s1 e2
              subst hsi
              exact ⟨Or.inr ⟨_, h5, s2⟩, fun k hk => Or.inr ⟨_, h5, hk⟩⟩) hv
        rw [j1] at ho
        exact run_inv_outcome env resolved name erds esig val val3 val4 result hi
          (hs.trans h3) (fun e he => hsub (h4 he)) ho h

/-- What `get_dst_key` on the keyset the validator holds leaves: everything but the key as it
was, and a key, if any, that the keyset yields for the signature record. -/
theorem get_dst_key_resume (env : Env) (val1 : dns_validator) (siginfo : dns_rdata_sig)
    (r : isc_result) (v : dns_validator)
    (hg : get_dst_key env val1 siginfo (some val1.frdataset) = .ok (r, v)) :
    v.event = val1.event ∧ v.keynode = val1.keynode ∧ v.effects = val1.effects ∧
    v.frdataset = val1.frdataset ∧
    ∀ k0, v.key = some k0 → key_of_keyset env siginfo val1.frdataset.rdatas k0 := by
  have e := get_dst_key_keeps env val1 siginfo _ r v hg
  refine ⟨by rw [e], by rw [e], by rw [e], by rw [e], ?_⟩
  intro k0 hk0
  exact get_dst_key_of_keyset env val1 siginfo val1.frdataset r v k0 hg hk0

/-- The function `fetch_callback_validator` preserves the invariant of the runs, when the
keyset delivered satisfies `resolved`. -/
theorem fetch_callback_validator_inv (env : Env) (resolved : List dns_rdata → Prop)
    (name : dns_name) (ords osig : Option dns_rdataset) (fuel : Nat) (val v : dns_validator)
    (devent : dns_fetchevent)
    (hi : run_inv env resolved name ords osig val)
    (hres : resolved devent.rdataset.rdatas)
    (h : fetch_callback_validator env fuel val devent = .ok v) :
    run_inv env resolved name ords osig v := by
  unfold fetch_callback_validator at h
  dsimp only at h
  cases hf : val.fetch with
  | none => rw [hf] at h; cases h
  | some f =>
    rw [hf] at h
    dsimp only at h
    generalize hbody : (if devent.result = ISC_R_SUCCESS then _ else _) = body at h
    cases body with
    | error e => cases h
    | ok val4 =>
      dsimp only at h
      cases h
      suffices hk : run_inv env resolved name ords osig val4 by
        exact run_inv_no_raise env resolved name ords osig val4 _ hk
          (no_raise_fields _ _ _ rfl rfl rfl rfl rfl)
      by_cases hsucc : devent.result = ISC_R_SUCCESS
      · rw [if_pos hsucc] at hbody
        generalize hkeyed : (if devent.rdataset.trust ≥ dns_trust_secure then _ else _) = keyed
          at hbody
        cases keyed with
        | error e => cases hbody
        | ok val2 =>
          dsimp only at hbody
          generalize hv : validate env fuel val2 true = run at hbody
          cases run with
          | error e => cases hbody
          | ok p =>
            obtain ⟨result, val3⟩ := p
            dsimp only at hbody
            have hsends : sends (val.effects ++ [Effect.resolver_destroyfetch f]) =
                sends val.effects := by
              rw [sends_append]
              simp [sends]
            split_ifs at hkeyed with htr
            · cases hsi : val.siginfo with
              | none => rw [hsi] at hkeyed; cases hkeyed
              | some siginfo =>
                rw [hsi] at hkeyed
                dsimp only at hkeyed
                split at hkeyed
                · cases hkeyed
                · rename_i r0 v0 hg
                  obtain ⟨g1, g2, g3, g4, g5⟩ := get_dst_key_resume env _ siginfo r0 v0 hg
                  have hval2 : val2.event = v0.event ∧ val2.keynode = v0.keynode ∧
                      val2.effects = v0.effects ∧ val2.frdataset = v0.frdataset ∧
                      val2.key = v0.key := by
                    split_ifs at hkeyed
                    · cases hkeyed
                      exact ⟨rfl, rfl, rfl, rfl, rfl⟩
                    · cases hkeyed
                      exact ⟨rfl, rfl, rfl, rfl, rfl⟩
                  obtain ⟨w1, w2, w3, w4, w5⟩ := hval2
                  refine resume_validate_inv env resolved name ords osig fuel val val2 val3 val4
                    result hi (w1.trans g1) (w2.trans g2) ?_ ?_ ?_ ?_ hv hbody
                  · rw [w3, g3]
                    exact hsends
                  · rw [w3, g3]
                    exact List.subset_append_left _ _
                  · rw [w4, g4]
                    exact hres
                  · intro k0 hk0
                    rw [w5] at hk0
                    rw [w4, g4]
                    exact Or.inr ⟨siginfo, hsi, g5 k0 hk0⟩
            · cases hkeyed
              have hh := fun a b c d e f =>
                resume_validate_inv env resolved name ords osig fuel val _ val3 val4
                  result hi a b c d e f hv hbody
              exact hh rfl rfl hsends (List.subset_append_left _ _) hres (fun k0 hk0 => Or.inl hk0)
      · rw [if_neg hsucc] at hbody
        refine run_inv_no_raise env resolved name ords osig val val4 hi
          (no_raise_trans ?_ (validator_done_no_raise _ _ _ _ hbody))
        exact no_raise_same val _ _ [_] rfl rfl rfl rfl rfl rfl

/-- The function `keyvalidated` preserves the invariant of the runs, when the keyset the child
leaves satisfies `resolved`. -/
theorem keyvalidated_inv (env : Env) (resolved : List dns_rdata → Prop)
    (name : dns_name) (ords osig : Option dns_rdataset) (fuel : Nat) (val v : dns_validator)
    (devent : dns_validatorevent)
    (hi : run_inv env resolved name ords osig val)
    (hres : resolved (devent.rdataset.getD val.frdataset).rdatas)
    (h : keyvalidated env fuel val devent = .ok v) :
    run_inv env resolved name ords osig v := by
  unfold keyvalidated at h
  dsimp only at h
  generalize hbody : (if devent.result = ISC_R_SUCCESS then _ else _) = body at h
  cases body with
  | error e => cases h
  | ok val4 =>
    dsimp only at h
    generalize hd : destroy_keyvalidator val4 = d at h
    cases d with
    | error e => cases h
    | ok val5 =>
      dsimp only at h
      cases h
      suffices hk : run_inv env resolved name ords osig val4 by
        exact run_inv_no_raise env resolved name ords osig val4 _ hk
          (no_raise_trans (destroy_keyvalidator_no_raise _ _ _ hd)
            (no_raise_fields _ _ _ rfl rfl rfl rfl rfl))
      by_cases hsucc : devent.result = ISC_R_SUCCESS
      · rw [if_pos hsucc] at hbody
        generalize hkeyed :
          (if (devent.rdataset.getD val.frdataset).trust ≥ dns_trust_secure then _ else _) = keyed
          at hbody
        cases keyed with
        | error e => cases hbody
        | ok val2 =>
          dsimp only at hbody
          generalize hv : validate env fuel val2 true = run at hbody
          cases run with
          | error e => cases hbody
          | ok p =>
            obtain ⟨result, val3⟩ := p
            dsimp only at hbody
            split_ifs at hkeyed with htr
            · cases hsi : val.siginfo with
              | none => rw [hsi] at hkeyed; cases hkeyed
              | some siginfo =>
                rw [hsi] at hkeyed
                dsimp only at hkeyed
                split at hkeyed
                · cases hkeyed
                · rename_i r0 v0 hg
                  cases hkeyed
                  obtain ⟨g1, g2, g3, g4, g5⟩ := get_dst_key_resume env _ siginfo r0 val2 hg
                  refine resume_validate_inv env resolved name ords osig fuel val val2 val3 val4
                    result hi g1 g2 ?_ ?_ ?_ ?_ hv hbody
                  · rw [g3]
                  · rw [g3]
                    exact fun _ hx => hx
                  · rw [g4]
                    exact hres
                  · intro k0 hk0
                    rw [g4]
                    exact Or.inr ⟨siginfo, hsi, g5 k0 hk0⟩
            · cases hkeyed
              have hh := fun a b c d e f =>
                resume_validate_inv env resolved name ords osig fuel val _ val3 val4
                  result hi a b c d e f hv hbody
              exact hh rfl rfl rfl (fun _ hx => hx) hres (fun k0 hk0 => Or.inl hk0)
      · rw [if_neg hsucc] at hbody
        refine run_inv_no_raise env resolved name ords osig val val4 hi
          (no_raise_trans ?_ (validator_done_no_raise _ _ _ _ hbody))
        exact no_raise_fields val _ _ rfl rfl rfl rfl rfl

/-- Every state of a run satisfies the invariant of the runs. -/
theorem run_inv_of_run (env : Env) (resolved : List dns_rdata → Prop) (name : dns_name)
    (ords osig : Option dns_rdataset) (v : dns_validator)
    (h : Run env resolved name ords osig v) : run_inv env resolved name ords osig v := by
  induction h with
  | created type message options action slot r v hc =>
    exact run_inv_created env resolved name ords osig type message options action slot r v hc
  | started fuel v v1 _ hs ih => exact validator_start_inv _ _ _ _ _ fuel v v1 ih hs
  | key_fetched fuel v v1 devent _ hr hs ih =>
    exact fetch_callback_validator_inv _ _ _ _ _ fuel v v1 devent ih hr hs
  | nullkey_fetched fuel v v1 devent _ hs ih =>
    exact run_inv_no_raise _ _ _ _ _ v v1 ih (fetch_callback_nullkey_no_raise env fuel v devent v1 hs)
  | key_validated fuel v v1 devent _ hr hs ih =>
    exact keyvalidated_inv _ _ _ _ _ fuel v v1 devent ih hr hs
  | nullkey_validated fuel v v1 devent _ hs ih =>
    exact run_inv_no_raise _ _ _ _ _ v v1 ih (nullkeyvalidated_no_raise env fuel v devent v1 hs)
  | auth_validated fuel v v1 devent _ hs ih =>
    exact run_inv_no_raise _ _ _ _ _ v v1 ih (authvalidated_no_raise env fuel v devent v1 hs)
  | negauth_validated v v1 devent _ hs ih =>
    exact run_inv_no_raise _ _ _ _ _ v v1 ih (negauthvalidated_no_raise v devent v1 hs)
  | cancelled v v1 _ hs ih =>
    exact run_inv_no_raise _ _ _ _ _ v v1 ih (dns_validator_cancel_no_raise v v1 hs)
  | destroyed v v1 _ hs ih =>
    exact run_inv_no_raise _ _ _ _ _ v v1 ih (dns_validator_destroy_no_raise v v1 hs)

/-- C26: soundness of the secure verdict.  Take any run of a request for `name` with the
rdatasets `ords` and `osig`: creation, then any sequence of the start event, fetch
completions, completions of nested validators, cancellation and destruction, where every
keyset delivered to `fetch_callback_validator` or `keyvalidated` satisfies `resolved`.  Then
every event sent to the task carries the name of the request, and either its rdatasets are
those of the request up to the cursor, with the trust they had or the trust `answer`, or both
are marked `secure` with a common TTL, and then `dns_dnssec_verify` was called for the name
and the rdataset of the request, a key and the signature record under the cursor, and
returned success, where the key is a key of the trust-anchor nodes for the signer, the
algorithm and the key tag of that record, or a zone key with the algorithm and the key tag of
the record that the keyset cached for the signer or a delivered keyset yields.  The event the
validator still holds carries the rdatasets of the request, up to the cursor of the signature
set: no other path raises the trust. -/
theorem secure_verdict_sound (env : Env) (resolved : List dns_rdata → Prop) (name : dns_name)
    (ords osig : Option dns_rdataset) (v : dns_validator)
    (h : Run env resolved name ords osig v) :
    (∀ ev, Effect.task_send ev ∈ v.effects →
      request_verdict env name ords osig (run_keys env resolved) v.effects ev) ∧
    (∀ ev, v.event = some ev →
      ev.name = name ∧ ev.rdataset = ords ∧ same_cursor osig ev.sigrdataset) := by
  obtain ⟨_, i1, i2⟩ := run_inv_of_run env resolved name ords osig v h
  refine ⟨fun ev hev => i2 ev ((mem_sends ev v.effects).1 hev), fun ev hev => ?_⟩
  obtain ⟨j1, j2, j3, _⟩ := i1 ev hev
  exact ⟨j1, j2, j3⟩

/-- Witness of C26: in `env_fetched_key` the request for the A rdataset of `[1, 2]`, signed by
the key 7 of `[1]`, finds no trust anchor and nothing in the cache and fetches the keyset; the
fetch delivers a keyset of trust `secure` and TTL 100 with that key; the resumed `validate`
verifies the signature under it and the event is sent with both rdatasets marked `secure`
and the TTL 100. -/
theorem secure_verdict_sound_witness :
    ∃ v ev, Run env_fetched_key (fun rdatas => rdatas = [[1, 0, 3, 1, 7, 42]]) [1, 2]
        (some rrset_a) (some (sigset_a [[1, 7, 1500, 1]])) v ∧
      Effect.task_send ev ∈ v.effects ∧ ev.result = ISC_R_SUCCESS ∧
      ev.rdataset = some { rrset_a with ttl := 100, trust := dns_trust_secure } ∧
      request_verdict env_fetched_key [1, 2] (some rrset_a) (some (sigset_a [[1, 7, 1500, 1]]))
        (run_keys env_fetched_key (fun rdatas => rdatas = [[1, 0, 3, 1, 7, 42]])) v.effects ev := by
  have h0 : Run env_fetched_key (fun rdatas => rdatas = [[1, 0, 3, 1, 7, 42]]) [1, 2]
      (some rrset_a) (some (sigset_a [[1, 7, 1500, 1]]))
      (positive_request env_fetched_key [[1, 7, 1500, 1]]) :=
    Run.created 1 none 0 (taskaction.caller 0) none ISC_R_SUCCESS _ rfl
  obtain ⟨p, hp, v, hv, ev, hev, hres, hrd⟩ :
      ∃ p, validator_start env_fetched_key 3
          (positive_request env_fetched_key [[1, 7, 1500, 1]]) = .ok p ∧
        ∃ v, fetch_callback_validator env_fetched_key 3 p
            (fetch_done ISC_R_SUCCESS (keyset_of 7 100 [[1, 0, 3, 1, 7, 42]])
              dns_rdataset_init) = .ok v ∧
          ∃ ev, v.effects.get? 5 = some (Effect.task_send ev) ∧ ev.result = ISC_R_SUCCESS ∧
            ev.rdataset = some { rrset_a with ttl := 100, trust := dns_trust_secure } :=
    ⟨_, rfl, _, rfl, _, rfl, rfl, rfl⟩
  have hrun := Run.key_fetched 3 p v _ (Run.started 3 _ _ h0 hp) rfl hv
  have hmem := list_mem_of_get? _ _ _ hev
  exact ⟨v, ev, hrun, hmem, hres, hrd,
    (secure_verdict_sound env_fetched_key _ [1, 2] _ _ v hrun).1 ev hmem⟩

end Bind9
